import Mathlib

/-! # Mercury runtime: deep copy and tagged words

A shallow embedding of `runtime/mercury_deep_copy_body.h` (the functions
`copy`, `copy_arg`, `copy_type_info`, `copy_typeclass_info`), of the
tagged-word macros of `runtime/mercury_tags.h`, of the call-pair table of
`runtime/prof.c`, and of the register order of `runtime/mercury_regorder.h`.

Conventions of the embedding.

* A machine word (`MR_Word`) is a natural number.  Addresses are byte
  addresses; the heap maps the byte address of a word to its content.  Pointer
  arithmetic is assumed not to overflow (it is undefined behaviour in C when it
  does), so addresses are unbounded naturals.
* The heap state threaded through the copier consists of the memory, the saved
  heap pointer and the forwarding marks.
* A call of the copier either returns, aborts through `MR_fatal_error`, aborts
  through a failed `assert`, or exceeds the recursion bound it was given.
-/

namespace Mercury

/-! ## Build configuration -/

/-- Build-time constants on which the macros of the runtime depend. -/
structure Config where
  /-- `MR_HIGHTAGS` is defined. -/
  MR_HIGHTAGS : Bool
  /-- `MR_TAGBITS`. -/
  MR_TAGBITS : Nat
  /-- `CHAR_BIT`. -/
  CHAR_BIT : Nat
  /-- `sizeof(MR_Word)`, in bytes. -/
  sizeof_MR_Word : Nat
  /-- `MR_NATIVE_GC` is defined. -/
  MR_NATIVE_GC : Bool
  /-- `MR_BOXED_FLOAT` is defined. -/
  MR_BOXED_FLOAT : Bool
  /-- `MR_RECORD_TERM_SIZES` is defined (cells carry a size slot). -/
  MR_RECORD_TERM_SIZES : Bool
  /-- Number of words of a boxed float, `sizeof(MR_Float) / sizeof(MR_Word)`. -/
  MR_FLOAT_WORDS : Nat

/-- `MR_WORDBITS`: `CHAR_BIT * sizeof(MR_Word)`. -/
def MR_WORDBITS (c : Config) : Nat := c.CHAR_BIT * c.sizeof_MR_Word

/-- The word `~(MR_Word)0`. -/
def MR_all_ones (c : Config) : Nat := 2 ^ MR_WORDBITS c - 1

/-! ## Tagged words (`mercury_tags.h`) -/

/-- `MR_mktag(t)`. -/
def MR_mktag (c : Config) (t : Nat) : Nat :=
  if c.MR_HIGHTAGS then (t <<< (MR_WORDBITS c - c.MR_TAGBITS)) % 2 ^ MR_WORDBITS c
  else t

/-- `MR_unmktag(w)`. -/
def MR_unmktag (c : Config) (w : Nat) : Nat :=
  if c.MR_HIGHTAGS then w >>> (MR_WORDBITS c - c.MR_TAGBITS)
  else w

/-- `MR_tag(w)`. -/
def MR_tag (c : Config) (w : Nat) : Nat :=
  if c.MR_HIGHTAGS then w &&& (MR_all_ones c ^^^ (MR_all_ones c >>> c.MR_TAGBITS))
  else w &&& ((1 <<< c.MR_TAGBITS) - 1)

/-- `MR_mkbody(i)`. -/
def MR_mkbody (c : Config) (i : Nat) : Nat :=
  if c.MR_HIGHTAGS then i
  else (i <<< c.MR_TAGBITS) % 2 ^ MR_WORDBITS c

/-- `MR_unmkbody(w)`. -/
def MR_unmkbody (c : Config) (w : Nat) : Nat :=
  if c.MR_HIGHTAGS then w
  else w >>> c.MR_TAGBITS

/-- `MR_body(w, t)`; the low-tag variant is the unsigned subtraction `w - t`. -/
def MR_body (c : Config) (w t : Nat) : Nat :=
  if c.MR_HIGHTAGS then w &&& (MR_all_ones c >>> c.MR_TAGBITS)
  else if t ≤ w then w - t
  else (w + 2 ^ MR_WORDBITS c - t) % 2 ^ MR_WORDBITS c

/-- `MR_strip_tag(w)`. -/
def MR_strip_tag (c : Config) (w : Nat) : Nat :=
  if c.MR_HIGHTAGS then w &&& (MR_all_ones c >>> c.MR_TAGBITS)
  else w &&& ((MR_all_ones c <<< c.MR_TAGBITS) % 2 ^ MR_WORDBITS c)

/-- `MR_mkword(t, p)`: the byte address `(char *) p + t`. -/
def MR_mkword (t p : Nat) : Nat := p + t

/-- `MR_tmkword(t, p)`. -/
def MR_tmkword (c : Config) (t p : Nat) : Nat := MR_mkword (MR_mktag c t) p

/-- `MR_tbmkword(t, p)`. -/
def MR_tbmkword (c : Config) (t p : Nat) : Nat :=
  MR_mkword (MR_mktag c t) (MR_mkbody c p)

/-- Byte address of `((MR_Word *) p)[i]`. -/
def word_addr (c : Config) (p : Nat) (i : Int) : Nat :=
  ((p : Int) + i * (c.sizeof_MR_Word : Int)).toNat

/-- Address of the lvalue `MR_field(t, p, i)`, that is `((MR_Word *) MR_body(p, t))[i]`. -/
def MR_field (c : Config) (t p : Nat) (i : Int) : Nat :=
  word_addr c (MR_body c p t) i

/-- Address of the lvalue `MR_mask_field(p, i)`. -/
def MR_mask_field (c : Config) (p : Nat) (i : Int) : Nat :=
  word_addr c (MR_strip_tag c p) i

/-! ## Heap state -/

/-- The state read and written by the copier. -/
structure Heap where
  /-- Content of the word at each byte address. -/
  mem : Nat → Nat
  /-- The saved heap pointer: the next free byte address of the destination. -/
  saved_hp : Nat
  /-- Whether the object at an address carries a forwarding record. -/
  forwarded : Nat → Bool

/-- The word `((MR_Word *) p)[i]`. -/
def Heap.read (c : Config) (h : Heap) (p : Nat) (i : Int) : Nat :=
  h.mem (word_addr c p i)

/-- The assignment `*(MR_Word *) a = v`. -/
def Heap.store (h : Heap) (a v : Nat) : Heap :=
  { h with mem := fun x => if x = a then v else h.mem x }

/-- The assignment `((MR_Word *) p)[i] = v`. -/
def Heap.write (c : Config) (h : Heap) (p : Nat) (i : Int) (v : Nat) : Heap :=
  h.store (word_addr c p i) v

/-! ## Outcomes -/

/-- The call sites of `MR_fatal_error` in the copier. -/
inductive FatalError where
  /-- "copy: term of unknown representation". -/
  | term_of_unknown_representation
  /-- "copy(): attempt to copy variable". -/
  | attempt_to_copy_variable
  /-- "copy(): unknown sectag_locn". -/
  | unknown_sectag_locn
  /-- "Cannot copy a subgoal type". -/
  | cannot_copy_a_subgoal_type
  /-- "Cannot copy a void type". -/
  | cannot_copy_a_void_type
  /-- "Cannot copy a c_pointer type". -/
  | cannot_copy_a_c_pointer_type
  /-- "Sorry, not implemented: copying saved heap pointer". -/
  | copying_saved_heap_pointer
  /-- "Cannot copy foreign type". -/
  | cannot_copy_foreign_type
  /-- "Unknown layout type in deep copy". -/
  | unknown_layout_type_in_deep_copy
  /-- "copy: unexpected fallthough". -/
  | unexpected_fallthough
  deriving DecidableEq, Repr

/-- How a call of the copier ends. -/
inductive Outcome (α : Type) where
  /-- The call returns a value. -/
  | returns (a : α)
  /-- The call aborts in `MR_fatal_error`; `h` is the heap at that moment. -/
  | fatal_error (e : FatalError) (h : Heap)
  /-- An `assert` fails; `h` is the heap at that moment. -/
  | assertion_failed (h : Heap)
  /-- The recursion bound given to the embedding is exceeded. -/
  | out_of_fuel

/-- Sequencing: run `k` on the value returned by `x`. -/
def Outcome.bind {α β : Type} (x : Outcome α) (k : α → Outcome β) : Outcome β :=
  match x with
  | .returns a => k a
  | .fatal_error e h => .fatal_error e h
  | .assertion_failed h => .assertion_failed h
  | .out_of_fuel => .out_of_fuel

/-- What `copy` and its companions produce: the returned word and the heap. -/
abbrev Result := Outcome (Nat × Heap)

/-- The C loop `for (i = start; <n iterations>; i++) body(i)` over a state. -/
def for_loop {σ : Type} (body : Nat → σ → Outcome σ) : Nat → Nat → σ → Outcome σ
  | 0, _, s => .returns s
  | n + 1, i, s => (body i s).bind (for_loop body n (i + 1))

/-! ## Macros supplied by the includer of `mercury_deep_copy_body.h` -/

/-- Modelled from the spec: the macro `in_range` is not in the source tree.
The Range Oracle answers whether a pointer falls in the half-open window
`[lower_limit, upper_limit)`; a null `lower_limit` denotes "copy everything". -/
def in_range (lower_limit upper_limit p : Nat) : Bool :=
  lower_limit == 0 || (decide (lower_limit ≤ p) && decide (p < upper_limit))

/-- Modelled from the spec: the macro `if_forwarding_pointer` is not in the
source tree.  An original that has been copied carries a forwarding record;
the test is on the object address. -/
def if_forwarding_pointer (h : Heap) (pointer : Nat) : Bool :=
  h.forwarded pointer

/-- Modelled from the spec: the macro `leave_forwarding_pointer` is not in the
source tree.  It writes the address of the copy into the reserved word
`pointer[offset]` of the original and marks the original as forwarded. -/
def leave_forwarding_pointer (c : Config) (h : Heap) (pointer : Nat) (offset : Int)
    (new_data : Nat) : Heap :=
  { mem := (h.write c pointer offset new_data).mem
    saved_hp := h.saved_hp
    forwarded := fun x => if x = pointer then true else h.forwarded x }

/-- `MR_SIZE_SLOT_SIZE`. -/
def MR_SIZE_SLOT_SIZE (c : Config) : Nat :=
  if c.MR_RECORD_TERM_SIZES then 1 else 0

/-- Modelled from the spec: the macro `MR_offset_incr_saved_hp(dest, offset,
count)` is not in the source tree.  Bump allocation of `count` words from the
destination arena; `dest` is the address of word `offset` of the block. -/
def MR_offset_incr_saved_hp (c : Config) (h : Heap) (offset count : Nat) : Nat × Heap :=
  (h.saved_hp + offset * c.sizeof_MR_Word,
   { h with saved_hp := h.saved_hp + count * c.sizeof_MR_Word })

/-- Modelled from the spec: the macro `MR_copy_size_slot(nptag, new, ptag, old)`
is not in the source tree.  The build-time-optional size slot, the word in
front of the cell, is preserved verbatim. -/
def MR_copy_size_slot (c : Config) (h : Heap) (nptag new_data ptag data : Nat) : Heap :=
  if c.MR_RECORD_TERM_SIZES then
    h.store (MR_field c nptag new_data (-1)) (h.mem (MR_field c ptag data (-1)))
  else h

/-- `RETURN_IF_OUT_OF_RANGE(tagged_pointer, pointer, offset, rettype)`: `some`
is the value with which the enclosing function returns, `none` means that the
enclosing function goes on.  `found_out_of_range_pointer` has no effect on
the state. -/
def RETURN_IF_OUT_OF_RANGE (c : Config) (lower_limit upper_limit : Nat)
    (tagged_pointer pointer : Nat) (offset : Int) (h : Heap) : Option (Nat × Heap) :=
  if !in_range lower_limit upper_limit pointer then some (tagged_pointer, h)
  else if if_forwarding_pointer h pointer then some (h.read c pointer offset, h)
  else none

/-- Modelled from the spec: the declaration of `struct MR_Closure` is not in
the source tree.  Word offset of the field `MR_closure_layout`: the closure
layout is at offset zero (comment above `CLOSURE_FORWARDING_PTR_OFFSET`). -/
def offsetof_MR_closure_layout : Nat := 0

/-- Modelled from the spec: word offset of the field `MR_closure_code` of
`struct MR_Closure`, one of the three fixed header words. -/
def offsetof_MR_closure_code : Nat := 1

/-- Modelled from the spec: word offset of the field
`MR_closure_num_hidden_args` of `struct MR_Closure`. -/
def offsetof_MR_closure_num_hidden_args : Nat := 2

/-- Modelled from the spec: word offset of the first captured argument,
`MR_closure_hidden_args_0`, after the three fixed header words. -/
def offsetof_MR_closure_hidden_args_0 : Nat := 3

/-- `CLOSURE_FORWARDING_PTR_OFFSET`:
`offsetof(MR_Closure, MR_closure_code) / sizeof(MR_Word)`. -/
def CLOSURE_FORWARDING_PTR_OFFSET : Int := (offsetof_MR_closure_code : Int)

/-- `TYPEINFO_FORWARDING_PTR_OFFSET`. -/
def TYPEINFO_FORWARDING_PTR_OFFSET : Int := -1

/-- `TYPECLASSINFO_FORWARDING_PTR_OFFSET`. -/
def TYPECLASSINFO_FORWARDING_PTR_OFFSET : Int := -1

/-! ## Static type descriptors -/

/-- The values of `MR_TypeCtorRep` that `copy` switches on. -/
inductive MR_TypeCtorRep where
  | MR_TYPECTOR_REP_ENUM
  | MR_TYPECTOR_REP_ENUM_USEREQ
  | MR_TYPECTOR_REP_RESERVED_ADDR
  | MR_TYPECTOR_REP_RESERVED_ADDR_USEREQ
  | MR_TYPECTOR_REP_DU
  | MR_TYPECTOR_REP_DU_USEREQ
  | MR_TYPECTOR_REP_NOTAG
  | MR_TYPECTOR_REP_NOTAG_USEREQ
  | MR_TYPECTOR_REP_NOTAG_GROUND
  | MR_TYPECTOR_REP_NOTAG_GROUND_USEREQ
  | MR_TYPECTOR_REP_EQUIV
  | MR_TYPECTOR_REP_EQUIV_GROUND
  | MR_TYPECTOR_REP_INT
  | MR_TYPECTOR_REP_CHAR
  | MR_TYPECTOR_REP_FLOAT
  | MR_TYPECTOR_REP_STRING
  | MR_TYPECTOR_REP_FUNC
  | MR_TYPECTOR_REP_PRED
  | MR_TYPECTOR_REP_TUPLE
  | MR_TYPECTOR_REP_SUBGOAL
  | MR_TYPECTOR_REP_VOID
  | MR_TYPECTOR_REP_ARRAY
  | MR_TYPECTOR_REP_TYPEINFO
  | MR_TYPECTOR_REP_TYPEDESC
  | MR_TYPECTOR_REP_TYPECTORINFO
  | MR_TYPECTOR_REP_TYPECTORDESC
  | MR_TYPECTOR_REP_TYPECLASSINFO
  | MR_TYPECTOR_REP_BASETYPECLASSINFO
  | MR_TYPECTOR_REP_STABLE_C_POINTER
  | MR_TYPECTOR_REP_C_POINTER
  | MR_TYPECTOR_REP_SUCCIP
  | MR_TYPECTOR_REP_REDOIP
  | MR_TYPECTOR_REP_HP
  | MR_TYPECTOR_REP_CURFR
  | MR_TYPECTOR_REP_MAXFR
  | MR_TYPECTOR_REP_REDOFR
  | MR_TYPECTOR_REP_TRAIL_PTR
  | MR_TYPECTOR_REP_TICKET
  | MR_TYPECTOR_REP_REFERENCE
  | MR_TYPECTOR_REP_STABLE_FOREIGN
  | MR_TYPECTOR_REP_FOREIGN
  | MR_TYPECTOR_REP_UNKNOWN
  /-- A numeric value that names no representation known to the switch. -/
  | unlisted (n : Nat)
  deriving DecidableEq, Repr

/-- The values of `MR_Sectag_Locn`. -/
inductive MR_Sectag_Locn where
  | MR_SECTAG_NONE
  | MR_SECTAG_LOCAL
  | MR_SECTAG_REMOTE
  | MR_SECTAG_VARIABLE
  /-- A numeric value that is none of the four locations. -/
  | unlisted (n : Nat)
  deriving DecidableEq, Repr

/-- `MR_DuExistInfo`: the counts of hidden arguments of a functor. -/
structure MR_DuExistInfo where
  MR_exist_typeinfos_plain : Nat
  MR_exist_tcis : Nat

/-- `MR_DuFunctorDesc`, the fields read by the copier.  A null
`MR_du_functor_exist_info` is `none`. -/
structure MR_DuFunctorDesc where
  MR_du_functor_orig_arity : Nat
  MR_du_functor_exist_info : Option MR_DuExistInfo
  /-- The array `MR_du_functor_arg_types` of pseudo type descriptors. -/
  MR_du_functor_arg_types : Nat → Nat
  /-- The macro `MR_arg_type_may_contain_var(functor_desc, i)`. -/
  MR_arg_type_may_contain_var : Nat → Bool

/-- `MR_DuPtagLayout`, the fields read by the copier. -/
structure MR_DuPtagLayout where
  MR_sectag_locn : MR_Sectag_Locn
  /-- The array `MR_sectag_alternatives`, indexed by secondary tag. -/
  MR_sectag_alternatives : Nat → MR_DuFunctorDesc

/-- `MR_DuTypeLayout`: an array of `MR_DuPtagLayout` indexed by primary tag. -/
abbrev MR_DuTypeLayout := Nat → MR_DuPtagLayout

/-- `MR_ReservedAddrTypeLayout`, the fields read by the copier. -/
structure MR_ReservedAddrTypeLayout where
  MR_ra_num_res_numeric_addrs : Nat
  MR_ra_num_res_symbolic_addrs : Nat
  MR_ra_res_symbolic_addrs : Nat → Nat
  MR_ra_other_functors : MR_DuTypeLayout

/-- `MR_TypeCtorInfo`, the fields and macros read by the copier.  The members
of the layout union are separate fields. -/
structure MR_TypeCtorInfo where
  /-- `MR_type_ctor_rep(tci)`. -/
  MR_type_ctor_rep : MR_TypeCtorRep
  MR_type_ctor_arity : Nat
  /-- The macro `MR_type_ctor_has_variable_arity(tci)`. -/
  MR_type_ctor_has_variable_arity : Bool
  /-- `MR_type_ctor_layout(tci).MR_layout_du`. -/
  MR_layout_du : MR_DuTypeLayout
  /-- `MR_type_ctor_layout(tci).MR_layout_reserved_addr`. -/
  MR_layout_reserved_addr : MR_ReservedAddrTypeLayout
  /-- `MR_type_ctor_layout(tci).MR_layout_notag->MR_notag_functor_arg_type`. -/
  MR_notag_functor_arg_type : Nat
  /-- `MR_type_ctor_layout(tci).MR_layout_equiv`. -/
  MR_layout_equiv : Nat

/-- Modelled from the spec: the macro `MR_type_ctor_has_valid_rep(tci)` is not
in the source tree.  The representation kinds form a closed set; a
representation is valid when its value is one of them. -/
def MR_type_ctor_has_valid_rep (tci : MR_TypeCtorInfo) : Bool :=
  match tci.MR_type_ctor_rep with
  | .unlisted _ => false
  | _ => true

/-- `MR_Closure_Layout`, the field read by the copier. -/
structure MR_Closure_Layout where
  MR_closure_arg_pseudo_type_info : Nat → Nat

/-- The counts stored in a base typeclass info, read through the macros
`MR_typeclass_info_num_*`. -/
structure MR_BaseTypeclassInfo where
  num_extra_instance_args : Nat
  num_instance_constraints : Nat
  num_superclasses : Nat
  num_params : Nat

/-- The parts of the runtime that the copier consults and that are not part of
`mercury_deep_copy_body.h`: the static descriptors, found by address, and the
functions and macros whose definitions are elsewhere. -/
structure Runtime where
  /-- The static `MR_TypeCtorInfo` at an address. -/
  type_ctor_info : Nat → MR_TypeCtorInfo
  /-- The macro `MR_TYPEINFO_GET_TYPE_CTOR_INFO(type_info)`; it reads memory. -/
  MR_TYPEINFO_GET_TYPE_CTOR_INFO : (Nat → Nat) → Nat → Nat
  /-- The static `MR_Closure_Layout` at an address. -/
  closure_layout : Nat → MR_Closure_Layout
  /-- The static base typeclass info at an address. -/
  base_typeclass_info : Nat → MR_BaseTypeclassInfo
  /-- The function `MR_make_type_info_maybe_existq(type_params,
  pseudo_type_info, parent_data_ptr, functor_descriptor, &allocated)`; it reads
  memory and returns a ground type descriptor.  A null `functor_descriptor`
  is `none`. -/
  MR_make_type_info_maybe_existq :
    (Nat → Nat) → Nat → Nat → Nat → Option MR_DuFunctorDesc → Nat
  /-- The function `MR_materialize_closure_type_params(closure)`. -/
  MR_materialize_closure_type_params : (Nat → Nat) → Nat → Nat
  /-- Number of words that `MR_make_aligned_string_copy_saved_hp` allocates
  for the string at an address, `(strlen(s) + sizeof(MR_Word)) / sizeof(MR_Word)`. -/
  string_words : (Nat → Nat) → Nat → Nat

/-- `MR_pseudo_type_info_is_ground(pti)`: a cast. -/
def MR_pseudo_type_info_is_ground (pti : Nat) : Nat := pti

/-- Modelled from the spec: the macro `MR_TYPEINFO_GET_FIXED_ARITY_ARG_VECTOR`
is not in the source tree.  Argument descriptors are 1-indexed and slot 0 of
the type descriptor is the constructor, so the vector is the descriptor. -/
def MR_TYPEINFO_GET_FIXED_ARITY_ARG_VECTOR (type_info : Nat) : Nat := type_info

/-- Modelled from the spec: the macro `MR_TYPEINFO_GET_VAR_ARITY_ARITY` is not
in the source tree.  A variable-arity descriptor holds its arity in the word
after the constructor reference. -/
def MR_TYPEINFO_GET_VAR_ARITY_ARITY (c : Config) (h : Heap) (type_info : Nat) : Nat :=
  h.read c type_info 1

/-- Modelled from the spec: the macro `MR_TYPEINFO_GET_VAR_ARITY_ARG_VECTOR` is
not in the source tree.  The 1-indexed argument vector of a variable-arity
descriptor starts at the arity word. -/
def MR_TYPEINFO_GET_VAR_ARITY_ARG_VECTOR (c : Config) (type_info : Nat) : Nat :=
  word_addr c type_info 1

/-- Modelled from the spec: `MR_fixed_arity_type_info_size(arity)`, the
constructor reference and one word per argument. -/
def MR_fixed_arity_type_info_size (arity : Nat) : Nat := 1 + arity

/-- Modelled from the spec: `MR_var_arity_type_info_size(arity)`, the
constructor reference, the arity and one word per argument. -/
def MR_var_arity_type_info_size (arity : Nat) : Nat := 2 + arity

/-- Modelled from the spec: `MR_fill_in_fixed_arity_type_info(arena,
type_ctor_info, vector)` stores the constructor reference and sets `vector`;
it returns the heap and the vector. -/
def MR_fill_in_fixed_arity_type_info (c : Config) (h : Heap) (arena type_ctor_info : Nat) :
    Heap × Nat :=
  (h.write c arena 0 type_ctor_info, arena)

/-- Modelled from the spec: `MR_fill_in_var_arity_type_info(arena,
type_ctor_info, arity, vector)` stores the constructor reference and the arity
and sets `vector`; it returns the heap and the vector. -/
def MR_fill_in_var_arity_type_info (c : Config) (h : Heap) (arena type_ctor_info arity : Nat) :
    Heap × Nat :=
  ((h.write c arena 0 type_ctor_info).write c arena 1 arity, word_addr c arena 1)

/-- `MR_typeclass_info_num_extra_instance_args(tci)`, read from the base
typeclass info that word 0 of the dictionary refers to. -/
def MR_typeclass_info_num_extra_instance_args (rt : Runtime) (h : Heap) (tci : Nat) : Nat :=
  (rt.base_typeclass_info (h.mem tci)).num_extra_instance_args

/-- `MR_typeclass_info_num_instance_constraints(tci)`. -/
def MR_typeclass_info_num_instance_constraints (rt : Runtime) (h : Heap) (tci : Nat) : Nat :=
  (rt.base_typeclass_info (h.mem tci)).num_instance_constraints

/-- `MR_typeclass_info_num_superclasses(tci)`. -/
def MR_typeclass_info_num_superclasses (rt : Runtime) (h : Heap) (tci : Nat) : Nat :=
  (rt.base_typeclass_info (h.mem tci)).num_superclasses

/-- `MR_typeclass_info_num_params(tci)`. -/
def MR_typeclass_info_num_params (rt : Runtime) (h : Heap) (tci : Nat) : Nat :=
  (rt.base_typeclass_info (h.mem tci)).num_params

/-! ## The copier (`mercury_deep_copy_body.h`) -/

/-- The loops of the form
`for (i = first; ...; i++) new[i] = f(old[i], lower_limit, upper_limit);`
with `count` iterations: each slot of the original is read when its turn
comes, copied by `f`, and the result stored in the same slot of the copy. -/
def copy_slots (c : Config) (f : Nat → Heap → Result) (old new : Nat) (first : Int)
    (count : Nat) (h : Heap) : Outcome Heap :=
  for_loop (fun k h =>
      (f (h.read c old (first + (k : Int))) h).bind fun r =>
        .returns (r.2.write c new (first + (k : Int)) r.1))
    count 0 h

/-- The body of `copy_type_info`, with `self` for the recursive calls. -/
def copy_type_info_body (c : Config) (rt : Runtime) (self : Nat → Heap → Result)
    (lower_limit upper_limit : Nat) (type_info : Nat) (h : Heap) : Result :=
  match RETURN_IF_OUT_OF_RANGE c lower_limit upper_limit type_info type_info
      TYPEINFO_FORWARDING_PTR_OFFSET h with
  | some r => .returns r
  | none =>
    let type_ctor_info := rt.MR_TYPEINFO_GET_TYPE_CTOR_INFO h.mem type_info
    if type_info = type_ctor_info then .returns (type_ctor_info, h)
    else
      let forwarding_pointer_size := if c.MR_NATIVE_GC then 1 else 0
      if (rt.type_ctor_info type_ctor_info).MR_type_ctor_has_variable_arity then
        let arity := MR_TYPEINFO_GET_VAR_ARITY_ARITY c h type_info
        let type_info_args := MR_TYPEINFO_GET_VAR_ARITY_ARG_VECTOR c type_info
        let a := MR_offset_incr_saved_hp c h forwarding_pointer_size
          (MR_var_arity_type_info_size arity + forwarding_pointer_size)
        let new_type_info_arena := a.1
        let fill := MR_fill_in_var_arity_type_info c a.2 new_type_info_arena type_ctor_info arity
        (copy_slots c self type_info_args fill.2 1 arity fill.1).bind fun h2 =>
          .returns (new_type_info_arena,
            leave_forwarding_pointer c h2 type_info TYPEINFO_FORWARDING_PTR_OFFSET
              new_type_info_arena)
      else
        let arity := (rt.type_ctor_info type_ctor_info).MR_type_ctor_arity
        let type_info_args := MR_TYPEINFO_GET_FIXED_ARITY_ARG_VECTOR type_info
        let a := MR_offset_incr_saved_hp c h forwarding_pointer_size
          (MR_fixed_arity_type_info_size arity + forwarding_pointer_size)
        let new_type_info_arena := a.1
        let fill := MR_fill_in_fixed_arity_type_info c a.2 new_type_info_arena type_ctor_info
        (copy_slots c self type_info_args fill.2 1 arity fill.1).bind fun h2 =>
          .returns (new_type_info_arena,
            leave_forwarding_pointer c h2 type_info TYPEINFO_FORWARDING_PTR_OFFSET
              new_type_info_arena)

/-- `copy_type_info(type_info, lower_limit, upper_limit)`, with a bound on the
depth of the recursion. -/
def copy_type_info (c : Config) (rt : Runtime) (lower_limit upper_limit : Nat) :
    Nat → Nat → Heap → Result
  | 0, _, _ => .out_of_fuel
  | fuel + 1, type_info, h =>
    copy_type_info_body c rt (copy_type_info c rt lower_limit upper_limit fuel)
      lower_limit upper_limit type_info h

/-- The body of `copy_typeclass_info`, with `self` for the recursive calls and
`cti` for the calls of `copy_type_info`. -/
def copy_typeclass_info_body (c : Config) (rt : Runtime) (cti self : Nat → Heap → Result)
    (lower_limit upper_limit : Nat) (typeclass_info : Nat) (h : Heap) : Result :=
  match RETURN_IF_OUT_OF_RANGE c lower_limit upper_limit typeclass_info typeclass_info
      TYPECLASSINFO_FORWARDING_PTR_OFFSET h with
  | some r => .returns r
  | none =>
    let base_typeclass_info := h.mem typeclass_info
    let forwarding_pointer_size := if c.MR_NATIVE_GC then 1 else 0
    let num_instance_constraints := MR_typeclass_info_num_instance_constraints rt h typeclass_info
    let num_unconstrained : Int :=
      (MR_typeclass_info_num_extra_instance_args rt h typeclass_info : Int)
        - (num_instance_constraints : Int)
    let num_super := MR_typeclass_info_num_superclasses rt h typeclass_info
    let num_arg_typeinfos := MR_typeclass_info_num_params rt h typeclass_info
    let a := MR_offset_incr_saved_hp c h forwarding_pointer_size
      (forwarding_pointer_size + 1 + num_instance_constraints + num_super + num_arg_typeinfos)
    let new_typeclass_info := a.1
    let h1 := a.2.write c new_typeclass_info 0 base_typeclass_info
    (copy_slots c cti typeclass_info new_typeclass_info 1
        num_unconstrained.toNat h1).bind fun h2 =>
    (copy_slots c self typeclass_info new_typeclass_info (num_unconstrained + 1)
        (num_instance_constraints + num_super) h2).bind fun h3 =>
    (copy_slots c cti typeclass_info new_typeclass_info
        (num_unconstrained + (num_instance_constraints : Int) + (num_super : Int) + 1)
        num_arg_typeinfos h3).bind fun h4 =>
    .returns (new_typeclass_info,
      leave_forwarding_pointer c h4 typeclass_info TYPECLASSINFO_FORWARDING_PTR_OFFSET
        new_typeclass_info)

/-- `copy_typeclass_info(typeclass_info, lower_limit, upper_limit)`, with a
bound on the depth of the recursion. -/
def copy_typeclass_info (c : Config) (rt : Runtime) (lower_limit upper_limit : Nat) :
    Nat → Nat → Heap → Result
  | 0, _, _ => .out_of_fuel
  | fuel + 1, typeclass_info, h =>
    copy_typeclass_info_body c rt (copy_type_info c rt lower_limit upper_limit fuel)
      (copy_typeclass_info c rt lower_limit upper_limit fuel)
      lower_limit upper_limit typeclass_info h

/-- `copy_arg`, with `copy` for the call of `copy`.  The cells that
`MR_make_type_info_maybe_existq` allocates for the type descriptor, and that
`MR_deallocate` releases, are not part of the heap of the embedding. -/
def copy_arg_with (rt : Runtime) (copy : Nat → Nat → Heap → Result)
    (parent_data_ptr data : Nat) (functor_descriptor : Option MR_DuFunctorDesc)
    (type_params arg_pseudo_type_info : Nat) (h : Heap) : Result :=
  let new_type_info := rt.MR_make_type_info_maybe_existq h.mem type_params
    arg_pseudo_type_info parent_data_ptr functor_descriptor
  copy data new_type_info h

/-- `MR_get_first_slot(have_sectag)`: the value of `cur_slot` and the heap. -/
def MR_get_first_slot (c : Config) (have_sectag : Bool) (new_data sectag : Nat) (h : Heap) :
    Nat × Heap :=
  if !have_sectag then (0, h)
  else (1, h.store (MR_field c 0 new_data 0) sectag)

/-- The copy of the word `w` as argument `i` of a functor, as done in the body
of the loop `for (i = 0; i < arity; i++)` of `MR_handle_sectag_remote_or_none`:
by `copy_arg` when the argument type may contain a type variable, by `copy`
with the ground argument type otherwise. -/
def copy_du_arg (c : Config) (rt : Runtime) (copy : Nat → Nat → Heap → Result)
    (have_sectag : Bool) (type_info new_data : Nat) (functor_desc : MR_DuFunctorDesc)
    (i : Nat) (w : Nat) (h : Heap) : Result :=
  if functor_desc.MR_arg_type_may_contain_var i then
    let parent_data := if have_sectag then word_addr c new_data 1 else new_data
    copy_arg_with rt copy parent_data w (some functor_desc)
      (MR_TYPEINFO_GET_FIXED_ARITY_ARG_VECTOR type_info)
      (functor_desc.MR_du_functor_arg_types i) h
  else
    copy w (MR_pseudo_type_info_is_ground (functor_desc.MR_du_functor_arg_types i)) h

/-- The body of the loop `for (i = 0; i < arity; i++)` of
`MR_handle_sectag_remote_or_none`, on the state `(cur_slot, heap)`:
`MR_field(0, new_data, cur_slot) = <copy of data_value[cur_slot]>; cur_slot++`. -/
def copy_du_args_body (c : Config) (rt : Runtime) (copy : Nat → Nat → Heap → Result)
    (have_sectag : Bool) (type_info data_value new_data : Nat)
    (functor_desc : MR_DuFunctorDesc) (i : Nat) (s : Nat × Heap) : Outcome (Nat × Heap) :=
  let cur_slot := s.1
  let h := s.2
  (copy_du_arg c rt copy have_sectag type_info new_data functor_desc i
      (h.read c data_value cur_slot) h).bind fun r =>
    .returns (cur_slot + 1, r.2.store (MR_field c 0 new_data cur_slot) r.1)

/-- The loop `for (i = 0; i < arity; i++)` of `MR_handle_sectag_remote_or_none`
over the state `(cur_slot, heap)`. -/
def copy_du_args (c : Config) (rt : Runtime) (copy : Nat → Nat → Heap → Result)
    (have_sectag : Bool) (type_info data_value new_data : Nat)
    (functor_desc : MR_DuFunctorDesc) (arity : Nat) (s : Nat × Heap) : Outcome (Nat × Heap) :=
  for_loop (copy_du_args_body c rt copy have_sectag type_info data_value new_data functor_desc)
    arity 0 s

/-- The body of the loops over the hidden arguments of an existentially typed
functor, on the state `(cur_slot, heap)`:
`MR_field(0, new_data, cur_slot) = f(data_value[cur_slot], ...); cur_slot++`. -/
def copy_du_hidden_body (c : Config) (f : Nat → Heap → Result) (data_value new_data : Nat)
    (_i : Nat) (s : Nat × Heap) : Outcome (Nat × Heap) :=
  let cur_slot := s.1
  let h := s.2
  (f (h.read c data_value cur_slot) h).bind fun r =>
    .returns (cur_slot + 1, r.2.store (MR_field c 0 new_data cur_slot) r.1)

/-- The loops over the hidden arguments of an existentially typed functor,
`for (i = 0; i < num; i++) { ... }`, over the state `(cur_slot, heap)`. -/
def copy_du_hidden (c : Config) (f : Nat → Heap → Result) (data_value new_data : Nat)
    (num : Nat) (s : Nat × Heap) : Outcome (Nat × Heap) :=
  for_loop (copy_du_hidden_body c f data_value new_data) num 0 s

/-- The three steps with which both branches of
`MR_handle_sectag_remote_or_none` create the new cell:
`MR_offset_incr_saved_hp(new_data, MR_SIZE_SLOT_SIZE, cell_size)`,
`MR_copy_size_slot(0, new_data, ptag, data)` and
`MR_get_first_slot(have_sectag)`.  The result is `new_data` and the state
`(cur_slot, heap)`. -/
def MR_du_new_cell (c : Config) (have_sectag : Bool) (cell_size sectag ptag data : Nat)
    (h : Heap) : Nat × (Nat × Heap) :=
  let a := MR_offset_incr_saved_hp c h (MR_SIZE_SLOT_SIZE c) cell_size
  let new_data := a.1
  let h1 := MR_copy_size_slot c a.2 0 new_data ptag data
  (new_data, MR_get_first_slot c have_sectag new_data sectag h1)

/-- The first part of `MR_handle_sectag_remote_or_none(have_sectag)` after the
range test: the computation of the cell size, the two branches on
`exist_info == NULL` that create the new cell and, for an existentially typed
functor, copy the hidden type descriptors and typeclass dictionaries.  The
result is `new_data` and the state `(cur_slot, heap)`. -/
def MR_du_cell_and_hidden_args (c : Config) (cti ctci : Nat → Heap → Result)
    (have_sectag : Bool) (data ptag : Nat) (functor_desc : MR_DuFunctorDesc) (sectag : Nat)
    (h : Heap) : Outcome (Nat × (Nat × Heap)) :=
  let data_value := MR_body c data ptag
  let arity := functor_desc.MR_du_functor_orig_arity
  let exist_info := functor_desc.MR_du_functor_exist_info
  let cell_size := (if !have_sectag then arity else 1 + arity) + MR_SIZE_SLOT_SIZE c
  match exist_info with
  | none => .returns (MR_du_new_cell c have_sectag cell_size sectag ptag data h)
  | some exist_info =>
    let num_ti_plain := exist_info.MR_exist_typeinfos_plain
    let num_tci := exist_info.MR_exist_tcis
    let cell_size := cell_size + (num_ti_plain + num_tci)
    let p := MR_du_new_cell c have_sectag cell_size sectag ptag data h
    let new_data := p.1
    (copy_du_hidden c cti data_value new_data num_ti_plain p.2).bind fun s2 =>
    (copy_du_hidden c ctci data_value new_data num_tci s2).bind fun s3 =>
    .returns (new_data, s3)

/-- `MR_handle_sectag_remote_or_none(have_sectag)` followed by
`return new_data`. -/
def MR_handle_sectag_remote_or_none (c : Config) (rt : Runtime)
    (copy : Nat → Nat → Heap → Result) (cti ctci : Nat → Heap → Result)
    (lower_limit upper_limit : Nat) (have_sectag : Bool)
    (data type_info ptag : Nat) (ptag_layout : MR_DuPtagLayout) (h : Heap) : Result :=
  let data_value := MR_body c data ptag
  match RETURN_IF_OUT_OF_RANGE c lower_limit upper_limit data data_value 0 h with
  | some r => .returns r
  | none =>
    let sectag := if !have_sectag then 0 else h.read c data_value 0
    let functor_desc := ptag_layout.MR_sectag_alternatives sectag
    let arity := functor_desc.MR_du_functor_orig_arity
    (MR_du_cell_and_hidden_args c cti ctci have_sectag data ptag functor_desc sectag h).bind
      fun p =>
      let new_data := p.1
      (copy_du_args c rt copy have_sectag type_info data_value new_data functor_desc arity
          p.2).bind fun s =>
        let new_data := MR_mkword ptag new_data
        .returns (new_data, leave_forwarding_pointer c s.2 data_value 0 new_data)

/-- The code at the label `du_type`: the DU case and the second half of the
reserved-address case. -/
def copy_du_type (c : Config) (rt : Runtime)
    (copy : Nat → Nat → Heap → Result) (cti ctci : Nat → Heap → Result)
    (lower_limit upper_limit : Nat) (du_type_layout : MR_DuTypeLayout)
    (data type_info : Nat) (h : Heap) : Result :=
  let ptag := MR_tag c data
  let ptag_layout := du_type_layout ptag
  match ptag_layout.MR_sectag_locn with
  | .MR_SECTAG_LOCAL => .returns (data, h)
  | .MR_SECTAG_REMOTE =>
    MR_handle_sectag_remote_or_none c rt copy cti ctci lower_limit upper_limit true
      data type_info ptag ptag_layout h
  | .MR_SECTAG_NONE =>
    MR_handle_sectag_remote_or_none c rt copy cti ctci lower_limit upper_limit false
      data type_info ptag ptag_layout h
  | .MR_SECTAG_VARIABLE => .fatal_error .attempt_to_copy_variable h
  | .unlisted _ => .fatal_error .unknown_sectag_locn h

/-- The reserved-address case: numeric and symbolic reserved addresses are
returned, everything else goes to `du_type` with `MR_ra_other_functors`. -/
def copy_reserved_addr (c : Config) (rt : Runtime)
    (copy : Nat → Nat → Heap → Result) (cti ctci : Nat → Heap → Result)
    (lower_limit upper_limit : Nat) (ra_layout : MR_ReservedAddrTypeLayout)
    (data type_info : Nat) (h : Heap) : Result :=
  if data < ra_layout.MR_ra_num_res_numeric_addrs then .returns (data, h)
  else if (List.range ra_layout.MR_ra_num_res_symbolic_addrs).any
      (fun j => data == ra_layout.MR_ra_res_symbolic_addrs j) then .returns (data, h)
  else
    copy_du_type c rt copy cti ctci lower_limit upper_limit ra_layout.MR_ra_other_functors
      data type_info h

/-- Word-by-word copy of `n` words from `old` to `new`, as done by the string
and float boxing macros. -/
def copy_words (c : Config) (old new : Nat) : Nat → Heap → Heap
  | 0, h => h
  | n + 1, h =>
    let h1 := copy_words c old new n h
    h1.write c new (n : Int) (h1.read c old (n : Int))

/-- The case `MR_TYPECTOR_REP_FLOAT`.  With `MR_BOXED_FLOAT` the box is
allocated from the saved heap pointer and receives the bits of the original. -/
def copy_float (c : Config) (lower_limit upper_limit : Nat) (data : Nat) (h : Heap) : Result :=
  if c.MR_BOXED_FLOAT then
    if MR_tag c data ≠ 0 then .assertion_failed h
    else
      let data_value := MR_body c data (MR_mktag c 0)
      match RETURN_IF_OUT_OF_RANGE c lower_limit upper_limit data data_value 0 h with
      | some r => .returns r
      | none =>
        let a := MR_offset_incr_saved_hp c h 0 c.MR_FLOAT_WORDS
        let new_data := a.1
        let h1 := copy_words c data_value new_data c.MR_FLOAT_WORDS a.2
        .returns (new_data, leave_forwarding_pointer c h1 data_value 0 new_data)
  else .returns (data, h)

/-- The case `MR_TYPECTOR_REP_STRING`. -/
def copy_string (c : Config) (rt : Runtime) (lower_limit upper_limit : Nat) (data : Nat)
    (h : Heap) : Result :=
  match RETURN_IF_OUT_OF_RANGE c lower_limit upper_limit data data 0 h with
  | some r => .returns r
  | none =>
    let n := rt.string_words h.mem data
    let a := MR_offset_incr_saved_hp c h 0 n
    let new_data := a.1
    let h1 := copy_words c data new_data n a.2
    .returns (new_data, leave_forwarding_pointer c h1 data 0 new_data)

/-- The cases `MR_TYPECTOR_REP_FUNC` and `MR_TYPECTOR_REP_PRED`. -/
def copy_closure (c : Config) (rt : Runtime) (copy : Nat → Nat → Heap → Result)
    (lower_limit upper_limit : Nat) (data : Nat) (h : Heap) : Result :=
  if MR_tag c data ≠ 0 then .assertion_failed h
  else
    let data_value := MR_body c data (MR_mktag c 0)
    match RETURN_IF_OUT_OF_RANGE c lower_limit upper_limit data data_value
        CLOSURE_FORWARDING_PTR_OFFSET h with
    | some r => .returns r
    | none =>
      let old_closure := data_value
      let closure_layout := h.read c old_closure offsetof_MR_closure_layout
      let args := h.read c old_closure offsetof_MR_closure_num_hidden_args
      let a := MR_offset_incr_saved_hp c h 0 (args + 3)
      let new_closure := a.1
      let h1 := a.2.write c new_closure offsetof_MR_closure_layout closure_layout
      let h2 := h1.write c new_closure offsetof_MR_closure_num_hidden_args args
      let h3 := h2.write c new_closure offsetof_MR_closure_code
        (h2.read c old_closure offsetof_MR_closure_code)
      let type_info_arg_vector := rt.MR_materialize_closure_type_params h3.mem old_closure
      (for_loop (fun i h =>
          let arg_pseudo_type_info :=
            (rt.closure_layout closure_layout).MR_closure_arg_pseudo_type_info i
          (copy_arg_with rt copy 0
              (h.read c old_closure ((offsetof_MR_closure_hidden_args_0 + i : Nat) : Int))
              none type_info_arg_vector arg_pseudo_type_info h).bind fun r =>
            .returns (r.2.write c new_closure
              ((offsetof_MR_closure_hidden_args_0 + i : Nat) : Int) r.1))
        args 0 h3).bind fun h4 =>
      let new_data := new_closure
      .returns (new_data,
        leave_forwarding_pointer c h4 data CLOSURE_FORWARDING_PTR_OFFSET new_data)

/-- The case `MR_TYPECTOR_REP_TUPLE`. -/
def copy_tuple (c : Config) (copy : Nat → Nat → Heap → Result)
    (lower_limit upper_limit : Nat) (data type_info : Nat) (h : Heap) : Result :=
  if MR_tag c data ≠ 0 then .assertion_failed h
  else
    let data_value := MR_body c data (MR_mktag c 0)
    match RETURN_IF_OUT_OF_RANGE c lower_limit upper_limit data data_value 0 h with
    | some r => .returns r
    | none =>
      let arity := MR_TYPEINFO_GET_VAR_ARITY_ARITY c h type_info
      if arity = 0 then .returns (0, h)
      else
        let a := MR_offset_incr_saved_hp c h (MR_SIZE_SLOT_SIZE c) (MR_SIZE_SLOT_SIZE c + arity)
        let new_data := a.1
        let h1 := MR_copy_size_slot c a.2 0 new_data 0 data
        let new_data_ptr := new_data
        let arg_typeinfo_vector := MR_TYPEINFO_GET_VAR_ARITY_ARG_VECTOR c type_info
        (for_loop (fun i h =>
            (copy (h.read c data_value (i : Int))
                (h.read c arg_typeinfo_vector ((i + 1 : Nat) : Int)) h).bind fun r =>
              .returns (r.2.write c new_data_ptr (i : Int) r.1))
          arity 0 h1).bind fun h2 =>
        .returns (new_data, leave_forwarding_pointer c h2 data 0 new_data)

/-- The case `MR_TYPECTOR_REP_ARRAY`.  An `MR_ArrayType` is the word `size`
followed by the `elements`. -/
def copy_array (c : Config) (rt : Runtime) (copy : Nat → Nat → Heap → Result)
    (lower_limit upper_limit : Nat) (data type_info : Nat) (h : Heap) : Result :=
  if MR_tag c data ≠ 0 then .assertion_failed h
  else
    let data_value := MR_body c data (MR_mktag c 0)
    match RETURN_IF_OUT_OF_RANGE c lower_limit upper_limit data data_value 0 h with
    | some r => .returns r
    | none =>
      let old_array := data_value
      let array_size := h.read c old_array 0
      let a := MR_offset_incr_saved_hp c h 0 (array_size + 1)
      let new_data := a.1
      let new_array := new_data
      let h1 := a.2.write c new_array 0 array_size
      (for_loop (fun i h =>
          (copy_arg_with rt copy 0 (h.read c old_array ((1 + i : Nat) : Int)) none
              (MR_TYPEINFO_GET_FIXED_ARITY_ARG_VECTOR type_info) 1 h).bind fun r =>
            .returns (r.2.write c new_array ((1 + i : Nat) : Int) r.1))
        array_size 0 h1).bind fun h2 =>
      .returns (new_data, leave_forwarding_pointer c h2 data 0 new_data)

/-- The cases `MR_TYPECTOR_REP_STABLE_C_POINTER` and `MR_TYPECTOR_REP_C_POINTER`. -/
def copy_c_pointer (c : Config) (lower_limit upper_limit : Nat) (data : Nat) (h : Heap) :
    Result :=
  let data_tag := MR_tag c data
  let data_value := MR_body c data data_tag
  if in_range lower_limit upper_limit data_value then
    .fatal_error .cannot_copy_a_c_pointer_type h
  else .returns (data, h)

/-- The case `MR_TYPECTOR_REP_HP`. -/
def copy_hp (c : Config) (lower_limit upper_limit : Nat) (data : Nat) (h : Heap) : Result :=
  if MR_tag c data ≠ 0 then .assertion_failed h
  else if in_range lower_limit upper_limit data then
    .fatal_error .copying_saved_heap_pointer h
  else .returns (data, h)

/-- The case `MR_TYPECTOR_REP_REFERENCE`. -/
def copy_reference (c : Config) (rt : Runtime) (copy : Nat → Nat → Heap → Result)
    (lower_limit upper_limit : Nat) (data type_info : Nat) (h : Heap) : Result :=
  if MR_tag c data ≠ 0 then .assertion_failed h
  else
    let ref := MR_body c data (MR_mktag c 0)
    match RETURN_IF_OUT_OF_RANGE c lower_limit upper_limit data ref 0 h with
    | some r => .returns r
    | none =>
      let a := MR_offset_incr_saved_hp c h 0 1
      let new_data := a.1
      let new_ref := new_data
      (copy_arg_with rt copy 0 (a.2.read c ref 0) none
          (MR_TYPEINFO_GET_FIXED_ARITY_ARG_VECTOR type_info) 1 a.2).bind fun r =>
        let h1 := r.2.write c new_ref 0 r.1
        .returns (new_data, leave_forwarding_pointer c h1 data 0 new_data)

/-- The case `MR_TYPECTOR_REP_FOREIGN`. -/
def copy_foreign (c : Config) (lower_limit upper_limit : Nat) (data : Nat) (h : Heap) :
    Result :=
  let data_value := MR_strip_tag c data
  if lower_limit ≠ 0 ∧ ¬ in_range lower_limit upper_limit data_value then
    .returns (data, h)
  else .fatal_error .cannot_copy_foreign_type h

/-- The body of `copy`: `copy` stands for the recursive calls and for the
jumps to `try_again`, `cti` and `ctci` for the calls of `copy_type_info` and
`copy_typeclass_info`. -/
def copy_body (c : Config) (rt : Runtime)
    (copy : Nat → Nat → Heap → Result) (cti ctci : Nat → Heap → Result)
    (lower_limit upper_limit : Nat) (data type_info : Nat) (h : Heap) : Result :=
  let type_ctor_info := rt.type_ctor_info (rt.MR_TYPEINFO_GET_TYPE_CTOR_INFO h.mem type_info)
  if !MR_type_ctor_has_valid_rep type_ctor_info then
    .fatal_error .term_of_unknown_representation h
  else
    match type_ctor_info.MR_type_ctor_rep with
    | .MR_TYPECTOR_REP_ENUM => .returns (data, h)
    | .MR_TYPECTOR_REP_ENUM_USEREQ => .returns (data, h)
    | .MR_TYPECTOR_REP_RESERVED_ADDR =>
      copy_reserved_addr c rt copy cti ctci lower_limit upper_limit
        type_ctor_info.MR_layout_reserved_addr data type_info h
    | .MR_TYPECTOR_REP_RESERVED_ADDR_USEREQ =>
      copy_reserved_addr c rt copy cti ctci lower_limit upper_limit
        type_ctor_info.MR_layout_reserved_addr data type_info h
    | .MR_TYPECTOR_REP_DU =>
      copy_du_type c rt copy cti ctci lower_limit upper_limit
        type_ctor_info.MR_layout_du data type_info h
    | .MR_TYPECTOR_REP_DU_USEREQ =>
      copy_du_type c rt copy cti ctci lower_limit upper_limit
        type_ctor_info.MR_layout_du data type_info h
    | .MR_TYPECTOR_REP_NOTAG =>
      copy_arg_with rt copy 0 data none (MR_TYPEINFO_GET_FIXED_ARITY_ARG_VECTOR type_info)
        type_ctor_info.MR_notag_functor_arg_type h
    | .MR_TYPECTOR_REP_NOTAG_USEREQ =>
      copy_arg_with rt copy 0 data none (MR_TYPEINFO_GET_FIXED_ARITY_ARG_VECTOR type_info)
        type_ctor_info.MR_notag_functor_arg_type h
    | .MR_TYPECTOR_REP_NOTAG_GROUND =>
      copy data (MR_pseudo_type_info_is_ground type_ctor_info.MR_notag_functor_arg_type) h
    | .MR_TYPECTOR_REP_NOTAG_GROUND_USEREQ =>
      copy data (MR_pseudo_type_info_is_ground type_ctor_info.MR_notag_functor_arg_type) h
    | .MR_TYPECTOR_REP_EQUIV =>
      copy_arg_with rt copy 0 data none (MR_TYPEINFO_GET_FIXED_ARITY_ARG_VECTOR type_info)
        type_ctor_info.MR_layout_equiv h
    | .MR_TYPECTOR_REP_EQUIV_GROUND =>
      copy data (MR_pseudo_type_info_is_ground type_ctor_info.MR_layout_equiv) h
    | .MR_TYPECTOR_REP_INT => .returns (data, h)
    | .MR_TYPECTOR_REP_CHAR => .returns (data, h)
    | .MR_TYPECTOR_REP_FLOAT => copy_float c lower_limit upper_limit data h
    | .MR_TYPECTOR_REP_STRING => copy_string c rt lower_limit upper_limit data h
    | .MR_TYPECTOR_REP_FUNC => copy_closure c rt copy lower_limit upper_limit data h
    | .MR_TYPECTOR_REP_PRED => copy_closure c rt copy lower_limit upper_limit data h
    | .MR_TYPECTOR_REP_TUPLE => copy_tuple c copy lower_limit upper_limit data type_info h
    | .MR_TYPECTOR_REP_SUBGOAL => .fatal_error .cannot_copy_a_subgoal_type h
    | .MR_TYPECTOR_REP_VOID => .fatal_error .cannot_copy_a_void_type h
    | .MR_TYPECTOR_REP_ARRAY => copy_array c rt copy lower_limit upper_limit data type_info h
    | .MR_TYPECTOR_REP_TYPEINFO => cti data h
    | .MR_TYPECTOR_REP_TYPEDESC => cti data h
    | .MR_TYPECTOR_REP_TYPECTORINFO => .returns (data, h)
    | .MR_TYPECTOR_REP_TYPECTORDESC => .returns (data, h)
    | .MR_TYPECTOR_REP_TYPECLASSINFO => ctci data h
    | .MR_TYPECTOR_REP_BASETYPECLASSINFO => .returns (data, h)
    | .MR_TYPECTOR_REP_STABLE_C_POINTER => copy_c_pointer c lower_limit upper_limit data h
    | .MR_TYPECTOR_REP_C_POINTER => copy_c_pointer c lower_limit upper_limit data h
    | .MR_TYPECTOR_REP_SUCCIP => .returns (data, h)
    | .MR_TYPECTOR_REP_REDOIP => .returns (data, h)
    | .MR_TYPECTOR_REP_HP => copy_hp c lower_limit upper_limit data h
    | .MR_TYPECTOR_REP_CURFR => .returns (data, h)
    | .MR_TYPECTOR_REP_MAXFR => .returns (data, h)
    | .MR_TYPECTOR_REP_REDOFR => .returns (data, h)
    | .MR_TYPECTOR_REP_TRAIL_PTR => .returns (data, h)
    | .MR_TYPECTOR_REP_TICKET => .returns (data, h)
    | .MR_TYPECTOR_REP_REFERENCE =>
      copy_reference c rt copy lower_limit upper_limit data type_info h
    | .MR_TYPECTOR_REP_STABLE_FOREIGN => .returns (data, h)
    | .MR_TYPECTOR_REP_FOREIGN => copy_foreign c lower_limit upper_limit data h
    | .MR_TYPECTOR_REP_UNKNOWN => .fatal_error .unknown_layout_type_in_deep_copy h
    | .unlisted _ => .fatal_error .unexpected_fallthough h

/-- `copy(data, type_info, lower_limit, upper_limit)`, with a bound on the
depth of the recursion (a jump to `try_again` counts as a call). -/
def copy (c : Config) (rt : Runtime) (lower_limit upper_limit : Nat) :
    Nat → Nat → Nat → Heap → Result
  | 0, _, _, _ => .out_of_fuel
  | fuel + 1, data, type_info, h =>
    copy_body c rt (copy c rt lower_limit upper_limit fuel)
      (copy_type_info c rt lower_limit upper_limit fuel)
      (copy_typeclass_info c rt lower_limit upper_limit fuel)
      lower_limit upper_limit data type_info h

/-- `copy_arg(parent_data_ptr, data, functor_descriptor, type_params,
arg_pseudo_type_info, lower_limit, upper_limit)`, with a bound on the depth of
the recursion of the `copy` it calls. -/
def copy_arg (c : Config) (rt : Runtime) (lower_limit upper_limit : Nat) (fuel : Nat)
    (parent_data_ptr data : Nat) (functor_descriptor : Option MR_DuFunctorDesc)
    (type_params arg_pseudo_type_info : Nat) (h : Heap) : Result :=
  copy_arg_with rt (copy c rt lower_limit upper_limit fuel) parent_data_ptr data
    functor_descriptor type_params arg_pseudo_type_info h

/-! ## The call-pair profiler (`prof.c`) -/

/-- `CALL_TABLE_SIZE`. -/
def CALL_TABLE_SIZE : Nat := 4096

/-- A `prof_call_node`.  The addresses `Callee` and `Caller` are numbers; the
field `count` is an `unsigned long`; the field `next` is the rest of the list
in which the node stands. -/
structure prof_call_node where
  Callee : Nat
  Caller : Nat
  count : Nat
  deriving DecidableEq, Repr

/-- `hash_addr_pair(Callee, Caller)`.  `ULONG_BITS` is the width of
`unsigned long`, the type to which the two addresses are cast. -/
def hash_addr_pair (ULONG_BITS : Nat) (Callee Caller : Nat) : Nat :=
  (((Callee % 2 ^ ULONG_BITS) ^^^ (Caller % 2 ^ ULONG_BITS)) >>> 2) % CALL_TABLE_SIZE

/-- The `while` loop of `prof_call_profile` over the chain that starts at
`*node_addr`, followed by the code after the loop: the count of the first node
with the two addresses is incremented (an `unsigned long` increment); when the
end of the chain is reached, a new node with count 1 is linked there. -/
def prof_call_profile_chain (ULONG_BITS : Nat) (Callee Caller : Nat) :
    List prof_call_node → List prof_call_node
  | [] => [{ Callee := Callee, Caller := Caller, count := 1 }]
  | node :: next =>
    if node.Callee = Callee ∧ node.Caller = Caller then
      { node with count := (node.count + 1) % 2 ^ ULONG_BITS } :: next
    else node :: prof_call_profile_chain ULONG_BITS Callee Caller next

/-- `prof_call_profile(Callee, Caller)` as a function on `addr_pair_table`,
the array that gives the chain of each bucket. -/
def prof_call_profile (ULONG_BITS : Nat) (addr_pair_table : Nat → List prof_call_node)
    (Callee Caller : Nat) : Nat → List prof_call_node :=
  let hash_value := hash_addr_pair ULONG_BITS Callee Caller
  fun i =>
    if i = hash_value then
      prof_call_profile_chain ULONG_BITS Callee Caller (addr_pair_table hash_value)
    else addr_pair_table i

/-- The initial value of `addr_pair_table`: every bucket is `NULL`. -/
def addr_pair_table_init : Nat → List prof_call_node := fun _ => []

/-! ## Tag tests and list macros (`mercury_tags.h`) -/

/-- The cast `(MR_Integer) w` of a word: its value as a two's complement
number of `MR_WORDBITS` bits. -/
def MR_Integer_of_Word (c : Config) (w : Nat) : Int :=
  if w % 2 ^ MR_WORDBITS c < 2 ^ (MR_WORDBITS c - 1) then ((w % 2 ^ MR_WORDBITS c : Nat) : Int)
  else ((w % 2 ^ MR_WORDBITS c : Nat) : Int) - ((2 ^ MR_WORDBITS c : Nat) : Int)

/-- `MR_PTAG_TEST(rval, ptag)`. -/
def MR_PTAG_TEST (c : Config) (rval ptag : Nat) : Bool :=
  MR_tag c rval == MR_mktag c ptag

/-- `MR_LTAGS_TEST(rval, ptag, stag)`. -/
def MR_LTAGS_TEST (c : Config) (rval ptag stag : Nat) : Bool :=
  MR_Integer_of_Word c rval == MR_Integer_of_Word c (MR_tbmkword c ptag stag)

/-- The constants of the configuration on which the list macros depend besides
those of `Config`, and what the macros take from outside `mercury_tags.h`. -/
structure ListConfig where
  /-- `MR_NUM_RESERVED_ADDRESSES`. -/
  MR_NUM_RESERVED_ADDRESSES : Nat
  /-- `MR_NUM_RESERVED_OBJECTS`. -/
  MR_NUM_RESERVED_OBJECTS : Nat
  /-- The address `&mercury__list__list_1__f_111_98_106_95_91_93_95_48`. -/
  reserved_object_for_nil : Nat
  /-- The cell that `MR_create1(..., MR_RAW_TAG_NIL)` returns to `MR_list_empty()`
  when cons cells have three words; `MR_create1` is not in the source tree. -/
  MR_create1_nil : Nat
  /-- The content of the word at an address, as `MR_list_is_empty(list)` reads
  it when cons cells have three words. -/
  word_at : Nat → Nat

/-- `MR_FIRST_UNRESERVED_RAW_TAG`. -/
def MR_FIRST_UNRESERVED_RAW_TAG : Nat := 0

/-- `MR_RAW_TAG_NIL`; it is defined only when the empty list is not a reserved
address, that is in the second branch of the test on `MR_TAGBITS == 0`. -/
def MR_RAW_TAG_NIL : Nat := MR_FIRST_UNRESERVED_RAW_TAG

/-- `MR_RAW_TAG_CONS`. -/
def MR_RAW_TAG_CONS (c : Config) (l : ListConfig) : Nat :=
  if c.MR_TAGBITS = 0 ∧ (0 < l.MR_NUM_RESERVED_ADDRESSES ∨ 0 < l.MR_NUM_RESERVED_OBJECTS) then
    MR_FIRST_UNRESERVED_RAW_TAG
  else MR_FIRST_UNRESERVED_RAW_TAG + 1

/-- `MR_TAG_NIL`. -/
def MR_TAG_NIL (c : Config) : Nat := MR_mktag c MR_RAW_TAG_NIL

/-- `MR_TAG_CONS`. -/
def MR_TAG_CONS (c : Config) (l : ListConfig) : Nat := MR_mktag c (MR_RAW_TAG_CONS c l)

/-- The identifier `MR_NUM_RESERVED_ADDRESS` in the test at line 118 of
`mercury_tags.h`.  The constant of the configuration is spelt
`MR_NUM_RESERVED_ADDRESSES`; this identifier is not the name of a macro, and
such an identifier has the value 0 in `#if`. -/
def MR_NUM_RESERVED_ADDRESS : Nat := 0

/-- The test `#if MR_TAGBITS > 0 || (MR_TAGBITS == 0 &&
(MR_NUM_RESERVED_ADDRESS > 0 || MR_NUM_RESERVED_OBJECTS > 0))` of
`mercury_tags.h`: when it holds cons cells are represented using two words,
otherwise using three words. -/
def MR_cons_cells_have_two_words (c : Config) (l : ListConfig) : Bool :=
  decide (0 < c.MR_TAGBITS) ||
    (decide (c.MR_TAGBITS = 0) &&
      (decide (0 < MR_NUM_RESERVED_ADDRESS) || decide (0 < l.MR_NUM_RESERVED_OBJECTS)))

/-- `MR_list_empty()`.  With cons cells of two words: the null pointer, the
reserved object, or the word made of `MR_TAG_NIL`.  With cons cells of three
words: the word made of the tag 0 and of the cell that `MR_create1` returns. -/
def MR_list_empty (c : Config) (l : ListConfig) : Nat :=
  if MR_cons_cells_have_two_words c l then
    if c.MR_TAGBITS = 0 ∧ 0 < l.MR_NUM_RESERVED_ADDRESSES then 0
    else if c.MR_TAGBITS = 0 ∧ 0 < l.MR_NUM_RESERVED_OBJECTS then l.reserved_object_for_nil
    else MR_mkword (MR_TAG_NIL c) (MR_mkbody c 0)
  else MR_mkword (MR_mktag c 0) l.MR_create1_nil

/-- `MR_list_is_empty(list)`.  With cons cells of two words: the comparison
with `MR_list_empty()`, or the test of the primary tag.  With cons cells of
three words: the test `MR_field(MR_mktag(0), (list), 0) == MR_RAW_TAG_NIL` of
the first word of the cell. -/
def MR_list_is_empty (c : Config) (l : ListConfig) (list : Nat) : Bool :=
  if MR_cons_cells_have_two_words c l then
    if c.MR_TAGBITS = 0 ∧ 0 < l.MR_NUM_RESERVED_ADDRESSES then list == MR_list_empty c l
    else if c.MR_TAGBITS = 0 ∧ 0 < l.MR_NUM_RESERVED_OBJECTS then list == MR_list_empty c l
    else MR_tag c list == MR_TAG_NIL c
  else l.word_at (MR_field c (MR_mktag c 0) list 0) == MR_RAW_TAG_NIL

/-- Address of the lvalue `MR_list_head(list)`: word 0 of the cell when cons
cells have two words, word 1 when they have three. -/
def MR_list_head (c : Config) (l : ListConfig) (list : Nat) : Nat :=
  if MR_cons_cells_have_two_words c l then MR_field c (MR_TAG_CONS c l) list 0
  else MR_field c (MR_mktag c 0) list 1

/-- Address of the lvalue `MR_list_tail(list)`: word 1 of the cell when cons
cells have two words, word 2 when they have three. -/
def MR_list_tail (c : Config) (l : ListConfig) (list : Nat) : Nat :=
  if MR_cons_cells_have_two_words c l then MR_field c (MR_TAG_CONS c l) list 1
  else MR_field c (MR_mktag c 0) list 2

/-! ## The register order (`mercury_regorder.h`)

Each definition is the number `k` of the slot `mr<k>` (written `mr(k)` for
`MR_sol_hp` and `MR_min_hp_rec`) in the second argument of `count_usage` in
the definition of the register. -/

/-- The register `r1`. -/
def r1 : Nat := 2

/-- The register `r2`. -/
def r2 : Nat := 3

/-- The register `r3`. -/
def r3 : Nat := 4

/-- The register `r4`. -/
def r4 : Nat := 6

/-- The register `r5`. -/
def r5 : Nat := 7

/-- The register `r6`. -/
def r6 : Nat := 10

/-- The register `r7`. -/
def r7 : Nat := 11

/-- The register `r8`. -/
def r8 : Nat := 12

/-- The register `r9`. -/
def r9 : Nat := 13

/-- The register `r10`. -/
def r10 : Nat := 14

/-- The register `r11`. -/
def r11 : Nat := 15

/-- The register `r12`. -/
def r12 : Nat := 16

/-- The register `r13`. -/
def r13 : Nat := 17

/-- The register `r14`. -/
def r14 : Nat := 18

/-- The register `r15`. -/
def r15 : Nat := 19

/-- The register `r16`. -/
def r16 : Nat := 20

/-- The register `r17`. -/
def r17 : Nat := 21

/-- The register `r18`. -/
def r18 : Nat := 22

/-- The register `r19`. -/
def r19 : Nat := 23

/-- The register `r20`. -/
def r20 : Nat := 24

/-- The register `r21`. -/
def r21 : Nat := 25

/-- The register `r22`. -/
def r22 : Nat := 26

/-- The register `r23`. -/
def r23 : Nat := 27

/-- The register `r24`. -/
def r24 : Nat := 28

/-- The register `r25`. -/
def r25 : Nat := 29

/-- The register `r26`. -/
def r26 : Nat := 30

/-- The register `r27`. -/
def r27 : Nat := 31

/-- The register `r28`. -/
def r28 : Nat := 32

/-- The register `r29`. -/
def r29 : Nat := 33

/-- The register `r30`. -/
def r30 : Nat := 34

/-- The register `r31`. -/
def r31 : Nat := 35

/-- The register `r32`. -/
def r32 : Nat := 36

/-- The register `MR_succip`, also named `succip`. -/
def MR_succip : Nat := 1

/-- The register `MR_hp`, also named `hp`. -/
def MR_hp : Nat := 5

/-- The register `MR_sp`, also named `sp`. -/
def MR_sp : Nat := 0

/-- The register `MR_curfr`, also named `curfr`. -/
def MR_curfr : Nat := 8

/-- The register `MR_maxfr`, also named `maxfr`. -/
def MR_maxfr : Nat := 9

/-- The register `MR_sol_hp`. -/
def MR_sol_hp : Nat := 37

/-- The register `MR_min_hp_rec`. -/
def MR_min_hp_rec : Nat := 38

/-- The register `MR_min_sol_hp_rec`. -/
def MR_min_sol_hp_rec : Nat := 39

/-- `VIRTUAL_REG_MAP_BODY`, the initializer of the array of slot numbers. -/
def VIRTUAL_REG_MAP_BODY : List Nat :=
  [2, 3, 4, 6, 7, 10, 11, 12, 13, 14, 15, 16, 17, 18, 19, 20,
   21, 22, 23, 24, 25, 26, 27, 28, 29, 30, 31, 32, 33, 34, 35, 36]


/-! ## Notions used to state the properties of the copier -/

/-- The two tests at the head of the reserved-address case of `copy`: the data
word is one of the numeric or one of the symbolic reserved addresses. -/
def is_reserved_address (ra_layout : MR_ReservedAddrTypeLayout) (data : Nat) : Bool :=
  decide (data < ra_layout.MR_ra_num_res_numeric_addrs) ||
    (List.range ra_layout.MR_ra_num_res_symbolic_addrs).any
      (fun j => data == ra_layout.MR_ra_res_symbolic_addrs j)

/-- The value of `du_type_layout` with which `copy` reaches the label
`du_type` for a data word of the type, if it reaches it. -/
def reaches_du_type (tci : MR_TypeCtorInfo) (data : Nat) : Option MR_DuTypeLayout :=
  match tci.MR_type_ctor_rep with
  | .MR_TYPECTOR_REP_DU => some tci.MR_layout_du
  | .MR_TYPECTOR_REP_DU_USEREQ => some tci.MR_layout_du
  | .MR_TYPECTOR_REP_RESERVED_ADDR =>
    if is_reserved_address tci.MR_layout_reserved_addr data then none
    else some tci.MR_layout_reserved_addr.MR_ra_other_functors
  | .MR_TYPECTOR_REP_RESERVED_ADDR_USEREQ =>
    if is_reserved_address tci.MR_layout_reserved_addr data then none
    else some tci.MR_layout_reserved_addr.MR_ra_other_functors
  | _ => none

/-- The pointer and the offset that `copy` passes to `RETURN_IF_OUT_OF_RANGE`
for a data word of the type: the body pointer of the value and the place of
its forwarding record.  `none` for the values that `copy` does not treat as
pointers to a heap object (and for those on which an `assert` fails). -/
def forwarding_site (c : Config) (tci : MR_TypeCtorInfo) (data : Nat) : Option (Nat × Int) :=
  match tci.MR_type_ctor_rep with
  | .MR_TYPECTOR_REP_FLOAT =>
    if c.MR_BOXED_FLOAT = true ∧ MR_tag c data = 0 then
      some (MR_body c data (MR_mktag c 0), 0)
    else none
  | .MR_TYPECTOR_REP_STRING => some (data, 0)
  | .MR_TYPECTOR_REP_FUNC =>
    if MR_tag c data = 0 then some (MR_body c data (MR_mktag c 0), CLOSURE_FORWARDING_PTR_OFFSET)
    else none
  | .MR_TYPECTOR_REP_PRED =>
    if MR_tag c data = 0 then some (MR_body c data (MR_mktag c 0), CLOSURE_FORWARDING_PTR_OFFSET)
    else none
  | .MR_TYPECTOR_REP_TUPLE =>
    if MR_tag c data = 0 then some (MR_body c data (MR_mktag c 0), 0) else none
  | .MR_TYPECTOR_REP_ARRAY =>
    if MR_tag c data = 0 then some (MR_body c data (MR_mktag c 0), 0) else none
  | .MR_TYPECTOR_REP_REFERENCE =>
    if MR_tag c data = 0 then some (MR_body c data (MR_mktag c 0), 0) else none
  | _ =>
    match reaches_du_type tci data with
    | none => none
    | some du_type_layout =>
      match (du_type_layout (MR_tag c data)).MR_sectag_locn with
      | .MR_SECTAG_REMOTE => some (MR_body c data (MR_tag c data), 0)
      | .MR_SECTAG_NONE => some (MR_body c data (MR_tag c data), 0)
      | _ => none

/-- The `MR_TypeCtorInfo` that `copy` consults for a type descriptor in a heap. -/
def type_ctor_info_of (rt : Runtime) (h : Heap) (type_info : Nat) : MR_TypeCtorInfo :=
  rt.type_ctor_info (rt.MR_TYPEINFO_GET_TYPE_CTOR_INFO h.mem type_info)

/-- The offsets at which the copier keeps forwarding records: word 0 of the
body, the code word of a closure, the word in front of a type descriptor or
of a typeclass dictionary. -/
def is_forwarding_offset (off : Int) : Prop :=
  off = 0 ∨ off = CLOSURE_FORWARDING_PTR_OFFSET ∨ off = TYPEINFO_FORWARDING_PTR_OFFSET ∨
    off = TYPECLASSINFO_FORWARDING_PTR_OFFSET

/-- The effect of a run of the copier from heap `h` to heap `h2`, relative to
a base address `b` of the destination arena: the heap pointer does not
decrease, forwarding marks are only added and only to objects in range, and a
word whose content changed is either at or above `b` or is the forwarding
record `p[off]` of an object `p` in range that the run has forwarded. -/
structure Frame (c : Config) (lower_limit upper_limit : Nat) (b : Nat) (h h2 : Heap) : Prop where
  base_le : b ≤ h.saved_hp
  hp_le : h.saved_hp ≤ h2.saved_hp
  forwarded_mono : ∀ p, h.forwarded p = true → h2.forwarded p = true
  forwarded_in_range : ∀ p, h2.forwarded p = true → h.forwarded p = false →
    in_range lower_limit upper_limit p = true
  mem_frame : ∀ a, h2.mem a ≠ h.mem a →
    b ≤ a ∨ ∃ p off, is_forwarding_offset off ∧ in_range lower_limit upper_limit p = true ∧
      h.forwarded p = false ∧ h2.forwarded p = true ∧ a = word_addr c p off

/-- The effect of every returning call of a one-argument copier is framed from
the heap pointer at its entry. -/
def FramedFn (c : Config) (lo hi : Nat) (f : Nat → Heap → Result) : Prop :=
  ∀ x h r h2, f x h = .returns (r, h2) → Frame c lo hi h.saved_hp h h2

/-- The same for `copy`, which takes the data word and the type descriptor. -/
def FramedCopy (c : Config) (lo hi : Nat) (f : Nat → Nat → Heap → Result) : Prop :=
  ∀ x t h r h2, f x t h = .returns (r, h2) → Frame c lo hi h.saved_hp h h2

/-- Every base typeclass info has at least as many extra instance arguments
as instance constraints, so that the count of unconstrained type variables is
not negative. -/
def base_typeclass_infos_wf (rt : Runtime) : Prop :=
  ∀ k, (rt.base_typeclass_info k).num_instance_constraints ≤
    (rt.base_typeclass_info k).num_extra_instance_args

/-- Every object that the run from `h` to `h2` has forwarded keeps the words
that can hold its forwarding record below the address `b`: with `b` the heap
pointer at the entry of the run, the run forwards no object of the destination
arena.  Nothing is asked of the objects that the run does not forward. -/
def records_below (c : Config) (b : Nat) (h h2 : Heap) : Prop :=
  ∀ q off, h2.forwarded q = true → h.forwarded q = false → is_forwarding_offset off →
    word_addr c q off < b

/-- The ownership frame of a run of the copier from heap `h` to heap `h2`,
relative to a base address `b` of the destination arena: the run is framed
from `b`, and a word whose content changed is either below the heap pointer of
`h2`, hence among the words allocated so far, or is the forwarding record
`p[off]` of an object `p` in range that the run has forwarded. -/
structure Owned (c : Config) (lower_limit upper_limit : Nat) (b : Nat) (h h2 : Heap) : Prop where
  frame : Frame c lower_limit upper_limit b h h2
  below_hp : ∀ a, h2.mem a ≠ h.mem a →
    a < h2.saved_hp ∨ ∃ p off, is_forwarding_offset off ∧
      in_range lower_limit upper_limit p = true ∧
      h.forwarded p = false ∧ h2.forwarded p = true ∧ a = word_addr c p off

/-- The same for `copy`, which takes the data word and the type descriptor. -/
def OwnedCopy (c : Config) (lo hi : Nat) (f : Nat → Nat → Heap → Result) : Prop :=
  ∀ x t h r h2, f x t h = .returns (r, h2) → Owned c lo hi h.saved_hp h h2

/-- No base typeclass info has an unconstrained type variable: its count of
extra instance arguments is its count of instance constraints, so that
`num_unconstrained`, which `copy_typeclass_info` leaves out of the size of the
new dictionary, is zero. -/
def no_unconstrained_type_variables (rt : Runtime) : Prop :=
  ∀ k, (rt.base_typeclass_info k).num_extra_instance_args =
    (rt.base_typeclass_info k).num_instance_constraints

/-- The shape of the bodies of the loops that fill the slots of a new DU cell
at `new`: a call whose effect is framed from its entry heap pointer, followed
by the store of its result in slot `cur_slot` and the increment of `cur_slot`. -/
def SlotBody (c : Config) (lower_limit upper_limit new : Nat)
    (body : Nat → Nat × Heap → Outcome (Nat × Heap)) : Prop :=
  ∀ i s s2, body i s = .returns s2 →
    ∃ r : Nat × Heap, Frame c lower_limit upper_limit s.2.saved_hp s.2 r.2 ∧
      s2 = (s.1 + 1, r.2.store (word_addr c new (s.1 : Int)) r.1)

/-- No object that the run from `h` to `h2` has forwarded keeps its forwarding
record in one of the first `n` words of the cell at `p`. -/
def no_record_inside (c : Config) (h h2 : Heap) (p n : Nat) : Prop :=
  ∀ q off k, h2.forwarded q = true → h.forwarded q = false → is_forwarding_offset off →
    k < n → word_addr c q off ≠ word_addr c p (k : Int)

/-- The number of hidden arguments of a functor: the plain type descriptors
and the typeclass dictionaries of its existential info, none when the info is
null. -/
def MR_du_hidden_count (functor_desc : MR_DuFunctorDesc) : Nat :=
  match functor_desc.MR_du_functor_exist_info with
  | none => 0
  | some exist_info => exist_info.MR_exist_typeinfos_plain + exist_info.MR_exist_tcis

/-- The type descriptor at which the loop over the declared fields of
`MR_handle_sectag_remote_or_none` copies field `i`: the one that `copy_arg`
makes with `MR_make_type_info_maybe_existq` when the argument type may contain
a type variable, the ground argument type otherwise. -/
def copy_du_arg_type (c : Config) (rt : Runtime) (have_sectag : Bool)
    (type_info new_data : Nat) (functor_desc : MR_DuFunctorDesc) (i : Nat) (h : Heap) : Nat :=
  if functor_desc.MR_arg_type_may_contain_var i then
    rt.MR_make_type_info_maybe_existq h.mem (MR_TYPEINFO_GET_FIXED_ARITY_ARG_VECTOR type_info)
      (functor_desc.MR_du_functor_arg_types i)
      (if have_sectag then word_addr c new_data 1 else new_data) (some functor_desc)
  else MR_pseudo_type_info_is_ground (functor_desc.MR_du_functor_arg_types i)

/-- The shape of the loop bodies of the copier that fill the slots of a new
block, on the heap: the call `g i` made for slot `i`, followed by the store of
its result at the address `addr i`. -/
def slot_body (g : Nat → Heap → Result) (addr : Nat → Nat) (i : Nat) (h : Heap) :
    Outcome Heap :=
  (g i h).bind fun r => .returns (r.2.store (addr i) r.1)

/-- The calls of a slot loop are framed from their entry heap pointer. -/
def FramedSlot (c : Config) (lo hi : Nat) (g : Nat → Heap → Result) : Prop :=
  ∀ i h r h2, g i h = .returns (r, h2) → Frame c lo hi h.saved_hp h h2

/-- The call that the loop of the tuple case makes for field `i` in the heap
`h`: `copy(data_value[i], arg_typeinfo_vector[i + 1], lower_limit, upper_limit)`. -/
def copy_tuple_field (c : Config) (copy : Nat → Nat → Heap → Result)
    (data_value type_info : Nat) (i : Nat) (h : Heap) : Result :=
  copy (h.read c data_value (i : Int))
    (h.read c (MR_TYPEINFO_GET_VAR_ARITY_ARG_VECTOR c type_info) ((i + 1 : Nat) : Int)) h

/-- The loop of the tuple case over the `arity` fields. -/
def copy_tuple_fields (c : Config) (copy : Nat → Nat → Heap → Result)
    (data_value type_info new_data arity : Nat) (h : Heap) : Outcome Heap :=
  for_loop (slot_body (copy_tuple_field c copy data_value type_info)
    (fun i => word_addr c new_data (i : Int))) arity 0 h

/-- The call that the loop of the array case makes for element `i` in the heap
`h`: `copy_arg(NULL, old_array->elements[i], NULL, type_params, 1, ...)`. -/
def copy_array_element (c : Config) (rt : Runtime) (copy : Nat → Nat → Heap → Result)
    (old_array type_info : Nat) (i : Nat) (h : Heap) : Result :=
  copy_arg_with rt copy 0 (h.read c old_array ((1 + i : Nat) : Int)) none
    (MR_TYPEINFO_GET_FIXED_ARITY_ARG_VECTOR type_info) 1 h

/-- The loop of the array case over the `array_size` elements. -/
def copy_array_elements (c : Config) (rt : Runtime) (copy : Nat → Nat → Heap → Result)
    (old_array type_info new_array array_size : Nat) (h : Heap) : Outcome Heap :=
  for_loop (slot_body (copy_array_element c rt copy old_array type_info)
    (fun i => word_addr c new_array ((1 + i : Nat) : Int))) array_size 0 h

/-- The call that the loop of the closure case makes for hidden argument `i`
in the heap `h`: `copy_arg(NULL, old_closure->MR_closure_hidden_args_0[i], NULL,
type_info_arg_vector, closure_layout->MR_closure_arg_pseudo_type_info[i], ...)`. -/
def copy_closure_hidden_arg (c : Config) (rt : Runtime) (copy : Nat → Nat → Heap → Result)
    (old_closure closure_layout type_info_arg_vector : Nat) (i : Nat) (h : Heap) : Result :=
  copy_arg_with rt copy 0
    (h.read c old_closure ((offsetof_MR_closure_hidden_args_0 + i : Nat) : Int)) none
    type_info_arg_vector ((rt.closure_layout closure_layout).MR_closure_arg_pseudo_type_info i) h

/-- The loop of the closure case over the `args` hidden arguments. -/
def copy_closure_hidden_args (c : Config) (rt : Runtime) (copy : Nat → Nat → Heap → Result)
    (old_closure closure_layout type_info_arg_vector new_closure args : Nat) (h : Heap) :
    Outcome Heap :=
  for_loop (slot_body
      (copy_closure_hidden_arg c rt copy old_closure closure_layout type_info_arg_vector)
      (fun i => word_addr c new_closure ((offsetof_MR_closure_hidden_args_0 + i : Nat) : Int)))
    args 0 h

/-- The call that a loop `copy_slots` makes for its iteration `k` in the heap
`h`: `f(old[first + k], lower_limit, upper_limit)`. -/
def copy_slot (c : Config) (f : Nat → Heap → Result) (old : Nat) (first : Int) (k : Nat)
    (h : Heap) : Result :=
  f (h.read c old (first + (k : Int))) h

/-- The new closure with its three fixed fields filled in, as it is before the
loop over the hidden arguments: `MR_offset_incr_saved_hp(new_closure_word, 0,
args + 3)` and the three assignments that copy the fixed fields. -/
def MR_closure_new_header (c : Config) (h : Heap) (old_closure new_closure : Nat) : Heap :=
  let closure_layout := h.read c old_closure offsetof_MR_closure_layout
  let args := h.read c old_closure offsetof_MR_closure_num_hidden_args
  let a := MR_offset_incr_saved_hp c h 0 (args + 3)
  let h1 := a.2.write c new_closure offsetof_MR_closure_layout closure_layout
  let h2 := h1.write c new_closure offsetof_MR_closure_num_hidden_args args
  h2.write c new_closure offsetof_MR_closure_code (h2.read c old_closure offsetof_MR_closure_code)

/-- The node that the search loop of `prof_call_profile` finds for a pair of
addresses in a chain: the first one with these two addresses. -/
def find_call_node (Callee Caller : Nat) (chain : List prof_call_node) :
    Option prof_call_node :=
  chain.find? (fun node => decide (node.Callee = Callee ∧ node.Caller = Caller))

/-- The count recorded in the table for a pair of addresses: the count of the
node of the pair in the bucket of its hash value, `none` when the pair has no
node there. -/
def recorded_count (ULONG_BITS : Nat) (addr_pair_table : Nat → List prof_call_node)
    (Callee Caller : Nat) : Option Nat :=
  (find_call_node Callee Caller
    (addr_pair_table (hash_addr_pair ULONG_BITS Callee Caller))).map (fun node => node.count)

/-- The pairs of addresses of the nodes of a chain, in the order of the chain. -/
def chain_pairs (chain : List prof_call_node) : List (Nat × Nat) :=
  chain.map (fun node => (node.Callee, node.Caller))

/-- The table after a sequence of calls of `prof_call_profile`, given as the
list of their arguments `(Callee, Caller)`, from the initial table. -/
def prof_call_sequence (ULONG_BITS : Nat) (calls : List (Nat × Nat)) :
    Nat → List prof_call_node :=
  calls.foldl (fun t p => prof_call_profile ULONG_BITS t p.1 p.2) addr_pair_table_init

/-- The sum of the counts of the nodes of a chain. -/
def chain_count (chain : List prof_call_node) : Nat :=
  (chain.map (fun node => node.count)).sum

/-- The sum of the counts of all nodes of the table, over its
`CALL_TABLE_SIZE` buckets. -/
def table_count (addr_pair_table : Nat → List prof_call_node) : Nat :=
  ((List.range CALL_TABLE_SIZE).map (fun i => chain_count (addr_pair_table i))).sum

/-- The slot of the register `r<n>`, for the `n` for which it is defined. -/
def r_slot (n : Nat) : Option Nat :=
  match n with
  | 1 => some r1
  | 2 => some r2
  | 3 => some r3
  | 4 => some r4
  | 5 => some r5
  | 6 => some r6
  | 7 => some r7
  | 8 => some r8
  | 9 => some r9
  | 10 => some r10
  | 11 => some r11
  | 12 => some r12
  | 13 => some r13
  | 14 => some r14
  | 15 => some r15
  | 16 => some r16
  | 17 => some r17
  | 18 => some r18
  | 19 => some r19
  | 20 => some r20
  | 21 => some r21
  | 22 => some r22
  | 23 => some r23
  | 24 => some r24
  | 25 => some r25
  | 26 => some r26
  | 27 => some r27
  | 28 => some r28
  | 29 => some r29
  | 30 => some r30
  | 31 => some r31
  | 32 => some r32
  | _ => none

/-- The abstract machine registers that `mercury_regorder.h` maps to slots. -/
inductive AbstractRegister where
  | r1
  | r2
  | r3
  | r4
  | r5
  | r6
  | r7
  | r8
  | r9
  | r10
  | r11
  | r12
  | r13
  | r14
  | r15
  | r16
  | r17
  | r18
  | r19
  | r20
  | r21
  | r22
  | r23
  | r24
  | r25
  | r26
  | r27
  | r28
  | r29
  | r30
  | r31
  | r32
  | succip
  | hp
  | sp
  | curfr
  | maxfr
  | sol_hp
  | min_hp_rec
  | min_sol_hp_rec
  deriving DecidableEq, Fintype, Repr

/-- The slot to which an abstract machine register is mapped. -/
def AbstractRegister.slot : AbstractRegister → Nat
  | .r1 => Mercury.r1
  | .r2 => Mercury.r2
  | .r3 => Mercury.r3
  | .r4 => Mercury.r4
  | .r5 => Mercury.r5
  | .r6 => Mercury.r6
  | .r7 => Mercury.r7
  | .r8 => Mercury.r8
  | .r9 => Mercury.r9
  | .r10 => Mercury.r10
  | .r11 => Mercury.r11
  | .r12 => Mercury.r12
  | .r13 => Mercury.r13
  | .r14 => Mercury.r14
  | .r15 => Mercury.r15
  | .r16 => Mercury.r16
  | .r17 => Mercury.r17
  | .r18 => Mercury.r18
  | .r19 => Mercury.r19
  | .r20 => Mercury.r20
  | .r21 => Mercury.r21
  | .r22 => Mercury.r22
  | .r23 => Mercury.r23
  | .r24 => Mercury.r24
  | .r25 => Mercury.r25
  | .r26 => Mercury.r26
  | .r27 => Mercury.r27
  | .r28 => Mercury.r28
  | .r29 => Mercury.r29
  | .r30 => Mercury.r30
  | .r31 => Mercury.r31
  | .r32 => Mercury.r32
  | .succip => MR_succip
  | .hp => MR_hp
  | .sp => MR_sp
  | .curfr => MR_curfr
  | .maxfr => MR_maxfr
  | .sol_hp => MR_sol_hp
  | .min_hp_rec => MR_min_hp_rec
  | .min_sol_hp_rec => MR_min_sol_hp_rec

/-! ## A concrete runtime and heap

A 32-bit low-tag configuration with two tag bits, a few static type
constructor descriptors, and a heap whose region window is `[100, 200)` and
whose destination arena starts at address 4000. -/

/-- A 32-bit build: low tags, two tag bits, unboxed floats, no size slots. -/
def c32 : Config where
  MR_HIGHTAGS := false
  MR_TAGBITS := 2
  CHAR_BIT := 8
  sizeof_MR_Word := 4
  MR_NATIVE_GC := false
  MR_BOXED_FLOAT := false
  MR_RECORD_TERM_SIZES := false
  MR_FLOAT_WORDS := 2

/-- A functor without arguments. -/
def ex_functor_nullary : MR_DuFunctorDesc where
  MR_du_functor_orig_arity := 0
  MR_du_functor_exist_info := none
  MR_du_functor_arg_types := fun _ => 0
  MR_arg_type_may_contain_var := fun _ => false

/-- The functor `[H | T]` of `list(int)`: an `int` at address 1000 and a list at 1004. -/
def ex_functor_cons : MR_DuFunctorDesc where
  MR_du_functor_orig_arity := 2
  MR_du_functor_exist_info := none
  MR_du_functor_arg_types := fun i => if i = 0 then 1000 else 1004
  MR_arg_type_may_contain_var := fun _ => false

/-- The functor of a pair of lists: both arguments have the type at 1004. -/
def ex_functor_pair : MR_DuFunctorDesc where
  MR_du_functor_orig_arity := 2
  MR_du_functor_exist_info := none
  MR_du_functor_arg_types := fun _ => 1004
  MR_arg_type_may_contain_var := fun _ => false

/-- The functor of a one-field cell whose field has the type of the cell (1028). -/
def ex_functor_loop : MR_DuFunctorDesc where
  MR_du_functor_orig_arity := 1
  MR_du_functor_exist_info := none
  MR_du_functor_arg_types := fun _ => 1028
  MR_arg_type_may_contain_var := fun _ => false

/-- A primary-tag layout with the given location and a single functor. -/
def ex_ptag (locn : MR_Sectag_Locn) (f : MR_DuFunctorDesc) : MR_DuPtagLayout where
  MR_sectag_locn := locn
  MR_sectag_alternatives := fun _ => f

/-- The layout of the list type: tag 0 is the constant `[]` (local), tag 1 is
the cons cell (no secondary tag). -/
def ex_layout_list : MR_DuTypeLayout := fun ptag =>
  if ptag = 1 then ex_ptag .MR_SECTAG_NONE ex_functor_cons
  else ex_ptag .MR_SECTAG_LOCAL ex_functor_nullary

/-- A layout whose every primary tag has the location `MR_SECTAG_VARIABLE`. -/
def ex_layout_variable : MR_DuTypeLayout := fun _ =>
  ex_ptag .MR_SECTAG_VARIABLE ex_functor_nullary

/-- A reserved-address layout with one numeric reserved address (the null
word) whose other functors have the location `MR_SECTAG_VARIABLE`. -/
def ex_ra_layout : MR_ReservedAddrTypeLayout where
  MR_ra_num_res_numeric_addrs := 1
  MR_ra_num_res_symbolic_addrs := 0
  MR_ra_res_symbolic_addrs := fun _ => 0
  MR_ra_other_functors := ex_layout_variable

/-- A type constructor descriptor with the given representation, arity and DU
layout. -/
def ex_tci (rep : MR_TypeCtorRep) (arity : Nat) (du : MR_DuTypeLayout) : MR_TypeCtorInfo where
  MR_type_ctor_rep := rep
  MR_type_ctor_arity := arity
  MR_type_ctor_has_variable_arity := false
  MR_layout_du := du
  MR_layout_reserved_addr := ex_ra_layout
  MR_notag_functor_arg_type := 1000
  MR_layout_equiv := 1000

/-- The static descriptors: `int` at 1000, `list(int)` at 1004, `void` at 1008,
a foreign type at 1012, a pair of lists at 1016, a reserved-address type at
1020, a DU type with a variable secondary tag at 1024, a self-referential cell
type at 1028, a unary type constructor at 1036. -/
def ex_type_ctor_info (a : Nat) : MR_TypeCtorInfo :=
  if a = 1000 then ex_tci .MR_TYPECTOR_REP_INT 0 ex_layout_list
  else if a = 1004 then ex_tci .MR_TYPECTOR_REP_DU 0 ex_layout_list
  else if a = 1008 then ex_tci .MR_TYPECTOR_REP_VOID 0 ex_layout_list
  else if a = 1012 then ex_tci .MR_TYPECTOR_REP_FOREIGN 0 ex_layout_list
  else if a = 1016 then
    ex_tci .MR_TYPECTOR_REP_DU 0 (fun _ => ex_ptag .MR_SECTAG_NONE ex_functor_pair)
  else if a = 1020 then ex_tci .MR_TYPECTOR_REP_RESERVED_ADDR 0 ex_layout_list
  else if a = 1024 then ex_tci .MR_TYPECTOR_REP_DU 0 ex_layout_variable
  else if a = 1028 then
    ex_tci .MR_TYPECTOR_REP_DU 0 (fun _ => ex_ptag .MR_SECTAG_NONE ex_functor_loop)
  else if a = 1036 then ex_tci .MR_TYPECTOR_REP_DU 1 ex_layout_list
  else ex_tci .MR_TYPECTOR_REP_UNKNOWN 0 ex_layout_list

/-- A runtime over the static descriptors above.  The type constructor of a
type descriptor is its first word, or the descriptor itself when that word is
null. -/
def rt0 : Runtime where
  type_ctor_info := ex_type_ctor_info
  MR_TYPEINFO_GET_TYPE_CTOR_INFO := fun mem ti => if mem ti = 0 then ti else mem ti
  closure_layout := fun _ => { MR_closure_arg_pseudo_type_info := fun _ => 1000 }
  base_typeclass_info := fun _ =>
    { num_extra_instance_args := 0, num_instance_constraints := 0,
      num_superclasses := 0, num_params := 0 }
  MR_make_type_info_maybe_existq := fun _ _ pti _ _ => pti
  MR_materialize_closure_type_params := fun _ _ => 0
  string_words := fun _ _ => 1

/-- The memory of the example heap: a type descriptor `1036(int)` at 100, the
cons cell `[7]` at 112, a pair cell at 120 whose two fields are the list
`[7]` (the tagged word 113), and at 128 a one-field cell whose field is the
cell itself. -/
def ex_mem (a : Nat) : Nat :=
  if a = 100 then 1036
  else if a = 104 then 1000
  else if a = 112 then 7
  else if a = 116 then 0
  else if a = 120 then 113
  else if a = 124 then 113
  else if a = 128 then 128
  else 0

/-- The example heap: nothing forwarded yet, destination arena at 4000. -/
def h0 : Heap where
  mem := ex_mem
  saved_hp := 4000
  forwarded := fun _ => false

/-- The example heap after `copy` of the list `[7]` (the word 113): the new
cons cell is at 4000, the original at 112 carries the forwarding record. -/
def h0_cons_copied : Heap where
  mem := fun a =>
    if a = 112 then 4001 else if a = 4004 then 0 else if a = 4000 then 7 else ex_mem a
  saved_hp := 4008
  forwarded := fun a => if a = 112 then true else false

/-- The example heap after `copy_type_info` of the type descriptor at 100: the
new descriptor is at 4000, the forwarding record is the word at 96. -/
def h0_type_info_copied : Heap where
  mem := fun a =>
    if a = 96 then 4000 else if a = 4004 then 1000 else if a = 4000 then 1036 else ex_mem a
  saved_hp := 4008
  forwarded := fun a => if a = 100 then true else false

/-- The example heap after the allocation of the two words of the copy of the
pair cell at 120. -/
def h0_pair_allocated : Heap where
  mem := ex_mem
  saved_hp := 4008
  forwarded := fun _ => false

/-- The example heap after the first iteration of the loop over the fields of
the pair cell: the list `[7]` has been copied to 4008 and slot 0 of the new
pair cell at 4000 holds the word 4009. -/
def h0_pair_first_field : Heap where
  mem := fun a =>
    if a = 4000 then 4009 else if a = 112 then 4009
    else if a = 4012 then 0 else if a = 4008 then 7 else ex_mem a
  saved_hp := 4016
  forwarded := fun a => if a = 112 then true else false

/-- The example heap after the loop over the two fields of the pair cell: the
list `[7]` has been copied once, to 4008, and both slots of the new pair cell
at 4000 hold the word 4009. -/
def h0_pair_fields : Heap where
  mem := fun a =>
    if a = 4004 then 4009 else if a = 4000 then 4009 else if a = 112 then 4009
    else if a = 4012 then 0 else if a = 4008 then 7 else ex_mem a
  saved_hp := 4016
  forwarded := fun a => if a = 112 then true else false

/-- The example heap after `copy` of the pair cell at 120. -/
def h0_pair_copied : Heap where
  mem := fun a =>
    if a = 120 then 4000 else if a = 4004 then 4009 else if a = 4000 then 4009
    else if a = 112 then 4009 else if a = 4012 then 0 else if a = 4008 then 7 else ex_mem a
  saved_hp := 4016
  forwarded := fun a => if a = 120 then true else if a = 112 then true else false

/-! ## A second runtime: tuples, arrays, closures, typeclass dictionaries -/

/-- A type constructor descriptor of variable arity with the given
representation. -/
def ex_tci_var (rep : MR_TypeCtorRep) : MR_TypeCtorInfo where
  MR_type_ctor_rep := rep
  MR_type_ctor_arity := 0
  MR_type_ctor_has_variable_arity := true
  MR_layout_du := ex_layout_list
  MR_layout_reserved_addr := ex_ra_layout
  MR_notag_functor_arg_type := 1000
  MR_layout_equiv := 1000

/-- The static descriptors of the second runtime: those of the first, and the
tuple constructor at 1040, the array constructor at 1044, the predicate
constructor at 1048, a `c_pointer` type at 1052 and the saved heap pointer
type at 1056. -/
def ex_type_ctor_info1 (a : Nat) : MR_TypeCtorInfo :=
  if a = 1040 then ex_tci_var .MR_TYPECTOR_REP_TUPLE
  else if a = 1044 then ex_tci .MR_TYPECTOR_REP_ARRAY 1 ex_layout_list
  else if a = 1048 then ex_tci_var .MR_TYPECTOR_REP_PRED
  else if a = 1052 then ex_tci .MR_TYPECTOR_REP_C_POINTER 0 ex_layout_list
  else if a = 1056 then ex_tci .MR_TYPECTOR_REP_HP 0 ex_layout_list
  else ex_type_ctor_info a

/-- The static base typeclass infos, of instances of a class with one type
parameter: at 2000 an instance with one unconstrained type variable, at 2004
an instance with two, elsewhere an instance without arguments. -/
def ex_base_typeclass_info (a : Nat) : MR_BaseTypeclassInfo :=
  if a = 2000 then
    { num_extra_instance_args := 1, num_instance_constraints := 0,
      num_superclasses := 0, num_params := 1 }
  else if a = 2004 then
    { num_extra_instance_args := 2, num_instance_constraints := 0,
      num_superclasses := 0, num_params := 1 }
  else
    { num_extra_instance_args := 0, num_instance_constraints := 0,
      num_superclasses := 0, num_params := 0 }

/-- The second runtime.  The pseudo type descriptor 1 is the first type
parameter, found in word 1 of the vector of type parameters (words of 4
bytes); every other pseudo type descriptor used here is ground. -/
def rt1 : Runtime where
  type_ctor_info := ex_type_ctor_info1
  MR_TYPEINFO_GET_TYPE_CTOR_INFO := fun mem ti => if mem ti = 0 then ti else mem ti
  closure_layout := fun _ => { MR_closure_arg_pseudo_type_info := fun _ => 1000 }
  base_typeclass_info := ex_base_typeclass_info
  MR_make_type_info_maybe_existq := fun mem type_params pti _ _ =>
    if pti = 1 then mem (type_params + 4) else pti
  MR_materialize_closure_type_params := fun _ _ => 0
  string_words := fun _ _ => 1

/-- The memory of the second example heap.  In the window `[100, 200)`: the
type descriptor `1036(int)` at 100, the tuple `{5, 6}` at 112, the array
`[8, 9]` at 120, a closure with the hidden argument 42 at 132, at 152 a
typeclass dictionary with one unconstrained type variable (base typeclass info
2000, the descriptors 1000 of the type variable and 1000 of the class
parameter), and at 168 one with two (base typeclass info 2004, the descriptors
1000 and 1000 of the type variables and the descriptor at 100 of the class
parameter).  Outside the window, the type descriptors of the empty tuple at
2100, of the tuple `{int, int}` at 2120, of `array(int)` at 2140 and of a
predicate at 2160. -/
def ex_mem1 (a : Nat) : Nat :=
  if a = 100 then 1036 else if a = 104 then 1000
  else if a = 112 then 5 else if a = 116 then 6
  else if a = 120 then 2 else if a = 124 then 8 else if a = 128 then 9
  else if a = 132 then 2200 else if a = 136 then 3000 else if a = 140 then 1
  else if a = 144 then 42
  else if a = 152 then 2000 else if a = 156 then 1000 else if a = 160 then 1000
  else if a = 168 then 2004 else if a = 172 then 1000 else if a = 176 then 1000
  else if a = 180 then 100
  else if a = 2100 then 1040
  else if a = 2120 then 1040 else if a = 2124 then 2 else if a = 2128 then 1000
  else if a = 2132 then 1000
  else if a = 2140 then 1044 else if a = 2144 then 1000
  else if a = 2160 then 1048
  else 0

/-- The second example heap: nothing forwarded yet, destination arena at 4000. -/
def k0 : Heap where
  mem := ex_mem1
  saved_hp := 4000
  forwarded := fun _ => false

/-- The second example heap after `copy` of the tuple `{5, 6}` at 112. -/
def k0_tuple_copied : Heap where
  mem := fun a =>
    if a = 112 then 4000 else if a = 4004 then 6 else if a = 4000 then 5 else ex_mem1 a
  saved_hp := 4008
  forwarded := fun a => if a = 112 then true else false

/-- The second example heap after `copy` of the array `[8, 9]` at 120. -/
def k0_array_copied : Heap where
  mem := fun a =>
    if a = 120 then 4000 else if a = 4008 then 9 else if a = 4004 then 8
    else if a = 4000 then 2 else ex_mem1 a
  saved_hp := 4012
  forwarded := fun a => if a = 120 then true else false

/-- The second example heap after `copy` of the closure at 132: the
forwarding record is in the code word of the original, at 136. -/
def k0_closure_copied : Heap where
  mem := fun a =>
    if a = 136 then 4000 else if a = 4012 then 42 else if a = 4004 then 3000
    else if a = 4008 then 1 else if a = 4000 then 2200 else ex_mem1 a
  saved_hp := 4016
  forwarded := fun a => if a = 132 then true else false

/-- The second example heap after `copy_typeclass_info` of the dictionary at
152: two words were allocated, at 4000 and 4004, and the type descriptor of
the class parameter, slot 2 of the new dictionary, was stored in the word at
4008, the heap pointer. -/
def k0_dict1_copied : Heap where
  mem := fun a =>
    if a = 148 then 4000 else if a = 4008 then 1000 else if a = 4004 then 1000
    else if a = 4000 then 2000 else ex_mem1 a
  saved_hp := 4008
  forwarded := fun a => if a = 152 then true else false

/-- The second example heap after `copy_typeclass_info` of the dictionary at
168: two words were allocated for the new dictionary, at 4000 and 4004; the
copy of the type descriptor at 100 was then allocated at 4008, over slot 2 of
the new dictionary, and slot 3 of the new dictionary is word 1 of that copy.
The stores are listed latest first; the second entries for 4012 and 4008 are
the stores that a later one has overwritten. -/
def k0_dict2_copied : Heap where
  mem := fun a =>
    if a = 164 then 4000 else if a = 4012 then 4008 else if a = 96 then 4008
    else if a = 4012 then 1000 else if a = 4008 then 1036 else if a = 4008 then 1000
    else if a = 4004 then 1000 else if a = 4000 then 2004 else ex_mem1 a
  saved_hp := 4016
  forwarded := fun a => if a = 168 then true else if a = 100 then true else false

/-- The first example heap after the loop over the argument of the type
descriptor at 100, before the forwarding record is left. -/
def h0_type_info_args : Heap where
  mem := fun a => if a = 4004 then 1000 else if a = 4000 then 1036 else ex_mem a
  saved_hp := 4008
  forwarded := fun _ => false

/-- The second example heap after the loop over the fields of the tuple at
112, before the forwarding record is left. -/
def k0_tuple_fields : Heap where
  mem := fun a => if a = 4004 then 6 else if a = 4000 then 5 else ex_mem1 a
  saved_hp := 4008
  forwarded := fun _ => false

/-- The second example heap after the loop over the elements of the array at
120, before the forwarding record is left. -/
def k0_array_elements : Heap where
  mem := fun a =>
    if a = 4008 then 9 else if a = 4004 then 8 else if a = 4000 then 2 else ex_mem1 a
  saved_hp := 4012
  forwarded := fun _ => false

/-- The second example heap after the loop over the hidden argument of the
closure at 132, before the forwarding record is left. -/
def k0_closure_args : Heap where
  mem := fun a =>
    if a = 4012 then 42 else if a = 4004 then 3000 else if a = 4008 then 1
    else if a = 4000 then 2200 else ex_mem1 a
  saved_hp := 4016
  forwarded := fun _ => false

/-! ## A third runtime: an existentially typed cell with a class constraint -/

/-- An existentially typed functor with one hidden typeclass dictionary and one
declared field, whose type is the existentially quantified type variable
(pseudo type descriptor 2) that the dictionary binds. -/
def ex_functor_constrained : MR_DuFunctorDesc where
  MR_du_functor_orig_arity := 1
  MR_du_functor_exist_info := some { MR_exist_typeinfos_plain := 0, MR_exist_tcis := 1 }
  MR_du_functor_arg_types := fun _ => 2
  MR_arg_type_may_contain_var := fun _ => true

/-- The static descriptors of the third runtime: those of the first, and at
1064 the DU type of the functor above. -/
def ex_type_ctor_info2 (a : Nat) : MR_TypeCtorInfo :=
  if a = 1064 then
    ex_tci .MR_TYPECTOR_REP_DU 0 (fun _ => ex_ptag .MR_SECTAG_NONE ex_functor_constrained)
  else ex_type_ctor_info a

/-- The base typeclass info of an instance with one unconstrained type
variable of a class with one type parameter, at every address. -/
def ex_base_typeclass_info2 (_a : Nat) : MR_BaseTypeclassInfo where
  num_extra_instance_args := 1
  num_instance_constraints := 0
  num_superclasses := 0
  num_params := 1

/-- Modelled from the spec: the function `MR_make_type_info_maybe_existq` is
not in the source tree.  A pseudo type descriptor is resolved into a ground
type descriptor: the variable 1 is bound by the type parameters of the
enclosing value (word 1 of `type_params`), the variable 2 is bound by the
typeclass dictionary stored in the first hidden field of `parent_data_ptr`,
where it is the type descriptor of the first type parameter of the class (the
slot after the unconstrained type variables, the instance constraints and the
superclasses), and every other pseudo type descriptor is ground.  Words have
4 bytes. -/
def ex_make_type_info_maybe_existq (base : Nat → MR_BaseTypeclassInfo) (mem : Nat → Nat)
    (type_params pti parent_data_ptr : Nat) (_fd : Option MR_DuFunctorDesc) : Nat :=
  if pti = 1 then mem (type_params + 4)
  else if pti = 2 then
    let dict := mem parent_data_ptr
    let b := base (mem dict)
    mem (dict + 4 * (b.num_extra_instance_args + b.num_superclasses + 1))
  else pti

/-- The third runtime. -/
def rt2 : Runtime where
  type_ctor_info := ex_type_ctor_info2
  MR_TYPEINFO_GET_TYPE_CTOR_INFO := fun mem ti => if mem ti = 0 then ti else mem ti
  closure_layout := fun _ => { MR_closure_arg_pseudo_type_info := fun _ => 1000 }
  base_typeclass_info := ex_base_typeclass_info2
  MR_make_type_info_maybe_existq := ex_make_type_info_maybe_existq ex_base_typeclass_info2
  MR_materialize_closure_type_params := fun _ _ => 0
  string_words := fun _ _ => 1

/-- The memory of the third example heap, with the window `[100, 200)`: at 104
the dictionary of an instance for the class parameter `list(int)` (base
typeclass info 2012, the descriptor 1000 of the unconstrained type variable,
the descriptor 1004 of the class parameter), at 120 the cons cell `[7]`, and
at 132 a cell of the constrained functor, whose hidden field is the dictionary
and whose declared field is the list `[7]` (the tagged word 121). -/
def ex_mem2 (a : Nat) : Nat :=
  if a = 104 then 2012 else if a = 108 then 1000 else if a = 112 then 1004
  else if a = 120 then 7 else if a = 124 then 0
  else if a = 132 then 104 else if a = 136 then 121
  else 0

/-- The third example heap: nothing forwarded yet, destination arena at 4000. -/
def k1 : Heap where
  mem := ex_mem2
  saved_hp := 4000
  forwarded := fun _ => false

/-- The third example heap after `copy` of the cell at 132: the new cell is at
4000, the new dictionary at 4008 with two allocated words, and the copy of
the list `[7]` was allocated at 4016, over slot 2 of the new dictionary.  The
stores are listed latest first; the second entry for 4016 is the store of the
class parameter descriptor 1004 that a later one has overwritten. -/
def k1_copied : Heap where
  mem := fun a =>
    if a = 132 then 4000 else if a = 4004 then 4017 else if a = 120 then 4017
    else if a = 4020 then 0 else if a = 4016 then 7 else if a = 4000 then 4008
    else if a = 100 then 4008 else if a = 4016 then 1004 else if a = 4012 then 1000
    else if a = 4008 then 2012 else ex_mem2 a
  saved_hp := 4024
  forwarded := fun a =>
    if a = 132 then true else if a = 120 then true else if a = 104 then true else false

/-- The third example heap after the copy of the hidden dictionary of the cell
at 132: the new cell has the two words at 4000, the new dictionary the two
words at 4008, and three words were stored at 4008. -/
def k1_hidden : Heap where
  mem := fun a =>
    if a = 4000 then 4008
    else if a = 100 then 4008 else if a = 4016 then 1004 else if a = 4012 then 1000
    else if a = 4008 then 2012 else ex_mem2 a
  saved_hp := 4016
  forwarded := fun a => if a = 104 then true else false

/-- The third example heap after the copy of the declared field of the cell at
132, the list `[7]`, into the two words at 4016. -/
def k1_fields : Heap where
  mem := fun a =>
    if a = 4004 then 4017 else if a = 120 then 4017
    else if a = 4020 then 0 else if a = 4016 then 7 else if a = 4000 then 4008
    else if a = 100 then 4008 else if a = 4016 then 1004 else if a = 4012 then 1000
    else if a = 4008 then 2012 else ex_mem2 a
  saved_hp := 4024
  forwarded := fun a => if a = 120 then true else if a = 104 then true else false

/-! ### A fourth runtime: a reserved-address type and ground aliases -/

/-- The layout of a list-like reserved-address type: the null word is the one
numeric reserved address, the address 3000 the one symbolic reserved address,
and the other functors are those of the list type. -/
def ex_ra_layout_list : MR_ReservedAddrTypeLayout where
  MR_ra_num_res_numeric_addrs := 1
  MR_ra_num_res_symbolic_addrs := 1
  MR_ra_res_symbolic_addrs := fun _ => 3000
  MR_ra_other_functors := ex_layout_list

/-- The static descriptors of the first runtime and three more: at 1068 a
reserved-address type with the layout above, at 1072 a ground equivalence type
and at 1076 a ground no-tag type, both standing for `list(int)` at 1004. -/
def ex_type_ctor_info3 (a : Nat) : MR_TypeCtorInfo :=
  if a = 1068 then
    { ex_tci .MR_TYPECTOR_REP_RESERVED_ADDR 0 ex_layout_list with
      MR_layout_reserved_addr := ex_ra_layout_list }
  else if a = 1072 then
    { ex_tci .MR_TYPECTOR_REP_EQUIV_GROUND 0 ex_layout_list with MR_layout_equiv := 1004 }
  else if a = 1076 then
    { ex_tci .MR_TYPECTOR_REP_NOTAG_GROUND 0 ex_layout_list with
      MR_notag_functor_arg_type := 1004 }
  else ex_type_ctor_info a

/-- The first runtime with the descriptors above. -/
def rt3 : Runtime := { rt0 with type_ctor_info := ex_type_ctor_info3 }

/-! ### A fifth runtime: a reference cell -/

/-- The static descriptors of the fifth runtime: those of the second, and at
1080 the constructor of the reference type, of arity 1. -/
def ex_type_ctor_info4 (a : Nat) : MR_TypeCtorInfo :=
  if a = 1080 then ex_tci .MR_TYPECTOR_REP_REFERENCE 1 ex_layout_list
  else ex_type_ctor_info1 a

/-- The fifth runtime. -/
def rt4 : Runtime := { rt1 with type_ctor_info := ex_type_ctor_info4 }

/-- The memory of the fifth example heap: that of the second, with a reference
cell at 188 whose referent is the tuple `{5, 6}` at 112, and outside the window
the type descriptor of a reference to `{int, int}` at 2180. -/
def ex_mem4 (a : Nat) : Nat :=
  if a = 188 then 112 else if a = 2180 then 1080 else if a = 2184 then 2120
  else ex_mem1 a

/-- The fifth example heap: nothing forwarded yet, destination arena at 4000. -/
def k2 : Heap where
  mem := ex_mem4
  saved_hp := 4000
  forwarded := fun _ => false

/-- The fifth example heap after the allocation of the one word of the new
reference cell. -/
def k2_ref_allocated : Heap where
  mem := ex_mem4
  saved_hp := 4004
  forwarded := fun _ => false

/-- The fifth example heap after the copy of the referent, the tuple at 112,
into the two words at 4004. -/
def k2_referent_copied : Heap where
  mem := fun a =>
    if a = 112 then 4004 else if a = 4008 then 6 else if a = 4004 then 5 else ex_mem4 a
  saved_hp := 4012
  forwarded := fun a => if a = 112 then true else false

/-- The fifth example heap after `copy` of the reference cell at 188. -/
def k2_ref_copied : Heap where
  mem := fun a =>
    if a = 188 then 4000 else if a = 4000 then 4004
    else if a = 112 then 4004 else if a = 4008 then 6 else if a = 4004 then 5 else ex_mem4 a
  saved_hp := 4012
  forwarded := fun a => if a = 188 then true else if a = 112 then true else false

/-! ### A call-pair table -/

/-- A call-pair table of a build with a 32-bit `unsigned long`: bucket 3, the
hash value of the pair `(8, 4)`, holds one node for this pair, whose count is
`ULONG_MAX`, and every other bucket is empty.  It is the table after
`2 ^ 32 - 1` calls of `prof_call_profile(8, 4)`. -/
def ex_call_table : Nat → List prof_call_node := fun i =>
  if i = 3 then [{ Callee := 8, Caller := 4, count := 4294967295 }] else []

/-- The table of a build with a 32-bit `unsigned long` after `2 ^ 32` calls of
`prof_call_profile(8, 4)`: the count of the one node has wrapped to 0. -/
def ex_call_table_wrapped : Nat → List prof_call_node := fun i =>
  if i = 3 then [{ Callee := 8, Caller := 4, count := 0 }] else []

/-! ### Tag configurations -/

/-- The 32-bit build with its two tag bits at the top of the word. -/
def c32_high : Config := { c32 with MR_HIGHTAGS := true }

/-- A build without reserved addresses and reserved objects. -/
def ex_list_config : ListConfig where
  MR_NUM_RESERVED_ADDRESSES := 0
  MR_NUM_RESERVED_OBJECTS := 0
  reserved_object_for_nil := 0
  MR_create1_nil := 0
  word_at := fun _ => 0

/-! ## Lemmas -/

@[simp] theorem word_addr_zero (c : Config) (p : Nat) : word_addr c p 0 = p := by
  simp [word_addr]

theorem word_addr_natCast (c : Config) (p i : Nat) :
    word_addr c p (i : Int) = p + i * c.sizeof_MR_Word := by
  unfold word_addr
  have : ((p : Int) + (i : Int) * (c.sizeof_MR_Word : Int)) = ((p + i * c.sizeof_MR_Word : Nat) : Int) := by
    push_cast; ring
  rw [this, Int.toNat_natCast]

theorem le_word_addr (c : Config) (p : Nat) (i : Int) (hi : 0 ≤ i) : p ≤ word_addr c p i := by
  obtain ⟨n, rfl⟩ := Int.eq_ofNat_of_zero_le hi
  rw [word_addr_natCast]; exact Nat.le_add_right _ _

theorem word_addr_succ_neg_one (c : Config) (p : Nat) :
    word_addr c (p + 1 * c.sizeof_MR_Word) (-1) = p := by
  unfold word_addr
  push_cast
  have : ((p : Int) + 1 * (c.sizeof_MR_Word : Int) + -1 * (c.sizeof_MR_Word : Int)) = (p : Int) := by ring
  rw [this, Int.toNat_natCast]

@[simp] theorem Outcome.bind_returns {α β : Type} (a : α) (k : α → Outcome β) :
    (Outcome.returns a).bind k = k a := rfl

theorem Outcome.bind_eq_returns {α β : Type} {x : Outcome α} {k : α → Outcome β} {b : β} :
    x.bind k = .returns b ↔ ∃ a, x = .returns a ∧ k a = .returns b := by
  cases x <;> simp [Outcome.bind]

theorem for_loop_invariant {σ : Type} (body : Nat → σ → Outcome σ) (Inv : Nat → σ → Prop)
    (hbody : ∀ i s s2, Inv i s → body i s = .returns s2 → Inv (i + 1) s2) :
    ∀ (n i : Nat) (s s2 : σ), Inv i s → for_loop body n i s = .returns s2 → Inv (i + n) s2 := by
  intro n
  induction n with
  | zero =>
    intro i s s2 hI hr
    simp only [for_loop, Outcome.returns.injEq] at hr
    subst hr; simpa using hI
  | succ n ih =>
    intro i s s2 hI hr
    simp only [for_loop] at hr
    obtain ⟨s1, h1, h2⟩ := Outcome.bind_eq_returns.mp hr
    have := ih (i + 1) s1 s2 (hbody i s s1 hI h1) h2
    have e : i + (n + 1) = i + 1 + n := by omega
    rw [e]; exact this

theorem Frame.refl {c : Config} {lo hi b : Nat} {h : Heap} (hb : b ≤ h.saved_hp) : Frame c lo hi b h h :=
  ⟨hb, le_rfl, fun _ hp => hp, fun p h1 h2 => by simp [h1] at h2, fun a ha => absurd rfl ha⟩

theorem Frame.trans {c : Config} {lo hi b : Nat} {h1 h2 h3 : Heap} (f12 : Frame c lo hi b h1 h2) (f23 : Frame c lo hi b h2 h3) :
    Frame c lo hi b h1 h3 := by
  refine ⟨f12.base_le, le_trans f12.hp_le f23.hp_le,
    fun p hp => f23.forwarded_mono p (f12.forwarded_mono p hp), ?_, ?_⟩
  · intro p h3p h1p
    by_cases h2p : h2.forwarded p = true
    · exact f12.forwarded_in_range p h2p h1p
    · exact f23.forwarded_in_range p h3p (by simpa using h2p)
  · intro a ha
    by_cases h12 : h2.mem a = h1.mem a
    · have : h3.mem a ≠ h2.mem a := by rw [h12]; exact ha
      rcases f23.mem_frame a this with hb | ⟨p, off, ho, hin, hf2, hf3, rfl⟩
      · exact Or.inl hb
      · refine Or.inr ⟨p, off, ho, hin, ?_, hf3, rfl⟩
        by_contra hc
        have := f12.forwarded_mono p (by simpa using hc)
        simp [this] at hf2
    · rcases f12.mem_frame a h12 with hb | ⟨p, off, ho, hin, hf1, hf2, rfl⟩
      · exact Or.inl hb
      · exact Or.inr ⟨p, off, ho, hin, hf1, f23.forwarded_mono p hf2, rfl⟩

theorem Frame.rebase {c : Config} {lo hi b : Nat} {h1 h2 : Heap} {b2 : Nat} (f : Frame c lo hi b2 h1 h2) (hb : b ≤ b2) :
    Frame c lo hi b h1 h2 :=
  ⟨le_trans hb f.base_le, f.hp_le, f.forwarded_mono, f.forwarded_in_range, fun a ha => by
    rcases f.mem_frame a ha with h | h
    · exact Or.inl (le_trans hb h)
    · exact Or.inr h⟩

/-- A call made from `h2` whose own effect is framed from its entry heap pointer. -/
theorem Frame.call {c : Config} {lo hi b : Nat} {h1 h2 h3 : Heap} (f12 : Frame c lo hi b h1 h2)
    (f23 : Frame c lo hi h2.saved_hp h2 h3) : Frame c lo hi b h1 h3 :=
  f12.trans (f23.rebase (le_trans f12.base_le f12.hp_le))

theorem Frame.store {c : Config} {lo hi b : Nat} {h1 h2 : Heap} (f : Frame c lo hi b h1 h2) (a v : Nat) (ha : b ≤ a) :
    Frame c lo hi b h1 (h2.store a v) := by
  refine ⟨f.base_le, f.hp_le, f.forwarded_mono, f.forwarded_in_range, ?_⟩
  intro x hx
  by_cases e : x = a
  · subst e; exact Or.inl ha
  · have : (h2.store a v).mem x = h2.mem x := by simp [Heap.store, e]
    rw [this] at hx
    exact f.mem_frame x hx

theorem Frame.alloc {c : Config} {lo hi b : Nat} {h1 h2 : Heap} (f : Frame c lo hi b h1 h2) (off n : Nat) :
    Frame c lo hi b h1 (MR_offset_incr_saved_hp c h2 off n).2 := by
  refine ⟨f.base_le, le_trans f.hp_le (by simp [MR_offset_incr_saved_hp]),
    f.forwarded_mono, f.forwarded_in_range, f.mem_frame⟩

theorem Frame.leave {c : Config} {lo hi b : Nat} {h1 h2 : Heap} (f : Frame c lo hi b h1 h2) (p : Nat) (off : Int) (v : Nat)
    (ho : is_forwarding_offset off) (hin : in_range lo hi p = true)
    (hnf : h1.forwarded p = false) :
    Frame c lo hi b h1 (leave_forwarding_pointer c h2 p off v) := by
  refine ⟨f.base_le, f.hp_le, ?_, ?_, ?_⟩
  · intro q hq
    simp only [leave_forwarding_pointer]
    split
    · rfl
    · exact f.forwarded_mono q hq
  · intro q hq hq1
    simp only [leave_forwarding_pointer] at hq
    split at hq
    · rename_i e; subst e; exact hin
    · exact f.forwarded_in_range q hq hq1
  · intro x hx
    by_cases e : x = word_addr c p off
    · exact Or.inr ⟨p, off, ho, hin, hnf, by simp [leave_forwarding_pointer], e⟩
    · have : (leave_forwarding_pointer c h2 p off v).mem x = h2.mem x := by
        simp [leave_forwarding_pointer, Heap.write, Heap.store, e]
      rw [this] at hx
      rcases f.mem_frame x hx with hb | ⟨q, off2, ho2, hin2, hf1, hf2, rfl⟩
      · exact Or.inl hb
      · refine Or.inr ⟨q, off2, ho2, hin2, hf1, ?_, rfl⟩
        simp only [leave_forwarding_pointer]
        split
        · rfl
        · exact hf2


theorem MR_body_zero_of_low (c : Config) (hlow : c.MR_HIGHTAGS = false) (w : Nat) :
    MR_body c w 0 = w := by
  simp [MR_body, hlow]

theorem MR_mktag_of_low (c : Config) (hlow : c.MR_HIGHTAGS = false) (t : Nat) :
    MR_mktag c t = t := by
  simp [MR_mktag, hlow]

theorem MR_field_zero_of_low (c : Config) (hlow : c.MR_HIGHTAGS = false) (p : Nat) (i : Int) :
    MR_field c 0 p i = word_addr c p i := by
  simp [MR_field, MR_body_zero_of_low c hlow]

theorem copy_slots_frame {c : Config} {lo hi b : Nat} (f : Nat → Heap → Result)
    (hf : FramedFn c lo hi f) (old new : Nat) (first : Int) (count : Nat)
    (hfirst : 0 ≤ first) (hnew : b ≤ new) (h0 h h2 : Heap) (fr : Frame c lo hi b h0 h)
    (hr : copy_slots c f old new first count h = .returns h2) : Frame c lo hi b h0 h2 := by
  unfold copy_slots at hr
  refine for_loop_invariant _ (fun _ s => Frame c lo hi b h0 s) ?_ count 0 h h2 fr hr
  intro k s s2 hI hb
  obtain ⟨r, h1, h2⟩ := Outcome.bind_eq_returns.mp hb
  simp only [Outcome.returns.injEq] at h2
  subst h2
  have := hf _ _ _ _ h1
  refine (hI.call this).store _ _ (le_trans hnew (le_word_addr c new _ ?_))
  omega

theorem RETURN_IF_OUT_OF_RANGE_some {c : Config} {lo hi tp p : Nat} {off : Int} {h : Heap}
    {r : Nat × Heap} (hr : RETURN_IF_OUT_OF_RANGE c lo hi tp p off h = some r) : r.2 = h := by
  unfold RETURN_IF_OUT_OF_RANGE at hr
  split at hr
  · simp only [Option.some.injEq] at hr; subst hr; rfl
  · split at hr
    · simp only [Option.some.injEq] at hr; subst hr; rfl
    · exact absurd hr (by simp)

theorem RETURN_IF_OUT_OF_RANGE_none {c : Config} {lo hi tp p : Nat} {off : Int} {h : Heap}
    (hr : RETURN_IF_OUT_OF_RANGE c lo hi tp p off h = none) :
    in_range lo hi p = true ∧ h.forwarded p = false := by
  unfold RETURN_IF_OUT_OF_RANGE if_forwarding_pointer at hr
  split at hr
  · exact absurd hr (by simp)
  · split at hr
    · exact absurd hr (by simp)
    · rename_i a b; simp at a b; exact ⟨a, b⟩

theorem Frame.of_return_if {c : Config} {lo hi tp p : Nat} {off : Int} {h : Heap}
    {r0 : Nat × Heap} {r : Nat} {h2 : Heap}
    (hr0 : RETURN_IF_OUT_OF_RANGE c lo hi tp p off h = some r0)
    (hr : Outcome.returns r0 = Outcome.returns (r, h2)) : Frame c lo hi h.saved_hp h h2 := by
  have := RETURN_IF_OUT_OF_RANGE_some hr0
  simp only [Outcome.returns.injEq] at hr
  subst hr
  simp only at this
  subst this
  exact Frame.refl le_rfl

theorem copy_type_info_body_framed {c : Config} {rt : Runtime} {lo hi : Nat}
    (self : Nat → Heap → Result) (hself : FramedFn c lo hi self) :
    FramedFn c lo hi (copy_type_info_body c rt self lo hi) := by
  intro ti h r h2 hr
  unfold copy_type_info_body at hr
  split at hr
  · rename_i r0 hr0
    exact Frame.of_return_if hr0 hr
  · rename_i hr0
    have hin := RETURN_IF_OUT_OF_RANGE_none hr0
    simp only at hr
    split at hr
    · simp only [Outcome.returns.injEq, Prod.mk.injEq] at hr
      obtain ⟨-, rfl⟩ := hr
      exact Frame.refl le_rfl
    · split at hr
      all_goals
        obtain ⟨h3, hl, hk⟩ := Outcome.bind_eq_returns.mp hr
        simp only [Outcome.returns.injEq, Prod.mk.injEq] at hk
        obtain ⟨-, rfl⟩ := hk
        refine Frame.leave ?_ _ _ _ (Or.inr (Or.inr (Or.inl rfl))) hin.1 hin.2
        refine copy_slots_frame self hself _ _ 1 _ (by omega) ?_ h _ h3 ?_ hl
      · simp only [MR_fill_in_var_arity_type_info, MR_offset_incr_saved_hp]
        exact le_trans (Nat.le_add_right _ _) (le_word_addr c _ 1 (by omega))
      · simp only [MR_fill_in_var_arity_type_info, Heap.write]
        refine Frame.store (Frame.store ((Frame.refl le_rfl).alloc _ _) _ _ ?_) _ _ ?_
        · simp [MR_offset_incr_saved_hp]
        · simp only [MR_offset_incr_saved_hp]
          exact le_trans (Nat.le_add_right _ _) (le_word_addr c _ 1 (by omega))
      · simp only [MR_fill_in_fixed_arity_type_info, MR_offset_incr_saved_hp]
        exact Nat.le_add_right _ _
      · simp only [MR_fill_in_fixed_arity_type_info, Heap.write]
        refine Frame.store ((Frame.refl le_rfl).alloc _ _) _ _ ?_
        simp [MR_offset_incr_saved_hp]

theorem copy_type_info_framed (c : Config) (rt : Runtime) (lo hi : Nat) :
    ∀ fuel, FramedFn c lo hi (copy_type_info c rt lo hi fuel) := by
  intro fuel
  induction fuel with
  | zero => intro x h r h2 hr; simp [copy_type_info] at hr
  | succ n ih =>
    intro x h r h2 hr
    exact copy_type_info_body_framed _ ih x h r h2 hr

theorem copy_typeclass_info_body_framed {c : Config} {rt : Runtime} {lo hi : Nat}
    (hwf : base_typeclass_infos_wf rt)
    (cti self : Nat → Heap → Result) (hcti : FramedFn c lo hi cti)
    (hself : FramedFn c lo hi self) :
    FramedFn c lo hi (copy_typeclass_info_body c rt cti self lo hi) := by
  intro tci h r h2 hr
  unfold copy_typeclass_info_body at hr
  split at hr
  · rename_i r0 hr0
    exact Frame.of_return_if hr0 hr
  · rename_i hr0
    have hin := RETURN_IF_OUT_OF_RANGE_none hr0
    simp only at hr
    obtain ⟨h3, hl3, hr⟩ := Outcome.bind_eq_returns.mp hr
    obtain ⟨h4, hl4, hr⟩ := Outcome.bind_eq_returns.mp hr
    obtain ⟨h5, hl5, hr⟩ := Outcome.bind_eq_returns.mp hr
    simp only [Outcome.returns.injEq, Prod.mk.injEq] at hr
    obtain ⟨-, rfl⟩ := hr
    have hnu := hwf (h.mem tci)
    have hnew : h.saved_hp ≤ (MR_offset_incr_saved_hp c h (if c.MR_NATIVE_GC = true then 1 else 0)
        ((if c.MR_NATIVE_GC = true then 1 else 0) + 1 +
          MR_typeclass_info_num_instance_constraints rt h tci +
          MR_typeclass_info_num_superclasses rt h tci +
          MR_typeclass_info_num_params rt h tci)).1 := by
      simp [MR_offset_incr_saved_hp]
    refine Frame.leave ?_ _ _ _ (Or.inr (Or.inr (Or.inr rfl))) hin.1 hin.2
    refine copy_slots_frame cti hcti _ _ _ _ ?_ hnew h _ h5 ?_ hl5
    · simp only [MR_typeclass_info_num_extra_instance_args,
        MR_typeclass_info_num_instance_constraints]
      omega
    refine copy_slots_frame self hself _ _ _ _ ?_ hnew h _ h4 ?_ hl4
    · simp only [MR_typeclass_info_num_extra_instance_args,
        MR_typeclass_info_num_instance_constraints]
      omega
    refine copy_slots_frame cti hcti _ _ 1 _ (by omega) hnew h _ h3 ?_ hl3
    simp only [Heap.write, word_addr_zero]
    exact Frame.store ((Frame.refl le_rfl).alloc _ _) _ _ hnew

theorem copy_typeclass_info_framed (c : Config) (rt : Runtime) (lo hi : Nat)
    (hwf : base_typeclass_infos_wf rt) :
    ∀ fuel, FramedFn c lo hi (copy_typeclass_info c rt lo hi fuel) := by
  intro fuel
  induction fuel with
  | zero => intro x h r h2 hr; simp [copy_typeclass_info] at hr
  | succ n ih =>
    intro x h r h2 hr
    exact copy_typeclass_info_body_framed hwf _ _ (copy_type_info_framed c rt lo hi n) ih
      x h r h2 hr

theorem copy_arg_with_framed {c : Config} {rt : Runtime} {lo hi : Nat}
    (cp : Nat → Nat → Heap → Result) (hcp : FramedCopy c lo hi cp)
    (pd data : Nat) (fd : Option MR_DuFunctorDesc) (tp pti : Nat) (h : Heap) (r : Nat)
    (h2 : Heap) (hr : copy_arg_with rt cp pd data fd tp pti h = .returns (r, h2)) :
    Frame c lo hi h.saved_hp h h2 :=
  hcp _ _ _ _ _ hr

theorem copy_du_hidden_frame {c : Config} {lo hi b : Nat} (hlow : c.MR_HIGHTAGS = false)
    (f : Nat → Heap → Result) (hf : FramedFn c lo hi f) (data_value new_data num : Nat)
    (hnew : b ≤ new_data) (h0 : Heap) (s s2 : Nat × Heap) (fr : Frame c lo hi b h0 s.2)
    (hr : copy_du_hidden c f data_value new_data num s = .returns s2) :
    Frame c lo hi b h0 s2.2 := by
  unfold copy_du_hidden at hr
  refine for_loop_invariant _ (fun _ s => Frame c lo hi b h0 s.2) ?_ num 0 s s2 fr hr
  intro k s s2 hI hb
  unfold copy_du_hidden_body at hb
  obtain ⟨r, h1, h2⟩ := Outcome.bind_eq_returns.mp hb
  simp only [Outcome.returns.injEq] at h2
  subst h2
  have := hf _ _ _ _ h1
  rw [MR_field_zero_of_low c hlow]
  exact (hI.call this).store _ _ (le_trans hnew (le_word_addr c new_data _ (by omega)))

theorem copy_du_arg_framed {c : Config} {rt : Runtime} {lo hi : Nat}
    (cp : Nat → Nat → Heap → Result) (hcp : FramedCopy c lo hi cp) (have_sectag : Bool)
    (type_info new_data : Nat) (fd : MR_DuFunctorDesc) (i w : Nat) (h : Heap) (r : Nat)
    (h2 : Heap)
    (hr : copy_du_arg c rt cp have_sectag type_info new_data fd i w h = .returns (r, h2)) :
    Frame c lo hi h.saved_hp h h2 := by
  unfold copy_du_arg at hr
  split at hr
  · exact hcp _ _ _ _ _ hr
  · exact hcp _ _ _ _ _ hr

theorem copy_du_args_frame {c : Config} {rt : Runtime} {lo hi b : Nat}
    (hlow : c.MR_HIGHTAGS = false)
    (cp : Nat → Nat → Heap → Result) (hcp : FramedCopy c lo hi cp) (have_sectag : Bool)
    (type_info data_value new_data : Nat) (fd : MR_DuFunctorDesc) (arity : Nat)
    (hnew : b ≤ new_data) (h0 : Heap) (s s2 : Nat × Heap) (fr : Frame c lo hi b h0 s.2)
    (hr : copy_du_args c rt cp have_sectag type_info data_value new_data fd arity s
      = .returns s2) :
    Frame c lo hi b h0 s2.2 := by
  unfold copy_du_args at hr
  refine for_loop_invariant _ (fun _ s => Frame c lo hi b h0 s.2) ?_ arity 0 s s2 fr hr
  intro k s s2 hI hb
  unfold copy_du_args_body at hb
  obtain ⟨r, h1, h2⟩ := Outcome.bind_eq_returns.mp hb
  simp only [Outcome.returns.injEq] at h2
  subst h2
  have := copy_du_arg_framed cp hcp _ _ _ _ _ _ _ _ _ h1
  rw [MR_field_zero_of_low c hlow]
  exact (hI.call this).store _ _ (le_trans hnew (le_word_addr c new_data _ (by omega)))

theorem MR_copy_size_slot_frame {c : Config} {lo hi b : Nat} (hlow : c.MR_HIGHTAGS = false)
    (h0 h : Heap) (base ptag data : Nat) (hb : b ≤ base) (fr : Frame c lo hi b h0 h) :
    Frame c lo hi b h0
      (MR_copy_size_slot c h 0 (base + MR_SIZE_SLOT_SIZE c * c.sizeof_MR_Word) ptag data) := by
  unfold MR_copy_size_slot
  split
  · rename_i e
    rw [MR_field_zero_of_low c hlow]
    simp only [MR_SIZE_SLOT_SIZE, e, if_true, word_addr_succ_neg_one]
    exact fr.store _ _ hb
  · exact fr

theorem MR_get_first_slot_frame {c : Config} {lo hi b : Nat} (hlow : c.MR_HIGHTAGS = false)
    (h0 h : Heap) (have_sectag : Bool) (new_data sectag : Nat) (hb : b ≤ new_data)
    (fr : Frame c lo hi b h0 h) :
    Frame c lo hi b h0 (MR_get_first_slot c have_sectag new_data sectag h).2 := by
  unfold MR_get_first_slot
  split
  · exact fr
  · rw [MR_field_zero_of_low c hlow, word_addr_zero]
    exact fr.store _ _ hb

theorem MR_du_new_cell_fst (c : Config) (have_sectag : Bool) (cell_size sectag ptag data : Nat)
    (h : Heap) :
    (MR_du_new_cell c have_sectag cell_size sectag ptag data h).1 =
      h.saved_hp + MR_SIZE_SLOT_SIZE c * c.sizeof_MR_Word := rfl

theorem MR_du_new_cell_le (c : Config) (have_sectag : Bool) (cell_size sectag ptag data : Nat)
    (h : Heap) :
    h.saved_hp ≤ (MR_du_new_cell c have_sectag cell_size sectag ptag data h).1 := by
  rw [MR_du_new_cell_fst]; exact Nat.le_add_right _ _

theorem MR_du_new_cell_frame {c : Config} {lo hi : Nat} (hlow : c.MR_HIGHTAGS = false)
    (have_sectag : Bool) (cell_size sectag ptag data : Nat) (h : Heap) :
    Frame c lo hi h.saved_hp h (MR_du_new_cell c have_sectag cell_size sectag ptag data h).2.2 := by
  unfold MR_du_new_cell
  refine MR_get_first_slot_frame hlow _ _ _ _ _ (Nat.le_add_right _ _) ?_
  refine MR_copy_size_slot_frame hlow _ _ _ _ _ le_rfl ?_
  exact (Frame.refl le_rfl).alloc _ _

theorem MR_du_cell_and_hidden_args_frame {c : Config} {lo hi : Nat}
    (hlow : c.MR_HIGHTAGS = false) (cti ctci : Nat → Heap → Result)
    (hcti : FramedFn c lo hi cti) (hctci : FramedFn c lo hi ctci)
    (have_sectag : Bool) (data ptag : Nat) (fd : MR_DuFunctorDesc) (sectag : Nat) (h : Heap)
    (p : Nat × (Nat × Heap))
    (hp : MR_du_cell_and_hidden_args c cti ctci have_sectag data ptag fd sectag h = .returns p) :
    p.1 = h.saved_hp + MR_SIZE_SLOT_SIZE c * c.sizeof_MR_Word ∧
      Frame c lo hi h.saved_hp h p.2.2 := by
  unfold MR_du_cell_and_hidden_args at hp
  dsimp only at hp
  split at hp
  · simp only [Outcome.returns.injEq] at hp
    subst hp
    exact ⟨MR_du_new_cell_fst c _ _ _ _ _ h, MR_du_new_cell_frame hlow _ _ _ _ _ h⟩
  · obtain ⟨s2, hs2, hp⟩ := Outcome.bind_eq_returns.mp hp
    obtain ⟨s3, hs3, hp⟩ := Outcome.bind_eq_returns.mp hp
    simp only [Outcome.returns.injEq] at hp
    subst hp
    dsimp only
    refine ⟨MR_du_new_cell_fst c _ _ _ _ _ h, ?_⟩
    refine copy_du_hidden_frame hlow ctci hctci _ _ _ ?_ h _ _ ?_ hs3
    · exact MR_du_new_cell_le c _ _ _ _ _ h
    refine copy_du_hidden_frame hlow cti hcti _ _ _ ?_ h _ _ ?_ hs2
    · exact MR_du_new_cell_le c _ _ _ _ _ h
    exact MR_du_new_cell_frame hlow _ _ _ _ _ h

theorem MR_handle_sectag_remote_or_none_framed {c : Config} {rt : Runtime} {lo hi : Nat}
    (hlow : c.MR_HIGHTAGS = false)
    (cp : Nat → Nat → Heap → Result) (cti ctci : Nat → Heap → Result)
    (hcp : FramedCopy c lo hi cp) (hcti : FramedFn c lo hi cti) (hctci : FramedFn c lo hi ctci)
    (have_sectag : Bool) (data ti ptag : Nat) (pl : MR_DuPtagLayout) (h : Heap) (r : Nat)
    (h2 : Heap)
    (hr : MR_handle_sectag_remote_or_none c rt cp cti ctci lo hi have_sectag data ti ptag pl h
      = .returns (r, h2)) :
    Frame c lo hi h.saved_hp h h2 := by
  unfold MR_handle_sectag_remote_or_none at hr
  rcases hr0 : RETURN_IF_OUT_OF_RANGE c lo hi data (MR_body c data ptag) 0 h with _ | r0
  case some =>
    simp only [hr0] at hr
    exact Frame.of_return_if hr0 hr
  case none =>
    have hin := RETURN_IF_OUT_OF_RANGE_none hr0
    simp only [hr0] at hr
    obtain ⟨p, hp, hr⟩ := Outcome.bind_eq_returns.mp hr
    obtain ⟨s, hs, hr⟩ := Outcome.bind_eq_returns.mp hr
    simp only [Outcome.returns.injEq, Prod.mk.injEq] at hr
    obtain ⟨-, rfl⟩ := hr
    refine Frame.leave ?_ _ _ _ (Or.inl rfl) hin.1 hin.2
    have key := MR_du_cell_and_hidden_args_frame hlow cti ctci hcti hctci _ _ _ _ _ h p hp
    exact copy_du_args_frame hlow cp hcp _ _ _ _ _ _ (by rw [key.1]; exact Nat.le_add_right _ _)
      h _ _ key.2 hs

theorem copy_words_frame {c : Config} {lo hi b : Nat} (old new : Nat) (hnew : b ≤ new)
    (h0 : Heap) : ∀ (n : Nat) (h : Heap), Frame c lo hi b h0 h →
      Frame c lo hi b h0 (copy_words c old new n h) := by
  intro n
  induction n with
  | zero => intro h fr; exact fr
  | succ n ih =>
    intro h fr
    simp only [copy_words, Heap.write]
    exact (ih h fr).store _ _ (le_trans hnew (le_word_addr c new _ (by omega)))

theorem MR_body_mktag_zero_of_low (c : Config) (hlow : c.MR_HIGHTAGS = false) (w : Nat) :
    MR_body c w (MR_mktag c 0) = w := by
  rw [MR_mktag_of_low c hlow, MR_body_zero_of_low c hlow]

theorem for_loop_frame {c : Config} {lo hi b : Nat} (body : Nat → Heap → Outcome Heap)
    (h0 : Heap)
    (hbody : ∀ i h h2, Frame c lo hi b h0 h → body i h = .returns h2 → Frame c lo hi b h0 h2)
    (n i : Nat) (h h2 : Heap) (fr : Frame c lo hi b h0 h)
    (hr : for_loop body n i h = .returns h2) : Frame c lo hi b h0 h2 :=
  for_loop_invariant body (fun _ s => Frame c lo hi b h0 s)
    (fun i s s2 hI hb => hbody i s s2 hI hb) n i h h2 fr hr

theorem copy_float_framed {c : Config} {lo hi : Nat} (hlow : c.MR_HIGHTAGS = false)
    (data : Nat) (h : Heap) (r : Nat) (h2 : Heap)
    (hr : copy_float c lo hi data h = .returns (r, h2)) : Frame c lo hi h.saved_hp h h2 := by
  unfold copy_float at hr
  split at hr
  · split at hr
    · exact absurd hr (by simp)
    · rw [MR_body_mktag_zero_of_low c hlow] at hr
      rcases hr0 : RETURN_IF_OUT_OF_RANGE c lo hi data data 0 h with _ | r0
      case some => simp only [hr0] at hr; exact Frame.of_return_if hr0 hr
      case none =>
        have hin := RETURN_IF_OUT_OF_RANGE_none hr0
        simp only [hr0, Outcome.returns.injEq, Prod.mk.injEq] at hr
        obtain ⟨-, rfl⟩ := hr
        refine Frame.leave ?_ _ _ _ (Or.inl rfl) hin.1 hin.2
        refine copy_words_frame _ _ ?_ h _ _ ((Frame.refl le_rfl).alloc _ _)
        simp [MR_offset_incr_saved_hp]
  · simp only [Outcome.returns.injEq, Prod.mk.injEq] at hr
    obtain ⟨-, rfl⟩ := hr
    exact Frame.refl le_rfl

theorem copy_string_framed {c : Config} {rt : Runtime} {lo hi : Nat}
    (data : Nat) (h : Heap) (r : Nat) (h2 : Heap)
    (hr : copy_string c rt lo hi data h = .returns (r, h2)) : Frame c lo hi h.saved_hp h h2 := by
  unfold copy_string at hr
  rcases hr0 : RETURN_IF_OUT_OF_RANGE c lo hi data data 0 h with _ | r0
  case some => simp only [hr0] at hr; exact Frame.of_return_if hr0 hr
  case none =>
    have hin := RETURN_IF_OUT_OF_RANGE_none hr0
    simp only [hr0, Outcome.returns.injEq, Prod.mk.injEq] at hr
    obtain ⟨-, rfl⟩ := hr
    refine Frame.leave ?_ _ _ _ (Or.inl rfl) hin.1 hin.2
    refine copy_words_frame _ _ ?_ h _ _ ((Frame.refl le_rfl).alloc _ _)
    simp [MR_offset_incr_saved_hp]

theorem copy_closure_framed {c : Config} {rt : Runtime} {lo hi : Nat}
    (hlow : c.MR_HIGHTAGS = false)
    (cp : Nat → Nat → Heap → Result) (hcp : FramedCopy c lo hi cp)
    (data : Nat) (h : Heap) (r : Nat) (h2 : Heap)
    (hr : copy_closure c rt cp lo hi data h = .returns (r, h2)) :
    Frame c lo hi h.saved_hp h h2 := by
  unfold copy_closure at hr
  split at hr
  · exact absurd hr (by simp)
  · rw [MR_body_mktag_zero_of_low c hlow] at hr
    rcases hr0 : RETURN_IF_OUT_OF_RANGE c lo hi data data CLOSURE_FORWARDING_PTR_OFFSET h
      with _ | r0
    case some => simp only [hr0] at hr; exact Frame.of_return_if hr0 hr
    case none =>
      have hin := RETURN_IF_OUT_OF_RANGE_none hr0
      simp only [hr0] at hr
      obtain ⟨h4, hl, hr⟩ := Outcome.bind_eq_returns.mp hr
      simp only [Outcome.returns.injEq, Prod.mk.injEq] at hr
      obtain ⟨-, rfl⟩ := hr
      refine Frame.leave ?_ _ _ _ (Or.inr (Or.inl rfl)) hin.1 hin.2
      have hnew : h.saved_hp ≤ (MR_offset_incr_saved_hp c h 0
          (h.read c data offsetof_MR_closure_num_hidden_args + 3)).1 := by
        simp [MR_offset_incr_saved_hp]
      refine for_loop_frame _ h ?_ _ _ _ h4 ?_ hl
      · intro i s s2 hI hb
        obtain ⟨r, h1, h2⟩ := Outcome.bind_eq_returns.mp hb
        simp only [Outcome.returns.injEq] at h2
        subst h2
        have := hcp _ _ _ _ _ h1
        exact (hI.call this).store _ _ (le_trans hnew (le_word_addr c _ _ (by omega)))
      · simp only [Heap.write]
        refine Frame.store (Frame.store (Frame.store ((Frame.refl le_rfl).alloc _ _) _ _ ?_)
          _ _ ?_) _ _ ?_ <;>
          exact le_trans hnew (le_word_addr c _ _ (by omega))

theorem copy_tuple_framed {c : Config} {lo hi : Nat}
    (hlow : c.MR_HIGHTAGS = false)
    (cp : Nat → Nat → Heap → Result) (hcp : FramedCopy c lo hi cp)
    (data ti : Nat) (h : Heap) (r : Nat) (h2 : Heap)
    (hr : copy_tuple c cp lo hi data ti h = .returns (r, h2)) :
    Frame c lo hi h.saved_hp h h2 := by
  unfold copy_tuple at hr
  split at hr
  · exact absurd hr (by simp)
  · rw [MR_body_mktag_zero_of_low c hlow] at hr
    rcases hr0 : RETURN_IF_OUT_OF_RANGE c lo hi data data 0 h with _ | r0
    case some => simp only [hr0] at hr; exact Frame.of_return_if hr0 hr
    case none =>
      have hin := RETURN_IF_OUT_OF_RANGE_none hr0
      simp only [hr0] at hr
      split at hr
      · simp only [Outcome.returns.injEq, Prod.mk.injEq] at hr
        obtain ⟨-, rfl⟩ := hr
        exact Frame.refl le_rfl
      · obtain ⟨h4, hl, hr⟩ := Outcome.bind_eq_returns.mp hr
        simp only [Outcome.returns.injEq, Prod.mk.injEq] at hr
        obtain ⟨-, rfl⟩ := hr
        refine Frame.leave ?_ _ _ _ (Or.inl rfl) hin.1 hin.2
        refine for_loop_frame _ h ?_ _ _ _ h4 ?_ hl
        · intro i s s2 hI hb
          obtain ⟨r, h1, h2⟩ := Outcome.bind_eq_returns.mp hb
          simp only [Outcome.returns.injEq] at h2
          subst h2
          have := hcp _ _ _ _ _ h1
          refine (hI.call this).store _ _ ?_
          simp only [MR_offset_incr_saved_hp]
          exact le_trans (Nat.le_add_right _ _) (le_word_addr c _ _ (by omega))
        · simp only [MR_offset_incr_saved_hp]
          exact MR_copy_size_slot_frame hlow _ _ _ _ _ le_rfl
            ((Frame.refl le_rfl).alloc (MR_SIZE_SLOT_SIZE c) _)

theorem copy_array_framed {c : Config} {rt : Runtime} {lo hi : Nat}
    (hlow : c.MR_HIGHTAGS = false)
    (cp : Nat → Nat → Heap → Result) (hcp : FramedCopy c lo hi cp)
    (data ti : Nat) (h : Heap) (r : Nat) (h2 : Heap)
    (hr : copy_array c rt cp lo hi data ti h = .returns (r, h2)) :
    Frame c lo hi h.saved_hp h h2 := by
  unfold copy_array at hr
  split at hr
  · exact absurd hr (by simp)
  · rw [MR_body_mktag_zero_of_low c hlow] at hr
    rcases hr0 : RETURN_IF_OUT_OF_RANGE c lo hi data data 0 h with _ | r0
    case some => simp only [hr0] at hr; exact Frame.of_return_if hr0 hr
    case none =>
      have hin := RETURN_IF_OUT_OF_RANGE_none hr0
      simp only [hr0] at hr
      obtain ⟨h4, hl, hr⟩ := Outcome.bind_eq_returns.mp hr
      simp only [Outcome.returns.injEq, Prod.mk.injEq] at hr
      obtain ⟨-, rfl⟩ := hr
      refine Frame.leave ?_ _ _ _ (Or.inl rfl) hin.1 hin.2
      have hnew : h.saved_hp ≤ (MR_offset_incr_saved_hp c h 0 (h.read c data 0 + 1)).1 := by
        simp [MR_offset_incr_saved_hp]
      refine for_loop_frame _ h ?_ _ _ _ h4 ?_ hl
      · intro i s s2 hI hb
        obtain ⟨r, h1, h2⟩ := Outcome.bind_eq_returns.mp hb
        simp only [Outcome.returns.injEq] at h2
        subst h2
        have := hcp _ _ _ _ _ h1
        exact (hI.call this).store _ _ (le_trans hnew (le_word_addr c _ _ (by omega)))
      · simp only [Heap.write]
        exact Frame.store ((Frame.refl le_rfl).alloc _ _) _ _
          (le_trans hnew (le_word_addr c _ _ (by omega)))

theorem copy_reference_framed {c : Config} {rt : Runtime} {lo hi : Nat}
    (hlow : c.MR_HIGHTAGS = false)
    (cp : Nat → Nat → Heap → Result) (hcp : FramedCopy c lo hi cp)
    (data ti : Nat) (h : Heap) (r : Nat) (h2 : Heap)
    (hr : copy_reference c rt cp lo hi data ti h = .returns (r, h2)) :
    Frame c lo hi h.saved_hp h h2 := by
  unfold copy_reference at hr
  split at hr
  · exact absurd hr (by simp)
  · rw [MR_body_mktag_zero_of_low c hlow] at hr
    rcases hr0 : RETURN_IF_OUT_OF_RANGE c lo hi data data 0 h with _ | r0
    case some => simp only [hr0] at hr; exact Frame.of_return_if hr0 hr
    case none =>
      have hin := RETURN_IF_OUT_OF_RANGE_none hr0
      simp only [hr0] at hr
      obtain ⟨r1, hl, hr⟩ := Outcome.bind_eq_returns.mp hr
      simp only [Outcome.returns.injEq, Prod.mk.injEq] at hr
      obtain ⟨-, rfl⟩ := hr
      refine Frame.leave ?_ _ _ _ (Or.inl rfl) hin.1 hin.2
      have f1 := hcp _ _ _ _ _ hl
      simp only [Heap.write]
      refine Frame.store (((Frame.refl le_rfl).alloc 0 1).call f1) _ _ ?_
      simp [MR_offset_incr_saved_hp]

theorem copy_du_type_framed {c : Config} {rt : Runtime} {lo hi : Nat}
    (hlow : c.MR_HIGHTAGS = false)
    (cp : Nat → Nat → Heap → Result) (cti ctci : Nat → Heap → Result)
    (hcp : FramedCopy c lo hi cp) (hcti : FramedFn c lo hi cti) (hctci : FramedFn c lo hi ctci)
    (L : MR_DuTypeLayout) (data ti : Nat) (h : Heap) (r : Nat) (h2 : Heap)
    (hr : copy_du_type c rt cp cti ctci lo hi L data ti h = .returns (r, h2)) :
    Frame c lo hi h.saved_hp h h2 := by
  unfold copy_du_type at hr
  dsimp only at hr
  split at hr
  · simp only [Outcome.returns.injEq, Prod.mk.injEq] at hr
    obtain ⟨-, rfl⟩ := hr
    exact Frame.refl le_rfl
  · exact MR_handle_sectag_remote_or_none_framed hlow cp cti ctci hcp hcti hctci _ _ _ _ _ _ _ _ hr
  · exact MR_handle_sectag_remote_or_none_framed hlow cp cti ctci hcp hcti hctci _ _ _ _ _ _ _ _ hr
  · exact absurd hr (by simp)
  · exact absurd hr (by simp)

theorem copy_reserved_addr_framed {c : Config} {rt : Runtime} {lo hi : Nat}
    (hlow : c.MR_HIGHTAGS = false)
    (cp : Nat → Nat → Heap → Result) (cti ctci : Nat → Heap → Result)
    (hcp : FramedCopy c lo hi cp) (hcti : FramedFn c lo hi cti) (hctci : FramedFn c lo hi ctci)
    (ra : MR_ReservedAddrTypeLayout) (data ti : Nat) (h : Heap) (r : Nat) (h2 : Heap)
    (hr : copy_reserved_addr c rt cp cti ctci lo hi ra data ti h = .returns (r, h2)) :
    Frame c lo hi h.saved_hp h h2 := by
  unfold copy_reserved_addr at hr
  split at hr
  · simp only [Outcome.returns.injEq, Prod.mk.injEq] at hr
    obtain ⟨-, rfl⟩ := hr
    exact Frame.refl le_rfl
  · split at hr
    · simp only [Outcome.returns.injEq, Prod.mk.injEq] at hr
      obtain ⟨-, rfl⟩ := hr
      exact Frame.refl le_rfl
    · exact copy_du_type_framed hlow cp cti ctci hcp hcti hctci _ _ _ _ _ _ hr

theorem Frame.of_returns_same {c : Config} {lo hi : Nat} {data r : Nat} {h h2 : Heap}
    (hr : (Outcome.returns (data, h) : Result) = .returns (r, h2)) :
    Frame c lo hi h.saved_hp h h2 := by
  simp only [Outcome.returns.injEq, Prod.mk.injEq] at hr
  obtain ⟨-, rfl⟩ := hr
  exact Frame.refl le_rfl

theorem copy_body_framed {c : Config} {rt : Runtime} {lo hi : Nat}
    (hlow : c.MR_HIGHTAGS = false)
    (cp : Nat → Nat → Heap → Result) (cti ctci : Nat → Heap → Result)
    (hcp : FramedCopy c lo hi cp) (hcti : FramedFn c lo hi cti) (hctci : FramedFn c lo hi ctci) :
    FramedCopy c lo hi (copy_body c rt cp cti ctci lo hi) := by
  intro data ti h r h2 hr
  unfold copy_body at hr
  simp only at hr
  split at hr
  · exact absurd hr (by simp)
  · split at hr
    all_goals first
      | exact Frame.of_returns_same hr
      | exact absurd hr (by simp)
      | exact copy_reserved_addr_framed hlow cp cti ctci hcp hcti hctci _ _ _ _ _ _ hr
      | exact copy_du_type_framed hlow cp cti ctci hcp hcti hctci _ _ _ _ _ _ hr
      | exact hcp _ _ _ _ _ hr
      | exact hcti _ _ _ _ hr
      | exact hctci _ _ _ _ hr
      | exact copy_float_framed hlow _ _ _ _ hr
      | exact copy_string_framed _ _ _ _ hr
      | exact copy_closure_framed hlow cp hcp _ _ _ _ hr
      | exact copy_tuple_framed hlow cp hcp _ _ _ _ _ hr
      | exact copy_array_framed hlow cp hcp _ _ _ _ _ hr
      | exact copy_reference_framed hlow cp hcp _ _ _ _ _ hr
      | (unfold copy_c_pointer at hr
         dsimp only at hr
         split at hr
         · exact absurd hr (by simp)
         · exact Frame.of_returns_same hr)
      | (unfold copy_hp at hr
         split at hr
         · exact absurd hr (by simp)
         · split at hr
           · exact absurd hr (by simp)
           · exact Frame.of_returns_same hr)
      | (unfold copy_foreign at hr
         dsimp only at hr
         split at hr
         · exact Frame.of_returns_same hr
         · exact absurd hr (by simp))

theorem copy_framed (c : Config) (rt : Runtime) (lo hi : Nat)
    (hlow : c.MR_HIGHTAGS = false) (hwf : base_typeclass_infos_wf rt) :
    ∀ fuel, FramedCopy c lo hi (copy c rt lo hi fuel) := by
  intro fuel
  induction fuel with
  | zero => intro x t h r h2 hr; simp [copy] at hr
  | succ n ih =>
    intro x t h r h2 hr
    exact copy_body_framed hlow _ _ _ ih (copy_type_info_framed c rt lo hi n)
      (copy_typeclass_info_framed c rt lo hi hwf n) x t h r h2 hr

theorem copy_succ (c : Config) (rt : Runtime) (lo hi fuel data ti : Nat) (h : Heap) :
    copy c rt lo hi (fuel + 1) data ti h =
      copy_body c rt (copy c rt lo hi fuel) (copy_type_info c rt lo hi fuel)
        (copy_typeclass_info c rt lo hi fuel) lo hi data ti h := rfl

theorem copy_reserved_addr_eq (c : Config) (rt : Runtime)
    (cp : Nat → Nat → Heap → Result) (cti ctci : Nat → Heap → Result)
    (lo hi : Nat) (ra : MR_ReservedAddrTypeLayout) (data ti : Nat) (h : Heap) :
    copy_reserved_addr c rt cp cti ctci lo hi ra data ti h =
      if is_reserved_address ra data then .returns (data, h)
      else copy_du_type c rt cp cti ctci lo hi ra.MR_ra_other_functors data ti h := by
  unfold copy_reserved_addr is_reserved_address
  by_cases h1 : data < ra.MR_ra_num_res_numeric_addrs
  · simp [h1]
  · simp only [h1, if_false, decide_False, Bool.false_or]

theorem copy_body_of_reaches_du_type (c : Config) (rt : Runtime)
    (cp : Nat → Nat → Heap → Result) (cti ctci : Nat → Heap → Result)
    (lo hi data ti : Nat) (h : Heap) (L : MR_DuTypeLayout)
    (hL : reaches_du_type (type_ctor_info_of rt h ti) data = some L) :
    copy_body c rt cp cti ctci lo hi data ti h =
      copy_du_type c rt cp cti ctci lo hi L data ti h := by
  unfold reaches_du_type type_ctor_info_of at hL
  unfold copy_body
  split at hL <;> rename_i e <;> simp only [MR_type_ctor_has_valid_rep, e] <;>
    simp_all [copy_reserved_addr_eq]

theorem copy_body_of_return_if_out_of_range (c : Config) (rt : Runtime)
    (cp : Nat → Nat → Heap → Result) (cti ctci : Nat → Heap → Result)
    (lo hi data ti : Nat) (h : Heap) (p : Nat) (off : Int) (r : Nat × Heap)
    (hs : forwarding_site c (type_ctor_info_of rt h ti) data = some (p, off))
    (hr : RETURN_IF_OUT_OF_RANGE c lo hi data p off h = some r) :
    copy_body c rt cp cti ctci lo hi data ti h = .returns r := by
  unfold forwarding_site at hs
  split at hs
  case h_8 hne1 hne2 hne3 hne4 hne5 hne6 hne7 =>
    split at hs
    · exact absurd hs (by simp)
    · rename_i L hL
      rw [copy_body_of_reaches_du_type c rt cp cti ctci lo hi data ti h L hL]
      unfold copy_du_type
      split at hs <;> rename_i e <;> simp only [e]
      · simp only [Option.some.injEq, Prod.mk.injEq] at hs
        obtain ⟨rfl, rfl⟩ := hs
        simp [MR_handle_sectag_remote_or_none, hr]
      · simp only [Option.some.injEq, Prod.mk.injEq] at hs
        obtain ⟨rfl, rfl⟩ := hs
        simp [MR_handle_sectag_remote_or_none, hr]
      · exact absurd hs (by simp)
  all_goals
    rename_i e
    unfold type_ctor_info_of at e
    unfold copy_body
    simp only [MR_type_ctor_has_valid_rep, e]
    first
      | (split at hs
         · rename_i ht
           simp only [Option.some.injEq, Prod.mk.injEq] at hs
           obtain ⟨rfl, rfl⟩ := hs
           simp [copy_float, copy_closure, copy_tuple, copy_array, copy_reference, ht, hr]
         · exact absurd hs (by simp))
      | (simp only [Option.some.injEq, Prod.mk.injEq] at hs
         obtain ⟨rfl, rfl⟩ := hs
         simp [copy_string, hr])

theorem MR_body_mktag_zero (c : Config) (data : Nat) (ht : MR_tag c data = 0)
    (hw : data < 2 ^ MR_WORDBITS c) : MR_body c data (MR_mktag c 0) = data := by
  by_cases hlow : c.MR_HIGHTAGS = false
  · exact MR_body_mktag_zero_of_low c hlow data
  · have hhigh : c.MR_HIGHTAGS = true := by simpa using hlow
    simp only [MR_tag, hhigh, if_true, MR_all_ones] at ht
    simp only [MR_body, hhigh, if_true, MR_all_ones]
    apply Nat.eq_of_testBit_eq
    intro i
    rw [Nat.testBit_and]
    by_cases hd : data.testBit i = true
    · have hi : i < MR_WORDBITS c := by
        by_contra hge
        have : data < 2 ^ i :=
          lt_of_lt_of_le hw (Nat.pow_le_pow_right (by decide) (by omega))
        rw [Nat.testBit_lt_two_pow this] at hd
        exact absurd hd (by simp)
      have h0 := congrArg (fun x => x.testBit i) ht
      simp only [Nat.testBit_and, Nat.testBit_xor, Nat.testBit_two_pow_sub_one,
        Nat.testBit_shiftRight, Nat.zero_testBit, hd, Bool.true_and, hi, decide_True] at h0
      simp only [Nat.testBit_shiftRight, Nat.testBit_two_pow_sub_one, hd, Bool.true_and]
      simpa using h0
    · simp only [Bool.not_eq_true] at hd
      simp [hd]

theorem leave_forwarding_pointer_forwarded (c : Config) (h : Heap) (p : Nat) (off : Int)
    (v : Nat) : (leave_forwarding_pointer c h p off v).forwarded p = true := by
  simp [leave_forwarding_pointer]

theorem leave_forwarding_pointer_read (c : Config) (h : Heap) (p : Nat) (off : Int)
    (v : Nat) : (leave_forwarding_pointer c h p off v).read c p off = v := by
  simp [leave_forwarding_pointer, Heap.read, Heap.write, Heap.store]

theorem leave_forwarding_pointer_saved_hp (c : Config) (h : Heap) (p : Nat) (off : Int)
    (v : Nat) : (leave_forwarding_pointer c h p off v).saved_hp = h.saved_hp := rfl

/-- The last step of a returning bind chain that ends in `leave_forwarding_pointer`. -/
theorem record_of_bind_leave {α : Type} {c : Config} {x : Outcome α} {new : α → Nat}
    {hp : α → Heap} {p : Nat} {off : Int} {N : Nat} {h2 : Heap}
    (hr : x.bind (fun s => .returns (new s, leave_forwarding_pointer c (hp s) p off (new s)))
      = .returns (N, h2)) :
    h2.forwarded p = true ∧ h2.read c p off = N := by
  obtain ⟨s, -, hk⟩ := Outcome.bind_eq_returns.mp hr
  simp only [Outcome.returns.injEq, Prod.mk.injEq] at hk
  obtain ⟨rfl, rfl⟩ := hk
  exact ⟨leave_forwarding_pointer_forwarded _ _ _ _ _, leave_forwarding_pointer_read _ _ _ _ _⟩

theorem MR_handle_sectag_remote_or_none_leaves_record {c : Config} {rt : Runtime} {lo hi : Nat}
    (cp : Nat → Nat → Heap → Result) (cti ctci : Nat → Heap → Result)
    (have_sectag : Bool) (data ti ptag : Nat) (pl : MR_DuPtagLayout) (h : Heap) (N : Nat)
    (h2 : Heap)
    (hr0 : RETURN_IF_OUT_OF_RANGE c lo hi data (MR_body c data ptag) 0 h = none)
    (hr : MR_handle_sectag_remote_or_none c rt cp cti ctci lo hi have_sectag data ti ptag pl h
      = .returns (N, h2)) :
    h2.forwarded (MR_body c data ptag) = true ∧ h2.read c (MR_body c data ptag) 0 = N := by
  unfold MR_handle_sectag_remote_or_none at hr
  simp only [hr0] at hr
  obtain ⟨p, -, hr⟩ := Outcome.bind_eq_returns.mp hr
  exact record_of_bind_leave hr

/-- After a returning call of `copy` on an object in range that was not yet
forwarded, the original carries its forwarding record and the record is the
returned word; the only exception is the tuple of arity 0, for which the null
word is returned and nothing changes. -/
theorem copy_body_leaves_record (c : Config) (rt : Runtime)
    (cp : Nat → Nat → Heap → Result) (cti ctci : Nat → Heap → Result)
    (lo hi data ti : Nat) (h : Heap) (p : Nat) (off : Int) (N : Nat) (h2 : Heap)
    (hs : forwarding_site c (type_ctor_info_of rt h ti) data = some (p, off))
    (hw : data < 2 ^ MR_WORDBITS c)
    (hr0 : RETURN_IF_OUT_OF_RANGE c lo hi data p off h = none)
    (hr : copy_body c rt cp cti ctci lo hi data ti h = .returns (N, h2)) :
    (h2.forwarded p = true ∧ h2.read c p off = N) ∨
    ((type_ctor_info_of rt h ti).MR_type_ctor_rep = .MR_TYPECTOR_REP_TUPLE ∧
      MR_TYPEINFO_GET_VAR_ARITY_ARITY c h ti = 0 ∧ N = 0 ∧ h2 = h) := by
  unfold forwarding_site at hs
  split at hs
  case h_8 hne1 hne2 hne3 hne4 hne5 hne6 hne7 =>
    split at hs
    · exact absurd hs (by simp)
    · rename_i L hL
      rw [copy_body_of_reaches_du_type c rt cp cti ctci lo hi data ti h L hL] at hr
      unfold copy_du_type at hr
      dsimp only at hr
      split at hs <;> rename_i e <;> try simp only [e] at hr
      · simp only [Option.some.injEq, Prod.mk.injEq] at hs
        obtain ⟨rfl, rfl⟩ := hs
        exact Or.inl (MR_handle_sectag_remote_or_none_leaves_record _ _ _ _ _ _ _ _ _ _ _ hr0 hr)
      · simp only [Option.some.injEq, Prod.mk.injEq] at hs
        obtain ⟨rfl, rfl⟩ := hs
        exact Or.inl (MR_handle_sectag_remote_or_none_leaves_record _ _ _ _ _ _ _ _ _ _ _ hr0 hr)
      · exact absurd hs (by simp)
  case h_5 e =>
    -- tuple
    have e2 := e
    unfold type_ctor_info_of at e
    unfold copy_body at hr
    simp only [MR_type_ctor_has_valid_rep, e, Bool.not_true, Bool.false_eq_true, if_false] at hr
    split at hs
    · rename_i ht
      simp only [Option.some.injEq, Prod.mk.injEq] at hs
      obtain ⟨rfl, rfl⟩ := hs
      rw [MR_body_mktag_zero c data ht hw] at hr0 ⊢
      simp only [copy_tuple, ht, MR_body_mktag_zero c data ht hw, hr0, ne_eq,
        not_true_eq_false, if_false] at hr
      split at hr
      · rename_i ha
        simp only [Outcome.returns.injEq, Prod.mk.injEq] at hr
        exact Or.inr ⟨e2, ha, hr.1.symm, hr.2.symm⟩
      · exact Or.inl (record_of_bind_leave hr)
    · exact absurd hs (by simp)
  all_goals
    rename_i e
    unfold type_ctor_info_of at e
    unfold copy_body at hr
    simp only [MR_type_ctor_has_valid_rep, e, Bool.not_true, Bool.false_eq_true, if_false] at hr
    first
      | (split at hs
         · rename_i ht
           simp only [Option.some.injEq, Prod.mk.injEq] at hs
           obtain ⟨rfl, rfl⟩ := hs
           have hb : MR_body c data (MR_mktag c 0) = data := by
             first
               | exact MR_body_mktag_zero c data ht hw
               | exact MR_body_mktag_zero c data ht.2 hw
           rw [hb] at hr0 ⊢
           simp only [copy_float, copy_closure, copy_array, copy_reference, ht, hb, hr0, ne_eq,
             not_true_eq_false, if_false, if_true] at hr
           first
             | exact Or.inl (record_of_bind_leave hr)
             | (simp only [Outcome.returns.injEq, Prod.mk.injEq] at hr
                obtain ⟨rfl, rfl⟩ := hr
                exact Or.inl ⟨leave_forwarding_pointer_forwarded _ _ _ _ _,
                  leave_forwarding_pointer_read _ _ _ _ _⟩)
         · exact absurd hs (by simp))
      | (simp only [Option.some.injEq, Prod.mk.injEq] at hs
         obtain ⟨rfl, rfl⟩ := hs
         simp only [copy_string, hr0, Outcome.returns.injEq, Prod.mk.injEq] at hr
         obtain ⟨rfl, rfl⟩ := hr
         exact Or.inl ⟨leave_forwarding_pointer_forwarded _ _ _ _ _,
           leave_forwarding_pointer_read _ _ _ _ _⟩)

theorem copy_body_tuple_arity_zero (c : Config) (rt : Runtime)
    (cp : Nat → Nat → Heap → Result) (cti ctci : Nat → Heap → Result)
    (lo hi data ti : Nat) (h : Heap) (p : Nat) (off : Int)
    (hs : forwarding_site c (type_ctor_info_of rt h ti) data = some (p, off))
    (hr0 : RETURN_IF_OUT_OF_RANGE c lo hi data p off h = none)
    (e : (type_ctor_info_of rt h ti).MR_type_ctor_rep = .MR_TYPECTOR_REP_TUPLE)
    (ha : MR_TYPEINFO_GET_VAR_ARITY_ARITY c h ti = 0) :
    copy_body c rt cp cti ctci lo hi data ti h = .returns (0, h) := by
  unfold forwarding_site at hs
  simp only [e] at hs
  split at hs
  · rename_i ht
    simp only [Option.some.injEq, Prod.mk.injEq] at hs
    obtain ⟨rfl, rfl⟩ := hs
    unfold type_ctor_info_of at e
    simp [copy_body, MR_type_ctor_has_valid_rep, e, copy_tuple, ht, hr0, ha]
  · exact absurd hs (by simp)

theorem RETURN_IF_OUT_OF_RANGE_of_forwarded {c : Config} {lo hi tp p : Nat} {off : Int}
    {h : Heap} (hin : in_range lo hi p = true) (hf : h.forwarded p = true) :
    RETURN_IF_OUT_OF_RANGE c lo hi tp p off h = some (h.read c p off, h) := by
  simp [RETURN_IF_OUT_OF_RANGE, if_forwarding_pointer, hin, hf]

theorem RETURN_IF_OUT_OF_RANGE_of_fresh {c : Config} {lo hi tp p : Nat} {off : Int}
    {h : Heap} (hin : in_range lo hi p = true) (hf : h.forwarded p = false) :
    RETURN_IF_OUT_OF_RANGE c lo hi tp p off h = none := by
  simp [RETURN_IF_OUT_OF_RANGE, if_forwarding_pointer, hin, hf]

theorem MR_copy_size_slot_forwarded (c : Config) (h : Heap) (a b d e : Nat) :
    (MR_copy_size_slot c h a b d e).forwarded = h.forwarded := by
  unfold MR_copy_size_slot; split <;> rfl

theorem MR_copy_size_slot_saved_hp (c : Config) (h : Heap) (a b d e : Nat) :
    (MR_copy_size_slot c h a b d e).saved_hp = h.saved_hp := by
  unfold MR_copy_size_slot; split <;> rfl

theorem MR_get_first_slot_fst (c : Config) (have_sectag : Bool) (new_data sectag : Nat)
    (h : Heap) :
    (MR_get_first_slot c have_sectag new_data sectag h).1 = if have_sectag then 1 else 0 := by
  unfold MR_get_first_slot; cases have_sectag <;> rfl

theorem MR_du_new_cell_cur_slot (c : Config) (have_sectag : Bool)
    (cell_size sectag ptag data : Nat) (h : Heap) :
    (MR_du_new_cell c have_sectag cell_size sectag ptag data h).2.1 =
      if have_sectag then 1 else 0 := by
  unfold MR_du_new_cell; exact MR_get_first_slot_fst _ _ _ _ _

theorem MR_du_new_cell_forwarded (c : Config) (have_sectag : Bool)
    (cell_size sectag ptag data : Nat) (h : Heap) :
    (MR_du_new_cell c have_sectag cell_size sectag ptag data h).2.2.forwarded = h.forwarded := by
  unfold MR_du_new_cell MR_get_first_slot
  cases have_sectag <;> simp [MR_copy_size_slot_forwarded, Heap.store, MR_offset_incr_saved_hp]

theorem MR_du_new_cell_saved_hp (c : Config) (have_sectag : Bool)
    (cell_size sectag ptag data : Nat) (h : Heap) :
    (MR_du_new_cell c have_sectag cell_size sectag ptag data h).2.2.saved_hp =
      h.saved_hp + cell_size * c.sizeof_MR_Word := by
  unfold MR_du_new_cell MR_get_first_slot
  cases have_sectag <;> simp [MR_copy_size_slot_saved_hp, Heap.store, MR_offset_incr_saved_hp]

theorem MR_du_new_cell_mem_of_lt {c : Config} (hlow : c.MR_HIGHTAGS = false)
    (have_sectag : Bool) (cell_size sectag ptag data : Nat) (h : Heap) (a : Nat)
    (ha : a < h.saved_hp) :
    (MR_du_new_cell c have_sectag cell_size sectag ptag data h).2.2.mem a = h.mem a := by
  by_contra hne
  have fr := @MR_du_new_cell_frame c 0 0 hlow have_sectag cell_size sectag ptag data h
  rcases fr.mem_frame a hne with hb | ⟨q, off, -, -, hf1, hf2, -⟩
  · omega
  · rw [MR_du_new_cell_forwarded] at hf2
    rw [hf1] at hf2
    exact absurd hf2 (by simp)

/-- A DU cell in range, not yet forwarded, whose first declared field has the
type of the cell and holds the word of the cell itself: `copy` re-enters the
cell before any forwarding record is written, at every depth.  `h0` is the
heap in which the cell is described; the runs considered start from heaps
that agree with `h0` below its heap pointer. -/
theorem copy_self_reference_out_of_fuel (c : Config) (rt : Runtime)
    (lo hi data ti : Nat) (L : MR_DuTypeLayout) (have_sectag : Bool) (sectag : Nat) (h0 : Heap)
    (hlow : c.MR_HIGHTAGS = false)
    (hdu : ∀ h : Heap, (∀ a, a < h0.saved_hp → h.mem a = h0.mem a) →
      reaches_du_type (type_ctor_info_of rt h ti) data = some L)
    (hlocn : (L (MR_tag c data)).MR_sectag_locn =
      if have_sectag then .MR_SECTAG_REMOTE else .MR_SECTAG_NONE)
    (hin : in_range lo hi (MR_body c data (MR_tag c data)) = true)
    (hexist : ((L (MR_tag c data)).MR_sectag_alternatives
      (if have_sectag then sectag else 0)).MR_du_functor_exist_info = none)
    (harity : 1 ≤ ((L (MR_tag c data)).MR_sectag_alternatives
      (if have_sectag then sectag else 0)).MR_du_functor_orig_arity)
    (hground : ((L (MR_tag c data)).MR_sectag_alternatives
      (if have_sectag then sectag else 0)).MR_arg_type_may_contain_var 0 = false)
    (hargty : ((L (MR_tag c data)).MR_sectag_alternatives
      (if have_sectag then sectag else 0)).MR_du_functor_arg_types 0 = ti)
    (hsec : have_sectag = true → h0.read c (MR_body c data (MR_tag c data)) 0 = sectag)
    (hself : h0.read c (MR_body c data (MR_tag c data))
      ((if have_sectag then 1 else 0 : Nat) : Int) = data)
    (hlt : word_addr c (MR_body c data (MR_tag c data))
      ((if have_sectag then 1 else 0 : Nat) : Int) < h0.saved_hp) :
    ∀ (fuel : Nat) (h : Heap),
      (∀ a, a < h0.saved_hp → h.mem a = h0.mem a) → h0.saved_hp ≤ h.saved_hp →
      h.forwarded (MR_body c data (MR_tag c data)) = false →
      copy c rt lo hi fuel data ti h = .out_of_fuel := by
  have hp_lt : MR_body c data (MR_tag c data) < h0.saved_hp :=
    lt_of_le_of_lt (le_word_addr c _ _ (by omega)) hlt
  intro fuel
  induction fuel with
  | zero => intro h _ _ _; rfl
  | succ n ih =>
    intro h hagree hhp hnf
    rw [copy_succ, copy_body_of_reaches_du_type c rt _ _ _ _ _ data ti h L (hdu h hagree)]
    have hr0 := @RETURN_IF_OUT_OF_RANGE_of_fresh c _ _ data _ 0 _ hin hnf
    have hsectag : (if (!have_sectag) = true then 0
        else h.read c (MR_body c data (MR_tag c data)) 0) = if have_sectag then sectag else 0 := by
      cases have_sectag
      · rfl
      · have := hsec rfl
        unfold Heap.read at this ⊢
        simp only [Bool.not_true, Bool.false_eq_true, if_false, if_true]
        rw [hagree _ (by rw [word_addr_zero]; exact hp_lt)]
        exact this
    have hmain : MR_handle_sectag_remote_or_none c rt (copy c rt lo hi n)
        (copy_type_info c rt lo hi n) (copy_typeclass_info c rt lo hi n) lo hi have_sectag
        data ti (MR_tag c data) (L (MR_tag c data)) h = .out_of_fuel := by
      unfold MR_handle_sectag_remote_or_none
      simp only [hr0, hsectag]
      unfold MR_du_cell_and_hidden_args
      simp only [hexist, Outcome.bind_returns]
      obtain ⟨m, hm⟩ : ∃ m, ((L (MR_tag c data)).MR_sectag_alternatives
          (if have_sectag then sectag else 0)).MR_du_functor_orig_arity = m + 1 :=
        ⟨_, (Nat.sub_add_cancel harity).symm⟩
      rw [hm]
      unfold copy_du_args
      simp only [for_loop, copy_du_args_body, MR_du_new_cell_cur_slot]
      unfold copy_du_arg
      simp only [hground, Bool.false_eq_true, if_false, hargty, MR_pseudo_type_info_is_ground]
      have hmem : ∀ a, a < h0.saved_hp → (MR_du_new_cell c have_sectag
          ((if (!have_sectag) = true then m + 1 else 1 + (m + 1)) + MR_SIZE_SLOT_SIZE c)
          (if have_sectag then sectag else 0) (MR_tag c data) data h).2.2.mem a = h0.mem a := by
        intro a ha
        rw [MR_du_new_cell_mem_of_lt hlow _ _ _ _ _ _ _ (lt_of_lt_of_le ha hhp)]
        exact hagree a ha
      have hread : Heap.read c (MR_du_new_cell c have_sectag
          ((if (!have_sectag) = true then m + 1 else 1 + (m + 1)) + MR_SIZE_SLOT_SIZE c)
          (if have_sectag then sectag else 0) (MR_tag c data) data h).2.2
          (MR_body c data (MR_tag c data)) ((if have_sectag then 1 else 0 : Nat) : Int) = data := by
        unfold Heap.read
        rw [hmem _ hlt]
        exact hself
      rw [hread, ih]
      · rfl
      · exact hmem
      · rw [MR_du_new_cell_saved_hp]
        exact le_trans hhp (Nat.le_add_right _ _)
      · rw [MR_du_new_cell_forwarded]; exact hnf
    unfold copy_du_type
    cases have_sectag
    · simp only [Bool.false_eq_true, if_false] at hlocn
      simp only [hlocn]
      exact hmain
    · simp only [if_true] at hlocn
      simp only [hlocn]
      exact hmain

theorem forwarding_site_of_reaches_du_type (c : Config) (tci : MR_TypeCtorInfo) (data : Nat)
    (L : MR_DuTypeLayout) (hL : reaches_du_type tci data = some L)
    (hlocn : (L (MR_tag c data)).MR_sectag_locn = .MR_SECTAG_REMOTE ∨
      (L (MR_tag c data)).MR_sectag_locn = .MR_SECTAG_NONE) :
    forwarding_site c tci data = some (MR_body c data (MR_tag c data), 0) := by
  have key : (match reaches_du_type tci data with
      | none => none
      | some du_type_layout =>
        match (du_type_layout (MR_tag c data)).MR_sectag_locn with
        | .MR_SECTAG_REMOTE => some (MR_body c data (MR_tag c data), (0 : Int))
        | .MR_SECTAG_NONE => some (MR_body c data (MR_tag c data), 0)
        | _ => none) = some (MR_body c data (MR_tag c data), 0) := by
    rw [hL]
    rcases hlocn with h1 | h1 <;> simp only [h1]
  unfold forwarding_site
  unfold reaches_du_type at hL
  split at hL
  case h_5 => exact absurd hL (by simp)
  all_goals
    rename_i e
    simp only [e]
    exact key

theorem for_loop_split {σ : Type} (body : Nat → σ → Outcome σ) :
    ∀ (n i : Nat) (s s2 : σ), for_loop body n i s = .returns s2 → ∀ k, k < n →
      ∃ sk sk2, for_loop body k i s = .returns sk ∧ body (i + k) sk = .returns sk2 ∧
        for_loop body (n - (k + 1)) (i + k + 1) sk2 = .returns s2 := by
  intro n
  induction n with
  | zero => intro i s s2 _ k hk; omega
  | succ n ih =>
    intro i s s2 hr k hk
    simp only [for_loop] at hr
    obtain ⟨s1, h1, h2⟩ := Outcome.bind_eq_returns.mp hr
    cases k with
    | zero =>
      refine ⟨s, s1, rfl, h1, ?_⟩
      simpa using h2
    | succ k =>
      obtain ⟨sk, sk2, ha, hb, hc⟩ := ih (i + 1) s1 s2 h2 k (by omega)
      refine ⟨sk, sk2, ?_, ?_, ?_⟩
      · simp only [for_loop, h1, Outcome.bind_returns]; exact ha
      · have e : i + (k + 1) = i + 1 + k := by omega
        rw [e]; exact hb
      · have e1 : n + 1 - (k + 1 + 1) = n - (k + 1) := by omega
        have e2 : i + (k + 1) + 1 = i + 1 + k + 1 := by omega
        rw [e1, e2]; exact hc

theorem records_below.mono {c : Config} {b : Nat} {h h2 k k2 : Heap}
    (hrec : records_below c b h h2)
    (hl : ∀ q, h.forwarded q = true → k.forwarded q = true)
    (hr : ∀ q, k2.forwarded q = true → h2.forwarded q = true) : records_below c b k k2 := by
  intro q off hq2 hq ho
  refine hrec q off (hr q hq2) ?_ ho
  by_contra hx
  have := hl q (by simpa using hx)
  rw [this] at hq
  exact absurd hq (by simp)

theorem leave_forwarding_pointer_forwarded_mono (c : Config) (h : Heap) (p : Nat) (off : Int)
    (v q : Nat) (hq : h.forwarded q = true) :
    (leave_forwarding_pointer c h p off v).forwarded q = true := by
  simp only [leave_forwarding_pointer]
  split
  · rfl
  · exact hq

theorem Frame.mem_eq_of_records_below {c : Config} {lo hi b : Nat} {hk hk2 : Heap}
    (fr : Frame c lo hi hk.saved_hp hk hk2) (hrec : records_below c b hk hk2)
    (a : Nat) (h1 : b ≤ a) (h2 : a < hk.saved_hp) : hk2.mem a = hk.mem a := by
  by_contra hne
  rcases fr.mem_frame a hne with hb | ⟨q, off, ho, -, hf1, hf2, rfl⟩
  · omega
  · have := hrec q off hf2 hf1 ho
    omega

theorem word_addr_natCast_inj {c : Config} (hws : 0 < c.sizeof_MR_Word) (p i j : Nat)
    (e : word_addr c p (i : Int) = word_addr c p (j : Int)) : i = j := by
  rw [word_addr_natCast, word_addr_natCast] at e
  have : i * c.sizeof_MR_Word = j * c.sizeof_MR_Word := by omega
  exact Nat.eq_of_mul_eq_mul_right hws this

theorem slot_loop_facts {c : Config} {lo hi new : Nat}
    (body : Nat → Nat × Heap → Outcome (Nat × Heap)) (hbody : SlotBody c lo hi new body)
    (b : Nat) :
    ∀ (n i : Nat) (s s2 : Nat × Heap), for_loop body n i s = .returns s2 →
      s2.1 = s.1 + n ∧ s.2.saved_hp ≤ s2.2.saved_hp ∧
      (∀ q, s.2.forwarded q = true → s2.2.forwarded q = true) ∧
      (records_below c b s.2 s2.2 → ∀ a, b ≤ a → a < s.2.saved_hp →
        (∀ j, s.1 ≤ j → a ≠ word_addr c new (j : Int)) → s2.2.mem a = s.2.mem a) := by
  intro n
  induction n with
  | zero =>
    intro i s s2 hr
    simp only [for_loop, Outcome.returns.injEq] at hr
    subst hr
    exact ⟨rfl, le_rfl, fun _ hq => hq, fun _ _ _ _ _ => rfl⟩
  | succ n ih =>
    intro i s s2 hr
    simp only [for_loop] at hr
    obtain ⟨s1, h1, h2⟩ := Outcome.bind_eq_returns.mp hr
    obtain ⟨r, fr, rfl⟩ := hbody i s s1 h1
    obtain ⟨e1, e2, e3, e4⟩ := ih (i + 1) _ s2 h2
    simp only [Heap.store] at e1 e2 e3 e4
    refine ⟨by rw [e1]; omega, le_trans fr.hp_le e2, fun q hq => e3 q (fr.forwarded_mono q hq),
      ?_⟩
    intro hrec a ha1 ha2 hne
    rw [e4 (hrec.mono fr.forwarded_mono (fun _ hq => hq)) a ha1
      (lt_of_lt_of_le ha2 fr.hp_le) (fun j hj => hne j (by omega))]
    simp only [hne s.1 le_rfl, if_false]
    exact fr.mem_eq_of_records_below (hrec.mono (fun _ hq => hq) e3) a ha1 ha2

theorem copy_du_hidden_slot_body {c : Config} {lo hi : Nat} (hlow : c.MR_HIGHTAGS = false)
    (f : Nat → Heap → Result) (hf : FramedFn c lo hi f) (data_value new_data : Nat) :
    SlotBody c lo hi new_data (copy_du_hidden_body c f data_value new_data) := by
  intro i s s2 hb
  unfold copy_du_hidden_body at hb
  obtain ⟨r, h1, h2⟩ := Outcome.bind_eq_returns.mp hb
  simp only [Outcome.returns.injEq] at h2
  subst h2
  rw [MR_field_zero_of_low c hlow]
  exact ⟨r, hf _ _ _ _ h1, rfl⟩

theorem copy_du_args_slot_body {c : Config} {rt : Runtime} {lo hi : Nat}
    (hlow : c.MR_HIGHTAGS = false)
    (cp : Nat → Nat → Heap → Result) (hcp : FramedCopy c lo hi cp) (have_sectag : Bool)
    (type_info data_value new_data : Nat) (fd : MR_DuFunctorDesc) :
    SlotBody c lo hi new_data
      (copy_du_args_body c rt cp have_sectag type_info data_value new_data fd) := by
  intro i s s2 hb
  unfold copy_du_args_body at hb
  obtain ⟨r, h1, h2⟩ := Outcome.bind_eq_returns.mp hb
  simp only [Outcome.returns.injEq] at h2
  subst h2
  rw [MR_field_zero_of_low c hlow]
  exact ⟨r, copy_du_arg_framed cp hcp _ _ _ _ _ _ _ _ _ h1, rfl⟩

theorem MR_du_new_cell_sectag {c : Config} (hlow : c.MR_HIGHTAGS = false)
    (cell_size sectag ptag data : Nat) (h : Heap) :
    (MR_du_new_cell c true cell_size sectag ptag data h).2.2.mem
      (h.saved_hp + MR_SIZE_SLOT_SIZE c * c.sizeof_MR_Word) = sectag := by
  simp [MR_du_new_cell, MR_get_first_slot, Heap.store, MR_field_zero_of_low c hlow,
    MR_offset_incr_saved_hp]

/-- What the first part of `MR_handle_sectag_remote_or_none` establishes: the
address of the new cell, the first slot of the declared fields, the heap
pointer past the cell, the frame, and the secondary tag in slot 0. -/
theorem MR_du_cell_and_hidden_args_facts {c : Config} {lo hi : Nat}
    (hlow : c.MR_HIGHTAGS = false) (hws : 0 < c.sizeof_MR_Word)
    (cti ctci : Nat → Heap → Result)
    (hcti : FramedFn c lo hi cti) (hctci : FramedFn c lo hi ctci)
    (have_sectag : Bool) (data ptag : Nat) (fd : MR_DuFunctorDesc) (sectag : Nat) (h : Heap)
    (p : Nat × (Nat × Heap))
    (hp : MR_du_cell_and_hidden_args c cti ctci have_sectag data ptag fd sectag h = .returns p) :
    p.1 = h.saved_hp + MR_SIZE_SLOT_SIZE c * c.sizeof_MR_Word ∧
    p.2.1 = (if have_sectag then 1 else 0) + MR_du_hidden_count fd ∧
    h.saved_hp + ((if have_sectag then 1 else 0) + fd.MR_du_functor_orig_arity
      + MR_SIZE_SLOT_SIZE c + MR_du_hidden_count fd) * c.sizeof_MR_Word ≤ p.2.2.saved_hp ∧
    (records_below c h.saved_hp h p.2.2 → have_sectag = true →
      p.2.2.mem (h.saved_hp + MR_SIZE_SLOT_SIZE c * c.sizeof_MR_Word) = sectag) := by
  unfold MR_du_cell_and_hidden_args at hp
  unfold MR_du_hidden_count
  dsimp only at hp
  split at hp
  · rename_i hex
    simp only [Outcome.returns.injEq] at hp
    subst hp
    simp only [hex, MR_du_new_cell_fst, MR_du_new_cell_cur_slot, MR_du_new_cell_saved_hp,
      Nat.add_zero, true_and]
    refine ⟨?_, ?_⟩
    · cases have_sectag <;> simp
    · intro _ hs; subst hs; exact MR_du_new_cell_sectag hlow _ _ _ _ _
  · rename_i ei hex
    obtain ⟨s2, hs2, hp⟩ := Outcome.bind_eq_returns.mp hp
    obtain ⟨s3, hs3, hp⟩ := Outcome.bind_eq_returns.mp hp
    simp only [Outcome.returns.injEq] at hp
    subst hp
    dsimp only
    unfold copy_du_hidden at hs2 hs3
    have f2 := slot_loop_facts _ (copy_du_hidden_slot_body hlow cti hcti _ _) h.saved_hp
      _ _ _ _ hs2
    have f3 := slot_loop_facts _ (copy_du_hidden_slot_body hlow ctci hctci _ _) h.saved_hp
      _ _ _ _ hs3
    simp only [MR_du_new_cell_cur_slot, MR_du_new_cell_saved_hp, MR_du_new_cell_fst] at f2 f3
    obtain ⟨a1, a2, a3, a4⟩ := f2
    obtain ⟨b1, b2, b3, b4⟩ := f3
    simp only [hex, MR_du_new_cell_fst, true_and]
    refine ⟨by rw [b1, a1]; omega, ?_, ?_⟩
    · refine le_trans ?_ (le_trans a2 b2)
      apply Nat.add_le_add_left
      apply Nat.mul_le_mul_right
      cases have_sectag <;> simp
    · intro hrec hs
      subst hs
      have a4 := a4 (hrec.mono (fun q hq => by rw [MR_du_new_cell_forwarded]; exact hq) b3)
      have b4 := b4 (hrec.mono
        (fun q hq => a3 q (by rw [MR_du_new_cell_forwarded]; exact hq)) (fun _ hq => hq))
      have hlt : h.saved_hp + MR_SIZE_SLOT_SIZE c * c.sizeof_MR_Word <
          h.saved_hp + (1 + fd.MR_du_functor_orig_arity + MR_SIZE_SLOT_SIZE c +
            (ei.MR_exist_typeinfos_plain + ei.MR_exist_tcis)) * c.sizeof_MR_Word := by
        apply Nat.add_lt_add_left
        apply Nat.mul_lt_mul_of_pos_right _ hws
        omega
      have hne : ∀ j : Nat, 1 ≤ j → h.saved_hp + MR_SIZE_SLOT_SIZE c * c.sizeof_MR_Word ≠
          word_addr c (h.saved_hp + MR_SIZE_SLOT_SIZE c * c.sizeof_MR_Word) (j : Int) := by
        intro j hj e
        rw [word_addr_natCast] at e
        have : 0 < j * c.sizeof_MR_Word := Nat.mul_pos (by omega) hws
        omega
      simp only [if_true, Bool.not_true, Bool.false_eq_true, if_false] at a4 b4 a1 a2 hlt
      rw [b4 _ (Nat.le_add_right _ _) (lt_of_lt_of_le (by simpa using hlt) a2)
        (fun j hj => hne j (by omega))]
      rw [a4 _ (Nat.le_add_right _ _) (by simpa using hlt) (fun j hj => hne j (by omega))]
      exact MR_du_new_cell_sectag hlow _ _ _ _ _

theorem MR_tag_of_low (c : Config) (hlow : c.MR_HIGHTAGS = false) (w : Nat) :
    MR_tag c w = w % 2 ^ c.MR_TAGBITS := by
  simp only [MR_tag, hlow, Bool.false_eq_true, if_false, Nat.one_shiftLeft,
    Nat.and_pow_two_sub_one_eq_mod]

theorem MR_tag_mkword_of_low (c : Config) (hlow : c.MR_HIGHTAGS = false) (new data : Nat)
    (hal : MR_tag c new = 0) : MR_tag c (MR_mkword (MR_tag c data) new) = MR_tag c data := by
  rw [MR_tag_of_low c hlow] at hal
  simp only [MR_tag_of_low c hlow, MR_mkword]
  rw [Nat.add_mod, hal, Nat.zero_add, Nat.mod_mod, Nat.mod_mod]

theorem MR_body_mkword_of_low (c : Config) (hlow : c.MR_HIGHTAGS = false) (t new : Nat) :
    MR_body c (MR_mkword t new) t = new := by
  simp [MR_body, hlow, MR_mkword]

/-- The visit of declared field `i` by the loop of
`MR_handle_sectag_remote_or_none`: the heap `si` before the visit, the word
`ri` returned for the field and the heap `hi2` after its copy, the rest of the
loop, and the fact that slot `k0 + i` of the new cell still holds `ri` when
the loop has ended. -/
theorem copy_du_args_visit {c : Config} {rt : Runtime} {lo hi : Nat}
    (hlow : c.MR_HIGHTAGS = false) (hws : 0 < c.sizeof_MR_Word)
    (cp : Nat → Nat → Heap → Result) (hcp : FramedCopy c lo hi cp) (have_sectag : Bool)
    (ti data_value new_data : Nat) (fd : MR_DuFunctorDesc) (n : Nat)
    (b : Nat) (hnew : b ≤ new_data)
    (s0 s : Nat × Heap) (hrec : records_below c b s0.2 s.2)
    (hcell : word_addr c new_data ((s0.1 + n : Nat) : Int) ≤ s0.2.saved_hp)
    (hr : copy_du_args c rt cp have_sectag ti data_value new_data fd n s0 = .returns s)
    (i : Nat) (hin : i < n) :
    ∃ (si : Heap) (ri : Nat) (hi2 : Heap),
      for_loop (copy_du_args_body c rt cp have_sectag ti data_value new_data fd) i 0 s0
        = .returns (s0.1 + i, si) ∧
      copy_du_arg c rt cp have_sectag ti new_data fd i
        (si.read c data_value ((s0.1 + i : Nat) : Int)) si = .returns (ri, hi2) ∧
      for_loop (copy_du_args_body c rt cp have_sectag ti data_value new_data fd)
        (n - (i + 1)) (i + 1)
        (s0.1 + i + 1, hi2.store (word_addr c new_data ((s0.1 + i : Nat) : Int)) ri)
        = .returns s ∧
      s.2.mem (word_addr c new_data ((s0.1 + i : Nat) : Int)) = ri := by
  unfold copy_du_args at hr
  obtain ⟨sk, sk2, ha, hb, hc⟩ := for_loop_split _ n 0 s0 s hr i hin
  have hbody := @copy_du_args_slot_body c rt lo hi hlow cp hcp have_sectag
    ti data_value new_data fd
  have fa := slot_loop_facts _ hbody b _ _ _ _ ha
  simp only [Nat.zero_add] at hb hc
  unfold copy_du_args_body at hb
  obtain ⟨r, hcall, hk⟩ := Outcome.bind_eq_returns.mp hb
  simp only [Outcome.returns.injEq] at hk
  subst hk
  have fc := slot_loop_facts _ hbody b _ _ _ _ hc
  have e1 : sk.1 = s0.1 + i := fa.1
  have hsk : sk = (s0.1 + i, sk.2) := by rw [← e1]
  rw [MR_field_zero_of_low c hlow] at hc fc
  rw [e1] at hcall hc fc
  refine ⟨sk.2, r.1, r.2, by rw [← hsk]; exact ha, hcall, hc, ?_⟩
  have frcall := copy_du_arg_framed cp hcp _ _ _ _ _ _ _ _ _ hcall
  have hlt : word_addr c new_data ((s0.1 + i : Nat) : Int) < sk.2.saved_hp := by
    refine lt_of_lt_of_le ?_ (le_trans hcell fa.2.1)
    rw [word_addr_natCast, word_addr_natCast]
    have : (s0.1 + i) * c.sizeof_MR_Word < (s0.1 + n) * c.sizeof_MR_Word :=
      Nat.mul_lt_mul_of_pos_right (by omega) hws
    omega
  rw [fc.2.2.2 (hrec.mono (fun q hq => frcall.forwarded_mono q (fa.2.2.1 q hq))
      (fun _ hq => hq)) _ (le_trans hnew (le_word_addr c _ _ (by omega)))
    (lt_of_lt_of_le hlt frcall.hp_le)
    (fun j hj e => by
      have := word_addr_natCast_inj hws _ _ _ e
      simp only at hj
      omega)]
  simp [Heap.store]

theorem copy_du_args_loop_frame {c : Config} {rt : Runtime} {lo hi b : Nat}
    (hlow : c.MR_HIGHTAGS = false)
    (cp : Nat → Nat → Heap → Result) (hcp : FramedCopy c lo hi cp) (have_sectag : Bool)
    (type_info data_value new_data : Nat) (fd : MR_DuFunctorDesc) (n j : Nat)
    (hnew : b ≤ new_data) (h0 : Heap) (s s2 : Nat × Heap) (fr : Frame c lo hi b h0 s.2)
    (hr : for_loop (copy_du_args_body c rt cp have_sectag type_info data_value new_data fd)
      n j s = .returns s2) :
    Frame c lo hi b h0 s2.2 := by
  refine for_loop_invariant _ (fun _ s => Frame c lo hi b h0 s.2) ?_ n j s s2 fr hr
  intro k s s2 hI hb
  unfold copy_du_args_body at hb
  obtain ⟨r, h1, h2⟩ := Outcome.bind_eq_returns.mp hb
  simp only [Outcome.returns.injEq] at h2
  subst h2
  have := copy_du_arg_framed cp hcp _ _ _ _ _ _ _ _ _ h1
  rw [MR_field_zero_of_low c hlow]
  exact (hI.call this).store _ _ (le_trans hnew (le_word_addr c new_data _ (by omega)))

theorem leave_forwarding_pointer_mem_of_ne (c : Config) (h : Heap) (p : Nat) (off : Int)
    (v a : Nat) (hne : a ≠ word_addr c p off) :
    (leave_forwarding_pointer c h p off v).mem a = h.mem a := by
  simp [leave_forwarding_pointer, Heap.write, Heap.store, hne]

/-- The unfolding of `copy` on a DU cell in range that is not yet forwarded. -/
theorem copy_du_cell_eq (c : Config) (rt : Runtime) (lo hi fuel data ti : Nat) (h : Heap)
    (L : MR_DuTypeLayout) (have_sectag : Bool)
    (hdu : reaches_du_type (type_ctor_info_of rt h ti) data = some L)
    (hlocn : (L (MR_tag c data)).MR_sectag_locn =
      if have_sectag then .MR_SECTAG_REMOTE else .MR_SECTAG_NONE)
    (hin : in_range lo hi (MR_body c data (MR_tag c data)) = true)
    (hfresh : h.forwarded (MR_body c data (MR_tag c data)) = false) :
    copy c rt lo hi (fuel + 1) data ti h =
      (MR_du_cell_and_hidden_args c (copy_type_info c rt lo hi fuel)
          (copy_typeclass_info c rt lo hi fuel) have_sectag data (MR_tag c data)
          ((L (MR_tag c data)).MR_sectag_alternatives
            (if have_sectag then h.read c (MR_body c data (MR_tag c data)) 0 else 0))
          (if have_sectag then h.read c (MR_body c data (MR_tag c data)) 0 else 0) h).bind
        fun p =>
        (copy_du_args c rt (copy c rt lo hi fuel) have_sectag ti
            (MR_body c data (MR_tag c data)) p.1
            ((L (MR_tag c data)).MR_sectag_alternatives
              (if have_sectag then h.read c (MR_body c data (MR_tag c data)) 0 else 0))
            ((L (MR_tag c data)).MR_sectag_alternatives
              (if have_sectag then h.read c (MR_body c data (MR_tag c data)) 0
                else 0)).MR_du_functor_orig_arity
            p.2).bind fun s =>
          .returns (MR_mkword (MR_tag c data) p.1,
            leave_forwarding_pointer c s.2 (MR_body c data (MR_tag c data)) 0
              (MR_mkword (MR_tag c data) p.1)) := by
  rw [copy_succ, copy_body_of_reaches_du_type c rt _ _ _ _ _ data ti h L hdu]
  have hr0 := @RETURN_IF_OUT_OF_RANGE_of_fresh c lo hi data _ 0 _ hin hfresh
  unfold copy_du_type
  cases have_sectag
  · simp only [Bool.false_eq_true, if_false] at hlocn ⊢
    simp only [hlocn, MR_handle_sectag_remote_or_none, hr0, Bool.not_false, if_true]
  · simp only [if_true] at hlocn ⊢
    simp only [hlocn, MR_handle_sectag_remote_or_none, hr0, Bool.not_true, Bool.false_eq_true,
      if_false]

/-- The copy of a DU cell in range that is not yet forwarded, given that the
copies of its hidden arguments and of its declared fields return: the result,
the new cell, and for each declared field the visit of the loop that copied
it. -/
theorem copy_du_cell_core (c : Config) (rt : Runtime)
    (lower_limit upper_limit fuel data type_info : Nat) (h : Heap)
    (du_type_layout : MR_DuTypeLayout) (have_sectag : Bool)
    (ptag data_value sectag new_data first_slot : Nat) (functor_desc : MR_DuFunctorDesc)
    (p : Nat × (Nat × Heap)) (s : Nat × Heap) (h2 : Heap)
    (hlow : c.MR_HIGHTAGS = false) (hwf : base_typeclass_infos_wf rt)
    (hws : 0 < c.sizeof_MR_Word)
    (hdu : reaches_du_type (type_ctor_info_of rt h type_info) data = some du_type_layout)
    (hptag : ptag = MR_tag c data)
    (hlocn : (du_type_layout ptag).MR_sectag_locn =
      if have_sectag then .MR_SECTAG_REMOTE else .MR_SECTAG_NONE)
    (hvalue : data_value = MR_body c data ptag)
    (hin : in_range lower_limit upper_limit data_value = true)
    (hfresh : h.forwarded data_value = false)
    (hsectag : sectag = if have_sectag then h.read c data_value 0 else 0)
    (hfunctor : functor_desc = (du_type_layout ptag).MR_sectag_alternatives sectag)
    (hnew : new_data = h.saved_hp + MR_SIZE_SLOT_SIZE c * c.sizeof_MR_Word)
    (halign : MR_tag c new_data = 0)
    (hfirst : first_slot = (if have_sectag then 1 else 0) + MR_du_hidden_count functor_desc)
    (hhidden : MR_du_cell_and_hidden_args c
      (copy_type_info c rt lower_limit upper_limit fuel)
      (copy_typeclass_info c rt lower_limit upper_limit fuel)
      have_sectag data ptag functor_desc sectag h = .returns p)
    (hargs : copy_du_args c rt (copy c rt lower_limit upper_limit fuel) have_sectag type_info
      data_value p.1 functor_desc functor_desc.MR_du_functor_orig_arity p.2 = .returns s)
    (hfinal : h2 = leave_forwarding_pointer c s.2 data_value 0 (MR_mkword ptag new_data))
    (hrec : records_below c h.saved_hp h h2) :
    copy c rt lower_limit upper_limit (fuel + 1) data type_info h
      = .returns (MR_mkword ptag new_data, h2) ∧
    MR_tag c (MR_mkword ptag new_data) = ptag ∧
    MR_body c (MR_mkword ptag new_data) ptag = new_data ∧
    new_data ≠ data_value ∧
    h.saved_hp ≤ new_data ∧
    word_addr c new_data ((first_slot + functor_desc.MR_du_functor_orig_arity : Nat) : Int)
      ≤ h2.saved_hp ∧
    (have_sectag = true → h2.read c new_data 0 = h.read c data_value 0) ∧
    (∀ i, i < functor_desc.MR_du_functor_orig_arity →
      ∃ (si : Heap) (ri : Nat) (hi : Heap),
        Frame c lower_limit upper_limit h.saved_hp h si ∧
        for_loop (copy_du_args_body c rt (copy c rt lower_limit upper_limit fuel) have_sectag
          type_info data_value new_data functor_desc) i 0 p.2 = .returns (first_slot + i, si) ∧
        for_loop (copy_du_args_body c rt (copy c rt lower_limit upper_limit fuel) have_sectag
          type_info data_value new_data functor_desc)
          (functor_desc.MR_du_functor_orig_arity - (i + 1)) (i + 1)
          (first_slot + i + 1, hi.store (word_addr c new_data ((first_slot + i : Nat) : Int)) ri)
          = .returns s ∧
        copy_du_arg c rt (copy c rt lower_limit upper_limit fuel) have_sectag type_info
          new_data functor_desc i (si.read c data_value ((first_slot + i : Nat) : Int)) si
          = .returns (ri, hi) ∧
        h2.read c new_data ((first_slot + i : Nat) : Int) = ri ∧
        (no_record_inside c h s.2 data_value
            (first_slot + functor_desc.MR_du_functor_orig_arity) →
          word_addr c data_value
            ((first_slot + functor_desc.MR_du_functor_orig_arity : Nat) : Int) ≤ h.saved_hp →
          si.read c data_value ((first_slot + i : Nat) : Int)
            = h.read c data_value ((first_slot + i : Nat) : Int))) := by
  subst hptag hvalue hsectag hfunctor hfinal
  have hcti := copy_type_info_framed c rt lower_limit upper_limit fuel
  have hctci := copy_typeclass_info_framed c rt lower_limit upper_limit hwf fuel
  have hcp := copy_framed c rt lower_limit upper_limit hlow hwf fuel
  obtain ⟨e1, e2, e3, e4⟩ := MR_du_cell_and_hidden_args_facts hlow hws _ _ hcti hctci
    have_sectag data _ _ _ h p hhidden
  have frp := (MR_du_cell_and_hidden_args_frame hlow _ _ hcti hctci
    have_sectag data _ _ _ h p hhidden).2
  rw [← hnew] at e1 e4
  rw [← hfirst] at e2
  have hargs0 := hargs
  rw [e1] at hargs
  have hdv_lt : MR_body c data (MR_tag c data) < h.saved_hp := by
    have := hrec _ 0 (leave_forwarding_pointer_forwarded c _ _ _ _) hfresh (Or.inl rfl)
    rwa [word_addr_zero] at this
  have hnew_le : h.saved_hp ≤ new_data := by rw [hnew]; exact Nat.le_add_right _ _
  have hcellp : word_addr c new_data ((first_slot + ((du_type_layout (MR_tag c data)).MR_sectag_alternatives
      (if have_sectag then h.read c (MR_body c data (MR_tag c data)) 0 else 0)).MR_du_functor_orig_arity
      : Nat) : Int) ≤ p.2.2.saved_hp := by
    refine le_trans (le_of_eq ?_) e3
    rw [word_addr_natCast, hnew, hfirst]
    ring
  have hbody := @copy_du_args_slot_body c rt lower_limit upper_limit hlow
    _ hcp have_sectag type_info (MR_body c data (MR_tag c data)) new_data
    ((du_type_layout (MR_tag c data)).MR_sectag_alternatives
      (if have_sectag then h.read c (MR_body c data (MR_tag c data)) 0 else 0))
  have hargs2 := hargs
  unfold copy_du_args at hargs2
  have fl := slot_loop_facts _ hbody h.saved_hp _ _ _ _ hargs2
  have hrec_ps : records_below c h.saved_hp p.2.2 s.2 :=
    hrec.mono frp.forwarded_mono
      (fun q hq => leave_forwarding_pointer_forwarded_mono c _ _ _ _ q hq)
  have hrec_hp : records_below c h.saved_hp h p.2.2 :=
    hrec.mono (fun _ hq => hq)
      (fun q hq => leave_forwarding_pointer_forwarded_mono c _ _ _ _ q (fl.2.2.1 q hq))
  have hleave : ∀ a, h.saved_hp ≤ a →
      (leave_forwarding_pointer c s.2 (MR_body c data (MR_tag c data)) 0
        (MR_mkword (MR_tag c data) new_data)).mem a = s.2.mem a := by
    intro a ha
    apply leave_forwarding_pointer_mem_of_ne
    rw [word_addr_zero]; omega
  refine ⟨?_, MR_tag_mkword_of_low c hlow new_data data halign,
    MR_body_mkword_of_low c hlow _ _, by omega, hnew_le, ?_, ?_, ?_⟩
  · rw [copy_du_cell_eq c rt lower_limit upper_limit fuel data type_info h du_type_layout
      have_sectag hdu hlocn hin hfresh]
    rw [hhidden, Outcome.bind_returns, hargs0, Outcome.bind_returns, e1]
  · rw [leave_forwarding_pointer_saved_hp]
    exact le_trans hcellp fl.2.1
  · intro hs
    subst hs
    simp only [if_true] at e2 hcellp hfirst
    have hfs : 1 ≤ first_slot := by omega
    unfold Heap.read
    rw [word_addr_zero, word_addr_zero, hleave _ hnew_le]
    have hlt : new_data < p.2.2.saved_hp := by
      refine lt_of_lt_of_le ?_ hcellp
      rw [word_addr_natCast]
      have : 0 < (first_slot + ((du_type_layout (MR_tag c data)).MR_sectag_alternatives
          (h.read c (MR_body c data (MR_tag c data)) 0)).MR_du_functor_orig_arity)
          * c.sizeof_MR_Word := Nat.mul_pos (by omega) hws
      omega
    rw [fl.2.2.2 hrec_ps _ hnew_le hlt (fun j hj e => by
      rw [word_addr_natCast] at e
      have : 0 < j * c.sizeof_MR_Word := Nat.mul_pos (by omega) hws
      omega)]
    rw [e4 hrec_hp rfl]
    simp [Heap.read]
  · intro i hi
    obtain ⟨si, ri, hi2, hpre, hcall, hsuf, hmem⟩ := copy_du_args_visit hlow hws _ hcp
      have_sectag type_info _ new_data _ _ h.saved_hp
      hnew_le p.2 s hrec_ps (by rw [e2]; exact hcellp) hargs i hi
    rw [e2] at hcall hmem hsuf hpre
    have frsi : Frame c lower_limit upper_limit h.saved_hp h si :=
      copy_du_args_loop_frame hlow _ hcp _ _ _ _ _ _ _ hnew_le h _ _ frp hpre
    refine ⟨si, ri, hi2, frsi, hpre, hsuf, hcall, ?_, ?_⟩
    · unfold Heap.read
      rw [hleave _ (le_trans hnew_le (le_word_addr c _ _ (by omega)))]
      exact hmem
    · intro hnr hbelow
      have frcall := copy_du_arg_framed _ hcp _ _ _ _ _ _ _ _ _ hcall
      have fsuf := slot_loop_facts _ hbody h.saved_hp _ _ _ _ hsuf
      have hmono : ∀ q, si.forwarded q = true → s.2.forwarded q = true := by
        intro q hq
        exact fsuf.2.2.1 q (frcall.forwarded_mono q hq)
      unfold Heap.read
      by_contra hne
      rcases frsi.mem_frame _ hne with hb | ⟨q, off, ho, -, hf1, hf2, e⟩
      · have : word_addr c (MR_body c data (MR_tag c data)) ((first_slot + i : Nat) : Int)
            < word_addr c (MR_body c data (MR_tag c data))
              ((first_slot + ((du_type_layout (MR_tag c data)).MR_sectag_alternatives
                (if have_sectag then h.read c (MR_body c data (MR_tag c data)) 0
                  else 0)).MR_du_functor_orig_arity : Nat) : Int) := by
          rw [word_addr_natCast, word_addr_natCast]
          have := Nat.mul_lt_mul_of_pos_right (show first_slot + i < first_slot +
            ((du_type_layout (MR_tag c data)).MR_sectag_alternatives
              (if have_sectag then h.read c (MR_body c data (MR_tag c data)) 0
                else 0)).MR_du_functor_orig_arity by omega) hws
          omega
        omega
      · exact hnr q off (first_slot + i) (hmono q hf2) hf1 ho (by omega) e.symm

theorem for_loop_append {σ : Type} (body : Nat → σ → Outcome σ) :
    ∀ (a b i : Nat) (s : σ),
      for_loop body (a + b) i s = (for_loop body a i s).bind (for_loop body b (i + a)) := by
  intro a
  induction a with
  | zero => intro b i s; simp [for_loop]
  | succ a ih =>
    intro b i s
    have e : a + 1 + b = (a + b) + 1 := by omega
    rw [e]
    simp only [for_loop]
    cases hb : body i s with
    | returns s1 =>
      simp only [Outcome.bind_returns]
      rw [ih b (i + 1) s1]
      have e2 : i + 1 + a = i + (a + 1) := by omega
      rw [e2]
    | fatal_error e h => rfl
    | assertion_failed h => rfl
    | out_of_fuel => rfl

theorem forwarding_site_offset (c : Config) (tci : MR_TypeCtorInfo) (data p : Nat) (off : Int)
    (hs : forwarding_site c tci data = some (p, off)) : is_forwarding_offset off := by
  unfold forwarding_site at hs
  split at hs
  case h_8 =>
    split at hs
    · exact absurd hs (by simp)
    · split at hs
      · simp only [Option.some.injEq, Prod.mk.injEq] at hs; exact Or.inl hs.2.symm
      · simp only [Option.some.injEq, Prod.mk.injEq] at hs; exact Or.inl hs.2.symm
      · exact absurd hs (by simp)
  case h_2 =>
    simp only [Option.some.injEq, Prod.mk.injEq] at hs; exact Or.inl hs.2.symm
  all_goals
    split at hs
    · simp only [Option.some.injEq, Prod.mk.injEq] at hs
      first
        | exact Or.inl hs.2.symm
        | exact Or.inr (Or.inl hs.2.symm)
    · exact absurd hs (by simp)

/-- A returning call of `copy` on a pointer-represented value in range leaves
the object forwarded with the returned word as its record, whether the object
was forwarded before the call or not (tuples of arity 0 apart). -/
theorem copy_returns_record (c : Config) (rt : Runtime) (lo hi fuel data ti : Nat) (h : Heap)
    (p : Nat) (off : Int) (r : Nat) (h2 : Heap)
    (hs : forwarding_site c (type_ctor_info_of rt h ti) data = some (p, off))
    (hw : data < 2 ^ MR_WORDBITS c)
    (hin : in_range lo hi p = true)
    (hnt : (type_ctor_info_of rt h ti).MR_type_ctor_rep = .MR_TYPECTOR_REP_TUPLE →
      MR_TYPEINFO_GET_VAR_ARITY_ARITY c h ti ≠ 0)
    (hr : copy c rt lo hi fuel data ti h = .returns (r, h2)) :
    h2.forwarded p = true ∧ h2.read c p off = r ∧
      (h.forwarded p = true → r = h.read c p off ∧ h2 = h) := by
  cases fuel with
  | zero => simp [copy] at hr
  | succ n =>
    rw [copy_succ] at hr
    by_cases hf : h.forwarded p = true
    · have := copy_body_of_return_if_out_of_range c rt (copy c rt lo hi n)
        (copy_type_info c rt lo hi n) (copy_typeclass_info c rt lo hi n) lo hi data ti h p off _ hs
        (RETURN_IF_OUT_OF_RANGE_of_forwarded hin hf)
      rw [this] at hr
      simp only [Outcome.returns.injEq, Prod.mk.injEq] at hr
      obtain ⟨rfl, rfl⟩ := hr
      exact ⟨hf, rfl, fun _ => ⟨rfl, rfl⟩⟩
    · have hf2 : h.forwarded p = false := by simpa using hf
      rcases copy_body_leaves_record c rt _ _ _ lo hi data ti h p off r h2 hs hw
        (RETURN_IF_OUT_OF_RANGE_of_fresh hin hf2) hr with ⟨a, b⟩ | ⟨e, ha, -, -⟩
      · exact ⟨a, b, fun hx => absurd hx hf⟩
      · exact absurd ha (hnt e)

/-- In the example configuration every word that can hold the forwarding
record of an object below 200 is below 204. -/
theorem ex_record_lt (q : Nat) (off : Int) (hq : q < 200) (ho : is_forwarding_offset off) :
    word_addr c32 q off < 204 := by
  rcases ho with rfl | rfl | rfl | rfl <;>
    simp only [word_addr, CLOSURE_FORWARDING_PTR_OFFSET, TYPEINFO_FORWARDING_PTR_OFFSET,
      TYPECLASSINFO_FORWARDING_PTR_OFFSET, offsetof_MR_closure_code, c32] <;> omega

/-- In the example configuration a run that forwards only objects below 200
keeps their forwarding records below an arena that starts at 204 or above;
the window of the run plays no part. -/
theorem ex_records_below (b : Nat) (h h2 : Heap) (hb : 204 ≤ b)
    (hq : ∀ q, h2.forwarded q = true → q < 200) : records_below c32 b h h2 := by
  intro q off hq2 _ ho
  exact lt_of_lt_of_le (ex_record_lt q off (hq q hq2) ho) hb

/-- In the example configuration a run of the copier from `h0` leaves the
words between the window and the destination arena as they were. -/
theorem ex_static_mem (hx : Heap) (fr : Frame c32 100 200 4000 h0 hx) (a : Nat)
    (h1 : 204 ≤ a) (h2 : a < 4000) : hx.mem a = h0.mem a := by
  by_contra hne
  rcases fr.mem_frame a hne with hb | ⟨q, off, ho, hin, -, -, rfl⟩
  · omega
  · have hq2 : q < 200 := by
      simp only [in_range, Bool.or_eq_true, beq_iff_eq, Bool.and_eq_true,
        decide_eq_true_eq] at hin
      omega
    have := ex_record_lt q off hq2 ho
    omega

/-- The list type at 1004 stays the list type in every heap reached from `h0`. -/
theorem ex_list_type (hx : Heap) (fr : Frame c32 100 200 4000 h0 hx) :
    type_ctor_info_of rt0 hx 1004 = ex_tci .MR_TYPECTOR_REP_DU 0 ex_layout_list := by
  have e : hx.mem 1004 = 0 := by
    rw [ex_static_mem hx fr 1004 (by decide) (by decide)]; rfl
  simp only [type_ctor_info_of, rt0, e, if_true]
  rfl

/-- The only object forwarded after the loop over the fields of the pair cell
is the cons cell at 112. -/
theorem ex_pair_fields_forwarded (q : Nat) (hq : h0_pair_fields.forwarded q = true) :
    q = 112 := by
  by_contra hne
  simp [h0_pair_fields, hne] at hq

/-- No forwarding record of the run lies in the two fields of the pair cell. -/
theorem ex_pair_no_record_inside : no_record_inside c32 h0 h0_pair_fields 120 2 := by
  intro q off k hq _ ho hk
  have hq2 := ex_pair_fields_forwarded q hq
  subst hq2
  have hk2 : k = 0 ∨ k = 1 := by omega
  rcases ho with rfl | rfl | rfl | rfl <;> rcases hk2 with rfl | rfl <;> decide

theorem copy_du_arg_eq (c : Config) (rt : Runtime) (cp : Nat → Nat → Heap → Result)
    (have_sectag : Bool) (type_info new_data : Nat) (fd : MR_DuFunctorDesc) (i w : Nat)
    (h : Heap) :
    copy_du_arg c rt cp have_sectag type_info new_data fd i w h
      = cp w (copy_du_arg_type c rt have_sectag type_info new_data fd i h) h := by
  unfold copy_du_arg copy_du_arg_type copy_arg_with
  split <;> rfl

theorem slot_body_loop_facts {c : Config} {lo hi : Nat} (g : Nat → Heap → Result)
    (addr : Nat → Nat) (hg : FramedSlot c lo hi g) (b : Nat) :
    ∀ (n i : Nat) (s s2 : Heap), for_loop (slot_body g addr) n i s = .returns s2 →
      s.saved_hp ≤ s2.saved_hp ∧
      (∀ q, s.forwarded q = true → s2.forwarded q = true) ∧
      (records_below c b s s2 → ∀ a, b ≤ a → a < s.saved_hp →
        (∀ j, i ≤ j → j < i + n → a ≠ addr j) → s2.mem a = s.mem a) := by
  intro n
  induction n with
  | zero =>
    intro i s s2 hr
    simp only [for_loop, Outcome.returns.injEq] at hr
    subst hr
    exact ⟨le_rfl, fun _ hq => hq, fun _ _ _ _ _ => rfl⟩
  | succ n ih =>
    intro i s s2 hr
    simp only [for_loop] at hr
    obtain ⟨s1, h1, h2⟩ := Outcome.bind_eq_returns.mp hr
    unfold slot_body at h1
    obtain ⟨r, hcall, hst⟩ := Outcome.bind_eq_returns.mp h1
    simp only [Outcome.returns.injEq] at hst
    subst hst
    have fr := hg i s r.1 r.2 hcall
    obtain ⟨e2, e3, e4⟩ := ih (i + 1) _ s2 h2
    simp only [Heap.store] at e2 e3 e4
    refine ⟨le_trans fr.hp_le e2, fun q hq => e3 q (fr.forwarded_mono q hq), ?_⟩
    intro hrec a ha1 ha2 hne
    rw [e4 (hrec.mono fr.forwarded_mono (fun _ hq => hq)) a ha1
      (lt_of_lt_of_le ha2 fr.hp_le) (fun j hj1 hj2 => hne j (by omega) (by omega))]
    simp only [hne i le_rfl (by omega), if_false]
    exact fr.mem_eq_of_records_below (hrec.mono (fun _ hq => hq) e3) a ha1 ha2

theorem slot_body_loop_frame {c : Config} {lo hi b : Nat} (g : Nat → Heap → Result)
    (addr : Nat → Nat) (hg : FramedSlot c lo hi g) (h0 : Heap) (n i : Nat)
    (haddr : ∀ j, i ≤ j → j < i + n → b ≤ addr j)
    (s s2 : Heap) (fr : Frame c lo hi b h0 s)
    (hr : for_loop (slot_body g addr) n i s = .returns s2) : Frame c lo hi b h0 s2 := by
  induction n generalizing i s with
  | zero =>
    simp only [for_loop, Outcome.returns.injEq] at hr
    subst hr; exact fr
  | succ n ih =>
    simp only [for_loop] at hr
    obtain ⟨s1, h1, h2⟩ := Outcome.bind_eq_returns.mp hr
    unfold slot_body at h1
    obtain ⟨r, hcall, hst⟩ := Outcome.bind_eq_returns.mp h1
    simp only [Outcome.returns.injEq] at hst
    subst hst
    have frc := hg i s r.1 r.2 hcall
    exact ih (i + 1) (fun j hj1 hj2 => haddr j (by omega) (by omega)) _
      ((fr.call frc).store _ _ (haddr i le_rfl (by omega))) h2

/-- The visit of slot `i` by a slot loop that fills a block allocated between
the heap pointer `b` at the entry of the copy and the heap pointer at the
entry of the loop: the heap at the visit, the call, and the final content of
the slot. -/
theorem slot_body_visit {c : Config} {lo hi : Nat} (g : Nat → Heap → Result)
    (addr : Nat → Nat) (hg : FramedSlot c lo hi g) (b : Nat) (n : Nat) (hs hf : Heap)
    (hrec : records_below c b hs hf)
    (hblock : ∀ j, j < n → b ≤ addr j ∧ addr j < hs.saved_hp)
    (hinj : ∀ j k, j < n → k < n → addr j = addr k → j = k)
    (hr : for_loop (slot_body g addr) n 0 hs = .returns hf)
    (i : Nat) (hin : i < n) :
    ∃ (si : Heap) (ri : Nat) (hi2 : Heap),
      for_loop (slot_body g addr) i 0 hs = .returns si ∧
      g i si = .returns (ri, hi2) ∧
      for_loop (slot_body g addr) (n - (i + 1)) (i + 1) (hi2.store (addr i) ri) = .returns hf ∧
      hf.mem (addr i) = ri := by
  obtain ⟨sk, sk2, ha, hb, hc⟩ := for_loop_split _ n 0 hs hf hr i hin
  simp only [Nat.zero_add] at hb hc
  unfold slot_body at hb
  obtain ⟨r, hcall, hk⟩ := Outcome.bind_eq_returns.mp hb
  simp only [Outcome.returns.injEq] at hk
  subst hk
  refine ⟨sk, r.1, r.2, ha, hcall, hc, ?_⟩
  have fa := slot_body_loop_facts g addr hg b _ _ _ _ ha
  have fc := slot_body_loop_facts g addr hg b _ _ _ _ hc
  have frc := hg i sk r.1 r.2 hcall
  rw [fc.2.2 (hrec.mono (fun q hq => frc.forwarded_mono q (fa.2.1 q hq)) (fun _ hq => hq))
    (addr i) (hblock i hin).1
    (lt_of_lt_of_le (hblock i hin).2 (le_trans fa.1 frc.hp_le))
    (fun j hj1 hj2 e => by
      have := hinj i j hin (by omega) e
      omega)]
  simp [Heap.store]

theorem copy_slots_eq (c : Config) (f : Nat → Heap → Result) (old new : Nat) (first : Int)
    (count : Nat) (h : Heap) :
    copy_slots c f old new first count h
      = for_loop (slot_body (copy_slot c f old first)
          (fun k => word_addr c new (first + (k : Int)))) count 0 h := rfl

theorem copy_tuple_eq (c : Config) (cp : Nat → Nat → Heap → Result) (lo hi data ti : Nat)
    (h : Heap) (htag : MR_tag c data = 0)
    (hr0 : RETURN_IF_OUT_OF_RANGE c lo hi data (MR_body c data (MR_mktag c 0)) 0 h = none)
    (harity : MR_TYPEINFO_GET_VAR_ARITY_ARITY c h ti ≠ 0) :
    copy_tuple c cp lo hi data ti h =
      (copy_tuple_fields c cp (MR_body c data (MR_mktag c 0)) ti
        (MR_offset_incr_saved_hp c h (MR_SIZE_SLOT_SIZE c)
          (MR_SIZE_SLOT_SIZE c + MR_TYPEINFO_GET_VAR_ARITY_ARITY c h ti)).1
        (MR_TYPEINFO_GET_VAR_ARITY_ARITY c h ti)
        (MR_copy_size_slot c (MR_offset_incr_saved_hp c h (MR_SIZE_SLOT_SIZE c)
          (MR_SIZE_SLOT_SIZE c + MR_TYPEINFO_GET_VAR_ARITY_ARITY c h ti)).2 0
          (MR_offset_incr_saved_hp c h (MR_SIZE_SLOT_SIZE c)
            (MR_SIZE_SLOT_SIZE c + MR_TYPEINFO_GET_VAR_ARITY_ARITY c h ti)).1 0 data)).bind
        fun h2 => .returns ((MR_offset_incr_saved_hp c h (MR_SIZE_SLOT_SIZE c)
          (MR_SIZE_SLOT_SIZE c + MR_TYPEINFO_GET_VAR_ARITY_ARITY c h ti)).1,
          leave_forwarding_pointer c h2 data 0 (MR_offset_incr_saved_hp c h (MR_SIZE_SLOT_SIZE c)
          (MR_SIZE_SLOT_SIZE c + MR_TYPEINFO_GET_VAR_ARITY_ARITY c h ti)).1) := by
  unfold copy_tuple
  simp only [htag, ne_eq, not_true_eq_false, if_false, hr0, harity]
  rfl

/-- A word without tag bits is its own body, in both tag schemes. -/
theorem MR_body_of_tag_zero (c : Config) (w : Nat) (hw : w < 2 ^ MR_WORDBITS c)
    (ht : MR_tag c w = 0) : MR_body c w (MR_tag c w) = w := by
  rw [ht]
  unfold MR_body
  unfold MR_tag at ht
  split
  · rename_i hh
    simp only [hh, if_true] at ht
    apply Nat.eq_of_testBit_eq
    intro i
    have hb := congrArg (fun x => Nat.testBit x i) ht
    simp only [Nat.testBit_and, Nat.testBit_xor, Nat.testBit_shiftRight, MR_all_ones,
      Nat.testBit_two_pow_sub_one, Nat.zero_testBit] at hb ⊢
    by_cases hwi : w.testBit i = true
    · have hi : i < MR_WORDBITS c := by
        by_contra hge
        have := Nat.testBit_lt_two_pow (lt_of_lt_of_le hw
          (Nat.pow_le_pow_right (by decide) (not_lt.mp hge)))
        rw [this] at hwi
        exact absurd hwi (by simp)
      simp only [hwi, hi, decide_True, Bool.true_and] at hb ⊢
      by_cases h2 : c.MR_TAGBITS + i < MR_WORDBITS c
      · simp [h2]
      · simp [h2] at hb
    · simp only [Bool.not_eq_true] at hwi
      simp [hwi]
  · simp

/-- A word below the base of a frame keeps its content unless it is the
forwarding record of an object forwarded in between. -/
theorem Frame.mem_eq_of_no_record {c : Config} {lo hi b : Nat} {h si hf : Heap}
    (fr : Frame c lo hi b h si)
    (hmono : ∀ q, si.forwarded q = true → hf.forwarded q = true)
    (a : Nat) (ha : a < b)
    (hnr : ∀ q off, hf.forwarded q = true → h.forwarded q = false →
      is_forwarding_offset off → word_addr c q off ≠ a) :
    si.mem a = h.mem a := by
  by_contra hne
  rcases fr.mem_frame a hne with hb | ⟨q, off, ho, -, hf1, hf2, e⟩
  · omega
  · exact hnr q off (hmono q hf2) hf1 ho e.symm

/-- The result of a slot loop that fills a block allocated since the entry of
the copy, followed by `leave_forwarding_pointer` on an object whose record is
below the heap pointer at the entry: the visit of each slot, with the heap
`si` that the loop has reached at the visit, and the final content of the
block. -/
theorem slot_loop_result {c : Config} {lo hi : Nat} (g : Nat → Heap → Result)
    (addr : Nat → Nat) (hg : FramedSlot c lo hi g) (h : Heap) (n : Nat) (hs hf : Heap)
    (frs : Frame c lo hi h.saved_hp h hs)
    (hblock : ∀ j, j < n → h.saved_hp ≤ addr j ∧ addr j < hs.saved_hp)
    (hinj : ∀ j k, j < n → k < n → addr j = addr k → j = k)
    (hr : for_loop (slot_body g addr) n 0 hs = .returns hf)
    (p : Nat) (off : Int) (v : Nat)
    (hrecs : records_below c h.saved_hp h (leave_forwarding_pointer c hf p off v))
    (hsite : word_addr c p off < h.saved_hp) :
    Frame c lo hi h.saved_hp h hf ∧
    (∀ i, i < n → ∃ (si : Heap) (ri : Nat) (hi2 : Heap),
      Frame c lo hi h.saved_hp h si ∧
      for_loop (slot_body g addr) i 0 hs = .returns si ∧
      (∀ q, si.forwarded q = true → hf.forwarded q = true) ∧
      g i si = .returns (ri, hi2) ∧
      (leave_forwarding_pointer c hf p off v).mem (addr i) = ri) ∧
    (∀ a, h.saved_hp ≤ a → a < hs.saved_hp → (∀ j, j < n → a ≠ addr j) →
      (leave_forwarding_pointer c hf p off v).mem a = hs.mem a) := by
  have hrec : word_addr c p off < h.saved_hp := hsite
  have hrec_l : records_below c h.saved_hp hs hf :=
    hrecs.mono frs.forwarded_mono
      (fun q hq => leave_forwarding_pointer_forwarded_mono c _ _ _ _ q hq)
  have hleave : ∀ a, h.saved_hp ≤ a →
      (leave_forwarding_pointer c hf p off v).mem a = hf.mem a := by
    intro a ha
    exact leave_forwarding_pointer_mem_of_ne c hf p off v a (by omega)
  refine ⟨slot_body_loop_frame g addr hg h n 0
    (fun j _ hj => (hblock j (by omega)).1) hs hf frs hr, ?_, ?_⟩
  · intro i hin
    obtain ⟨si, ri, hi2, hpre, hcall, hsuf, hmem⟩ :=
      slot_body_visit g addr hg h.saved_hp n hs hf hrec_l hblock hinj hr i hin
    have frsi : Frame c lo hi h.saved_hp h si :=
      slot_body_loop_frame g addr hg h i 0 (fun j _ hj => (hblock j (by omega)).1) hs si frs hpre
    have fsuf := slot_body_loop_facts g addr hg h.saved_hp _ _ _ _ hsuf
    have frc := hg i si ri hi2 hcall
    refine ⟨si, ri, hi2, frsi, hpre, ?_, hcall, ?_⟩
    · intro q hq
      exact fsuf.2.1 q (frc.forwarded_mono q hq)
    · rw [hleave _ (hblock i hin).1]; exact hmem
  · intro a ha1 ha2 hne
    rw [hleave a ha1]
    have f := slot_body_loop_facts g addr hg h.saved_hp _ _ _ _ hr
    exact f.2.2 hrec_l a ha1 ha2 (fun j _ hj => hne j (by omega))

theorem copy_tuple_field_framed {c : Config} {lo hi : Nat}
    (cp : Nat → Nat → Heap → Result) (hcp : FramedCopy c lo hi cp) (data_value ti : Nat) :
    FramedSlot c lo hi (copy_tuple_field c cp data_value ti) := by
  intro i h r h2 hr
  exact hcp _ _ _ _ _ hr

theorem copy_array_element_framed {c : Config} {rt : Runtime} {lo hi : Nat}
    (cp : Nat → Nat → Heap → Result) (hcp : FramedCopy c lo hi cp) (old ti : Nat) :
    FramedSlot c lo hi (copy_array_element c rt cp old ti) := by
  intro i h r h2 hr
  exact hcp _ _ _ _ _ hr

theorem copy_closure_hidden_arg_framed {c : Config} {rt : Runtime} {lo hi : Nat}
    (cp : Nat → Nat → Heap → Result) (hcp : FramedCopy c lo hi cp) (old cl tv : Nat) :
    FramedSlot c lo hi (copy_closure_hidden_arg c rt cp old cl tv) := by
  intro i h r h2 hr
  exact hcp _ _ _ _ _ hr

theorem copy_slot_framed {c : Config} {lo hi : Nat}
    (f : Nat → Heap → Result) (hf : FramedFn c lo hi f) (old : Nat) (first : Int) :
    FramedSlot c lo hi (copy_slot c f old first) := by
  intro i h r h2 hr
  exact hf _ _ _ _ hr

theorem copy_array_eq (c : Config) (rt : Runtime) (cp : Nat → Nat → Heap → Result)
    (lo hi data ti : Nat) (h : Heap) (htag : MR_tag c data = 0)
    (hr0 : RETURN_IF_OUT_OF_RANGE c lo hi data (MR_body c data (MR_mktag c 0)) 0 h = none) :
    copy_array c rt cp lo hi data ti h =
      (copy_array_elements c rt cp (MR_body c data (MR_mktag c 0)) ti
        (MR_offset_incr_saved_hp c h 0 (h.read c (MR_body c data (MR_mktag c 0)) 0 + 1)).1
        (h.read c (MR_body c data (MR_mktag c 0)) 0)
        ((MR_offset_incr_saved_hp c h 0 (h.read c (MR_body c data (MR_mktag c 0)) 0 + 1)).2.write
          c (MR_offset_incr_saved_hp c h 0 (h.read c (MR_body c data (MR_mktag c 0)) 0 + 1)).1 0
          (h.read c (MR_body c data (MR_mktag c 0)) 0))).bind
        fun h2 => .returns
          ((MR_offset_incr_saved_hp c h 0 (h.read c (MR_body c data (MR_mktag c 0)) 0 + 1)).1,
          leave_forwarding_pointer c h2 data 0
            (MR_offset_incr_saved_hp c h 0
              (h.read c (MR_body c data (MR_mktag c 0)) 0 + 1)).1) := by
  unfold copy_array
  simp only [htag, ne_eq, not_true_eq_false, if_false, hr0]
  rfl

theorem copy_closure_eq (c : Config) (rt : Runtime) (cp : Nat → Nat → Heap → Result)
    (lo hi data : Nat) (h : Heap) (htag : MR_tag c data = 0)
    (hr0 : RETURN_IF_OUT_OF_RANGE c lo hi data (MR_body c data (MR_mktag c 0))
      CLOSURE_FORWARDING_PTR_OFFSET h = none) :
    copy_closure c rt cp lo hi data h =
      (copy_closure_hidden_args c rt cp (MR_body c data (MR_mktag c 0))
        (h.read c (MR_body c data (MR_mktag c 0)) offsetof_MR_closure_layout)
        (rt.MR_materialize_closure_type_params
          (MR_closure_new_header c h (MR_body c data (MR_mktag c 0)) h.saved_hp).mem
          (MR_body c data (MR_mktag c 0)))
        h.saved_hp
        (h.read c (MR_body c data (MR_mktag c 0)) offsetof_MR_closure_num_hidden_args)
        (MR_closure_new_header c h (MR_body c data (MR_mktag c 0)) h.saved_hp)).bind
        fun h4 => .returns (h.saved_hp,
          leave_forwarding_pointer c h4 data CLOSURE_FORWARDING_PTR_OFFSET h.saved_hp) := by
  unfold copy_closure
  simp only [htag, ne_eq, not_true_eq_false, if_false, hr0]
  have e : (MR_offset_incr_saved_hp c h 0
      (h.read c (MR_body c data (MR_mktag c 0)) offsetof_MR_closure_num_hidden_args + 3)).1
      = h.saved_hp := by simp [MR_offset_incr_saved_hp]
  simp only [e]
  rfl

/-- The fixed fields of the new closure, for a new closure at or above the
heap pointer and an original below it. -/
theorem MR_closure_new_header_facts (c : Config) (hws : 0 < c.sizeof_MR_Word) (h : Heap)
    (old new : Nat) (hold : word_addr c old (offsetof_MR_closure_code : Int) < h.saved_hp)
    (hnew : h.saved_hp ≤ new) :
    (MR_closure_new_header c h old new).saved_hp
      = h.saved_hp + (h.read c old offsetof_MR_closure_num_hidden_args + 3) * c.sizeof_MR_Word ∧
    (MR_closure_new_header c h old new).forwarded = h.forwarded ∧
    (MR_closure_new_header c h old new).read c new offsetof_MR_closure_layout
      = h.read c old offsetof_MR_closure_layout ∧
    (MR_closure_new_header c h old new).read c new offsetof_MR_closure_num_hidden_args
      = h.read c old offsetof_MR_closure_num_hidden_args ∧
    (MR_closure_new_header c h old new).read c new offsetof_MR_closure_code
      = h.read c old offsetof_MR_closure_code := by
  have a1 : word_addr c new (offsetof_MR_closure_layout : Int) = new := by
    simp [offsetof_MR_closure_layout, word_addr]
  have a2 : word_addr c new (offsetof_MR_closure_code : Int) = new + c.sizeof_MR_Word := by
    rw [word_addr_natCast]; simp [offsetof_MR_closure_code]
  have a3 : word_addr c new (offsetof_MR_closure_num_hidden_args : Int)
      = new + 2 * c.sizeof_MR_Word := by
    rw [word_addr_natCast]; simp [offsetof_MR_closure_num_hidden_args]
  refine ⟨rfl, rfl, ?_, ?_, ?_⟩
  · simp only [MR_closure_new_header, Heap.read, Heap.write, Heap.store, a1, a2, a3]
    split_ifs <;> first | rfl | omega
  · simp only [MR_closure_new_header, Heap.read, Heap.write, Heap.store, a1, a2, a3]
    split_ifs <;> first | rfl | omega
  · simp only [MR_closure_new_header, Heap.read, Heap.write, Heap.store, a1, a2, a3]
    split_ifs <;> first | rfl | omega

theorem MR_closure_new_header_frame {c : Config} {lo hi : Nat} (h : Heap) (old : Nat) :
    Frame c lo hi h.saved_hp h (MR_closure_new_header c h old h.saved_hp) := by
  unfold MR_closure_new_header
  exact ((((Frame.refl le_rfl).alloc _ _).store _ _ (le_word_addr c _ _ (by simp))).store _ _
    (le_word_addr c _ _ (by simp))).store _ _ (le_word_addr c _ _ (by simp))

theorem copy_type_info_eq (c : Config) (rt : Runtime) (lo hi fuel ti : Nat) (h : Heap)
    (var : Bool) (tci arity fps : Nat)
    (hr0 : RETURN_IF_OUT_OF_RANGE c lo hi ti ti TYPEINFO_FORWARDING_PTR_OFFSET h = none)
    (htci : tci = rt.MR_TYPEINFO_GET_TYPE_CTOR_INFO h.mem ti) (hne : ti ≠ tci)
    (hvar : var = (rt.type_ctor_info tci).MR_type_ctor_has_variable_arity)
    (harity : arity = if var then MR_TYPEINFO_GET_VAR_ARITY_ARITY c h ti
      else (rt.type_ctor_info tci).MR_type_ctor_arity)
    (hfps : fps = if c.MR_NATIVE_GC then 1 else 0) :
    copy_type_info c rt lo hi (fuel + 1) ti h =
      (copy_slots c (copy_type_info c rt lo hi fuel)
        (if var then MR_TYPEINFO_GET_VAR_ARITY_ARG_VECTOR c ti
          else MR_TYPEINFO_GET_FIXED_ARITY_ARG_VECTOR ti)
        (if var then word_addr c (h.saved_hp + fps * c.sizeof_MR_Word) 1
          else h.saved_hp + fps * c.sizeof_MR_Word) 1 arity
        (if var then
          (MR_fill_in_var_arity_type_info c
            (MR_offset_incr_saved_hp c h fps (MR_var_arity_type_info_size arity + fps)).2
            (h.saved_hp + fps * c.sizeof_MR_Word) tci arity).1
         else
          (MR_fill_in_fixed_arity_type_info c
            (MR_offset_incr_saved_hp c h fps (MR_fixed_arity_type_info_size arity + fps)).2
            (h.saved_hp + fps * c.sizeof_MR_Word) tci).1)).bind
        fun h2 => .returns (h.saved_hp + fps * c.sizeof_MR_Word,
          leave_forwarding_pointer c h2 ti TYPEINFO_FORWARDING_PTR_OFFSET
            (h.saved_hp + fps * c.sizeof_MR_Word)) := by
  unfold copy_type_info copy_type_info_body
  simp only [hr0]
  subst htci hfps
  rw [if_neg hne]
  cases var
  · simp only [Bool.false_eq_true, if_false] at harity ⊢
    subst harity
    rw [if_neg (by rw [← hvar]; simp)]
    rfl
  · simp only [if_true] at harity ⊢
    subst harity
    rw [if_pos hvar.symm]
    rfl

/-- The base typeclass infos of the second runtime are well formed. -/
theorem ex_base_typeclass_infos_wf1 : base_typeclass_infos_wf rt1 := by
  intro k
  show (ex_base_typeclass_info k).num_instance_constraints
    ≤ (ex_base_typeclass_info k).num_extra_instance_args
  unfold ex_base_typeclass_info
  split_ifs <;> decide

/-- The visit of hidden argument `k` by a loop over the hidden arguments of an
existentially typed functor: the heap before the visit, the call, and the
fact that the slot of the new cell still holds the result when the loop has
ended. -/
theorem copy_du_hidden_visit {c : Config} {lo hi : Nat}
    (hlow : c.MR_HIGHTAGS = false) (hws : 0 < c.sizeof_MR_Word)
    (f : Nat → Heap → Result) (hf : FramedFn c lo hi f)
    (data_value new_data n : Nat)
    (b : Nat) (hnew : b ≤ new_data)
    (s0 s : Nat × Heap) (hrec : records_below c b s0.2 s.2)
    (hcell : word_addr c new_data ((s0.1 + n : Nat) : Int) ≤ s0.2.saved_hp)
    (hr : copy_du_hidden c f data_value new_data n s0 = .returns s)
    (k : Nat) (hk : k < n) :
    ∃ (sk : Heap) (rk : Nat) (hk2 : Heap),
      for_loop (copy_du_hidden_body c f data_value new_data) k 0 s0 = .returns (s0.1 + k, sk) ∧
      f (sk.read c data_value ((s0.1 + k : Nat) : Int)) sk = .returns (rk, hk2) ∧
      s.1 = s0.1 + n ∧ s0.2.saved_hp ≤ s.2.saved_hp ∧
      s.2.mem (word_addr c new_data ((s0.1 + k : Nat) : Int)) = rk := by
  unfold copy_du_hidden at hr
  obtain ⟨sk, sk2, ha, hb, hc⟩ := for_loop_split _ n 0 s0 s hr k hk
  have hbody := copy_du_hidden_slot_body hlow f hf data_value new_data
  have fa := slot_loop_facts _ hbody b _ _ _ _ ha
  have fall := slot_loop_facts _ hbody b _ _ _ _ hr
  simp only [Nat.zero_add] at hb hc
  unfold copy_du_hidden_body at hb
  obtain ⟨r, hcall, hst⟩ := Outcome.bind_eq_returns.mp hb
  simp only [Outcome.returns.injEq] at hst
  subst hst
  have fc := slot_loop_facts _ hbody b _ _ _ _ hc
  have e1 : sk.1 = s0.1 + k := fa.1
  have hsk : sk = (s0.1 + k, sk.2) := by rw [← e1]
  rw [MR_field_zero_of_low c hlow] at hc fc
  rw [e1] at hcall hc fc
  refine ⟨sk.2, r.1, r.2, by rw [← hsk]; exact ha, hcall, fall.1, fall.2.1, ?_⟩
  have frcall := hf _ _ _ _ hcall
  have hlt : word_addr c new_data ((s0.1 + k : Nat) : Int) < sk.2.saved_hp := by
    refine lt_of_lt_of_le ?_ (le_trans hcell fa.2.1)
    rw [word_addr_natCast, word_addr_natCast]
    have : (s0.1 + k) * c.sizeof_MR_Word < (s0.1 + n) * c.sizeof_MR_Word :=
      Nat.mul_lt_mul_of_pos_right (by omega) hws
    omega
  rw [fc.2.2.2 (hrec.mono (fun q hq => frcall.forwarded_mono q (fa.2.2.1 q hq))
      (fun _ hq => hq)) _ (le_trans hnew (le_word_addr c _ _ (by omega)))
    (lt_of_lt_of_le hlt frcall.hp_le)
    (fun j hj e => by
      have := word_addr_natCast_inj hws _ _ _ e
      simp only at hj
      omega)]
  simp [Heap.store]

/-- The size of the cell that `MR_handle_sectag_remote_or_none` computes. -/
theorem MR_du_cell_size_eq (c : Config) (have_sectag : Bool) (arity hidden : Nat) :
    (if (!have_sectag) = true then arity else 1 + arity) + MR_SIZE_SLOT_SIZE c + hidden
      = (if have_sectag then 1 else 0) + arity + MR_SIZE_SLOT_SIZE c + hidden := by
  cases have_sectag <;> simp

/-- The hidden arguments of the copy of a DU cell of an existentially typed
functor: the two loops over the hidden arguments run from the state of the
new cell; the loop state at the visit of each hidden slot; the slots after the
secondary tag hold the results of `copy_type_info` on the same slots of the
original, and the slots after these hold the results of
`copy_typeclass_info`. -/
theorem copy_du_cell_hidden_slots (c : Config) (rt : Runtime)
    (lower_limit upper_limit fuel data type_info : Nat) (h : Heap) (have_sectag : Bool)
    (ptag data_value sectag new_data cell_size : Nat) (functor_desc : MR_DuFunctorDesc)
    (exist_info : MR_DuExistInfo)
    (p : Nat × (Nat × Heap)) (s : Nat × Heap) (h2 : Heap)
    (hlow : c.MR_HIGHTAGS = false) (hwf : base_typeclass_infos_wf rt)
    (hws : 0 < c.sizeof_MR_Word)
    (hvalue : data_value = MR_body c data ptag)
    (hfresh : h.forwarded data_value = false)
    (hexist : functor_desc.MR_du_functor_exist_info = some exist_info)
    (hsize : cell_size = (if have_sectag then 1 else 0)
      + functor_desc.MR_du_functor_orig_arity + MR_SIZE_SLOT_SIZE c
      + MR_du_hidden_count functor_desc)
    (hnew : new_data = h.saved_hp + MR_SIZE_SLOT_SIZE c * c.sizeof_MR_Word)
    (hhidden : MR_du_cell_and_hidden_args c
      (copy_type_info c rt lower_limit upper_limit fuel)
      (copy_typeclass_info c rt lower_limit upper_limit fuel)
      have_sectag data ptag functor_desc sectag h = .returns p)
    (hargs : copy_du_args c rt (copy c rt lower_limit upper_limit fuel) have_sectag type_info
      data_value p.1 functor_desc functor_desc.MR_du_functor_orig_arity p.2 = .returns s)
    (hfinal : h2 = leave_forwarding_pointer c s.2 data_value 0 (MR_mkword ptag new_data))
    (hrec : records_below c h.saved_hp h h2) :
    ∃ s2 : Nat × Heap,
      copy_du_hidden c (copy_type_info c rt lower_limit upper_limit fuel) data_value new_data
        exist_info.MR_exist_typeinfos_plain
        (MR_du_new_cell c have_sectag cell_size sectag ptag data h).2 = .returns s2 ∧
      copy_du_hidden c (copy_typeclass_info c rt lower_limit upper_limit fuel) data_value
        new_data exist_info.MR_exist_tcis s2 = .returns p.2 ∧
      s2.1 = (if have_sectag then 1 else 0) + exist_info.MR_exist_typeinfos_plain ∧
      (∀ k, k < exist_info.MR_exist_typeinfos_plain → ∃ (sk : Heap) (rk : Nat) (hk2 : Heap),
        Frame c lower_limit upper_limit h.saved_hp h sk ∧
        copy_du_hidden c (copy_type_info c rt lower_limit upper_limit fuel) data_value
          new_data k (MR_du_new_cell c have_sectag cell_size sectag ptag data h).2
          = .returns ((if have_sectag then 1 else 0) + k, sk) ∧
        copy_type_info c rt lower_limit upper_limit fuel
          (sk.read c data_value (((if have_sectag then 1 else 0) + k : Nat) : Int)) sk
          = .returns (rk, hk2) ∧
        h2.read c new_data (((if have_sectag then 1 else 0) + k : Nat) : Int) = rk) ∧
      (∀ k, k < exist_info.MR_exist_tcis → ∃ (sk : Heap) (rk : Nat) (hk2 : Heap),
        Frame c lower_limit upper_limit h.saved_hp h sk ∧
        copy_du_hidden c (copy_typeclass_info c rt lower_limit upper_limit fuel) data_value
          new_data k s2
          = .returns ((if have_sectag then 1 else 0) + exist_info.MR_exist_typeinfos_plain + k,
              sk) ∧
        copy_typeclass_info c rt lower_limit upper_limit fuel
          (sk.read c data_value
            (((if have_sectag then 1 else 0) + exist_info.MR_exist_typeinfos_plain + k : Nat)
              : Int)) sk = .returns (rk, hk2) ∧
        h2.read c new_data
          (((if have_sectag then 1 else 0) + exist_info.MR_exist_typeinfos_plain + k : Nat)
            : Int) = rk) := by
  have hcs : cell_size = (if (!have_sectag) = true then functor_desc.MR_du_functor_orig_arity
      else 1 + functor_desc.MR_du_functor_orig_arity) + MR_SIZE_SLOT_SIZE c +
      (exist_info.MR_exist_typeinfos_plain + exist_info.MR_exist_tcis) := by
    rw [hsize, MR_du_cell_size_eq]
    simp [MR_du_hidden_count, hexist]
  subst hvalue hfinal hcs
  have hcti := copy_type_info_framed c rt lower_limit upper_limit fuel
  have hctci := copy_typeclass_info_framed c rt lower_limit upper_limit hwf fuel
  have hcp := copy_framed c rt lower_limit upper_limit hlow hwf fuel
  have hnew_le : h.saved_hp ≤ new_data := by rw [hnew]; exact Nat.le_add_right _ _
  have hdv_lt : MR_body c data ptag < h.saved_hp := by
    have := hrec _ 0 (leave_forwarding_pointer_forwarded c _ _ _ _) hfresh (Or.inl rfl)
    rwa [word_addr_zero] at this
  have hleave : ∀ a, h.saved_hp ≤ a →
      (leave_forwarding_pointer c s.2 (MR_body c data ptag) 0
        (MR_mkword ptag new_data)).mem a = s.2.mem a := by
    intro a ha
    apply leave_forwarding_pointer_mem_of_ne
    rw [word_addr_zero]; omega
  unfold MR_du_cell_and_hidden_args at hhidden
  simp only [hexist] at hhidden
  obtain ⟨s2, hs2, hp⟩ := Outcome.bind_eq_returns.mp hhidden
  obtain ⟨s3, hs3, hp⟩ := Outcome.bind_eq_returns.mp hp
  simp only [Outcome.returns.injEq] at hp
  subst hp
  simp only [MR_du_new_cell_fst, ← hnew] at hs2 hs3 hargs
  set cell := MR_du_new_cell c have_sectag
    ((if (!have_sectag) = true then functor_desc.MR_du_functor_orig_arity
        else 1 + functor_desc.MR_du_functor_orig_arity) + MR_SIZE_SLOT_SIZE c +
      (exist_info.MR_exist_typeinfos_plain + exist_info.MR_exist_tcis)) sectag ptag data h
    with hcelldef
  have hc1 : cell.2.1 = if have_sectag then 1 else 0 := MR_du_new_cell_cur_slot _ _ _ _ _ _ _
  have hcf : cell.2.2.forwarded = h.forwarded := MR_du_new_cell_forwarded _ _ _ _ _ _ _
  have hc2 : cell.2.2.saved_hp = h.saved_hp +
      ((if (!have_sectag) = true then functor_desc.MR_du_functor_orig_arity
        else 1 + functor_desc.MR_du_functor_orig_arity) + MR_SIZE_SLOT_SIZE c +
      (exist_info.MR_exist_typeinfos_plain + exist_info.MR_exist_tcis)) * c.sizeof_MR_Word :=
    MR_du_new_cell_saved_hp _ _ _ _ _ _ _
  have frc : Frame c lower_limit upper_limit h.saved_hp h cell.2.2 :=
    MR_du_new_cell_frame hlow _ _ _ _ _ h
  have hsize : word_addr c new_data
      (((if have_sectag then 1 else 0) + exist_info.MR_exist_typeinfos_plain
        + exist_info.MR_exist_tcis + functor_desc.MR_du_functor_orig_arity : Nat) : Int)
      ≤ cell.2.2.saved_hp := by
    rw [hc2, word_addr_natCast, hnew]
    cases have_sectag
    · simp only [Bool.not_false, if_true, Bool.false_eq_true, if_false]
      apply le_of_eq; ring
    · simp only [Bool.not_true, Bool.false_eq_true, if_false, if_true]
      apply le_of_eq; ring
  have hmono : ∀ {a b : Nat}, a ≤ b →
      word_addr c new_data (a : Int) ≤ word_addr c new_data (b : Int) := by
    intro a b hab
    rw [word_addr_natCast, word_addr_natCast]
    have := Nat.mul_le_mul_right c.sizeof_MR_Word hab
    omega
  have hslt : ∀ {a b : Nat}, a < b →
      word_addr c new_data (a : Int) < word_addr c new_data (b : Int) := by
    intro a b hab
    rw [word_addr_natCast, word_addr_natCast]
    have := Nat.mul_lt_mul_of_pos_right hab hws
    omega
  have hb1 := copy_du_hidden_slot_body hlow _ hcti (MR_body c data ptag) new_data
  have hb2 := copy_du_hidden_slot_body hlow _ hctci (MR_body c data ptag) new_data
  have hb3 := @copy_du_args_slot_body c rt lower_limit upper_limit hlow _ hcp have_sectag
    type_info (MR_body c data ptag) new_data functor_desc
  have hs2u := hs2
  have hs3u := hs3
  have hargsu := hargs
  unfold copy_du_hidden at hs2u hs3u
  unfold copy_du_args at hargsu
  have f1 := slot_loop_facts _ hb1 h.saved_hp _ _ _ _ hs2u
  have f2 := slot_loop_facts _ hb2 h.saved_hp _ _ _ _ hs3u
  have f3 := slot_loop_facts _ hb3 h.saved_hp _ _ _ _ hargsu
  have hrec1 : records_below c h.saved_hp cell.2.2 s2.2 :=
    hrec.mono (fun q hq => by rw [hcf]; exact hq)
      (fun q hq => leave_forwarding_pointer_forwarded_mono c _ _ _ _ q
        (f3.2.2.1 q (f2.2.2.1 q hq)))
  have hrec2 : records_below c h.saved_hp s2.2 s3.2 :=
    hrec.mono (fun q hq => f1.2.2.1 q (by rw [hcf]; exact hq))
      (fun q hq => leave_forwarding_pointer_forwarded_mono c _ _ _ _ q (f3.2.2.1 q hq))
  have hrec3 : records_below c h.saved_hp s3.2 s.2 :=
    hrec.mono (fun q hq => f2.2.2.1 q (f1.2.2.1 q (by rw [hcf]; exact hq)))
      (fun q hq => leave_forwarding_pointer_forwarded_mono c _ _ _ _ q hq)
  have e2 : s2.1 = (if have_sectag then 1 else 0) + exist_info.MR_exist_typeinfos_plain := by
    rw [f1.1, hc1]
  have e3 : s3.1 = (if have_sectag then 1 else 0) + exist_info.MR_exist_typeinfos_plain
      + exist_info.MR_exist_tcis := by rw [f2.1, e2]
  have fr2 : Frame c lower_limit upper_limit h.saved_hp h s2.2 :=
    copy_du_hidden_frame hlow _ hcti _ _ _ hnew_le h _ _ frc hs2
  refine ⟨s2, hs2, hs3, e2, ?_, ?_⟩
  · intro k hk
    obtain ⟨sk, rk, hk2, hpre, hcall, -, -, hmem⟩ := copy_du_hidden_visit hlow hws _ hcti
      (MR_body c data ptag) new_data _ h.saved_hp hnew_le cell.2 s2 hrec1
      (le_trans (hmono (by rw [hc1]; omega)) hsize) hs2 k hk
    rw [hc1] at hpre hcall hmem
    have frsk : Frame c lower_limit upper_limit h.saved_hp h sk := by
      have := copy_du_hidden_frame hlow _ hcti (MR_body c data ptag) new_data k hnew_le h
        cell.2 _ frc (by unfold copy_du_hidden; exact hpre)
      exact this
    refine ⟨sk, rk, hk2, frsk, by unfold copy_du_hidden; exact hpre, hcall, ?_⟩
    have hlt1 : word_addr c new_data (((if have_sectag then 1 else 0) + k : Nat) : Int)
        < cell.2.2.saved_hp :=
      lt_of_lt_of_le (hslt (by omega)) hsize
    unfold Heap.read
    rw [hleave _ (le_trans hnew_le (le_word_addr c _ _ (by omega)))]
    rw [f3.2.2.2 hrec3 _ (le_trans hnew_le (le_word_addr c _ _ (by omega)))
      (lt_of_lt_of_le hlt1 (le_trans f1.2.1 f2.2.1))
      (fun j hj e => by
        have := word_addr_natCast_inj hws _ _ _ e
        rw [e3] at hj
        omega)]
    rw [f2.2.2.2 hrec2 _ (le_trans hnew_le (le_word_addr c _ _ (by omega)))
      (lt_of_lt_of_le hlt1 f1.2.1)
      (fun j hj e => by
        have := word_addr_natCast_inj hws _ _ _ e
        rw [e2] at hj
        omega)]
    exact hmem
  · intro k hk
    obtain ⟨sk, rk, hk2, hpre, hcall, -, -, hmem⟩ := copy_du_hidden_visit hlow hws _ hctci
      (MR_body c data ptag) new_data _ h.saved_hp hnew_le s2 s3 hrec2
      (le_trans (le_trans (hmono (by rw [e2]; omega)) hsize) f1.2.1) hs3 k hk
    rw [e2] at hpre hcall hmem
    have frsk : Frame c lower_limit upper_limit h.saved_hp h sk := by
      have := copy_du_hidden_frame hlow _ hctci (MR_body c data ptag) new_data k hnew_le h
        s2 _ fr2 (by unfold copy_du_hidden; exact hpre)
      exact this
    refine ⟨sk, rk, hk2, frsk, by unfold copy_du_hidden; exact hpre, hcall, ?_⟩
    have hlt1 : word_addr c new_data
        (((if have_sectag then 1 else 0) + exist_info.MR_exist_typeinfos_plain + k : Nat) : Int)
        < cell.2.2.saved_hp :=
      lt_of_lt_of_le (hslt (by omega)) hsize
    unfold Heap.read
    rw [hleave _ (le_trans hnew_le (le_word_addr c _ _ (by omega)))]
    rw [f3.2.2.2 hrec3 _ (le_trans hnew_le (le_word_addr c _ _ (by omega)))
      (lt_of_lt_of_le hlt1 (le_trans f1.2.1 f2.2.1))
      (fun j hj e => by
        have := word_addr_natCast_inj hws _ _ _ e
        rw [e3] at hj
        omega)]
    exact hmem

/-! ### Lemmas on the dispatch of `copy`, on tags and on the call-pair table -/

/-- In the low-tag scheme `MR_strip_tag` clears the tag bits of the word. -/
theorem MR_strip_tag_of_low (c : Config) (hlow : c.MR_HIGHTAGS = false) (w : Nat) :
    MR_strip_tag c w = ((w % 2 ^ MR_WORDBITS c) >>> c.MR_TAGBITS) <<< c.MR_TAGBITS := by
  simp only [MR_strip_tag, hlow, Bool.false_eq_true, if_false, MR_all_ones]
  apply Nat.eq_of_testBit_eq
  intro i
  simp only [Nat.testBit_and, Nat.testBit_mod_two_pow, Nat.testBit_shiftLeft,
    Nat.testBit_shiftRight, Nat.testBit_two_pow_sub_one]
  by_cases h1 : i < MR_WORDBITS c <;> by_cases h2 : c.MR_TAGBITS ≤ i
  · have e : c.MR_TAGBITS + (i - c.MR_TAGBITS) = i := by omega
    have h3 : i - c.MR_TAGBITS < MR_WORDBITS c := by omega
    simp [h1, h2, e, h3]
  · simp [h1, h2]
  · have e : c.MR_TAGBITS + (i - c.MR_TAGBITS) = i := by omega
    simp [h1, h2, e]
  · simp [h1, h2]

/-- A word whose tag bits are zero, tagged with `t`, is stripped back to the
word. -/
theorem MR_strip_tag_mkword_of_low (c : Config) (hlow : c.MR_HIGHTAGS = false) (t p : Nat)
    (ht : t < 2 ^ c.MR_TAGBITS) (hp : p % 2 ^ c.MR_TAGBITS = 0) (hw : p < 2 ^ MR_WORDBITS c) :
    MR_strip_tag c (MR_mkword t p) = p := by
  rw [MR_strip_tag_of_low c hlow, Nat.shiftLeft_eq, Nat.shiftRight_eq_div_pow]
  unfold MR_mkword
  obtain ⟨q, rfl⟩ := Nat.dvd_of_mod_eq_zero hp
  have hpos : 0 < 2 ^ c.MR_TAGBITS := Nat.two_pow_pos _
  by_cases hb : c.MR_TAGBITS ≤ MR_WORDBITS c
  · have hsplit : 2 ^ MR_WORDBITS c = 2 ^ c.MR_TAGBITS * 2 ^ (MR_WORDBITS c - c.MR_TAGBITS) := by
      rw [← Nat.pow_add]; congr 1; omega
    have hq : q < 2 ^ (MR_WORDBITS c - c.MR_TAGBITS) := by
      rw [hsplit] at hw
      exact Nat.lt_of_mul_lt_mul_left hw
    have hlt : 2 ^ c.MR_TAGBITS * q + t < 2 ^ MR_WORDBITS c := by
      rw [hsplit]
      calc 2 ^ c.MR_TAGBITS * q + t < 2 ^ c.MR_TAGBITS * q + 2 ^ c.MR_TAGBITS := by omega
        _ = 2 ^ c.MR_TAGBITS * (q + 1) := by ring
        _ ≤ _ := Nat.mul_le_mul_left _ hq
    rw [Nat.mod_eq_of_lt hlt, Nat.mul_add_div hpos, Nat.div_eq_of_lt ht, Nat.add_zero,
      Nat.mul_comm]
  · have hlt : 2 ^ MR_WORDBITS c < 2 ^ c.MR_TAGBITS :=
      Nat.pow_lt_pow_right (by decide) (by omega)
    have hq : q = 0 := by
      by_contra hne
      have : 2 ^ c.MR_TAGBITS * 1 ≤ 2 ^ c.MR_TAGBITS * q :=
        Nat.mul_le_mul_left _ (Nat.one_le_iff_ne_zero.mpr hne)
      omega
    subst hq
    have : (2 ^ c.MR_TAGBITS * 0 + t) % 2 ^ MR_WORDBITS c < 2 ^ c.MR_TAGBITS :=
      lt_trans (Nat.mod_lt _ (Nat.two_pow_pos _)) hlt
    rw [Nat.div_eq_of_lt this]
    simp

/-- The search for the pair that `prof_call_profile` has just recorded. -/
theorem find_call_node_profile_chain_self (w Callee Caller : Nat) (chain : List prof_call_node) :
    find_call_node Callee Caller (prof_call_profile_chain w Callee Caller chain)
      = some (match find_call_node Callee Caller chain with
        | none => { Callee := Callee, Caller := Caller, count := 1 }
        | some node => { node with count := (node.count + 1) % 2 ^ w }) := by
  induction chain with
  | nil => simp [find_call_node, prof_call_profile_chain]
  | cons node next ih =>
    unfold find_call_node at ih ⊢
    by_cases hm : node.Callee = Callee ∧ node.Caller = Caller
    · simp [prof_call_profile_chain, hm, List.find?]
    · simp only [prof_call_profile_chain, hm, if_false, List.find?, decide_False]
      exact ih

/-- The search for another pair is not affected by `prof_call_profile`. -/
theorem find_call_node_profile_chain_other (w Callee Caller A B : Nat)
    (hne : ¬ (A = Callee ∧ B = Caller)) (chain : List prof_call_node) :
    find_call_node A B (prof_call_profile_chain w Callee Caller chain)
      = find_call_node A B chain := by
  induction chain with
  | nil =>
    have : ¬ (Callee = A ∧ Caller = B) := fun e => hne ⟨e.1.symm, e.2.symm⟩
    simp [find_call_node, prof_call_profile_chain, List.find?, this]
  | cons node next ih =>
    unfold find_call_node at ih ⊢
    by_cases hm : node.Callee = Callee ∧ node.Caller = Caller
    · have hb : (decide (node.Callee = A) && decide (node.Caller = B)) = false := by
        simp only [Bool.and_eq_false_imp, decide_eq_true_eq, decide_eq_false_iff_not]
        intro e1 e2
        exact hne ⟨e1 ▸ hm.1, e2 ▸ hm.2⟩
      simp only [prof_call_profile_chain, hm, and_self, if_true, List.find?, Bool.decide_and]
      rw [← hm.1, ← hm.2, hb]
    · simp only [prof_call_profile_chain, hm, if_false, List.find?]
      by_cases hn : node.Callee = A ∧ node.Caller = B
      · simp [hn]
      · simp only [hn, decide_False]
        exact ih

/-- The chain after `prof_call_profile` starts with the nodes of the chain
before, in the same order. -/
theorem chain_pairs_profile_chain (w Callee Caller : Nat) (chain : List prof_call_node) :
    chain_pairs chain <+: chain_pairs (prof_call_profile_chain w Callee Caller chain) := by
  induction chain with
  | nil => exact ⟨_, rfl⟩
  | cons node next ih =>
    unfold chain_pairs at ih ⊢
    by_cases hm : node.Callee = Callee ∧ node.Caller = Caller
    · exact ⟨[], by simp [prof_call_profile_chain, hm]⟩
    · obtain ⟨t, ht⟩ := ih
      refine ⟨t, ?_⟩
      simp only [prof_call_profile_chain, hm, if_false, List.map_cons, List.cons_append, ht]

/-- A node of another pair is in the chain after `prof_call_profile` exactly
when it was in the chain before. -/
theorem mem_profile_chain_other (w Callee Caller : Nat) (n : prof_call_node)
    (hne : ¬ (n.Callee = Callee ∧ n.Caller = Caller)) (chain : List prof_call_node) :
    n ∈ prof_call_profile_chain w Callee Caller chain ↔ n ∈ chain := by
  induction chain with
  | nil =>
    simp only [prof_call_profile_chain, List.mem_singleton, List.not_mem_nil, iff_false]
    rintro rfl
    exact hne ⟨rfl, rfl⟩
  | cons node next ih =>
    by_cases hm : node.Callee = Callee ∧ node.Caller = Caller
    · simp only [prof_call_profile_chain, hm, and_self, if_true, List.mem_cons]
      constructor
      · rintro (rfl | h)
        · exact absurd ⟨rfl, rfl⟩ hne
        · exact Or.inr h
      · rintro (rfl | h)
        · exact absurd hm hne
        · exact Or.inr h
    · simp only [prof_call_profile_chain, hm, if_false, List.mem_cons, ih]

/-- Repeated calls of `prof_call_profile` for one pair, from the initial
table: one node, whose count is the number of calls modulo the range of
`unsigned long`. -/
theorem prof_call_profile_iterate (w Callee Caller : Nat) (hw : 0 < w) (n : Nat) :
    (fun t => prof_call_profile w t Callee Caller)^[n + 1] addr_pair_table_init
      = fun i => if i = hash_addr_pair w Callee Caller then
          [{ Callee := Callee, Caller := Caller, count := (n + 1) % 2 ^ w }] else [] := by
  have h2 : 1 < 2 ^ w := Nat.one_lt_two_pow (by omega)
  induction n with
  | zero =>
    funext i
    simp only [Function.iterate_succ, Function.iterate_zero, Function.comp_apply, id_eq,
      prof_call_profile, addr_pair_table_init, prof_call_profile_chain, Nat.zero_add,
      Nat.mod_eq_of_lt h2]
  | succ n ih =>
    rw [Function.iterate_succ_apply', ih]
    funext i
    simp only [prof_call_profile, if_true, prof_call_profile_chain, and_self]
    by_cases hi : i = hash_addr_pair w Callee Caller
    · simp only [hi, if_true]
      rw [Nat.mod_add_mod]
    · simp only [hi, if_false]

/-- The body of `copy_arg`: the call of `copy` on the type descriptor that
`MR_make_type_info_maybe_existq` returns for the argument pseudo type, the
type parameters and the parent. -/
theorem copy_arg_eq_copy (c : Config) (rt : Runtime) (lower_limit upper_limit fuel : Nat)
    (parent_data_ptr data : Nat) (functor_descriptor : Option MR_DuFunctorDesc)
    (type_params arg_pseudo_type_info : Nat) (h : Heap) :
    copy_arg c rt lower_limit upper_limit fuel parent_data_ptr data functor_descriptor
        type_params arg_pseudo_type_info h
      = copy c rt lower_limit upper_limit fuel data
          (rt.MR_make_type_info_maybe_existq h.mem type_params arg_pseudo_type_info
            parent_data_ptr functor_descriptor) h := rfl

/-! ## Lemmas on the new cell of a DU value, on the tag schemes and on the call-pair table -/

/-- The first part of `MR_handle_sectag_remote_or_none`, seen from the cell it
allocates: without existential info the state is that of the new cell, with
existential info it is reached from it by the two loops over the hidden
arguments. -/
theorem MR_du_cell_and_hidden_args_cell {c : Config} (cti ctci : Nat → Heap → Result)
    (have_sectag : Bool) (data ptag : Nat) (fd : MR_DuFunctorDesc) (sectag : Nat) (h : Heap)
    (cell_size : Nat)
    (hsize : cell_size = (if have_sectag then 1 else 0) + fd.MR_du_functor_orig_arity
      + MR_SIZE_SLOT_SIZE c + MR_du_hidden_count fd)
    (p : Nat × (Nat × Heap))
    (hp : MR_du_cell_and_hidden_args c cti ctci have_sectag data ptag fd sectag h = .returns p) :
    (fd.MR_du_functor_exist_info = none →
      p = MR_du_new_cell c have_sectag cell_size sectag ptag data h) ∧
    (∀ exist_info, fd.MR_du_functor_exist_info = some exist_info →
      ∃ s2 : Nat × Heap,
        copy_du_hidden c cti (MR_body c data ptag)
          (MR_du_new_cell c have_sectag cell_size sectag ptag data h).1
          exist_info.MR_exist_typeinfos_plain
          (MR_du_new_cell c have_sectag cell_size sectag ptag data h).2 = .returns s2 ∧
        copy_du_hidden c ctci (MR_body c data ptag)
          (MR_du_new_cell c have_sectag cell_size sectag ptag data h).1
          exist_info.MR_exist_tcis s2 = .returns p.2 ∧
        p.1 = (MR_du_new_cell c have_sectag cell_size sectag ptag data h).1) := by
  unfold MR_du_cell_and_hidden_args at hp
  refine ⟨fun hnone => ?_, fun exist_info hsome => ?_⟩
  · simp only [hnone] at hp
    simp only [Outcome.returns.injEq] at hp
    have hs := MR_du_cell_size_eq c have_sectag fd.MR_du_functor_orig_arity 0
    simp only [MR_du_hidden_count, hnone, Nat.add_zero] at hsize hs
    rw [hsize, ← hs, ← hp]
  · simp only [hsome] at hp
    have hs := MR_du_cell_size_eq c have_sectag fd.MR_du_functor_orig_arity
      (exist_info.MR_exist_typeinfos_plain + exist_info.MR_exist_tcis)
    simp only [MR_du_hidden_count, hsome] at hsize
    rw [hsize, ← hs]
    obtain ⟨s2, hs2, hp⟩ := Outcome.bind_eq_returns.mp hp
    obtain ⟨s3, hs3, hp⟩ := Outcome.bind_eq_returns.mp hp
    simp only [Outcome.returns.injEq] at hp
    subst hp
    exact ⟨s2, hs2, hs3, rfl⟩

/-- A loop that fills slots of the new cell from `cur_slot` on leaves the
slots below `cur_slot` as they are. -/
theorem slot_loop_keeps_lower {c : Config} {lo hi new : Nat} (hws : 0 < c.sizeof_MR_Word)
    (body : Nat → Nat × Heap → Outcome (Nat × Heap)) (hbody : SlotBody c lo hi new body)
    (b : Nat) (hnew : b ≤ new)
    (n i : Nat) (s s2 : Nat × Heap) (hr : for_loop body n i s = .returns s2)
    (hrec : records_below c b s.2 s2.2)
    (k : Nat) (hk : k < s.1) (hcell : word_addr c new (k : Int) < s.2.saved_hp) :
    s2.2.read c new (k : Int) = s.2.read c new (k : Int) := by
  have f := slot_loop_facts body hbody b n i s s2 hr
  exact f.2.2.2 hrec _ (le_trans hnew (le_word_addr c _ _ (by omega))) hcell
    (fun j hj e => by
      have := word_addr_natCast_inj hws _ _ _ e
      omega)

theorem ex_base_typeclass_infos_wf2 : base_typeclass_infos_wf rt2 := by
  intro k
  simp [rt2, ex_base_typeclass_info2]

/-- In the low-tag scheme the stripped word is the word without its tag. -/
theorem MR_strip_tag_eq_sub_of_low (c : Config) (hlow : c.MR_HIGHTAGS = false) (w : Nat)
    (hw : w < 2 ^ MR_WORDBITS c) :
    MR_strip_tag c w = w - w % 2 ^ c.MR_TAGBITS := by
  rw [MR_strip_tag_of_low c hlow, Nat.mod_eq_of_lt hw, Nat.shiftLeft_eq,
    Nat.shiftRight_eq_div_pow]
  have := Nat.div_add_mod w (2 ^ c.MR_TAGBITS)
  have e : w / 2 ^ c.MR_TAGBITS * 2 ^ c.MR_TAGBITS = 2 ^ c.MR_TAGBITS * (w / 2 ^ c.MR_TAGBITS) :=
    Nat.mul_comm _ _
  omega

/-- A bit of a machine word is set only below the word size. -/
theorem testBit_lt_of_word {W w i : Nat} (hw : w < 2 ^ W) (hi : w.testBit i = true) : i < W := by
  by_contra hge
  have := Nat.testBit_lt_two_pow (lt_of_lt_of_le hw
    (Nat.pow_le_pow_right (by decide) (not_lt.mp hge)))
  rw [this] at hi
  exact absurd hi (by simp)

/-- In the high-tag scheme `MR_mktag(t)` is `t` shifted to the top of the
word, for a tag that fits in the tag bits. -/
theorem MR_mktag_of_high (c : Config) (hhigh : c.MR_HIGHTAGS = true)
    (hb : c.MR_TAGBITS ≤ MR_WORDBITS c) (t : Nat) (ht : t < 2 ^ c.MR_TAGBITS) :
    MR_mktag c t = t * 2 ^ (MR_WORDBITS c - c.MR_TAGBITS) ∧
    MR_mktag c t < 2 ^ MR_WORDBITS c := by
  have hsplit : 2 ^ MR_WORDBITS c = 2 ^ c.MR_TAGBITS * 2 ^ (MR_WORDBITS c - c.MR_TAGBITS) := by
    rw [← Nat.pow_add]; congr 1; omega
  have hlt : t * 2 ^ (MR_WORDBITS c - c.MR_TAGBITS) < 2 ^ MR_WORDBITS c := by
    rw [hsplit]
    exact Nat.mul_lt_mul_of_pos_right ht (Nat.two_pow_pos _)
  simp only [MR_mktag, hhigh, if_true, Nat.shiftLeft_eq]
  rw [Nat.mod_eq_of_lt hlt]
  exact ⟨rfl, hlt⟩

/-- The cast to `MR_Integer` is one-to-one on machine words. -/
theorem MR_Integer_of_Word_inj (c : Config) (a b : Nat)
    (ha : a < 2 ^ MR_WORDBITS c) (hb : b < 2 ^ MR_WORDBITS c)
    (e : MR_Integer_of_Word c a = MR_Integer_of_Word c b) : a = b := by
  unfold MR_Integer_of_Word at e
  rw [Nat.mod_eq_of_lt ha, Nat.mod_eq_of_lt hb] at e
  have ha2 : (a : Int) < ((2 ^ MR_WORDBITS c : Nat) : Int) := by exact_mod_cast ha
  have hb2 : (b : Int) < ((2 ^ MR_WORDBITS c : Nat) : Int) := by exact_mod_cast hb
  split_ifs at e <;> omega

/-- In the low-tag scheme `MR_mkbody(s)` is `s` shifted past the tag bits, for
a secondary tag that fits in the rest of the word. -/
theorem MR_mkbody_of_low (c : Config) (hlow : c.MR_HIGHTAGS = false)
    (hb : c.MR_TAGBITS ≤ MR_WORDBITS c) (s : Nat)
    (hs : s < 2 ^ (MR_WORDBITS c - c.MR_TAGBITS)) :
    MR_mkbody c s = s * 2 ^ c.MR_TAGBITS ∧
    ∀ p, p < 2 ^ c.MR_TAGBITS → s * 2 ^ c.MR_TAGBITS + p < 2 ^ MR_WORDBITS c := by
  have hsplit : 2 ^ MR_WORDBITS c = 2 ^ (MR_WORDBITS c - c.MR_TAGBITS) * 2 ^ c.MR_TAGBITS := by
    rw [← Nat.pow_add]; congr 1; omega
  have hall : ∀ p, p < 2 ^ c.MR_TAGBITS → s * 2 ^ c.MR_TAGBITS + p < 2 ^ MR_WORDBITS c := by
    intro p hp
    rw [hsplit]
    calc s * 2 ^ c.MR_TAGBITS + p < s * 2 ^ c.MR_TAGBITS + 2 ^ c.MR_TAGBITS := by omega
      _ = (s + 1) * 2 ^ c.MR_TAGBITS := by ring
      _ ≤ _ := Nat.mul_le_mul_right _ hs
  refine ⟨?_, hall⟩
  simp only [MR_mkbody, hlow, Bool.false_eq_true, if_false, Nat.shiftLeft_eq]
  have := hall 0 (Nat.two_pow_pos _)
  exact Nat.mod_eq_of_lt (by omega)

/-- In the high-tag scheme the body of a word is the word without its top
`MR_TAGBITS` bits. -/
theorem MR_body_of_high (c : Config) (hhigh : c.MR_HIGHTAGS = true)
    (hb : c.MR_TAGBITS ≤ MR_WORDBITS c) (w t : Nat) :
    MR_body c w t = w % 2 ^ (MR_WORDBITS c - c.MR_TAGBITS) := by
  simp only [MR_body, hhigh, if_true, MR_all_ones]
  rw [← Nat.and_pow_two_sub_one_eq_mod]
  congr 1
  apply Nat.eq_of_testBit_eq
  intro i
  simp only [Nat.testBit_shiftRight, Nat.testBit_two_pow_sub_one]
  congr 1
  apply propext
  constructor <;> intro h <;> omega

/-- In the high-tag scheme the tag of a machine word is the word without its
body. -/
theorem MR_tag_of_high (c : Config) (hhigh : c.MR_HIGHTAGS = true)
    (hb : c.MR_TAGBITS ≤ MR_WORDBITS c) (w : Nat) (hw : w < 2 ^ MR_WORDBITS c) :
    MR_tag c w = w / 2 ^ (MR_WORDBITS c - c.MR_TAGBITS) * 2 ^ (MR_WORDBITS c - c.MR_TAGBITS) := by
  rw [← Nat.shiftRight_eq_div_pow, ← Nat.shiftLeft_eq]
  simp only [MR_tag, hhigh, if_true, MR_all_ones]
  apply Nat.eq_of_testBit_eq
  intro i
  simp only [Nat.testBit_and, Nat.testBit_xor, Nat.testBit_shiftRight, Nat.testBit_shiftLeft,
    Nat.testBit_two_pow_sub_one]
  by_cases h2 : MR_WORDBITS c - c.MR_TAGBITS ≤ i
  · have e : MR_WORDBITS c - c.MR_TAGBITS + (i - (MR_WORDBITS c - c.MR_TAGBITS)) = i := by omega
    have h1 : ¬ c.MR_TAGBITS + i < MR_WORDBITS c := by omega
    by_cases hwi : w.testBit i = true
    · have h3 : i < MR_WORDBITS c := by
        by_contra hge
        have := Nat.testBit_lt_two_pow (lt_of_lt_of_le hw
          (Nat.pow_le_pow_right (by decide) (not_lt.mp hge)))
        rw [this] at hwi
        exact absurd hwi (by simp)
      simp [h1, h2, h3, e, hwi]
    · simp only [Bool.not_eq_true] at hwi
      simp [h2, e, hwi]
  · have h1 : c.MR_TAGBITS + i < MR_WORDBITS c := by omega
    have h3 : i < MR_WORDBITS c := by omega
    simp [h1, h2, h3]

/-- A pair without a node in the chain gets a new node at the end. -/
theorem prof_call_profile_chain_of_not_mem (w Callee Caller : Nat)
    (chain : List prof_call_node) (hno : (Callee, Caller) ∉ chain_pairs chain) :
    prof_call_profile_chain w Callee Caller chain
      = chain ++ [{ Callee := Callee, Caller := Caller, count := 1 }] := by
  induction chain with
  | nil => rfl
  | cons node next ih =>
    unfold chain_pairs at hno ih
    simp only [List.map_cons, List.mem_cons, not_or] at hno
    have hm : ¬ (node.Callee = Callee ∧ node.Caller = Caller) := by
      rintro ⟨e1, e2⟩
      exact hno.1 (by rw [e1, e2])
    simp only [prof_call_profile_chain, hm, if_false, List.cons_append, ih hno.2]

/-- In a chain without two nodes for one pair, a pair with a node has the
count of that node incremented. -/
theorem prof_call_profile_chain_of_mem (w Callee Caller : Nat)
    (chain : List prof_call_node) (hnd : (chain_pairs chain).Nodup)
    (hmem : (Callee, Caller) ∈ chain_pairs chain) :
    prof_call_profile_chain w Callee Caller chain
      = chain.map (fun node => if node.Callee = Callee ∧ node.Caller = Caller then
          { node with count := (node.count + 1) % 2 ^ w } else node) := by
  induction chain with
  | nil => simp [chain_pairs] at hmem
  | cons node next ih =>
    unfold chain_pairs at hnd hmem ih
    simp only [List.map_cons, List.nodup_cons, List.mem_cons] at hnd hmem
    by_cases hm : node.Callee = Callee ∧ node.Caller = Caller
    · simp only [prof_call_profile_chain, hm, and_self, if_true, List.map_cons,
        List.cons.injEq, true_and]
      have hnone : ∀ n ∈ next, ¬ (n.Callee = Callee ∧ n.Caller = Caller) := by
        rintro n hn ⟨e1, e2⟩
        apply hnd.1
        rw [hm.1, hm.2, ← e1, ← e2]
        exact List.mem_map_of_mem (fun node => (node.Callee, node.Caller)) hn
      symm
      calc next.map _ = next.map id := List.map_congr_left (fun n hn => by simp [hnone n hn])
        _ = next := List.map_id _
    · have hin : (Callee, Caller) ∈ List.map (fun node => (node.Callee, node.Caller)) next := by
        rcases hmem with e | e
        · exact absurd ⟨(Prod.mk.inj e).1.symm, (Prod.mk.inj e).2.symm⟩ hm
        · exact e
      simp only [prof_call_profile_chain, hm, if_false, List.map_cons, ih hnd.2 hin]

/-- The pairs of a chain after `prof_call_profile`. -/
theorem chain_pairs_profile_chain_eq (w Callee Caller : Nat) (chain : List prof_call_node)
    (hnd : (chain_pairs chain).Nodup) :
    chain_pairs (prof_call_profile_chain w Callee Caller chain)
      = if (Callee, Caller) ∈ chain_pairs chain then chain_pairs chain
        else chain_pairs chain ++ [(Callee, Caller)] := by
  split_ifs with hmem
  · rw [prof_call_profile_chain_of_mem w Callee Caller chain hnd hmem]
    unfold chain_pairs
    rw [List.map_map]
    apply List.map_congr_left
    intro n _
    simp only [Function.comp]
    split_ifs <;> rfl
  · rw [prof_call_profile_chain_of_not_mem w Callee Caller chain hmem]
    simp [chain_pairs]

/-- The sum of the counts of a chain grows by one in `prof_call_profile`
unless the count of the pair wraps. -/
theorem chain_count_profile_chain (w Callee Caller : Nat) (chain : List prof_call_node)
    (hbound : ∀ n ∈ chain, n.count + 1 < 2 ^ w) :
    chain_count (prof_call_profile_chain w Callee Caller chain) = chain_count chain + 1 := by
  induction chain with
  | nil => rfl
  | cons node next ih =>
    have ih2 := ih (fun n hn => hbound n (List.mem_cons_of_mem _ hn))
    unfold chain_count at ih2 ⊢
    by_cases hm : node.Callee = Callee ∧ node.Caller = Caller
    · simp only [prof_call_profile_chain, hm, and_self, if_true, List.map_cons, List.sum_cons]
      rw [Nat.mod_eq_of_lt (hbound node (List.mem_cons_self _ _))]
      omega
    · simp only [prof_call_profile_chain, hm, if_false, List.map_cons, List.sum_cons, ih2]
      omega

/-- The hash value is the index of a bucket. -/
theorem hash_addr_pair_lt (w Callee Caller : Nat) :
    hash_addr_pair w Callee Caller < CALL_TABLE_SIZE :=
  Nat.mod_lt _ (by decide)

/-- A sum over the buckets, one of which has changed by `d`. -/
theorem sum_range_update (f g : Nat → Nat) (k d : Nat) (hk : g k = f k + d)
    (hother : ∀ i, i ≠ k → g i = f i) (n : Nat) :
    ((List.range n).map g).sum = ((List.range n).map f).sum + (if k < n then d else 0) := by
  induction n with
  | zero => simp
  | succ n ih =>
    rw [List.range_succ, List.map_append, List.map_append, List.sum_append, List.sum_append, ih]
    simp only [List.map_cons, List.map_nil, List.sum_cons, List.sum_nil, Nat.add_zero]
    by_cases hkn : k = n
    · subst hkn
      simp [hk]
      omega
    · rw [hother n (Ne.symm hkn)]
      by_cases hlt : k < n
      · simp [hlt, Nat.lt_succ_of_lt hlt]; omega
      · have : ¬ k < n + 1 := by omega
        simp [hlt, this]

/-- The sum of all counts grows by one in `prof_call_profile` unless the count
of the pair wraps. -/
theorem table_count_prof_call_profile (w : Nat) (t : Nat → List prof_call_node)
    (Callee Caller : Nat)
    (hbound : ∀ n ∈ t (hash_addr_pair w Callee Caller), n.count + 1 < 2 ^ w) :
    table_count (prof_call_profile w t Callee Caller) = table_count t + 1 := by
  unfold table_count
  rw [sum_range_update (fun i => chain_count (t i))
    (fun i => chain_count (prof_call_profile w t Callee Caller i))
    (hash_addr_pair w Callee Caller) 1 ?_ ?_ CALL_TABLE_SIZE]
  · simp [hash_addr_pair_lt]
  · simp only [prof_call_profile, if_true]
    exact chain_count_profile_chain w Callee Caller _ hbound
  · intro i hi
    simp only [prof_call_profile, hi, if_false]

/-- The table after one more call. -/
theorem prof_call_sequence_append (w : Nat) (calls : List (Nat × Nat)) (q : Nat × Nat) :
    prof_call_sequence w (calls ++ [q])
      = prof_call_profile w (prof_call_sequence w calls) q.1 q.2 := by
  simp [prof_call_sequence, List.foldl_append]

/-- The invariant of the call-pair table: no chain has two nodes for one pair,
every node is in the bucket of its hash value, the pairs with a node are the
pairs of the calls made, and the count of a node is the number of calls made
for its pair, reduced modulo the range of `unsigned long`. -/
theorem prof_call_sequence_inv (w : Nat) (hw : 0 < w) (calls : List (Nat × Nat)) :
    (∀ i, (chain_pairs (prof_call_sequence w calls i)).Nodup) ∧
    (∀ i q, q ∈ chain_pairs (prof_call_sequence w calls i) →
      hash_addr_pair w q.1 q.2 = i ∧ q ∈ calls) ∧
    (∀ q, q ∈ calls →
      q ∈ chain_pairs (prof_call_sequence w calls (hash_addr_pair w q.1 q.2))) ∧
    (∀ i n, n ∈ prof_call_sequence w calls i →
      n.count = calls.count (n.Callee, n.Caller) % 2 ^ w) := by
  have h2 : 1 < 2 ^ w := Nat.one_lt_two_pow (by omega)
  induction calls using List.reverseRecOn with
  | nil =>
    refine ⟨?_, ?_, ?_, ?_⟩ <;>
      simp [prof_call_sequence, addr_pair_table_init, chain_pairs]
  | append_singleton calls q ih =>
    obtain ⟨i1, i2, i3, i4⟩ := ih
    obtain ⟨A, B⟩ := q
    rw [prof_call_sequence_append]
    set t := prof_call_sequence w calls with ht
    have hpairs : ∀ i, chain_pairs (prof_call_profile w t A B i)
        = if i = hash_addr_pair w A B then
            (if (A, B) ∈ chain_pairs (t i) then chain_pairs (t i)
              else chain_pairs (t i) ++ [(A, B)])
          else chain_pairs (t i) := by
      intro i
      simp only [prof_call_profile]
      split_ifs with hi hmem
      · subst hi
        rw [chain_pairs_profile_chain_eq w A B _ (i1 _), if_pos hmem]
      · subst hi
        rw [chain_pairs_profile_chain_eq w A B _ (i1 _), if_neg hmem]
      · rfl
    refine ⟨?_, ?_, ?_, ?_⟩
    · intro i
      rw [hpairs]
      split_ifs with hi hmem
      · exact i1 i
      · exact List.Nodup.append (i1 i) (List.nodup_singleton _)
          (by simpa [List.disjoint_singleton] using hmem)
      · exact i1 i
    · intro i q hq
      rw [hpairs] at hq
      split_ifs at hq with hi hmem
      · exact ⟨(i2 i q hq).1, List.mem_append_left _ (i2 i q hq).2⟩
      · rcases List.mem_append.mp hq with h | h
        · exact ⟨(i2 i q h).1, List.mem_append_left _ (i2 i q h).2⟩
        · simp only [List.mem_singleton] at h
          subst h
          exact ⟨hi.symm, by simp⟩
      · exact ⟨(i2 i q hq).1, List.mem_append_left _ (i2 i q hq).2⟩
    · intro q hq
      rw [hpairs]
      rcases List.mem_append.mp hq with h | h
      · have := i3 q h
        split_ifs with hi hmem
        · exact this
        · exact List.mem_append_left _ this
        · exact this
      · simp only [List.mem_singleton] at h
        subst h
        simp only [if_true]
        split_ifs with hmem
        · exact hmem
        · simp
    · intro i n hn
      rw [List.count_append]
      simp only [prof_call_profile] at hn
      split_ifs at hn with hi
      · subst hi
        by_cases hmem : (A, B) ∈ chain_pairs (t (hash_addr_pair w A B))
        · rw [prof_call_profile_chain_of_mem w A B _ (i1 _) hmem, List.mem_map] at hn
          obtain ⟨m, hm, rfl⟩ := hn
          have hc := i4 _ m hm
          split_ifs with hmatch
          · obtain ⟨rfl, rfl⟩ := hmatch
            simp only [List.count_singleton_self]
            rw [hc, Nat.mod_add_mod]
          · have hne : ¬ ((A, B) = (m.Callee, m.Caller)) := by
              intro e
              exact hmatch ⟨(Prod.mk.inj e).1.symm, (Prod.mk.inj e).2.symm⟩
            rw [List.count_singleton, beq_eq_false_iff_ne.mpr hne]
            simpa using hc
        · rw [prof_call_profile_chain_of_not_mem w A B _ hmem, List.mem_append] at hn
          rcases hn with hn | hn
          · have hc := i4 _ n hn
            have hne : ¬ ((A, B) = (n.Callee, n.Caller)) := by
              intro e
              apply hmem
              rw [e]
              exact List.mem_map_of_mem (fun node => (node.Callee, node.Caller)) hn
            rw [List.count_singleton, beq_eq_false_iff_ne.mpr hne]
            simpa using hc
          · simp only [List.mem_singleton] at hn
            subst hn
            have hz : List.count (A, B) calls = 0 := by
              rw [List.count_eq_zero]
              intro hin
              exact hmem (i3 (A, B) hin)
            simp only [hz, List.count_singleton_self, Nat.zero_add]
            exact (Nat.mod_eq_of_lt h2).symm
      · have hc := i4 i n hn
        have hne : ¬ ((A, B) = (n.Callee, n.Caller)) := by
          intro e
          have hq : (n.Callee, n.Caller) ∈ chain_pairs (t i) :=
            List.mem_map_of_mem (fun node => (node.Callee, node.Caller)) hn
          have := (i2 i _ hq).1
          rw [← e] at this
          exact hi this.symm
        rw [List.count_singleton, beq_eq_false_iff_ne.mpr hne]
        simpa using hc

/-- The sum of all counts is the number of calls, as long as no count can have
wrapped. -/
theorem table_count_prof_call_sequence (w : Nat) (hw : 0 < w) (calls : List (Nat × Nat))
    (hlen : calls.length < 2 ^ w) :
    table_count (prof_call_sequence w calls) = calls.length := by
  induction calls using List.reverseRecOn with
  | nil =>
    simp [table_count, prof_call_sequence, addr_pair_table_init, chain_count]
  | append_singleton calls q ih =>
    rw [List.length_append, List.length_singleton] at hlen ⊢
    rw [prof_call_sequence_append, table_count_prof_call_profile, ih (by omega)]
    intro n hn
    rw [(prof_call_sequence_inv w hw calls).2.2.2 _ n hn]
    have h1 := Nat.mod_le (List.count (n.Callee, n.Caller) calls) (2 ^ w)
    have h2 := List.count_le_length (n.Callee, n.Caller) calls
    omega

/-- Repeated calls for one pair as a sequence of calls. -/
theorem prof_call_sequence_replicate (w Callee Caller n : Nat) :
    prof_call_sequence w (List.replicate n (Callee, Caller))
      = (fun t => prof_call_profile w t Callee Caller)^[n] addr_pair_table_init := by
  unfold prof_call_sequence
  generalize addr_pair_table_init = t
  induction n generalizing t with
  | zero => rfl
  | succ n ih =>
    rw [List.replicate_succ, List.foldl_cons, ih, Function.iterate_succ_apply]

/-- The result of `copy` on a DU cell in range that is not yet forwarded, when
the copies of its hidden arguments and of its declared fields return. -/
theorem copy_du_cell_returns (c : Config) (rt : Runtime)
    (lower_limit upper_limit fuel data type_info : Nat) (h : Heap)
    (du_type_layout : MR_DuTypeLayout) (have_sectag : Bool)
    (ptag data_value sectag new_data : Nat) (functor_desc : MR_DuFunctorDesc)
    (p : Nat × (Nat × Heap)) (s : Nat × Heap) (h2 : Heap)
    (hlow : c.MR_HIGHTAGS = false) (hwf : base_typeclass_infos_wf rt)
    (hdu : reaches_du_type (type_ctor_info_of rt h type_info) data = some du_type_layout)
    (hptag : ptag = MR_tag c data)
    (hlocn : (du_type_layout ptag).MR_sectag_locn =
      if have_sectag then .MR_SECTAG_REMOTE else .MR_SECTAG_NONE)
    (hvalue : data_value = MR_body c data ptag)
    (hin : in_range lower_limit upper_limit data_value = true)
    (hfresh : h.forwarded data_value = false)
    (hsectag : sectag = if have_sectag then h.read c data_value 0 else 0)
    (hfunctor : functor_desc = (du_type_layout ptag).MR_sectag_alternatives sectag)
    (hnew : new_data = h.saved_hp + MR_SIZE_SLOT_SIZE c * c.sizeof_MR_Word)
    (hhidden : MR_du_cell_and_hidden_args c
      (copy_type_info c rt lower_limit upper_limit fuel)
      (copy_typeclass_info c rt lower_limit upper_limit fuel)
      have_sectag data ptag functor_desc sectag h = .returns p)
    (hargs : copy_du_args c rt (copy c rt lower_limit upper_limit fuel) have_sectag type_info
      data_value p.1 functor_desc functor_desc.MR_du_functor_orig_arity p.2 = .returns s)
    (hfinal : h2 = leave_forwarding_pointer c s.2 data_value 0 (MR_mkword ptag new_data)) :
    copy c rt lower_limit upper_limit (fuel + 1) data type_info h
      = .returns (MR_mkword ptag new_data, h2) ∧ p.1 = new_data := by
  subst hptag hvalue hsectag hfunctor hfinal
  have hcti := copy_type_info_framed c rt lower_limit upper_limit fuel
  have hctci := copy_typeclass_info_framed c rt lower_limit upper_limit hwf fuel
  have e1 := (MR_du_cell_and_hidden_args_frame hlow _ _ hcti hctci
    have_sectag data _ _ _ h p hhidden).1
  rw [← hnew] at e1
  refine ⟨?_, e1⟩
  rw [copy_du_cell_eq c rt lower_limit upper_limit fuel data type_info h du_type_layout
    have_sectag hdu hlocn hin hfresh]
  rw [hhidden, Outcome.bind_returns, hargs, Outcome.bind_returns, e1]

/-- The call that the loop over the declared fields makes for field `i`, in
the heap that its first `i` iterations have reached. -/
theorem copy_du_args_call {c : Config} {rt : Runtime} {lo hi : Nat}
    (hlow : c.MR_HIGHTAGS = false)
    (cp : Nat → Nat → Heap → Result) (hcp : FramedCopy c lo hi cp) (have_sectag : Bool)
    (ti data_value new_data : Nat) (fd : MR_DuFunctorDesc) (n : Nat)
    (s0 s : Nat × Heap)
    (hr : copy_du_args c rt cp have_sectag ti data_value new_data fd n s0 = .returns s)
    (i : Nat) (hin : i < n) :
    ∃ (si : Heap) (ri : Nat) (hi2 : Heap),
      copy_du_args c rt cp have_sectag ti data_value new_data fd i s0
        = .returns (s0.1 + i, si) ∧
      copy_du_arg c rt cp have_sectag ti new_data fd i
        (si.read c data_value ((s0.1 + i : Nat) : Int)) si = .returns (ri, hi2) := by
  unfold copy_du_args at hr ⊢
  obtain ⟨sk, sk2, ha, hb, -⟩ := for_loop_split _ n 0 s0 s hr i hin
  have hbody := @copy_du_args_slot_body c rt lo hi hlow cp hcp have_sectag
    ti data_value new_data fd
  have fa := slot_loop_facts _ hbody 0 _ _ _ _ ha
  simp only [Nat.zero_add] at hb
  unfold copy_du_args_body at hb
  obtain ⟨r, hcall, -⟩ := Outcome.bind_eq_returns.mp hb
  have e1 : sk.1 = s0.1 + i := fa.1
  have hsk : sk = (s0.1 + i, sk.2) := by rw [← e1]
  rw [e1] at hcall
  exact ⟨sk.2, r.1, r.2, by rw [← hsk]; exact ha, hcall⟩

/-! ## Lemmas on the example heaps: the objects forwarded by the example runs -/

/-- The only objects forwarded after the copy of the pair cell are the pair
cell at 120 and the cons cell at 112. -/
theorem ex_pair_copied_forwarded (q : Nat) (hq : h0_pair_copied.forwarded q = true) :
    q < 200 := by
  by_contra hne
  have h1 : q ≠ 120 := by omega
  have h2 : q ≠ 112 := by omega
  simp [h0_pair_copied, h1, h2] at hq


/-- The only object forwarded after `copy_type_info` of the type descriptor at
100 is that descriptor. -/
theorem ex_type_info_copied_forwarded (q : Nat)
    (hq : h0_type_info_copied.forwarded q = true) : q < 200 := by
  by_contra hne
  have h1 : q ≠ 100 := by omega
  simp [h0_type_info_copied, h1] at hq

/-- The only object forwarded after the copy of the tuple at 112 is the tuple. -/
theorem ex_tuple_copied_forwarded (q : Nat) (hq : k0_tuple_copied.forwarded q = true) :
    q < 200 := by
  by_contra hne
  have h1 : q ≠ 112 := by omega
  simp [k0_tuple_copied, h1] at hq

/-- The only object forwarded after the copy of the array at 120 is the array. -/
theorem ex_array_copied_forwarded (q : Nat) (hq : k0_array_copied.forwarded q = true) :
    q < 200 := by
  by_contra hne
  have h1 : q ≠ 120 := by omega
  simp [k0_array_copied, h1] at hq

/-- The only object forwarded after the copy of the closure at 132 is the
closure. -/
theorem ex_closure_copied_forwarded (q : Nat) (hq : k0_closure_copied.forwarded q = true) :
    q < 200 := by
  by_contra hne
  have h1 : q ≠ 132 := by omega
  simp [k0_closure_copied, h1] at hq

/-- The objects forwarded after the copy of the existentially typed cell at
132 are the cell, the list at 120 and the dictionary at 104. -/
theorem ex_constrained_copied_forwarded (q : Nat) (hq : k1_copied.forwarded q = true) :
    q < 200 := by
  by_contra hne
  have h1 : q ≠ 132 := by omega
  have h2 : q ≠ 120 := by omega
  have h3 : q ≠ 104 := by omega
  simp [k1_copied, h1, h2, h3] at hq

/-- The heaps that the loop over the fields of the pair cell at 120 has
reached at the visits of its two fields, in a window in which its first
iteration runs as in the example: in both, the field has the list type 1004,
at which the word 113 designates the cons cell at 112. -/
theorem ex_pair_loop_states (lo hi : Nat)
    (h1 : copy_du_args c32 rt0 (copy c32 rt0 lo hi 2) false 1016 120 4000 ex_functor_pair 1
      (0, h0_pair_allocated) = .returns (1, h0_pair_first_field))
    (k : Nat) (sk : Heap) (hk : k = 0 ∨ k = 1)
    (hpre : copy_du_args c32 rt0 (copy c32 rt0 lo hi 2) false 1016 120 4000 ex_functor_pair k
      (0, h0_pair_allocated) = .returns (0 + k, sk)) :
    copy_du_arg_type c32 rt0 false 1016 4000 ex_functor_pair k sk = 1004 ∧
    forwarding_site c32 (type_ctor_info_of rt0 sk 1004) 113 = some (112, 0) ∧
    ((type_ctor_info_of rt0 sk 1004).MR_type_ctor_rep = .MR_TYPECTOR_REP_TUPLE →
      MR_TYPEINFO_GET_VAR_ARITY_ARITY c32 sk 1004 ≠ 0) := by
  rcases hk with rfl | rfl
  · simp only [copy_du_args, for_loop, Outcome.returns.injEq, Prod.mk.injEq] at hpre
    obtain ⟨-, rfl⟩ := hpre
    have e : type_ctor_info_of rt0 h0_pair_allocated 1004
        = ex_tci .MR_TYPECTOR_REP_DU 0 ex_layout_list := rfl
    refine ⟨rfl, rfl, fun ht => ?_⟩
    rw [e] at ht
    exact absurd ht (by simp [ex_tci])
  · rw [h1] at hpre
    simp only [Outcome.returns.injEq, Prod.mk.injEq] at hpre
    obtain ⟨-, rfl⟩ := hpre
    have e : type_ctor_info_of rt0 h0_pair_first_field 1004
        = ex_tci .MR_TYPECTOR_REP_DU 0 ex_layout_list := rfl
    refine ⟨rfl, rfl, fun ht => ?_⟩
    rw [e] at ht
    exact absurd ht (by simp [ex_tci])

/-! ## The ownership frame: writes stay inside the words allocated by the run -/

theorem copy_arg_with_owned {c : Config} {rt : Runtime} {lo hi : Nat}
    (cp : Nat → Nat → Heap → Result) (hcp : OwnedCopy c lo hi cp)
    (pd data : Nat) (fd : Option MR_DuFunctorDesc) (tp pti : Nat) (h : Heap) (r : Nat)
    (h2 : Heap) (hr : copy_arg_with rt cp pd data fd tp pti h = .returns (r, h2)) :
    Owned c lo hi h.saved_hp h h2 :=
  hcp _ _ _ _ _ hr

/-- C1 (sharing preservation): in every heap in which an in-region object `q`
is forwarded with record `N`, `copy` of a word whose body pointer is `q`
returns exactly `N` and leaves the heap as it is; and for an in-region DU
cell, not yet forwarded, two of whose fields `i < j` hold the same word `w`,
a pointer to an in-region object `q`, copied at the same type (in the heaps
that the loop over the fields has reached when it visits the two fields, the
type of the field is `child_type`, at which `w` designates `q`): when the
copies of the hidden arguments and of the fields return, `copy` of the cell
returns a new cell whose slots `i` and `j` are equal (both are the record left
by the single copy of `q`).  The window is arbitrary.  The heap is laid out without
overlap: the objects that the run forwards and the object `q` lie below the
destination arena, and no forwarding record of another object copied by the
run lies on the fields of the cell or on the record of `q`. -/
theorem copy_preserves_sharing (c : Config) (rt : Runtime)
    (lower_limit upper_limit fuel data type_info : Nat) (h : Heap)
    (du_type_layout : MR_DuTypeLayout) (have_sectag : Bool)
    (ptag data_value sectag new_data first_slot : Nat) (functor_desc : MR_DuFunctorDesc)
    (p : Nat × (Nat × Heap)) (s : Nat × Heap) (h2 : Heap)
    (i j child_type w q : Nat) (offq : Int)
    (hlow : c.MR_HIGHTAGS = false) (hwf : base_typeclass_infos_wf rt)
    (hws : 0 < c.sizeof_MR_Word)
    (hdu : reaches_du_type (type_ctor_info_of rt h type_info) data = some du_type_layout)
    (hptag : ptag = MR_tag c data)
    (hlocn : (du_type_layout ptag).MR_sectag_locn =
      if have_sectag then .MR_SECTAG_REMOTE else .MR_SECTAG_NONE)
    (hvalue : data_value = MR_body c data ptag)
    (hin : in_range lower_limit upper_limit data_value = true)
    (hfresh : h.forwarded data_value = false)
    (hsectag : sectag = if have_sectag then h.read c data_value 0 else 0)
    (hfunctor : functor_desc = (du_type_layout ptag).MR_sectag_alternatives sectag)
    (hnew : new_data = h.saved_hp + MR_SIZE_SLOT_SIZE c * c.sizeof_MR_Word)
    (halign : MR_tag c new_data = 0)
    (hfirst : first_slot = (if have_sectag then 1 else 0) + MR_du_hidden_count functor_desc)
    (hhidden : MR_du_cell_and_hidden_args c
      (copy_type_info c rt lower_limit upper_limit fuel)
      (copy_typeclass_info c rt lower_limit upper_limit fuel)
      have_sectag data ptag functor_desc sectag h = .returns p)
    (hargs : copy_du_args c rt (copy c rt lower_limit upper_limit fuel) have_sectag type_info
      data_value p.1 functor_desc functor_desc.MR_du_functor_orig_arity p.2 = .returns s)
    (hfinal : h2 = leave_forwarding_pointer c s.2 data_value 0 (MR_mkword ptag new_data))
    (hrec : records_below c h.saved_hp h h2)
    (hq_below : word_addr c q offq < h.saved_hp)
    (hij : i < j) (hj : j < functor_desc.MR_du_functor_orig_arity)
    (hstate : ∀ k sk, k = i ∨ k = j →
      copy_du_args c rt (copy c rt lower_limit upper_limit fuel) have_sectag type_info
        data_value new_data functor_desc k p.2 = .returns (first_slot + k, sk) →
      copy_du_arg_type c rt have_sectag type_info new_data functor_desc k sk = child_type ∧
      forwarding_site c (type_ctor_info_of rt sk child_type) w = some (q, offq) ∧
      ((type_ctor_info_of rt sk child_type).MR_type_ctor_rep = .MR_TYPECTOR_REP_TUPLE →
        MR_TYPEINFO_GET_VAR_ARITY_ARITY c sk child_type ≠ 0))
    (hfield_i : h.read c data_value ((first_slot + i : Nat) : Int) = w)
    (hfield_j : h.read c data_value ((first_slot + j : Nat) : Int) = w)
    (hword : w < 2 ^ MR_WORDBITS c)
    (hchild_in : in_range lower_limit upper_limit q = true)
    (hbelow : word_addr c data_value
      ((first_slot + functor_desc.MR_du_functor_orig_arity : Nat) : Int) ≤ h.saved_hp)
    (hnr : no_record_inside c h s.2 data_value
      (first_slot + functor_desc.MR_du_functor_orig_arity))
    (hnr_child : ∀ q2 off2, q2 ≠ q → s.2.forwarded q2 = true → h.forwarded q2 = false →
      is_forwarding_offset off2 → word_addr c q2 off2 ≠ word_addr c q offq) :
    copy c rt lower_limit upper_limit (fuel + 1) data type_info h
      = .returns (MR_mkword ptag new_data, h2) ∧
    h2.read c new_data ((first_slot + i : Nat) : Int)
      = h2.read c new_data ((first_slot + j : Nat) : Int) ∧
    (∀ (fuel3 : Nat) (h3 : Heap) (data3 type_info3 N : Nat),
      forwarding_site c (type_ctor_info_of rt h3 type_info3) data3 = some (q, offq) →
      h3.forwarded q = true → h3.read c q offq = N →
      copy c rt lower_limit upper_limit (fuel3 + 1) data3 type_info3 h3
        = .returns (N, h3)) := by
  obtain ⟨hret, -, -, -, hnew_le, -, -, hfields⟩ := copy_du_cell_core c rt lower_limit upper_limit
    fuel data type_info h du_type_layout have_sectag ptag data_value sectag new_data first_slot
    functor_desc p s h2 hlow hwf hws hdu hptag hlocn hvalue hin hfresh hsectag hfunctor hnew
    halign hfirst hhidden hargs hfinal hrec
  have hcp := copy_framed c rt lower_limit upper_limit hlow hwf fuel
  refine ⟨hret, ?_, ?_⟩
  · obtain ⟨si, ri, hi2, frsi, hpre_i, hsuf_i, hcall_i, hread_i, hentry_i⟩ :=
      hfields i (by omega)
    obtain ⟨sj, rj, hj2, frsj, hpre_j, hsuf_j, hcall_j, hread_j, hentry_j⟩ := hfields j hj
    rw [hread_i, hread_j]
    obtain ⟨htype_i, hchild_i, htuple_i⟩ := hstate i si (Or.inl rfl) hpre_i
    obtain ⟨htype_j, hchild_j, htuple_j⟩ := hstate j sj (Or.inr rfl) hpre_j
    rw [hentry_i hnr hbelow, hfield_i] at hcall_i
    rw [hentry_j hnr hbelow, hfield_j] at hcall_j
    have hci : copy c rt lower_limit upper_limit fuel w child_type si = .returns (ri, hi2) := by
      rw [copy_du_arg_eq, htype_i] at hcall_i
      exact hcall_i
    have hcj : copy c rt lower_limit upper_limit fuel w child_type sj = .returns (rj, hj2) := by
      rw [copy_du_arg_eq, htype_j] at hcall_j
      exact hcall_j
    obtain ⟨hfi, hri, -⟩ := copy_returns_record c rt lower_limit upper_limit fuel w child_type si
      q offq ri hi2 hchild_i hword hchild_in htuple_i hci
    obtain ⟨-, -, hrj⟩ := copy_returns_record c rt lower_limit upper_limit fuel w child_type sj
      q offq rj hj2 hchild_j hword hchild_in htuple_j hcj
    -- the visits between i and j
    have hmid : for_loop (copy_du_args_body c rt (copy c rt lower_limit upper_limit fuel)
        have_sectag type_info data_value new_data functor_desc) (j - (i + 1)) (i + 1)
        (first_slot + i + 1, hi2.store (word_addr c new_data ((first_slot + i : Nat) : Int)) ri)
        = .returns (first_slot + j, sj) := by
      have e : (i + 1) + (j - (i + 1)) = j := by omega
      have h1 : for_loop (copy_du_args_body c rt (copy c rt lower_limit upper_limit fuel)
          have_sectag type_info data_value new_data functor_desc) ((i + 1) + (j - (i + 1))) 0 p.2
          = .returns (first_slot + j, sj) := by rw [e]; exact hpre_j
      rw [for_loop_append, for_loop_append _ i 1, hpre_i] at h1
      simp only [Outcome.bind_returns, for_loop, copy_du_args_body, hentry_i hnr hbelow,
        hfield_i, Nat.zero_add, hcall_i, MR_field_zero_of_low c hlow] at h1
      exact h1
    have fri := copy_du_arg_framed _ hcp _ _ _ _ _ _ _ _ _ hcall_i
    have fri0 : Frame c lower_limit upper_limit h.saved_hp
        (hi2.store (word_addr c new_data ((first_slot + i : Nat) : Int)) ri)
        (hi2.store (word_addr c new_data ((first_slot + i : Nat) : Int)) ri) :=
      Frame.refl (le_trans frsi.hp_le fri.hp_le)
    have frmid : Frame c lower_limit upper_limit h.saved_hp
        (hi2.store (word_addr c new_data ((first_slot + i : Nat) : Int)) ri) sj :=
      copy_du_args_loop_frame hlow _ hcp _ _ _ _ _ _ _ hnew_le _ _ _ fri0 hmid
    have hfj : sj.forwarded q = true := frmid.forwarded_mono q hfi
    obtain ⟨hrj1, -⟩ := hrj hfj
    have frj := copy_du_arg_framed _ hcp _ _ _ _ _ _ _ _ _ hcall_j
    have frj0 : Frame c lower_limit upper_limit h.saved_hp
        (hj2.store (word_addr c new_data ((first_slot + j : Nat) : Int)) rj)
        (hj2.store (word_addr c new_data ((first_slot + j : Nat) : Int)) rj) :=
      Frame.refl (le_trans frsj.hp_le frj.hp_le)
    have frsuf : Frame c lower_limit upper_limit h.saved_hp
        (hj2.store (word_addr c new_data ((first_slot + j : Nat) : Int)) rj) s.2 :=
      copy_du_args_loop_frame hlow _ hcp _ _ _ _ _ _ _ hnew_le _ _ _ frj0 hsuf_j
    have hR : word_addr c q offq < h.saved_hp := hq_below
    rw [hrj1, ← hri]
    unfold Heap.read
    by_contra hne
    have hst : (hi2.store (word_addr c new_data ((first_slot + i : Nat) : Int)) ri).mem
        (word_addr c q offq) = hi2.mem (word_addr c q offq) := by
      have : word_addr c q offq ≠ word_addr c new_data ((first_slot + i : Nat) : Int) := by
        have := le_word_addr c new_data ((first_slot + i : Nat) : Int) (by omega)
        omega
      simp only [Heap.store]
      rw [if_neg this]
    have hne2 : sj.mem (word_addr c q offq) ≠
        (hi2.store (word_addr c new_data ((first_slot + i : Nat) : Int)) ri).mem
          (word_addr c q offq) := by
      rw [hst]; exact fun e => hne e.symm
    rcases frmid.mem_frame _ hne2 with hb | ⟨q2, off2, ho, -, hf1, hf2, e⟩
    · omega
    · have hq2 : q2 ≠ q := by
        rintro rfl
        rw [show (hi2.store (word_addr c new_data ((first_slot + i : Nat) : Int)) ri).forwarded
          = hi2.forwarded from rfl, hfi] at hf1
        exact absurd hf1 (by simp)
      have hs2 : s.2.forwarded q2 = true :=
        frsuf.forwarded_mono q2 (frj.forwarded_mono q2 hf2)
      have hh : h.forwarded q2 = false := by
        by_contra hx
        have hx2 : h.forwarded q2 = true := by simpa using hx
        have := fri.forwarded_mono q2 (frsi.forwarded_mono q2 hx2)
        rw [show (hi2.store (word_addr c new_data ((first_slot + i : Nat) : Int)) ri).forwarded
          = hi2.forwarded from rfl, this] at hf1
        exact absurd hf1 (by simp)
      exact hnr_child q2 off2 hq2 hs2 hh ho e.symm
  · intro fuel3 h3 data3 type_info3 N hs hf hN
    rw [copy_succ]
    rw [copy_body_of_return_if_out_of_range c rt _ _ _ lower_limit upper_limit data3 type_info3
      h3 q offq _ hs (RETURN_IF_OUT_OF_RANGE_of_forwarded hchild_in hf), hN]

/-- Witness of C1: the pair cell at 120 of the example heap, whose two fields
hold the list `[7]` (the word 113); both slots of the new cell at 4000 hold
the word 4009, and a later `copy` of 113 returns 4009.  The run is the same
with the window `[100, 200)` and with the null window, in which every object
is in range. -/
theorem copy_preserves_sharing_witness :
    copy c32 rt0 100 200 3 120 1016 h0 = .returns (MR_mkword 0 4000, h0_pair_copied) ∧
    h0_pair_copied.read c32 4000 ((0 + 0 : Nat) : Int)
      = h0_pair_copied.read c32 4000 ((0 + 1 : Nat) : Int) ∧
    copy c32 rt0 100 200 1 113 1004 h0_pair_copied = .returns (4009, h0_pair_copied) ∧
    copy c32 rt0 0 0 3 120 1016 h0 = .returns (MR_mkword 0 4000, h0_pair_copied) ∧
    copy c32 rt0 0 0 1 113 1004 h0_pair_copied = .returns (4009, h0_pair_copied) :=
  have key := copy_preserves_sharing c32 rt0 100 200 2 120 1016 h0
    (fun _ => ex_ptag .MR_SECTAG_NONE ex_functor_pair) false 0 120 0 4000 0 ex_functor_pair
    (4000, (0, h0_pair_allocated)) (2, h0_pair_fields) h0_pair_copied 0 1 1004 113 112 0
    rfl (fun _ => Nat.le_refl 0) (by decide)
    rfl rfl rfl rfl rfl rfl rfl rfl rfl rfl rfl rfl rfl rfl
    (ex_records_below 4000 h0 h0_pair_copied (by decide) ex_pair_copied_forwarded) (by decide)
    (by decide) (by decide) (ex_pair_loop_states 100 200 rfl) rfl rfl (by decide)
    rfl (by decide) ex_pair_no_record_inside
    (fun q2 _ hne hf _ _ => absurd (ex_pair_fields_forwarded q2 hf) hne)
  have key0 := copy_preserves_sharing c32 rt0 0 0 2 120 1016 h0
    (fun _ => ex_ptag .MR_SECTAG_NONE ex_functor_pair) false 0 120 0 4000 0 ex_functor_pair
    (4000, (0, h0_pair_allocated)) (2, h0_pair_fields) h0_pair_copied 0 1 1004 113 112 0
    rfl (fun _ => Nat.le_refl 0) (by decide)
    rfl rfl rfl rfl rfl rfl rfl rfl rfl rfl rfl rfl rfl rfl
    (ex_records_below 4000 h0 h0_pair_copied (by decide) ex_pair_copied_forwarded) (by decide)
    (by decide) (by decide) (ex_pair_loop_states 0 0 rfl) rfl rfl (by decide)
    rfl (by decide) ex_pair_no_record_inside
    (fun q2 _ hne hf _ _ => absurd (ex_pair_fields_forwarded q2 hf) hne)
  ⟨key.1, key.2.1, key.2.2 0 h0_pair_copied 113 1004 4009 rfl rfl rfl,
    key0.1, key0.2.2 0 h0_pair_copied 113 1004 4009 rfl rfl rfl⟩

/-- C2 (idempotent forwarding): when `copy` has returned `new_data` for an
object in range that was not yet forwarded (a DU cell with a remote or no
secondary tag, a string, a closure, a tuple, an array, a reference, a boxed
float), copying the same data word at the same type a second time, in the
heap `h1` that the first copy left, returns the same word and leaves `h1` as
it is: the heap pointer is the same before and after the second call, so the
allocation was performed once. -/
theorem copy_again_allocates_nothing (c : Config) (rt : Runtime)
    (lower_limit upper_limit fuel fuel2 data type_info : Nat) (h : Heap) (p : Nat) (off : Int)
    (new_data : Nat) (h1 : Heap)
    (hkind : forwarding_site c (type_ctor_info_of rt h type_info) data = some (p, off))
    (hword : data < 2 ^ MR_WORDBITS c)
    (hin : in_range lower_limit upper_limit p = true)
    (hfresh : h.forwarded p = false)
    (hfirst : copy c rt lower_limit upper_limit (fuel + 1) data type_info h
      = .returns (new_data, h1))
    (htype : type_ctor_info_of rt h1 type_info = type_ctor_info_of rt h type_info) :
    copy c rt lower_limit upper_limit (fuel2 + 1) data type_info h1
      = .returns (new_data, h1) := by
  rw [copy_succ] at hfirst
  have hr0 := @RETURN_IF_OUT_OF_RANGE_of_fresh c _ _ data _ off _ hin hfresh
  rcases copy_body_leaves_record c rt _ _ _ _ _ data type_info h p off new_data h1 hkind hword
    hr0 hfirst with ⟨hf, hrd⟩ | ⟨e, ha, rfl, rfl⟩
  · rw [copy_succ]
    refine copy_body_of_return_if_out_of_range c rt _ _ _ _ _ data type_info h1 p off _
      (by rw [htype]; exact hkind) ?_
    rw [RETURN_IF_OUT_OF_RANGE_of_forwarded hin hf, hrd]
  · rw [copy_succ]
    exact copy_body_tuple_arity_zero c rt _ _ _ _ _ data type_info h1 p off hkind hr0 e ha

/-- Witness of C2: the list `[7]` at 112 is copied to 4000; the second copy
returns the same word 4001 and leaves the heap, with heap pointer 4008, as it
is. -/
theorem copy_again_allocates_nothing_witness :
    forwarding_site c32 (type_ctor_info_of rt0 h0 1004) 113 = some (112, 0) ∧
    113 < 2 ^ MR_WORDBITS c32 ∧
    in_range 100 200 112 = true ∧
    h0.forwarded 112 = false ∧
    copy c32 rt0 100 200 2 113 1004 h0 = .returns (4001, h0_cons_copied) ∧
    type_ctor_info_of rt0 h0_cons_copied 1004 = type_ctor_info_of rt0 h0 1004 ∧
    copy c32 rt0 100 200 1 113 1004 h0_cons_copied = .returns (4001, h0_cons_copied) :=
  ⟨by decide, by decide, by decide, rfl, rfl, rfl,
    copy_again_allocates_nothing c32 rt0 100 200 1 0 113 1004 h0 112 0 4001 h0_cons_copied
      (by decide) (by decide) (by decide) rfl rfl rfl⟩

/-- C3 (region transparency): a value of a pointer-represented kind (a DU
alternative with a remote or no secondary tag, a string, a closure, a tuple,
an array, a reference, a boxed float) whose body pointer `p`, the pointer that
`copy` hands to `RETURN_IF_OUT_OF_RANGE`, is not in range of the window is
returned bit-identical, and the heap (memory, heap pointer, forwarding marks)
is the one `copy` was called with. -/
theorem copy_region_transparency (c : Config) (rt : Runtime)
    (lower_limit upper_limit fuel data type_info : Nat) (h : Heap) (p : Nat) (off : Int)
    (hkind : forwarding_site c (type_ctor_info_of rt h type_info) data = some (p, off))
    (hout : in_range lower_limit upper_limit p = false) :
    copy c rt lower_limit upper_limit (fuel + 1) data type_info h = .returns (data, h) := by
  rw [copy_succ]
  refine copy_body_of_return_if_out_of_range c rt _ _ _ lower_limit upper_limit data type_info h
    p off (data, h) hkind ?_
  simp [RETURN_IF_OUT_OF_RANGE, hout]

/-- Witness of C3: the cons cell at 300, outside the window `[100, 200)`. -/
theorem copy_region_transparency_witness :
    forwarding_site c32 (type_ctor_info_of rt0 h0 1004) 301 = some (300, 0) ∧
    in_range 100 200 300 = false ∧
    copy c32 rt0 100 200 1 301 1004 h0 = .returns (301, h0) :=
  ⟨by decide, by decide,
    copy_region_transparency c32 rt0 100 200 0 301 1004 h0 300 0 (by decide) (by decide)⟩

/-- C4 (identity on non-pointer and never-relocated kinds): for every data
word, window and heap, when the representation of the type is one of ENUM,
ENUM_USEREQ, INT, CHAR, SUCCIP, REDOIP, CURFR, MAXFR, REDOFR, TRAIL_PTR,
TICKET, TYPECTORINFO, TYPECTORDESC, BASETYPECLASSINFO, STABLE_FOREIGN, `copy`
returns the data word and the heap it was called with. -/
theorem copy_identity_on_never_relocated_kinds (c : Config) (rt : Runtime)
    (lower_limit upper_limit fuel data type_info : Nat) (h : Heap)
    (hrep : (type_ctor_info_of rt h type_info).MR_type_ctor_rep ∈
      [MR_TypeCtorRep.MR_TYPECTOR_REP_ENUM, .MR_TYPECTOR_REP_ENUM_USEREQ,
       .MR_TYPECTOR_REP_INT, .MR_TYPECTOR_REP_CHAR,
       .MR_TYPECTOR_REP_SUCCIP, .MR_TYPECTOR_REP_REDOIP,
       .MR_TYPECTOR_REP_CURFR, .MR_TYPECTOR_REP_MAXFR, .MR_TYPECTOR_REP_REDOFR,
       .MR_TYPECTOR_REP_TRAIL_PTR, .MR_TYPECTOR_REP_TICKET,
       .MR_TYPECTOR_REP_TYPECTORINFO, .MR_TYPECTOR_REP_TYPECTORDESC,
       .MR_TYPECTOR_REP_BASETYPECLASSINFO, .MR_TYPECTOR_REP_STABLE_FOREIGN]) :
    copy c rt lower_limit upper_limit (fuel + 1) data type_info h = .returns (data, h) := by
  simp only [List.mem_cons, List.mem_singleton, List.not_mem_nil, or_false] at hrep
  unfold type_ctor_info_of at hrep
  rw [copy_succ]
  rcases hrep with e | e | e | e | e | e | e | e | e | e | e | e | e | e | e <;>
    simp [copy_body, MR_type_ctor_has_valid_rep, e]

/-- Witness of C4: the integer 5. -/
theorem copy_identity_on_never_relocated_kinds_witness :
    (type_ctor_info_of rt0 h0 1000).MR_type_ctor_rep ∈
      [MR_TypeCtorRep.MR_TYPECTOR_REP_ENUM, .MR_TYPECTOR_REP_ENUM_USEREQ,
       .MR_TYPECTOR_REP_INT, .MR_TYPECTOR_REP_CHAR,
       .MR_TYPECTOR_REP_SUCCIP, .MR_TYPECTOR_REP_REDOIP,
       .MR_TYPECTOR_REP_CURFR, .MR_TYPECTOR_REP_MAXFR, .MR_TYPECTOR_REP_REDOFR,
       .MR_TYPECTOR_REP_TRAIL_PTR, .MR_TYPECTOR_REP_TICKET,
       .MR_TYPECTOR_REP_TYPECTORINFO, .MR_TYPECTOR_REP_TYPECTORDESC,
       .MR_TYPECTOR_REP_BASETYPECLASSINFO, .MR_TYPECTOR_REP_STABLE_FOREIGN] ∧
    copy c32 rt0 100 200 1 5 1000 h0 = .returns (5, h0) :=
  ⟨by decide, copy_identity_on_never_relocated_kinds c32 rt0 100 200 0 5 1000 h0 (by decide)⟩

/-- C5 (structural equality with independent storage): for an in-region DU
value that is not yet forwarded and whose alternative has a remote or no
secondary tag, when the copies of the hidden arguments and of the declared
fields return, `copy` returns the new cell address tagged with the primary tag
of the input; the new cell is freshly allocated at the heap pointer, differs
from the original cell, holds the secondary tag of the original when it is
remote, and holds in field slot `i` the result of the call of `copy_du_arg`
that the loop over the declared fields makes, in the heap `si` it has reached
after its first `i` iterations, on the word found in the same slot of the
original (which is the word the slot held at entry when no forwarding record
of the run lies inside the original cell).  The window is arbitrary; the
objects that the run forwards lie below the destination arena. -/
theorem copy_du_cell_structure (c : Config) (rt : Runtime)
    (lower_limit upper_limit fuel data type_info : Nat) (h : Heap)
    (du_type_layout : MR_DuTypeLayout) (have_sectag : Bool)
    (ptag data_value sectag new_data first_slot : Nat) (functor_desc : MR_DuFunctorDesc)
    (p : Nat × (Nat × Heap)) (s : Nat × Heap) (h2 : Heap)
    (hlow : c.MR_HIGHTAGS = false) (hwf : base_typeclass_infos_wf rt)
    (hws : 0 < c.sizeof_MR_Word)
    (hdu : reaches_du_type (type_ctor_info_of rt h type_info) data = some du_type_layout)
    (hptag : ptag = MR_tag c data)
    (hlocn : (du_type_layout ptag).MR_sectag_locn =
      if have_sectag then .MR_SECTAG_REMOTE else .MR_SECTAG_NONE)
    (hvalue : data_value = MR_body c data ptag)
    (hin : in_range lower_limit upper_limit data_value = true)
    (hfresh : h.forwarded data_value = false)
    (hsectag : sectag = if have_sectag then h.read c data_value 0 else 0)
    (hfunctor : functor_desc = (du_type_layout ptag).MR_sectag_alternatives sectag)
    (hnew : new_data = h.saved_hp + MR_SIZE_SLOT_SIZE c * c.sizeof_MR_Word)
    (halign : MR_tag c new_data = 0)
    (hfirst : first_slot = (if have_sectag then 1 else 0) + MR_du_hidden_count functor_desc)
    (hhidden : MR_du_cell_and_hidden_args c
      (copy_type_info c rt lower_limit upper_limit fuel)
      (copy_typeclass_info c rt lower_limit upper_limit fuel)
      have_sectag data ptag functor_desc sectag h = .returns p)
    (hargs : copy_du_args c rt (copy c rt lower_limit upper_limit fuel) have_sectag type_info
      data_value p.1 functor_desc functor_desc.MR_du_functor_orig_arity p.2 = .returns s)
    (hfinal : h2 = leave_forwarding_pointer c s.2 data_value 0 (MR_mkword ptag new_data))
    (hrec : records_below c h.saved_hp h h2) :
    copy c rt lower_limit upper_limit (fuel + 1) data type_info h
      = .returns (MR_mkword ptag new_data, h2) ∧
    MR_tag c (MR_mkword ptag new_data) = ptag ∧
    MR_body c (MR_mkword ptag new_data) ptag = new_data ∧
    new_data ≠ data_value ∧
    h.saved_hp ≤ new_data ∧
    word_addr c new_data ((first_slot + functor_desc.MR_du_functor_orig_arity : Nat) : Int)
      ≤ h2.saved_hp ∧
    (have_sectag = true → h2.read c new_data 0 = h.read c data_value 0) ∧
    (∀ i, i < functor_desc.MR_du_functor_orig_arity →
      ∃ (si : Heap) (ri : Nat) (hi : Heap),
        copy_du_args c rt (copy c rt lower_limit upper_limit fuel) have_sectag type_info
          data_value new_data functor_desc i p.2 = .returns (first_slot + i, si) ∧
        Frame c lower_limit upper_limit h.saved_hp h si ∧
        copy_du_arg c rt (copy c rt lower_limit upper_limit fuel) have_sectag type_info
          new_data functor_desc i (si.read c data_value ((first_slot + i : Nat) : Int)) si
          = .returns (ri, hi) ∧
        h2.read c new_data ((first_slot + i : Nat) : Int) = ri ∧
        (no_record_inside c h s.2 data_value
            (first_slot + functor_desc.MR_du_functor_orig_arity) →
          word_addr c data_value
            ((first_slot + functor_desc.MR_du_functor_orig_arity : Nat) : Int) ≤ h.saved_hp →
          si.read c data_value ((first_slot + i : Nat) : Int)
            = h.read c data_value ((first_slot + i : Nat) : Int))) := by
  obtain ⟨hret, h1, h2b, h3, h4, h5, h6, hfields⟩ := copy_du_cell_core c rt lower_limit
    upper_limit fuel data type_info h du_type_layout have_sectag ptag data_value sectag new_data
    first_slot functor_desc p s h2 hlow hwf hws hdu hptag hlocn hvalue hin hfresh hsectag
    hfunctor hnew halign hfirst hhidden hargs hfinal hrec
  refine ⟨hret, h1, h2b, h3, h4, h5, h6, ?_⟩
  intro i hi
  obtain ⟨si, ri, hi2, fr, hpre, -, hcall, hread, hentry⟩ := hfields i hi
  exact ⟨si, ri, hi2, hpre, fr, hcall, hread, hentry⟩

/-- Witness of C5: the pair cell at 120 of the example heap is copied to the
new cell at 4000, whose two slots hold the copy 4009 of the list `[7]`; the
second slot is filled from the heap in which the first copy has left its
record.  The run is the same with the window `[100, 200)` and with the null
window, in which every object is in range. -/
theorem copy_du_cell_structure_witness :
    copy c32 rt0 100 200 3 120 1016 h0 = .returns (MR_mkword 0 4000, h0_pair_copied) ∧
    copy c32 rt0 0 0 3 120 1016 h0 = .returns (MR_mkword 0 4000, h0_pair_copied) ∧
    MR_tag c32 (MR_mkword 0 4000) = 0 ∧ 4000 ≠ 120 ∧ h0.saved_hp ≤ 4000 ∧
    h0_pair_copied.read c32 4000 0 = 4009 ∧ h0_pair_copied.read c32 4000 1 = 4009 ∧
    ∃ (si : Heap) (ri : Nat) (hi : Heap),
      copy_du_args c32 rt0 (copy c32 rt0 100 200 2) false 1016 120 4000 ex_functor_pair 1
        (0, h0_pair_allocated) = .returns (0 + 1, si) ∧
      copy_du_arg c32 rt0 (copy c32 rt0 100 200 2) false 1016 4000 ex_functor_pair 1
        (si.read c32 120 ((0 + 1 : Nat) : Int)) si = .returns (ri, hi) ∧
      h0_pair_copied.read c32 4000 ((0 + 1 : Nat) : Int) = ri := by
  have key := copy_du_cell_structure c32 rt0 100 200 2 120 1016 h0
    (fun _ => ex_ptag .MR_SECTAG_NONE ex_functor_pair) false 0 120 0 4000 0 ex_functor_pair
    (4000, (0, h0_pair_allocated)) (2, h0_pair_fields) h0_pair_copied
    rfl (fun _ => Nat.le_refl 0) (by decide)
    rfl rfl rfl rfl rfl rfl rfl rfl rfl rfl rfl rfl rfl rfl
    (ex_records_below 4000 h0 h0_pair_copied (by decide) ex_pair_copied_forwarded)
  have key0 := copy_du_cell_structure c32 rt0 0 0 2 120 1016 h0
    (fun _ => ex_ptag .MR_SECTAG_NONE ex_functor_pair) false 0 120 0 4000 0 ex_functor_pair
    (4000, (0, h0_pair_allocated)) (2, h0_pair_fields) h0_pair_copied
    rfl (fun _ => Nat.le_refl 0) (by decide)
    rfl rfl rfl rfl rfl rfl rfl rfl rfl rfl rfl rfl rfl rfl
    (ex_records_below 4000 h0 h0_pair_copied (by decide) ex_pair_copied_forwarded)
  obtain ⟨si, ri, hi, hpre, -, hcall, hread, -⟩ := key.2.2.2.2.2.2.2 1 (by decide)
  exact ⟨key.1, key0.1, key.2.1, key.2.2.2.1, key.2.2.2.2.1, rfl, rfl, si, ri, hi, hpre,
    hcall, hread⟩

/-- Counterexample to C6 as stated: the one-field cell at 128, inside the
window `[100, 200)` and not forwarded, whose field is the cell itself, is a
reference cycle wholly inside the window; `copy` of it returns for no
recursion bound. -/
theorem copy_cyclic_cell_counterexample :
    in_range 100 200 128 = true ∧
    h0.forwarded 128 = false ∧
    h0.read c32 (MR_body c32 128 (MR_tag c32 128)) 0 = 128 ∧
    ¬ ∃ fuel r, copy c32 rt0 100 200 fuel 128 1028 h0 = .returns r := by
  refine ⟨by decide, rfl, by decide, ?_⟩
  rintro ⟨fuel, r, hr⟩
  have hdiv := copy_self_reference_out_of_fuel c32 rt0 100 200 128 1028
    (fun _ => ex_ptag .MR_SECTAG_NONE ex_functor_loop) false 0 h0 rfl
    (by
      intro h hagree
      have e : h.mem 1028 = 0 := by rw [hagree 1028 (by decide)]; rfl
      simp only [type_ctor_info_of, rt0, e, if_true]
      rfl)
    rfl (by decide) rfl (by decide) rfl rfl (by intro e; cases e) (by decide) (by decide)
    fuel h0 (fun _ _ => rfl) (le_refl _) rfl
  rw [hdiv] at hr
  cases hr

/-- C6, amended (cycles): for a DU cell in range whose first declared field
has the type of the cell and holds the word of the cell itself (a cycle of
length one), `copy` returns exactly when the cell already carries a forwarding
record when it is encountered, and then returns that record at once, without
visiting the field; when the cell is not yet forwarded, `copy` does not
return for any recursion bound, because the forwarding record is written only
after all fields have been copied. -/
theorem copy_self_referential_cell (c : Config) (rt : Runtime)
    (lower_limit upper_limit data type_info : Nat) (du_type_layout : MR_DuTypeLayout)
    (have_sectag : Bool) (sectag : Nat) (h : Heap)
    (hlow : c.MR_HIGHTAGS = false)
    (hdu : ∀ h2 : Heap, (∀ a, a < h.saved_hp → h2.mem a = h.mem a) →
      reaches_du_type (type_ctor_info_of rt h2 type_info) data = some du_type_layout)
    (hlocn : (du_type_layout (MR_tag c data)).MR_sectag_locn =
      if have_sectag then .MR_SECTAG_REMOTE else .MR_SECTAG_NONE)
    (hin : in_range lower_limit upper_limit (MR_body c data (MR_tag c data)) = true)
    (hexist : ((du_type_layout (MR_tag c data)).MR_sectag_alternatives
      (if have_sectag then sectag else 0)).MR_du_functor_exist_info = none)
    (harity : 1 ≤ ((du_type_layout (MR_tag c data)).MR_sectag_alternatives
      (if have_sectag then sectag else 0)).MR_du_functor_orig_arity)
    (hground : ((du_type_layout (MR_tag c data)).MR_sectag_alternatives
      (if have_sectag then sectag else 0)).MR_arg_type_may_contain_var 0 = false)
    (hargty : ((du_type_layout (MR_tag c data)).MR_sectag_alternatives
      (if have_sectag then sectag else 0)).MR_du_functor_arg_types 0 = type_info)
    (hsec : have_sectag = true → h.read c (MR_body c data (MR_tag c data)) 0 = sectag)
    (hself : h.read c (MR_body c data (MR_tag c data))
      ((if have_sectag then 1 else 0 : Nat) : Int) = data)
    (hlt : word_addr c (MR_body c data (MR_tag c data))
      ((if have_sectag then 1 else 0 : Nat) : Int) < h.saved_hp) :
    (h.forwarded (MR_body c data (MR_tag c data)) = true →
      ∀ fuel, copy c rt lower_limit upper_limit (fuel + 1) data type_info h
        = .returns (h.read c (MR_body c data (MR_tag c data)) 0, h)) ∧
    (h.forwarded (MR_body c data (MR_tag c data)) = false →
      ∀ fuel, copy c rt lower_limit upper_limit fuel data type_info h = .out_of_fuel) := by
  refine ⟨fun hf fuel => ?_, fun hnf fuel => ?_⟩
  · rw [copy_succ]
    refine copy_body_of_return_if_out_of_range c rt _ _ _ _ _ data type_info h _ 0 _
      (forwarding_site_of_reaches_du_type c _ data du_type_layout (hdu h (fun _ _ => rfl)) ?_)
      (RETURN_IF_OUT_OF_RANGE_of_forwarded hin hf)
    cases have_sectag
    · exact Or.inr hlocn
    · exact Or.inl hlocn
  · exact copy_self_reference_out_of_fuel c rt lower_limit upper_limit data type_info
      du_type_layout have_sectag sectag h hlow hdu hlocn hin hexist harity hground hargty hsec
      hself hlt fuel h (fun _ _ => rfl) (le_refl _) hnf

/-- Witness of C6, amended: the self-referential cell at 128 of the example
heap, not forwarded, on which `copy` runs out of every recursion bound. -/
theorem copy_self_referential_cell_witness :
    c32.MR_HIGHTAGS = false ∧
    in_range 100 200 (MR_body c32 128 (MR_tag c32 128)) = true ∧
    h0.read c32 (MR_body c32 128 (MR_tag c32 128)) ((if false then 1 else 0 : Nat) : Int) = 128 ∧
    word_addr c32 (MR_body c32 128 (MR_tag c32 128)) ((if false then 1 else 0 : Nat) : Int)
      < h0.saved_hp ∧
    h0.forwarded (MR_body c32 128 (MR_tag c32 128)) = false ∧
    ∀ fuel, copy c32 rt0 100 200 fuel 128 1028 h0 = .out_of_fuel :=
  ⟨rfl, by decide, by decide, by decide, rfl,
    (copy_self_referential_cell c32 rt0 100 200 128 1028
      (fun _ => ex_ptag .MR_SECTAG_NONE ex_functor_loop) false 0 h0 rfl
      (by
        intro h hagree
        have e : h.mem 1028 = 0 := by rw [hagree 1028 (by decide)]; rfl
        simp only [type_ctor_info_of, rt0, e, if_true]
        rfl)
      rfl (by decide) rfl (by decide) rfl rfl (by intro e; cases e) (by decide)
      (by decide)).2 rfl⟩

/-- The ownership frame does not extend to a runtime with an unconstrained
type variable: the dictionary at 152 of the second example heap has one, and
`copy_typeclass_info` changes the word at 4008, which is the heap pointer
after the call, hence none of the two words `[4000, 4008)` that the call has
allocated, and which is no forwarding record of an object in range.  The size
of the new dictionary leaves the count of unconstrained type variables out. -/
theorem copy_typeclass_info_unowned_word :
    ¬ no_unconstrained_type_variables rt1 ∧
    copy_typeclass_info c32 rt1 100 200 2 152 k0 = .returns (4000, k0_dict1_copied) ∧
    k0_dict1_copied.mem 4008 ≠ k0.mem 4008 ∧
    ¬ (k0.saved_hp ≤ 4008 ∧ 4008 < k0_dict1_copied.saved_hp) ∧
    ¬ ∃ p off, is_forwarding_offset off ∧ in_range 100 200 p = true ∧
      k0.forwarded p = false ∧ k0_dict1_copied.forwarded p = true ∧
      4008 = word_addr c32 p off := by
  refine ⟨fun hnu => absurd (hnu (k0.mem 152)) (by decide), rfl, by decide, by decide, ?_⟩
  rintro ⟨p, off, ho, hin, -, -, e⟩
  have hp : p < 200 := by
    simp only [in_range, Bool.or_eq_true, beq_iff_eq, Bool.and_eq_true,
      decide_eq_true_eq] at hin
    omega
  have := ex_record_lt p off hp ho
  omega

/-- C8 (fatal representation kinds): for every data word, window and heap,
when the representation of the type is VOID, SUBGOAL or UNKNOWN, or is not a
valid representation, `copy` ends in `MR_fatal_error`, and the heap at that
moment is the heap it was called with: nothing was allocated or written. -/
theorem copy_fatal_representation_kinds (c : Config) (rt : Runtime)
    (lower_limit upper_limit fuel data type_info : Nat) (h : Heap)
    (hrep : (type_ctor_info_of rt h type_info).MR_type_ctor_rep ∈
        [MR_TypeCtorRep.MR_TYPECTOR_REP_VOID, .MR_TYPECTOR_REP_SUBGOAL,
         .MR_TYPECTOR_REP_UNKNOWN] ∨
      MR_type_ctor_has_valid_rep (type_ctor_info_of rt h type_info) = false) :
    ∃ e, copy c rt lower_limit upper_limit (fuel + 1) data type_info h = .fatal_error e h := by
  rw [copy_succ]
  unfold type_ctor_info_of at hrep
  rcases hrep with hrep | hv
  · simp only [List.mem_cons, List.mem_singleton, List.not_mem_nil, or_false] at hrep
    rcases hrep with e | e | e <;>
      simp [copy_body, MR_type_ctor_has_valid_rep, e]
  · simp [copy_body, hv]

/-- Witness of C8: a word of the void type at 1008. -/
theorem copy_fatal_representation_kinds_witness :
    ((type_ctor_info_of rt0 h0 1008).MR_type_ctor_rep ∈
        [MR_TypeCtorRep.MR_TYPECTOR_REP_VOID, .MR_TYPECTOR_REP_SUBGOAL,
         .MR_TYPECTOR_REP_UNKNOWN] ∨
      MR_type_ctor_has_valid_rep (type_ctor_info_of rt0 h0 1008) = false) ∧
    ∃ e, copy c32 rt0 100 200 1 5 1008 h0 = .fatal_error e h0 :=
  ⟨by decide, copy_fatal_representation_kinds c32 rt0 100 200 0 5 1008 h0 (by decide)⟩

/-- Counterexample to C9 as stated: for the reserved-address type at 1020 the
primary tag of the null word selects an alternative whose secondary-tag
location is VARIABLE, yet `copy` returns the word, a numeric reserved address,
and does not take the fatal-error path. -/
theorem copy_fatal_sectag_counterexample :
    (type_ctor_info_of rt0 h0 1020).MR_type_ctor_rep = .MR_TYPECTOR_REP_RESERVED_ADDR ∧
    ((type_ctor_info_of rt0 h0 1020).MR_layout_reserved_addr.MR_ra_other_functors
      (MR_tag c32 0)).MR_sectag_locn = .MR_SECTAG_VARIABLE ∧
    copy c32 rt0 100 200 1 0 1020 h0 = .returns (0, h0) ∧
    ¬ ∃ e h, copy c32 rt0 100 200 1 0 1020 h0 = .fatal_error e h :=
  ⟨by decide, by decide, rfl, by
    have e : copy c32 rt0 100 200 1 0 1020 h0 = .returns (0, h0) := rfl
    rw [e]; simp⟩

/-- C9, amended (fatal secondary-tag placements): for every data word that
`copy` handles at the label `du_type` (a word of a DU type, or a word of a
reserved-address type that is neither a numeric nor a symbolic reserved
address) and whose primary tag selects an alternative with secondary-tag
location VARIABLE, or with a location that is none of NONE, LOCAL, REMOTE,
VARIABLE, `copy` ends in `MR_fatal_error`, and the heap at that moment is the
heap it was called with. -/
theorem copy_fatal_sectag_placement (c : Config) (rt : Runtime)
    (lower_limit upper_limit fuel data type_info : Nat) (h : Heap)
    (du_type_layout : MR_DuTypeLayout)
    (hdu : reaches_du_type (type_ctor_info_of rt h type_info) data = some du_type_layout)
    (hlocn : (du_type_layout (MR_tag c data)).MR_sectag_locn = .MR_SECTAG_VARIABLE ∨
      ∃ n, (du_type_layout (MR_tag c data)).MR_sectag_locn = .unlisted n) :
    ∃ e, copy c rt lower_limit upper_limit (fuel + 1) data type_info h = .fatal_error e h := by
  rw [copy_succ, copy_body_of_reaches_du_type c rt _ _ _ _ _ data type_info h du_type_layout hdu]
  unfold copy_du_type
  rcases hlocn with e | ⟨n, e⟩ <;> simp [e]

/-- Witness of C9, amended: a word of the DU type at 1024, whose every
alternative has the location VARIABLE. -/
theorem copy_fatal_sectag_placement_witness :
    reaches_du_type (type_ctor_info_of rt0 h0 1024) 4 = some ex_layout_variable ∧
    ((ex_layout_variable (MR_tag c32 4)).MR_sectag_locn = .MR_SECTAG_VARIABLE ∨
      ∃ n, (ex_layout_variable (MR_tag c32 4)).MR_sectag_locn = .unlisted n) ∧
    ∃ e, copy c32 rt0 100 200 1 4 1024 h0 = .fatal_error e h0 :=
  ⟨rfl, Or.inl rfl,
    copy_fatal_sectag_placement c32 rt0 100 200 0 4 1024 h0 ex_layout_variable rfl (Or.inl rfl)⟩

/-- C10 (non-stable foreign values): for a type of representation FOREIGN,
`copy` returns the data word, in the heap it was called with, exactly when the
tag-stripped pointer is not in range of the region, and it ends in
`MR_fatal_error` exactly when the pointer is in range; with the null window
(`lower_limit = NULL`, where every pointer is in range) it always ends in
`MR_fatal_error`, so a value is returned unchanged only when out of range. -/
theorem copy_foreign_exactly_when_out_of_range (c : Config) (rt : Runtime)
    (lower_limit upper_limit fuel data type_info : Nat) (h : Heap)
    (hrep : (type_ctor_info_of rt h type_info).MR_type_ctor_rep = .MR_TYPECTOR_REP_FOREIGN) :
    (copy c rt lower_limit upper_limit (fuel + 1) data type_info h = .returns (data, h) ↔
      in_range lower_limit upper_limit (MR_strip_tag c data) = false) ∧
    (copy c rt lower_limit upper_limit (fuel + 1) data type_info h
        = .fatal_error .cannot_copy_foreign_type h ↔
      in_range lower_limit upper_limit (MR_strip_tag c data) = true) ∧
    (lower_limit = 0 →
      copy c rt lower_limit upper_limit (fuel + 1) data type_info h
        = .fatal_error .cannot_copy_foreign_type h) := by
  unfold type_ctor_info_of at hrep
  have key : copy c rt lower_limit upper_limit (fuel + 1) data type_info h =
      if in_range lower_limit upper_limit (MR_strip_tag c data) = false then .returns (data, h)
      else .fatal_error .cannot_copy_foreign_type h := by
    rw [copy_succ]
    simp only [copy_body, MR_type_ctor_has_valid_rep, hrep, copy_foreign]
    by_cases h0 : lower_limit = 0
    · simp [h0, in_range]
    · by_cases h1 : in_range lower_limit upper_limit (MR_strip_tag c data) = true
      · simp [h1]
      · simp [h0, h1]
  rw [key]
  refine ⟨?_, ?_, ?_⟩
  · by_cases h1 : in_range lower_limit upper_limit (MR_strip_tag c data) = false <;> simp [h1]
  · by_cases h1 : in_range lower_limit upper_limit (MR_strip_tag c data) = false <;> simp [h1]
  · intro h0; simp [h0, in_range]

/-- Witness of C10: a foreign value at address 4, outside the window
`[100, 200)`, is returned; one at 112, inside the window, is fatal. -/
theorem copy_foreign_exactly_when_out_of_range_witness :
    (type_ctor_info_of rt0 h0 1012).MR_type_ctor_rep = .MR_TYPECTOR_REP_FOREIGN ∧
    copy c32 rt0 100 200 1 4 1012 h0 = .returns (4, h0) ∧
    copy c32 rt0 100 200 1 112 1012 h0 = .fatal_error .cannot_copy_foreign_type h0 :=
  ⟨rfl, (copy_foreign_exactly_when_out_of_range c32 rt0 100 200 0 4 1012 h0 rfl).1.mpr (by decide),
    (copy_foreign_exactly_when_out_of_range c32 rt0 100 200 0 112 1012 h0 rfl).2.1.mpr (by decide)⟩

/-! ## Properties of the copier: kinds of values -/

/-- C11 (raw native pointers): for a type of representation C_POINTER or
STABLE_C_POINTER, and for a type of representation HP when the data word has
no tag bits (the `assert` of that case), `copy` takes the fatal-error path if
and only if the pointer with the primary tag removed is in range of the
window; otherwise it returns the data word, with the heap (heap pointer
included) as it was. -/
theorem copy_raw_pointer_fatal_iff_in_range (c : Config) (rt : Runtime)
    (lower_limit upper_limit fuel data type_info : Nat) (h : Heap)
    (hkind : (type_ctor_info_of rt h type_info).MR_type_ctor_rep = .MR_TYPECTOR_REP_C_POINTER ∨
      (type_ctor_info_of rt h type_info).MR_type_ctor_rep = .MR_TYPECTOR_REP_STABLE_C_POINTER ∨
      ((type_ctor_info_of rt h type_info).MR_type_ctor_rep = .MR_TYPECTOR_REP_HP ∧
        MR_tag c data = 0 ∧ data < 2 ^ MR_WORDBITS c)) :
    ((∃ e, copy c rt lower_limit upper_limit (fuel + 1) data type_info h = .fatal_error e h) ↔
      in_range lower_limit upper_limit (MR_body c data (MR_tag c data)) = true) ∧
    (in_range lower_limit upper_limit (MR_body c data (MR_tag c data)) = false →
      copy c rt lower_limit upper_limit (fuel + 1) data type_info h = .returns (data, h)) := by
  rw [copy_succ]
  unfold type_ctor_info_of at hkind
  rcases hkind with e | e | ⟨e, ht, hw⟩
  · cases hr : in_range lower_limit upper_limit (MR_body c data (MR_tag c data)) <;>
      simp [copy_body, MR_type_ctor_has_valid_rep, e, copy_c_pointer, hr]
  · cases hr : in_range lower_limit upper_limit (MR_body c data (MR_tag c data)) <;>
      simp [copy_body, MR_type_ctor_has_valid_rep, e, copy_c_pointer, hr]
  · rw [MR_body_of_tag_zero c data hw ht]
    cases hr : in_range lower_limit upper_limit data <;>
      simp [copy_body, MR_type_ctor_has_valid_rep, e, copy_hp, ht, hr]

/-- Witness of C11: a `c_pointer` into the window `[100, 200)` is fatal, one
to the address 300 is returned. -/
theorem copy_raw_pointer_fatal_iff_in_range_witness :
    (∃ e, copy c32 rt1 100 200 1 112 1052 k0 = .fatal_error e k0) ∧
    copy c32 rt1 100 200 1 300 1052 k0 = .returns (300, k0) :=
  ⟨(copy_raw_pointer_fatal_iff_in_range c32 rt1 100 200 0 112 1052 k0 (Or.inl rfl)).1.mpr
      (by decide),
    (copy_raw_pointer_fatal_iff_in_range c32 rt1 100 200 0 300 1052 k0 (Or.inl rfl)).2
      (by decide)⟩

/-- C12 (typeclass-dictionary allocation size), at a failing input: the
dictionary at 152 of the second example heap has one unconstrained type
variable, no constraint and one class parameter.  `copy_typeclass_info`
allocates two words, at 4000 and 4004 (the sum of the allocation leaves the
count of unconstrained type variables out), and stores slot 2 of the new
dictionary in the word at 4008, which is the heap pointer after the call: the
slot is outside the allocated block. -/
theorem copy_typeclass_info_writes_past_block :
    MR_typeclass_info_num_extra_instance_args rt1 k0 152 = 1 ∧
    MR_typeclass_info_num_instance_constraints rt1 k0 152 = 0 ∧
    MR_typeclass_info_num_superclasses rt1 k0 152 = 0 ∧
    MR_typeclass_info_num_params rt1 k0 152 = 1 ∧
    copy_typeclass_info c32 rt1 100 200 2 152 k0 = .returns (4000, k0_dict1_copied) ∧
    k0_dict1_copied.saved_hp = k0.saved_hp + 2 * c32.sizeof_MR_Word ∧
    word_addr c32 4000 2 = k0_dict1_copied.saved_hp ∧
    k0_dict1_copied.read c32 4000 2 = 1000 ∧
    k0.read c32 4000 2 = 0 :=
  ⟨rfl, rfl, rfl, rfl, rfl, rfl, rfl, rfl, rfl⟩

/-- C13 (typeclass-dictionary slot order), at a failing input: the dictionary
at 168 of the second example heap has two unconstrained type variables, both
with the static type descriptor 1000, and one class parameter, whose type
descriptor is the one at 100, in range.  `copy_type_info` of slot 2 of the
original is 1000, but slot 2 of the new dictionary at 4000 holds 1036 when
`copy_typeclass_info` returns: the copy of the class parameter descriptor was
allocated at 4008, over that slot, which is outside the two words allocated
for the dictionary. -/
theorem copy_typeclass_info_slot_overwritten :
    copy_typeclass_info c32 rt1 100 200 3 168 k0 = .returns (4000, k0_dict2_copied) ∧
    k0.read c32 168 2 = 1000 ∧
    copy_type_info c32 rt1 100 200 2 1000 k0 = .returns (1000, k0) ∧
    k0_dict2_copied.read c32 4000 2 = 1036 ∧
    k0_dict2_copied.read c32 4000 2 ≠ 1000 :=
  ⟨rfl, rfl, rfl, rfl, by decide⟩

/-- C14 (type-descriptor copy structure): in any window, the null window of a
full copy included, for a type descriptor in range, not yet forwarded, that is
not its own type constructor descriptor, when the copies of its arguments
return and the objects that the run forwards have their forwarding records
below the entry heap pointer, `copy_type_info` returns a descriptor newly
allocated at the heap pointer (after the forwarding slot of the build, if
any); word 0 of the new descriptor is the type constructor reference of the
original and, for a constructor of variable arity, word 1 is the arity; and
argument `1 + k` of the new descriptor, for `k < arity`, is the result of
`copy_type_info` on argument `1 + k` of the original, read in the heap `si`
that the argument loop of the code has reached after its first `k` rounds (the
word the original held at entry when no forwarding record of the run lies on
its arguments).  The arity is read from the descriptor for a constructor of
variable arity and from the type constructor descriptor otherwise. -/
theorem copy_type_info_structure (c : Config) (rt : Runtime)
    (lower_limit upper_limit fuel type_info : Nat) (h : Heap)
    (var : Bool) (type_ctor_info arity fps new_type_info old_args new_args : Nat)
    (h1 hf h2 : Heap)
    (hws : 0 < c.sizeof_MR_Word)
    (hin : in_range lower_limit upper_limit type_info = true)
    (hfresh : h.forwarded type_info = false)
    (htci : type_ctor_info = rt.MR_TYPEINFO_GET_TYPE_CTOR_INFO h.mem type_info)
    (hne : type_info ≠ type_ctor_info)
    (hvar : var = (rt.type_ctor_info type_ctor_info).MR_type_ctor_has_variable_arity)
    (harity : arity = if var then MR_TYPEINFO_GET_VAR_ARITY_ARITY c h type_info
      else (rt.type_ctor_info type_ctor_info).MR_type_ctor_arity)
    (hfps : fps = if c.MR_NATIVE_GC then 1 else 0)
    (hnew : new_type_info = h.saved_hp + fps * c.sizeof_MR_Word)
    (hblock : h1 = if var then
        (MR_fill_in_var_arity_type_info c
          (MR_offset_incr_saved_hp c h fps (MR_var_arity_type_info_size arity + fps)).2
          new_type_info type_ctor_info arity).1
      else
        (MR_fill_in_fixed_arity_type_info c
          (MR_offset_incr_saved_hp c h fps (MR_fixed_arity_type_info_size arity + fps)).2
          new_type_info type_ctor_info).1)
    (hold : old_args = if var then MR_TYPEINFO_GET_VAR_ARITY_ARG_VECTOR c type_info
      else MR_TYPEINFO_GET_FIXED_ARITY_ARG_VECTOR type_info)
    (hnewargs : new_args = if var then word_addr c new_type_info 1 else new_type_info)
    (hargs : copy_slots c (copy_type_info c rt lower_limit upper_limit fuel) old_args new_args
      1 arity h1 = .returns hf)
    (hfinal : h2 = leave_forwarding_pointer c hf type_info TYPEINFO_FORWARDING_PTR_OFFSET
      new_type_info)
    (hrun : records_below c h.saved_hp h h2) :
    copy_type_info c rt lower_limit upper_limit (fuel + 1) type_info h
      = .returns (new_type_info, h2) ∧
    h1.saved_hp = h.saved_hp + ((if var then 2 else 1) + arity + fps) * c.sizeof_MR_Word ∧
    h.saved_hp ≤ new_type_info ∧
    new_type_info ≠ type_info ∧
    h2.read c new_type_info 0 = type_ctor_info ∧
    (var = true → h2.read c new_type_info 1 = arity) ∧
    (∀ k, k < arity → ∃ (si : Heap) (ri : Nat) (hi2 : Heap),
      copy_slots c (copy_type_info c rt lower_limit upper_limit fuel) old_args new_args
        1 k h1 = .returns si ∧
      Frame c lower_limit upper_limit h.saved_hp h si ∧
      copy_type_info c rt lower_limit upper_limit fuel
        (si.read c old_args ((1 + k : Nat) : Int)) si = .returns (ri, hi2) ∧
      h2.read c new_args ((1 + k : Nat) : Int) = ri ∧
      (no_record_inside c h hf old_args (1 + arity) →
        word_addr c old_args ((1 + arity : Nat) : Int) ≤ h.saved_hp →
        si.read c old_args ((1 + k : Nat) : Int) = h.read c old_args ((1 + k : Nat) : Int))) := by
  have hcti := copy_type_info_framed c rt lower_limit upper_limit fuel
  have ho : is_forwarding_offset TYPEINFO_FORWARDING_PTR_OFFSET := Or.inr (Or.inr (Or.inl rfl))
  have hr0 : RETURN_IF_OUT_OF_RANGE c lower_limit upper_limit type_info type_info
      TYPEINFO_FORWARDING_PTR_OFFSET h = none := RETURN_IF_OUT_OF_RANGE_of_fresh hin hfresh
  have hfwd : h2.forwarded type_info = true := by
    rw [hfinal]; exact leave_forwarding_pointer_forwarded c _ _ _ _
  have hsite : word_addr c type_info TYPEINFO_FORWARDING_PTR_OFFSET < h.saved_hp :=
    hrun type_info _ hfwd hfresh ho
  have hrec : type_info < h.saved_hp := by
    have := hrun type_info 0 hfwd hfresh (Or.inl rfl)
    rwa [word_addr_zero] at this
  have hnew_le : h.saved_hp ≤ new_type_info := by rw [hnew]; exact Nat.le_add_right _ _
  have hna : new_args = new_type_info + (if var then 1 else 0) * c.sizeof_MR_Word := by
    rw [hnewargs]
    cases var
    · simp
    · simp only [if_true]
      rw [show (1 : Int) = ((1 : Nat) : Int) from rfl, word_addr_natCast]
  have hsp : h1.saved_hp
      = h.saved_hp + ((if var then 2 else 1) + arity + fps) * c.sizeof_MR_Word := by
    rw [hblock]
    cases var
    · simp only [Bool.false_eq_true, if_false]
      show h.saved_hp + (MR_fixed_arity_type_info_size arity + fps) * c.sizeof_MR_Word = _
      rfl
    · simp only [if_true]
      show h.saved_hp + (MR_var_arity_type_info_size arity + fps) * c.sizeof_MR_Word = _
      rfl
  have fr1 : Frame c lower_limit upper_limit h.saved_hp h h1 := by
    rw [hblock]
    cases var
    · simp only [Bool.false_eq_true, if_false]
      exact ((Frame.refl le_rfl).alloc _ _).store _ _
        (le_trans hnew_le (le_word_addr c _ _ le_rfl))
    · simp only [if_true]
      exact (((Frame.refl le_rfl).alloc _ _).store _ _
        (le_trans hnew_le (le_word_addr c _ _ le_rfl))).store _ _
        (le_trans hnew_le (le_word_addr c _ _ (by decide)))
  have hcast : ∀ k : Nat, (1 : Int) + (k : Int) = ((1 + k : Nat) : Int) := by
    intro k; push_cast; rfl
  rw [copy_slots_eq] at hargs
  simp only [hcast] at hargs
  obtain ⟨frf, hvis, hrest⟩ := slot_loop_result _ _
    (copy_slot_framed (copy_type_info c rt lower_limit upper_limit fuel) hcti old_args 1)
    h arity h1 hf fr1
    (fun j hj => by
      refine ⟨?_, ?_⟩
      · rw [word_addr_natCast, hna]; omega
      · rw [hsp, word_addr_natCast, hna, hnew]
        have := Nat.mul_lt_mul_of_pos_right (show 1 + j < 1 + arity by omega) hws
        cases var
        · simp only [Bool.false_eq_true, if_false, Nat.zero_mul, Nat.add_zero]
          have e : (1 + arity + fps) * c.sizeof_MR_Word
              = fps * c.sizeof_MR_Word + (1 + arity) * c.sizeof_MR_Word := by ring
          omega
        · simp only [if_true, Nat.one_mul]
          have e : (2 + arity + fps) * c.sizeof_MR_Word
              = fps * c.sizeof_MR_Word + c.sizeof_MR_Word + (1 + arity) * c.sizeof_MR_Word := by
            ring
          omega)
    (fun j k _ _ e => by
      have := word_addr_natCast_inj hws _ _ _ e
      omega)
    hargs type_info TYPEINFO_FORWARDING_PTR_OFFSET new_type_info
    (by rw [← hfinal]; exact hrun) hsite
  have hhead : ∀ k : Nat, k < (if var then 2 else 1) →
      h2.read c new_type_info (k : Int) = h1.read c new_type_info (k : Int) := by
    intro k hk
    rw [hfinal]
    unfold Heap.read
    refine hrest _ (le_trans hnew_le (le_word_addr c _ _ (by omega))) ?_ ?_
    · rw [hsp, word_addr_natCast, hnew]
      have := Nat.mul_lt_mul_of_pos_right
        (show k < (if var then 2 else 1) + arity by omega) hws
      have e : ((if var then 2 else 1) + arity + fps) * c.sizeof_MR_Word
          = ((if var then 2 else 1) + arity) * c.sizeof_MR_Word + fps * c.sizeof_MR_Word := by
        ring
      omega
    · intro j _ e
      rw [word_addr_natCast, word_addr_natCast, hna] at e
      have e2 : new_type_info + (if var then 1 else 0) * c.sizeof_MR_Word
          + (1 + j) * c.sizeof_MR_Word
          = new_type_info + ((if var then 1 else 0) + (1 + j)) * c.sizeof_MR_Word := by ring
      rw [e2] at e
      have e3 : k * c.sizeof_MR_Word = ((if var then 1 else 0) + (1 + j)) * c.sizeof_MR_Word := by
        omega
      have e4 := Nat.eq_of_mul_eq_mul_right hws e3
      cases var
      · simp only [Bool.false_eq_true, if_false] at hk e4; omega
      · simp only [if_true] at hk e4; omega
  refine ⟨?_, hsp, hnew_le, by omega, ?_, ?_, ?_⟩
  · rw [copy_type_info_eq c rt lower_limit upper_limit fuel type_info h var type_ctor_info
      arity fps hr0 htci hne hvar harity hfps, ← hnew, ← hold, ← hnewargs, ← hblock,
      copy_slots_eq]
    simp only [hcast]
    rw [hargs, hfinal]
    rfl
  · have := hhead 0 (by cases var <;> simp)
    rw [show ((0 : Nat) : Int) = 0 from rfl] at this
    rw [this, hblock]
    cases var
    · simp [MR_fill_in_fixed_arity_type_info, Heap.read, Heap.write, Heap.store]
    · have hne1 : new_type_info ≠ word_addr c new_type_info 1 := by
        rw [show (1 : Int) = ((1 : Nat) : Int) from rfl, word_addr_natCast]
        omega
      simp [MR_fill_in_var_arity_type_info, Heap.read, Heap.write, Heap.store, word_addr_zero,
        hne1]
  · intro hv
    subst hv
    have := hhead 1 (by simp)
    rw [show ((1 : Nat) : Int) = 1 from rfl] at this
    rw [this, hblock]
    simp [MR_fill_in_var_arity_type_info, Heap.read, Heap.write, Heap.store]
  · intro k hk
    obtain ⟨si, ri, hi2, frsi, hpre, hmono, hcall, hmem⟩ := hvis k hk
    refine ⟨si, ri, hi2, ?_, frsi, ?_, by rw [hfinal]; exact hmem, ?_⟩
    · rw [copy_slots_eq]
      simp only [hcast]
      exact hpre
    · unfold copy_slot at hcall
      rw [hcast] at hcall
      exact hcall
    · intro hnr hbelow
      refine frsi.mem_eq_of_no_record hmono _ ?_
        (fun q off a b d => hnr q off (1 + k) a b d (by omega))
      refine lt_of_lt_of_le ?_ hbelow
      rw [word_addr_natCast, word_addr_natCast]
      have := Nat.mul_lt_mul_of_pos_right (show 1 + k < 1 + arity by omega) hws
      omega

/-- Witness of C14: the descriptor `1036(int)` at 100 of the first example
heap is copied to 4000, in the window `[100, 200)` and in the null window of
a full copy alike; the new descriptor holds the constructor 1036 and the
argument 1000, the result of `copy_type_info` on the argument read before any
round of the argument loop. -/
theorem copy_type_info_structure_witness :
    copy_type_info c32 rt0 100 200 2 100 h0 = .returns (4000, h0_type_info_copied) ∧
    copy_type_info c32 rt0 0 0 2 100 h0 = .returns (4000, h0_type_info_copied) ∧
    h0_type_info_copied.read c32 4000 0 = 1036 ∧
    h0_type_info_copied.read c32 4000 1 = 1000 ∧
    (∃ (si : Heap) (ri : Nat) (hi2 : Heap),
      copy_slots c32 (copy_type_info c32 rt0 100 200 1) 100 4000 1 0
        (MR_fill_in_fixed_arity_type_info c32
          (MR_offset_incr_saved_hp c32 h0 0 (MR_fixed_arity_type_info_size 1 + 0)).2
          4000 1036).1 = .returns si ∧
      copy_type_info c32 rt0 100 200 1 (si.read c32 100 ((1 + 0 : Nat) : Int)) si
        = .returns (ri, hi2) ∧
      h0_type_info_copied.read c32 4000 ((1 + 0 : Nat) : Int) = ri) :=
  have key := copy_type_info_structure c32 rt0 100 200 1 100 h0 false 1036 1 0 4000 100 4000
    (MR_fill_in_fixed_arity_type_info c32
      (MR_offset_incr_saved_hp c32 h0 0 (MR_fixed_arity_type_info_size 1 + 0)).2 4000 1036).1
    h0_type_info_args h0_type_info_copied
    (by decide) rfl rfl rfl (by decide) rfl rfl rfl rfl
    rfl rfl rfl rfl rfl
    (ex_records_below 4000 h0 h0_type_info_copied (by decide) ex_type_info_copied_forwarded)
  have key0 := copy_type_info_structure c32 rt0 0 0 1 100 h0 false 1036 1 0 4000 100 4000
    (MR_fill_in_fixed_arity_type_info c32
      (MR_offset_incr_saved_hp c32 h0 0 (MR_fixed_arity_type_info_size 1 + 0)).2 4000 1036).1
    h0_type_info_args h0_type_info_copied
    (by decide) rfl rfl rfl (by decide) rfl rfl rfl rfl
    rfl rfl rfl rfl rfl
    (ex_records_below 4000 h0 h0_type_info_copied (by decide) ex_type_info_copied_forwarded)
  ⟨key.1, key0.1, key.2.2.2.2.1,
    rfl,
    (key.2.2.2.2.2.2 0 (by decide)).imp fun _ hs => hs.imp fun _ hr => hr.imp fun _ hx =>
      ⟨hx.1, hx.2.2.1, hx.2.2.2.1⟩⟩

/-- C15 (type-descriptor fast path): a type descriptor whose address is the
address of its type constructor descriptor, and which is not recognised as
forwarded (it is outside the window, or carries no forwarding mark), is
returned by `copy_type_info` as that type constructor descriptor, and the heap
(heap pointer included) is as it was, whether or not the address is in range. -/
theorem copy_type_info_fast_path (c : Config) (rt : Runtime)
    (lower_limit upper_limit fuel type_info : Nat) (h : Heap)
    (hself : rt.MR_TYPEINFO_GET_TYPE_CTOR_INFO h.mem type_info = type_info)
    (hfresh : in_range lower_limit upper_limit type_info = true →
      h.forwarded type_info = false) :
    copy_type_info c rt lower_limit upper_limit (fuel + 1) type_info h
      = .returns (rt.MR_TYPEINFO_GET_TYPE_CTOR_INFO h.mem type_info, h) := by
  unfold copy_type_info copy_type_info_body
  cases hr : in_range lower_limit upper_limit type_info
  · simp [RETURN_IF_OUT_OF_RANGE, hr, hself]
  · simp [RETURN_IF_OUT_OF_RANGE, hr, hfresh hr, if_forwarding_pointer, hself]

/-- Witness of C15: the descriptor of `int` at 1000, outside the window, and a
zero-argument descriptor at 108, inside it. -/
theorem copy_type_info_fast_path_witness :
    copy_type_info c32 rt0 100 200 1 1000 h0 = .returns (1000, h0) ∧
    copy_type_info c32 rt0 100 200 1 108 h0 = .returns (108, h0) :=
  ⟨copy_type_info_fast_path c32 rt0 100 200 0 1000 h0 rfl (fun _ => rfl),
    copy_type_info_fast_path c32 rt0 100 200 0 108 h0 rfl (fun _ => rfl)⟩

/-- C16 (existential field round-trip), at a failing input: the cell at 132
of the third example heap has a hidden typeclass dictionary (one unconstrained
type variable, one class parameter) and a declared field, the list `[7]`,
whose type is the type variable bound by the class parameter of the
dictionary.  `copy` returns the new cell at 4000, whose hidden slot holds the
new dictionary at 4008; resolved against the original cell the type of the
field is the descriptor 1004, resolved against the copied cell it is the word
7: the copy of the list was allocated over slot 2 of the new dictionary, which
is outside the two words allocated for it. -/
theorem copy_existential_cell_dictionary_overwritten :
    copy c32 rt2 100 200 4 132 1064 k1 = .returns (4000, k1_copied) ∧
    k1_copied.read c32 4000 0 = 4008 ∧
    rt2.MR_make_type_info_maybe_existq k1.mem (MR_TYPEINFO_GET_FIXED_ARITY_ARG_VECTOR 1064) 2
      132 (some ex_functor_constrained) = 1004 ∧
    rt2.MR_make_type_info_maybe_existq k1_copied.mem
      (MR_TYPEINFO_GET_FIXED_ARITY_ARG_VECTOR 1064) 2 4000 (some ex_functor_constrained) = 7 :=
  ⟨rfl, rfl, rfl, rfl⟩

/-- C17 (tuple of arity 0): for a tuple type descriptor of arity 0 and the
data word of that type, the null word, `copy` returns the null word and leaves
the heap, and with it the heap pointer, as it is: it allocates nothing.  This
holds in every window; in the null window of a full copy, where every pointer
is in range, the null word is taken to carry no forwarding record. -/
theorem copy_tuple_of_arity_zero (c : Config) (rt : Runtime)
    (lower_limit upper_limit fuel type_info : Nat) (h : Heap)
    (hrep : (type_ctor_info_of rt h type_info).MR_type_ctor_rep = .MR_TYPECTOR_REP_TUPLE)
    (harity : MR_TYPEINFO_GET_VAR_ARITY_ARITY c h type_info = 0)
    (hnull : lower_limit = 0 → h.forwarded 0 = false) :
    copy c rt lower_limit upper_limit (fuel + 1) 0 type_info h = .returns (0, h) := by
  rw [copy_succ]
  unfold type_ctor_info_of at hrep
  have htag : MR_tag c 0 = 0 := by
    unfold MR_tag
    split <;> simp
  have hbody : MR_body c 0 (MR_mktag c 0) = 0 := by
    by_cases hlow : c.MR_HIGHTAGS = false
    · exact MR_body_mktag_zero_of_low c hlow 0
    · simp [MR_body, hlow]
  by_cases hr : in_range lower_limit upper_limit 0 = true
  · have hlo : lower_limit = 0 := by
      simp only [in_range, Bool.or_eq_true, beq_iff_eq, Bool.and_eq_true, decide_eq_true_eq] at hr
      omega
    simp [copy_body, MR_type_ctor_has_valid_rep, hrep, copy_tuple, htag, hbody,
      RETURN_IF_OUT_OF_RANGE, hr, hnull hlo, if_forwarding_pointer, harity]
  · simp [copy_body, MR_type_ctor_has_valid_rep, hrep, copy_tuple, htag, hbody,
      RETURN_IF_OUT_OF_RANGE, hr]

/-- Witness of C17: at the empty tuple type 2100 of the second example heap,
the null word is copied to the null word and the heap is unchanged, in the
window `[100, 200)` and in the null window of a full copy alike. -/
theorem copy_tuple_of_arity_zero_witness :
    copy c32 rt1 100 200 1 0 2100 k0 = .returns (0, k0) ∧
    copy c32 rt1 0 0 1 0 2100 k0 = .returns (0, k0) :=
  ⟨copy_tuple_of_arity_zero c32 rt1 100 200 0 2100 k0 rfl rfl (fun _ => rfl),
    copy_tuple_of_arity_zero c32 rt1 0 0 0 2100 k0 rfl rfl (fun _ => rfl)⟩

/-- C18 (tuple of arity n > 0): in any window, the null window of a full copy
included, for a tuple in range, not yet forwarded, whose type descriptor has
the arity `n > 0`, when the copies of the fields return and the objects that
the run forwards have their forwarding records below the entry heap pointer,
`copy` allocates `n` words and the size slot of the build at the heap pointer
and returns the new block, in which field `i`, for `i < n`, is the result of
`copy` on field `i` of the original at the type found in entry `i + 1` of the
argument vector of the type descriptor, both read in the heap `si` that the
field loop of the code has reached after its first `i` rounds (the words held
at entry when no forwarding record of the run lies on them); entry 0 of that
vector is not used. -/
theorem copy_tuple_structure (c : Config) (rt : Runtime)
    (lower_limit upper_limit fuel data type_info : Nat) (h : Heap)
    (arity new_data : Nat) (h1 hf h2 : Heap)
    (hlow : c.MR_HIGHTAGS = false) (hwf : base_typeclass_infos_wf rt)
    (hws : 0 < c.sizeof_MR_Word)
    (hrep : (type_ctor_info_of rt h type_info).MR_type_ctor_rep = .MR_TYPECTOR_REP_TUPLE)
    (htag : MR_tag c data = 0)
    (hin : in_range lower_limit upper_limit data = true)
    (hfresh : h.forwarded data = false)
    (harity : arity = MR_TYPEINFO_GET_VAR_ARITY_ARITY c h type_info)
    (hpos : 0 < arity)
    (hnew : new_data = h.saved_hp + MR_SIZE_SLOT_SIZE c * c.sizeof_MR_Word)
    (hblock : h1 = MR_copy_size_slot c
      (MR_offset_incr_saved_hp c h (MR_SIZE_SLOT_SIZE c) (MR_SIZE_SLOT_SIZE c + arity)).2
      0 new_data 0 data)
    (hfields : copy_tuple_fields c (copy c rt lower_limit upper_limit fuel) data type_info
      new_data arity h1 = .returns hf)
    (hfinal : h2 = leave_forwarding_pointer c hf data 0 new_data)
    (hrun : records_below c h.saved_hp h h2) :
    copy c rt lower_limit upper_limit (fuel + 1) data type_info h = .returns (new_data, h2) ∧
    h1.saved_hp = h.saved_hp + (MR_SIZE_SLOT_SIZE c + arity) * c.sizeof_MR_Word ∧
    h.saved_hp ≤ new_data ∧
    word_addr c new_data (arity : Int) = h1.saved_hp ∧
    new_data ≠ data ∧
    (∀ i, i < arity → ∃ (si : Heap) (ri : Nat) (hi2 : Heap),
      copy_tuple_fields c (copy c rt lower_limit upper_limit fuel) data type_info
        new_data i h1 = .returns si ∧
      Frame c lower_limit upper_limit h.saved_hp h si ∧
      copy c rt lower_limit upper_limit fuel (si.read c data (i : Int))
        (si.read c (MR_TYPEINFO_GET_VAR_ARITY_ARG_VECTOR c type_info) ((i + 1 : Nat) : Int)) si
        = .returns (ri, hi2) ∧
      h2.read c new_data (i : Int) = ri ∧
      (no_record_inside c h hf data arity →
        word_addr c data (arity : Int) ≤ h.saved_hp →
        si.read c data (i : Int) = h.read c data (i : Int)) ∧
      (no_record_inside c h hf type_info (arity + 2) →
        word_addr c type_info ((arity + 2 : Nat) : Int) ≤ h.saved_hp →
        si.read c (MR_TYPEINFO_GET_VAR_ARITY_ARG_VECTOR c type_info) ((i + 1 : Nat) : Int)
          = h.read c (MR_TYPEINFO_GET_VAR_ARITY_ARG_VECTOR c type_info)
              ((i + 1 : Nat) : Int))) := by
  have hcp := copy_framed c rt lower_limit upper_limit hlow hwf fuel
  have hbody := MR_body_mktag_zero_of_low c hlow data
  have hr0 : RETURN_IF_OUT_OF_RANGE c lower_limit upper_limit data
      (MR_body c data (MR_mktag c 0)) 0 h = none := by
    rw [hbody]; exact RETURN_IF_OUT_OF_RANGE_of_fresh hin hfresh
  have hne0 : MR_TYPEINFO_GET_VAR_ARITY_ARITY c h type_info ≠ 0 := by omega
  have hsite : word_addr c data 0 < h.saved_hp :=
    hrun data 0 (by rw [hfinal]; exact leave_forwarding_pointer_forwarded c _ _ _ _) hfresh
      (Or.inl rfl)
  have hrec : data < h.saved_hp := by rwa [word_addr_zero] at hsite
  have hsp : h1.saved_hp = h.saved_hp + (MR_SIZE_SLOT_SIZE c + arity) * c.sizeof_MR_Word := by
    rw [hblock, MR_copy_size_slot_saved_hp]; rfl
  have hnew_le : h.saved_hp ≤ new_data := by rw [hnew]; exact Nat.le_add_right _ _
  have hend : word_addr c new_data (arity : Int) = h1.saved_hp := by
    rw [word_addr_natCast, hsp, hnew]; ring
  have fr1 : Frame c lower_limit upper_limit h.saved_hp h h1 := by
    rw [hblock, hnew]
    exact MR_copy_size_slot_frame hlow h _ _ _ _ le_rfl ((Frame.refl le_rfl).alloc _ _)
  unfold copy_tuple_fields at hfields
  obtain ⟨frf, hvis, -⟩ := slot_loop_result _ _
    (copy_tuple_field_framed (copy c rt lower_limit upper_limit fuel) hcp data type_info) h
    arity h1 hf fr1
    (fun j hj => by
      refine ⟨le_trans hnew_le (le_word_addr c _ _ (by omega)), ?_⟩
      rw [← hend, word_addr_natCast, word_addr_natCast]
      have := Nat.mul_lt_mul_of_pos_right hj hws
      omega)
    (fun j k _ _ e => word_addr_natCast_inj hws _ _ _ e)
    hfields data 0 new_data (by rw [← hfinal]; exact hrun) hsite
  refine ⟨?_, hsp, hnew_le, hend, by omega, ?_⟩
  · rw [copy_succ]
    unfold type_ctor_info_of at hrep
    have e1 : copy_body c rt (copy c rt lower_limit upper_limit fuel)
        (copy_type_info c rt lower_limit upper_limit fuel)
        (copy_typeclass_info c rt lower_limit upper_limit fuel)
        lower_limit upper_limit data type_info h
        = copy_tuple c (copy c rt lower_limit upper_limit fuel) lower_limit upper_limit
            data type_info h := by
      simp [copy_body, MR_type_ctor_has_valid_rep, hrep]
    rw [e1, copy_tuple_eq c _ _ _ _ _ _ htag hr0 hne0, hbody, ← harity]
    have e2 : (MR_offset_incr_saved_hp c h (MR_SIZE_SLOT_SIZE c)
        (MR_SIZE_SLOT_SIZE c + arity)).1 = new_data := by rw [hnew]; rfl
    rw [e2, ← hblock]
    unfold copy_tuple_fields
    rw [hfields, hfinal]
    rfl
  · intro i hi
    obtain ⟨si, ri, hi2, frsi, hpre, hmono, hcall, hmem⟩ := hvis i hi
    refine ⟨si, ri, hi2, hpre, frsi, hcall, by rw [hfinal]; exact hmem, ?_, ?_⟩
    · intro hnr hbelow
      refine frsi.mem_eq_of_no_record hmono _ ?_ (fun q off a b d => hnr q off i a b d hi)
      refine lt_of_lt_of_le ?_ hbelow
      rw [word_addr_natCast, word_addr_natCast]
      have := Nat.mul_lt_mul_of_pos_right hi hws
      omega
    · intro hnr hbelow
      have e : word_addr c (MR_TYPEINFO_GET_VAR_ARITY_ARG_VECTOR c type_info)
          ((i + 1 : Nat) : Int) = word_addr c type_info ((i + 2 : Nat) : Int) := by
        unfold MR_TYPEINFO_GET_VAR_ARITY_ARG_VECTOR
        rw [show (1 : Int) = ((1 : Nat) : Int) from rfl, word_addr_natCast, word_addr_natCast,
          word_addr_natCast]
        ring
      unfold Heap.read
      rw [e]
      refine frsi.mem_eq_of_no_record hmono _ ?_
        (fun q off a b d => hnr q off (i + 2) a b d (by omega))
      refine lt_of_lt_of_le ?_ hbelow
      rw [word_addr_natCast, word_addr_natCast]
      have := Nat.mul_lt_mul_of_pos_right (show i + 2 < arity + 2 by omega) hws
      omega

/-- Witness of C18: the tuple `{5, 6}` at 112 of the second example heap is
copied to the two words at 4000, in the window `[100, 200)` and in the null
window of a full copy alike; field 1 of the copy is the result of `copy` on
field 1 of the original, read after the first round of the field loop. -/
theorem copy_tuple_structure_witness :
    copy c32 rt1 100 200 2 112 2120 k0 = .returns (4000, k0_tuple_copied) ∧
    copy c32 rt1 0 0 2 112 2120 k0 = .returns (4000, k0_tuple_copied) ∧
    k0_tuple_copied.read c32 4000 0 = 5 ∧ k0_tuple_copied.read c32 4000 1 = 6 ∧
    (∃ (si : Heap) (ri : Nat) (hi2 : Heap),
      copy_tuple_fields c32 (copy c32 rt1 100 200 1) 112 2120 4000 1
        (MR_copy_size_slot c32 (MR_offset_incr_saved_hp c32 k0 0 (0 + 2)).2 0 4000 0 112)
        = .returns si ∧
      copy c32 rt1 100 200 1 (si.read c32 112 ((1 : Nat) : Int))
        (si.read c32 (MR_TYPEINFO_GET_VAR_ARITY_ARG_VECTOR c32 2120) ((1 + 1 : Nat) : Int)) si
        = .returns (ri, hi2) ∧
      k0_tuple_copied.read c32 4000 ((1 : Nat) : Int) = ri) :=
  have key := copy_tuple_structure c32 rt1 100 200 1 112 2120 k0 2 4000
    (MR_copy_size_slot c32 (MR_offset_incr_saved_hp c32 k0 0 (0 + 2)).2 0 4000 0 112)
    k0_tuple_fields k0_tuple_copied
    rfl ex_base_typeclass_infos_wf1 (by decide)
    rfl rfl rfl rfl rfl (by decide) rfl rfl rfl rfl
    (ex_records_below 4000 k0 k0_tuple_copied (by decide) ex_tuple_copied_forwarded)
  have key0 := copy_tuple_structure c32 rt1 0 0 1 112 2120 k0 2 4000
    (MR_copy_size_slot c32 (MR_offset_incr_saved_hp c32 k0 0 (0 + 2)).2 0 4000 0 112)
    k0_tuple_fields k0_tuple_copied
    rfl ex_base_typeclass_infos_wf1 (by decide)
    rfl rfl rfl rfl rfl (by decide) rfl rfl rfl rfl
    (ex_records_below 4000 k0 k0_tuple_copied (by decide) ex_tuple_copied_forwarded)
  ⟨key.1, key0.1, rfl, rfl,
    (key.2.2.2.2.2 1 (by decide)).imp fun _ hs => hs.imp fun _ hr => hr.imp fun _ hx =>
      ⟨hx.1, hx.2.2.1, hx.2.2.2.1⟩⟩

/-- C19 (array copy): in any window, the null window of a full copy included,
for an array in range, not yet forwarded, with `n` elements, when the copies
of the elements return and the objects that the run forwards have their
forwarding records below the entry heap pointer, `copy` allocates `n + 1`
words at the heap pointer and returns the new array, whose size word is `n`
and whose element `i`, for `i < n`, is the result of `copy_arg` on element `i`
of the original, read in the heap `si` that the element loop of the code has
reached after its first `i` rounds (the word held at entry when no forwarding
record of the run lies on the array), with the pseudo type descriptor 1 and
the type parameters of the array type.  For `n = 0` the new array is the size
word 0. -/
theorem copy_array_structure (c : Config) (rt : Runtime)
    (lower_limit upper_limit fuel data type_info : Nat) (h : Heap)
    (array_size new_data : Nat) (h1 hf h2 : Heap)
    (hlow : c.MR_HIGHTAGS = false) (hwf : base_typeclass_infos_wf rt)
    (hws : 0 < c.sizeof_MR_Word)
    (hrep : (type_ctor_info_of rt h type_info).MR_type_ctor_rep = .MR_TYPECTOR_REP_ARRAY)
    (htag : MR_tag c data = 0)
    (hin : in_range lower_limit upper_limit data = true)
    (hfresh : h.forwarded data = false)
    (hsize : array_size = h.read c data 0)
    (hnew : new_data = h.saved_hp)
    (hblock : h1 = (MR_offset_incr_saved_hp c h 0 (array_size + 1)).2.write c new_data 0
      array_size)
    (helems : copy_array_elements c rt (copy c rt lower_limit upper_limit fuel) data type_info
      new_data array_size h1 = .returns hf)
    (hfinal : h2 = leave_forwarding_pointer c hf data 0 new_data)
    (hrun : records_below c h.saved_hp h h2) :
    copy c rt lower_limit upper_limit (fuel + 1) data type_info h = .returns (new_data, h2) ∧
    h1.saved_hp = h.saved_hp + (array_size + 1) * c.sizeof_MR_Word ∧
    new_data ≠ data ∧
    h2.read c new_data 0 = array_size ∧
    (∀ i, i < array_size → ∃ (si : Heap) (ri : Nat) (hi2 : Heap),
      copy_array_elements c rt (copy c rt lower_limit upper_limit fuel) data type_info
        new_data i h1 = .returns si ∧
      Frame c lower_limit upper_limit h.saved_hp h si ∧
      copy_arg c rt lower_limit upper_limit fuel 0 (si.read c data ((1 + i : Nat) : Int)) none
        (MR_TYPEINFO_GET_FIXED_ARITY_ARG_VECTOR type_info) 1 si = .returns (ri, hi2) ∧
      h2.read c new_data ((1 + i : Nat) : Int) = ri ∧
      (no_record_inside c h hf data (array_size + 1) →
        word_addr c data ((array_size + 1 : Nat) : Int) ≤ h.saved_hp →
        si.read c data ((1 + i : Nat) : Int) = h.read c data ((1 + i : Nat) : Int))) := by
  have hcp := copy_framed c rt lower_limit upper_limit hlow hwf fuel
  have hbody := MR_body_mktag_zero_of_low c hlow data
  have hr0 : RETURN_IF_OUT_OF_RANGE c lower_limit upper_limit data
      (MR_body c data (MR_mktag c 0)) 0 h = none := by
    rw [hbody]; exact RETURN_IF_OUT_OF_RANGE_of_fresh hin hfresh
  have hsite : word_addr c data 0 < h.saved_hp :=
    hrun data 0 (by rw [hfinal]; exact leave_forwarding_pointer_forwarded c _ _ _ _) hfresh
      (Or.inl rfl)
  have hrec : data < h.saved_hp := by rwa [word_addr_zero] at hsite
  have hsp : h1.saved_hp = h.saved_hp + (array_size + 1) * c.sizeof_MR_Word := by
    rw [hblock]; rfl
  have fr1 : Frame c lower_limit upper_limit h.saved_hp h h1 := by
    rw [hblock]
    exact ((Frame.refl le_rfl).alloc _ _).store _ _
      (by rw [hnew]; exact le_word_addr c _ _ le_rfl)
  unfold copy_array_elements at helems
  obtain ⟨frf, hvis, hrest⟩ := slot_loop_result _ _
    (copy_array_element_framed (copy c rt lower_limit upper_limit fuel) hcp data type_info)
    h array_size h1 hf fr1
    (fun j hj => by
      refine ⟨by rw [hnew]; exact le_word_addr c _ _ (by omega), ?_⟩
      rw [hsp, word_addr_natCast, hnew]
      have := Nat.mul_lt_mul_of_pos_right (show 1 + j < array_size + 1 by omega) hws
      omega)
    (fun j k _ _ e => by
      have := word_addr_natCast_inj hws _ _ _ e
      omega)
    helems data 0 new_data (by rw [← hfinal]; exact hrun) hsite
  refine ⟨?_, hsp, by omega, ?_, ?_⟩
  · rw [copy_succ]
    unfold type_ctor_info_of at hrep
    have e1 : copy_body c rt (copy c rt lower_limit upper_limit fuel)
        (copy_type_info c rt lower_limit upper_limit fuel)
        (copy_typeclass_info c rt lower_limit upper_limit fuel)
        lower_limit upper_limit data type_info h
        = copy_array c rt (copy c rt lower_limit upper_limit fuel) lower_limit upper_limit
            data type_info h := by
      simp [copy_body, MR_type_ctor_has_valid_rep, hrep]
    rw [e1, copy_array_eq c rt _ _ _ _ _ _ htag hr0, hbody, ← hsize]
    have e2 : (MR_offset_incr_saved_hp c h 0 (array_size + 1)).1 = new_data := by
      rw [hnew]; simp [MR_offset_incr_saved_hp]
    rw [e2, ← hblock]
    unfold copy_array_elements
    rw [helems, hfinal]
    rfl
  · rw [hfinal]
    unfold Heap.read
    rw [hrest _ (by rw [hnew]; exact le_word_addr c _ _ le_rfl)
      (by
        rw [hsp, word_addr_zero, hnew]
        have := Nat.mul_pos (show 0 < array_size + 1 by omega) hws
        omega)
      (fun j _ e => by
        rw [show (0 : Int) = ((0 : Nat) : Int) from rfl] at e
        have := word_addr_natCast_inj hws _ _ _ e
        omega)]
    rw [hblock]
    simp [Heap.write, Heap.store]
  · intro i hi
    obtain ⟨si, ri, hi2, frsi, hpre, hmono, hcall, hmem⟩ := hvis i hi
    refine ⟨si, ri, hi2, hpre, frsi, hcall, by rw [hfinal]; exact hmem, ?_⟩
    intro hnr hbelow
    refine frsi.mem_eq_of_no_record hmono _ ?_
      (fun q off a b d => hnr q off (1 + i) a b d (by omega))
    refine lt_of_lt_of_le ?_ hbelow
    rw [word_addr_natCast, word_addr_natCast]
    have := Nat.mul_lt_mul_of_pos_right (show 1 + i < array_size + 1 by omega) hws
    omega

/-- Witness of C19: the array `[8, 9]` at 120 of the second example heap is
copied to the three words at 4000, in the window `[100, 200)` and in the null
window of a full copy alike; element 1 of the copy is the result of `copy_arg`
on element 1 of the original, read after the first round of the element
loop. -/
theorem copy_array_structure_witness :
    copy c32 rt1 100 200 2 120 2140 k0 = .returns (4000, k0_array_copied) ∧
    copy c32 rt1 0 0 2 120 2140 k0 = .returns (4000, k0_array_copied) ∧
    k0_array_copied.read c32 4000 0 = 2 ∧
    k0_array_copied.read c32 4000 1 = 8 ∧ k0_array_copied.read c32 4000 2 = 9 ∧
    (∃ (si : Heap) (ri : Nat) (hi2 : Heap),
      copy_array_elements c32 rt1 (copy c32 rt1 100 200 1) 120 2140 4000 1
        ((MR_offset_incr_saved_hp c32 k0 0 (2 + 1)).2.write c32 4000 0 2) = .returns si ∧
      copy_arg c32 rt1 100 200 1 0 (si.read c32 120 ((1 + 1 : Nat) : Int)) none
        (MR_TYPEINFO_GET_FIXED_ARITY_ARG_VECTOR 2140) 1 si = .returns (ri, hi2) ∧
      k0_array_copied.read c32 4000 ((1 + 1 : Nat) : Int) = ri) :=
  have key := copy_array_structure c32 rt1 100 200 1 120 2140 k0 2 4000
    ((MR_offset_incr_saved_hp c32 k0 0 (2 + 1)).2.write c32 4000 0 2)
    k0_array_elements k0_array_copied
    rfl ex_base_typeclass_infos_wf1 (by decide)
    rfl rfl rfl rfl rfl rfl rfl rfl rfl
    (ex_records_below 4000 k0 k0_array_copied (by decide) ex_array_copied_forwarded)
  have key0 := copy_array_structure c32 rt1 0 0 1 120 2140 k0 2 4000
    ((MR_offset_incr_saved_hp c32 k0 0 (2 + 1)).2.write c32 4000 0 2)
    k0_array_elements k0_array_copied
    rfl ex_base_typeclass_infos_wf1 (by decide)
    rfl rfl rfl rfl rfl rfl rfl rfl rfl
    (ex_records_below 4000 k0 k0_array_copied (by decide) ex_array_copied_forwarded)
  ⟨key.1, key0.1, key.2.2.2.1, rfl, rfl,
    (key.2.2.2.2 1 (by decide)).imp fun _ hs => hs.imp fun _ hr => hr.imp fun _ hx =>
      ⟨hx.1, hx.2.2.1, hx.2.2.2.1⟩⟩

/-- C20 (closure copy): in any window, the null window of a full copy
included, for a closure in range, not yet forwarded, with `n` hidden
arguments, when the copies of the hidden arguments return and the objects that
the run forwards have their forwarding records below the entry heap pointer,
`copy` allocates `n + 3` words at the heap pointer and returns the new
closure, whose layout reference, number of hidden arguments and code address
are those that the original had at entry, and whose hidden argument `i`, for
`i < n`, is the result of `copy_arg` on hidden argument `i` of the original,
read in the heap `si` that the argument loop of the code has reached after its
first `i` rounds (the word held at entry when no forwarding record of the run
lies on the closure), with argument pseudo type descriptor `i` of the closure
layout and the materialized type parameters of the closure. -/
theorem copy_closure_structure (c : Config) (rt : Runtime)
    (lower_limit upper_limit fuel data type_info : Nat) (h : Heap)
    (closure_layout args new_data type_info_arg_vector : Nat) (h1 hf h2 : Heap)
    (hlow : c.MR_HIGHTAGS = false) (hwf : base_typeclass_infos_wf rt)
    (hws : 0 < c.sizeof_MR_Word)
    (hrep : (type_ctor_info_of rt h type_info).MR_type_ctor_rep = .MR_TYPECTOR_REP_FUNC ∨
      (type_ctor_info_of rt h type_info).MR_type_ctor_rep = .MR_TYPECTOR_REP_PRED)
    (htag : MR_tag c data = 0)
    (hin : in_range lower_limit upper_limit data = true)
    (hfresh : h.forwarded data = false)
    (hlayout : closure_layout = h.read c data offsetof_MR_closure_layout)
    (hnum : args = h.read c data offsetof_MR_closure_num_hidden_args)
    (hnew : new_data = h.saved_hp)
    (hblock : h1 = MR_closure_new_header c h data new_data)
    (hparams : type_info_arg_vector = rt.MR_materialize_closure_type_params h1.mem data)
    (hargs : copy_closure_hidden_args c rt (copy c rt lower_limit upper_limit fuel) data
      closure_layout type_info_arg_vector new_data args h1 = .returns hf)
    (hfinal : h2 = leave_forwarding_pointer c hf data CLOSURE_FORWARDING_PTR_OFFSET new_data)
    (hrun : records_below c h.saved_hp h h2) :
    copy c rt lower_limit upper_limit (fuel + 1) data type_info h = .returns (new_data, h2) ∧
    h1.saved_hp = h.saved_hp + (args + 3) * c.sizeof_MR_Word ∧
    new_data ≠ data ∧
    h2.read c new_data offsetof_MR_closure_layout = h.read c data offsetof_MR_closure_layout ∧
    h2.read c new_data offsetof_MR_closure_num_hidden_args
      = h.read c data offsetof_MR_closure_num_hidden_args ∧
    h2.read c new_data offsetof_MR_closure_code = h.read c data offsetof_MR_closure_code ∧
    (∀ i, i < args → ∃ (si : Heap) (ri : Nat) (hi2 : Heap),
      copy_closure_hidden_args c rt (copy c rt lower_limit upper_limit fuel) data
        closure_layout type_info_arg_vector new_data i h1 = .returns si ∧
      Frame c lower_limit upper_limit h.saved_hp h si ∧
      copy_arg c rt lower_limit upper_limit fuel 0
        (si.read c data ((offsetof_MR_closure_hidden_args_0 + i : Nat) : Int)) none
        type_info_arg_vector
        ((rt.closure_layout closure_layout).MR_closure_arg_pseudo_type_info i) si
        = .returns (ri, hi2) ∧
      h2.read c new_data ((offsetof_MR_closure_hidden_args_0 + i : Nat) : Int) = ri ∧
      (no_record_inside c h hf data (offsetof_MR_closure_hidden_args_0 + args) →
        word_addr c data ((offsetof_MR_closure_hidden_args_0 + args : Nat) : Int) ≤ h.saved_hp →
        si.read c data ((offsetof_MR_closure_hidden_args_0 + i : Nat) : Int)
          = h.read c data ((offsetof_MR_closure_hidden_args_0 + i : Nat) : Int))) := by
  have hcp := copy_framed c rt lower_limit upper_limit hlow hwf fuel
  have hbody := MR_body_mktag_zero_of_low c hlow data
  have hr0 : RETURN_IF_OUT_OF_RANGE c lower_limit upper_limit data
      (MR_body c data (MR_mktag c 0)) CLOSURE_FORWARDING_PTR_OFFSET h = none := by
    rw [hbody]; exact RETURN_IF_OUT_OF_RANGE_of_fresh hin hfresh
  have ho : is_forwarding_offset CLOSURE_FORWARDING_PTR_OFFSET := Or.inr (Or.inl rfl)
  have hcode : word_addr c data (offsetof_MR_closure_code : Int) < h.saved_hp :=
    hrun data _ (by rw [hfinal]; exact leave_forwarding_pointer_forwarded c _ _ _ _) hfresh ho
  have hrec : data < h.saved_hp :=
    lt_of_le_of_lt (le_word_addr c data _ (by simp)) hcode
  obtain ⟨hsp, -, g1, g2, g3⟩ := MR_closure_new_header_facts c hws h data new_data hcode
    (by rw [hnew])
  rw [← hblock, ← hnum] at hsp
  rw [← hblock] at g1 g2 g3
  have fr1 : Frame c lower_limit upper_limit h.saved_hp h h1 := by
    rw [hblock, hnew]; exact MR_closure_new_header_frame h data
  have h3 : (offsetof_MR_closure_hidden_args_0 : Nat) = 3 := rfl
  unfold copy_closure_hidden_args at hargs
  obtain ⟨frf, hvis, hrest⟩ := slot_loop_result _ _
    (copy_closure_hidden_arg_framed (copy c rt lower_limit upper_limit fuel) hcp data
      closure_layout type_info_arg_vector)
    h args h1 hf fr1
    (fun j hj => by
      refine ⟨by rw [hnew]; exact le_word_addr c _ _ (by omega), ?_⟩
      rw [hsp, word_addr_natCast, hnew, h3]
      have := Nat.mul_lt_mul_of_pos_right (show 3 + j < args + 3 by omega) hws
      omega)
    (fun j k _ _ e => by
      have := word_addr_natCast_inj hws _ _ _ e
      omega)
    hargs data CLOSURE_FORWARDING_PTR_OFFSET new_data (by rw [← hfinal]; exact hrun) hcode
  have hhead : ∀ k : Nat, k < 3 →
      h2.read c new_data (k : Int) = h1.read c new_data (k : Int) := by
    intro k hk
    rw [hfinal]
    unfold Heap.read
    refine hrest _ (by rw [hnew]; exact le_word_addr c _ _ (by omega)) ?_ ?_
    · rw [hsp, word_addr_natCast, hnew]
      have := Nat.mul_lt_mul_of_pos_right (show k < args + 3 by omega) hws
      omega
    · intro j _ e
      have := word_addr_natCast_inj hws _ _ _ e
      omega
  refine ⟨?_, hsp, by omega, ?_, ?_, ?_, ?_⟩
  · rw [copy_succ]
    unfold type_ctor_info_of at hrep
    have e1 : copy_body c rt (copy c rt lower_limit upper_limit fuel)
        (copy_type_info c rt lower_limit upper_limit fuel)
        (copy_typeclass_info c rt lower_limit upper_limit fuel)
        lower_limit upper_limit data type_info h
        = copy_closure c rt (copy c rt lower_limit upper_limit fuel) lower_limit upper_limit
            data h := by
      rcases hrep with e | e <;> simp [copy_body, MR_type_ctor_has_valid_rep, e]
    rw [e1, copy_closure_eq c rt _ _ _ _ _ htag hr0, hbody, ← hnew, ← hblock, ← hlayout,
      ← hnum, ← hparams]
    unfold copy_closure_hidden_args
    rw [hargs, hfinal]
    rfl
  · rw [← g1]; exact hhead 0 (by decide)
  · rw [← g2]; exact hhead 2 (by decide)
  · rw [← g3]; exact hhead 1 (by decide)
  · intro i hi
    obtain ⟨si, ri, hi2, frsi, hpre, hmono, hcall, hmem⟩ := hvis i hi
    refine ⟨si, ri, hi2, hpre, frsi, hcall, by rw [hfinal]; exact hmem, ?_⟩
    intro hnr hbelow
    refine frsi.mem_eq_of_no_record hmono _ ?_
      (fun q off a b d => hnr q off (offsetof_MR_closure_hidden_args_0 + i) a b d (by omega))
    refine lt_of_lt_of_le ?_ hbelow
    rw [word_addr_natCast, word_addr_natCast]
    have := Nat.mul_lt_mul_of_pos_right
      (show offsetof_MR_closure_hidden_args_0 + i < offsetof_MR_closure_hidden_args_0 + args
        by omega) hws
    omega

/-- Witness of C20: the closure at 132 of the second example heap, with the
hidden argument 42, is copied to the four words at 4000, in the window
`[100, 200)` and in the null window of a full copy alike; the hidden argument
of the copy is the result of `copy_arg` on the hidden argument of the
original, read before any round of the argument loop. -/
theorem copy_closure_structure_witness :
    copy c32 rt1 100 200 2 132 2160 k0 = .returns (4000, k0_closure_copied) ∧
    copy c32 rt1 0 0 2 132 2160 k0 = .returns (4000, k0_closure_copied) ∧
    k0_closure_copied.read c32 4000 offsetof_MR_closure_layout = 2200 ∧
    k0_closure_copied.read c32 4000 offsetof_MR_closure_num_hidden_args = 1 ∧
    k0_closure_copied.read c32 4000 offsetof_MR_closure_code = 3000 ∧
    k0_closure_copied.read c32 4000 3 = 42 ∧
    (∃ (si : Heap) (ri : Nat) (hi2 : Heap),
      copy_closure_hidden_args c32 rt1 (copy c32 rt1 100 200 1) 132 2200 0 4000 0
        (MR_closure_new_header c32 k0 132 4000) = .returns si ∧
      copy_arg c32 rt1 100 200 1 0
        (si.read c32 132 ((offsetof_MR_closure_hidden_args_0 + 0 : Nat) : Int)) none 0
        ((rt1.closure_layout 2200).MR_closure_arg_pseudo_type_info 0) si = .returns (ri, hi2) ∧
      k0_closure_copied.read c32 4000 ((offsetof_MR_closure_hidden_args_0 + 0 : Nat) : Int)
        = ri) :=
  have key := copy_closure_structure c32 rt1 100 200 1 132 2160 k0 2200 1 4000 0
    (MR_closure_new_header c32 k0 132 4000) k0_closure_args k0_closure_copied
    rfl ex_base_typeclass_infos_wf1 (by decide)
    (Or.inr rfl) rfl rfl rfl rfl rfl rfl rfl rfl rfl rfl
    (ex_records_below 4000 k0 k0_closure_copied (by decide) ex_closure_copied_forwarded)
  have key0 := copy_closure_structure c32 rt1 0 0 1 132 2160 k0 2200 1 4000 0
    (MR_closure_new_header c32 k0 132 4000) k0_closure_args k0_closure_copied
    rfl ex_base_typeclass_infos_wf1 (by decide)
    (Or.inr rfl) rfl rfl rfl rfl rfl rfl rfl rfl rfl rfl
    (ex_records_below 4000 k0 k0_closure_copied (by decide) ex_closure_copied_forwarded)
  ⟨key.1, key0.1, key.2.2.2.1, key.2.2.2.2.1, key.2.2.2.2.2.1, rfl,
    (key.2.2.2.2.2.2 0 (by decide)).imp fun _ hs => hs.imp fun _ hr => hr.imp fun _ hx =>
      ⟨hx.1, hx.2.2.1, hx.2.2.2.1⟩⟩

/-! ## Properties of the copier: dispatch and forwarding slots; tags; call-pair table -/

/-- C21 (reserved-address sentinels): for a type of representation
RESERVED_ADDR or RESERVED_ADDR_USEREQ with layout `ra_layout`, and a data
word that is below the layout's count of numeric reserved addresses, or that
is one of the layout's symbolic reserved addresses, `copy` returns the data
word and the heap it was called with: nothing is allocated and nothing is
written. -/
theorem copy_reserved_address_sentinel (c : Config) (rt : Runtime)
    (lower_limit upper_limit fuel data type_info : Nat) (h : Heap)
    (ra_layout : MR_ReservedAddrTypeLayout)
    (hrep : (type_ctor_info_of rt h type_info).MR_type_ctor_rep
        = .MR_TYPECTOR_REP_RESERVED_ADDR ∨
      (type_ctor_info_of rt h type_info).MR_type_ctor_rep
        = .MR_TYPECTOR_REP_RESERVED_ADDR_USEREQ)
    (hra : (type_ctor_info_of rt h type_info).MR_layout_reserved_addr = ra_layout)
    (hres : data < ra_layout.MR_ra_num_res_numeric_addrs ∨
      ∃ j, j < ra_layout.MR_ra_num_res_symbolic_addrs ∧
        data = ra_layout.MR_ra_res_symbolic_addrs j) :
    copy c rt lower_limit upper_limit (fuel + 1) data type_info h = .returns (data, h) := by
  have hr : is_reserved_address (type_ctor_info_of rt h type_info).MR_layout_reserved_addr data
      = true := by
    rw [hra]
    unfold is_reserved_address
    rcases hres with hn | ⟨j, hj, hd⟩
    · simp [hn]
    · simp only [Bool.or_eq_true, decide_eq_true_eq, List.any_eq_true, List.mem_range,
        beq_iff_eq]
      exact Or.inr ⟨j, hj, hd⟩
  rw [copy_succ]
  unfold type_ctor_info_of at hrep hr
  unfold copy_body
  rcases hrep with e | e <;>
    simp [MR_type_ctor_has_valid_rep, e, copy_reserved_addr_eq, hr]

/-- Witness of C21: the symbolic reserved address 3000 of the type at 1068. -/
theorem copy_reserved_address_sentinel_witness :
    (type_ctor_info_of rt3 h0 1068).MR_type_ctor_rep = .MR_TYPECTOR_REP_RESERVED_ADDR ∧
    ex_ra_layout_list.MR_ra_res_symbolic_addrs 0 = 3000 ∧
    copy c32 rt3 100 200 1 3000 1068 h0 = .returns (3000, h0) :=
  ⟨rfl, rfl,
    copy_reserved_address_sentinel c32 rt3 100 200 0 3000 1068 h0 ex_ra_layout_list
      (Or.inl rfl) rfl (Or.inr ⟨0, by decide, rfl⟩)⟩

/-- C23 (ground alias transparency): for a type `type_info` of representation
NOTAG_GROUND, NOTAG_GROUND_USEREQ or EQUIV_GROUND whose wrapped or aliased
type is the ground type descriptor `ground_type_info`, for every data word,
window and heap, `copy` on `type_info` is the jump to `try_again` with
`ground_type_info`: its outcome with one more unit of recursion bound is the
outcome of `copy` on `ground_type_info`, so it returns exactly the words and
heaps that `copy` on `ground_type_info` returns, and the heap, with its heap
pointer, is the one that `copy` on `ground_type_info` leaves. -/
theorem copy_ground_alias_transparent (c : Config) (rt : Runtime)
    (lower_limit upper_limit data type_info ground_type_info : Nat) (h : Heap)
    (hrep :
      (((type_ctor_info_of rt h type_info).MR_type_ctor_rep = .MR_TYPECTOR_REP_NOTAG_GROUND ∨
        (type_ctor_info_of rt h type_info).MR_type_ctor_rep
          = .MR_TYPECTOR_REP_NOTAG_GROUND_USEREQ) ∧
        ground_type_info = MR_pseudo_type_info_is_ground
          (type_ctor_info_of rt h type_info).MR_notag_functor_arg_type) ∨
      ((type_ctor_info_of rt h type_info).MR_type_ctor_rep = .MR_TYPECTOR_REP_EQUIV_GROUND ∧
        ground_type_info = MR_pseudo_type_info_is_ground
          (type_ctor_info_of rt h type_info).MR_layout_equiv)) :
    (∀ fuel, copy c rt lower_limit upper_limit (fuel + 1) data type_info h
      = copy c rt lower_limit upper_limit fuel data ground_type_info h) ∧
    (∀ r, (∃ fuel, copy c rt lower_limit upper_limit fuel data type_info h = .returns r) ↔
      ∃ fuel, copy c rt lower_limit upper_limit fuel data ground_type_info h = .returns r) := by
  have key : ∀ fuel, copy c rt lower_limit upper_limit (fuel + 1) data type_info h
      = copy c rt lower_limit upper_limit fuel data ground_type_info h := by
    intro fuel
    rw [copy_succ]
    unfold type_ctor_info_of at hrep
    unfold copy_body
    rcases hrep with ⟨e | e, rfl⟩ | ⟨e, rfl⟩ <;> simp [MR_type_ctor_has_valid_rep, e]
  refine ⟨key, fun r => ⟨?_, ?_⟩⟩
  · rintro ⟨fuel, hr⟩
    cases fuel with
    | zero => exact absurd hr (by simp [copy])
    | succ n => exact ⟨n, by rw [← key n]; exact hr⟩
  · rintro ⟨fuel, hr⟩
    exact ⟨fuel + 1, by rw [key fuel]; exact hr⟩

/-- Witness of C23: the list `[7]` (the word 113) copied as a value of the
ground equivalence type at 1072 and of the ground no-tag type at 1076, which
both stand for the list type at 1004. -/
theorem copy_ground_alias_transparent_witness :
    (type_ctor_info_of rt3 h0 1072).MR_type_ctor_rep = .MR_TYPECTOR_REP_EQUIV_GROUND ∧
    (type_ctor_info_of rt3 h0 1072).MR_layout_equiv = 1004 ∧
    (type_ctor_info_of rt3 h0 1076).MR_type_ctor_rep = .MR_TYPECTOR_REP_NOTAG_GROUND ∧
    (type_ctor_info_of rt3 h0 1076).MR_notag_functor_arg_type = 1004 ∧
    copy c32 rt3 100 200 2 113 1004 h0 = .returns (4001, h0_cons_copied) ∧
    copy c32 rt3 100 200 3 113 1072 h0 = copy c32 rt3 100 200 2 113 1004 h0 ∧
    copy c32 rt3 100 200 3 113 1076 h0 = copy c32 rt3 100 200 2 113 1004 h0 :=
  ⟨rfl, rfl, rfl, rfl, rfl,
    (copy_ground_alias_transparent c32 rt3 100 200 113 1072 1004 h0
      (Or.inr ⟨rfl, rfl⟩)).1 2,
    (copy_ground_alias_transparent c32 rt3 100 200 113 1076 1004 h0
      (Or.inl ⟨Or.inl rfl, rfl⟩)).1 2⟩

/-- C24 (local secondary tag): for a type of representation DU or DU_USEREQ
and a data word whose primary tag selects an alternative with secondary-tag
location LOCAL, `copy` returns the data word and the heap it was called with,
for every window; and it does so in every heap in which the type descriptor
denotes the same type constructor, whatever the words at the value's body
are. -/
theorem copy_local_secondary_tag (c : Config) (rt : Runtime)
    (fuel data type_info : Nat) (h : Heap)
    (hrep : (type_ctor_info_of rt h type_info).MR_type_ctor_rep = .MR_TYPECTOR_REP_DU ∨
      (type_ctor_info_of rt h type_info).MR_type_ctor_rep = .MR_TYPECTOR_REP_DU_USEREQ)
    (hlocn : ((type_ctor_info_of rt h type_info).MR_layout_du (MR_tag c data)).MR_sectag_locn
      = .MR_SECTAG_LOCAL) :
    (∀ lower_limit upper_limit,
      copy c rt lower_limit upper_limit (fuel + 1) data type_info h = .returns (data, h)) ∧
    (∀ lower_limit upper_limit (h2 : Heap),
      type_ctor_info_of rt h2 type_info = type_ctor_info_of rt h type_info →
      copy c rt lower_limit upper_limit (fuel + 1) data type_info h2 = .returns (data, h2)) := by
  have key : ∀ lower_limit upper_limit (h2 : Heap),
      type_ctor_info_of rt h2 type_info = type_ctor_info_of rt h type_info →
      copy c rt lower_limit upper_limit (fuel + 1) data type_info h2 = .returns (data, h2) := by
    intro lo hi h2 e2
    rw [← e2] at hrep hlocn
    have hL : reaches_du_type (type_ctor_info_of rt h2 type_info) data
        = some (type_ctor_info_of rt h2 type_info).MR_layout_du := by
      unfold reaches_du_type
      rcases hrep with e | e <;> simp [e]
    rw [copy_succ, copy_body_of_reaches_du_type c rt _ _ _ _ _ data type_info h2 _ hL]
    unfold copy_du_type
    simp [hlocn]
  exact ⟨fun lo hi => key lo hi h rfl, key⟩

/-- Witness of C24: the empty list, the word 0 of the list type at 1004. -/
theorem copy_local_secondary_tag_witness :
    (type_ctor_info_of rt0 h0 1004).MR_type_ctor_rep = .MR_TYPECTOR_REP_DU ∧
    ((type_ctor_info_of rt0 h0 1004).MR_layout_du (MR_tag c32 0)).MR_sectag_locn
      = .MR_SECTAG_LOCAL ∧
    copy c32 rt0 100 200 1 0 1004 h0 = .returns (0, h0) :=
  ⟨rfl, rfl, (copy_local_secondary_tag c32 rt0 0 0 1004 h0 (Or.inl rfl) rfl).1 100 200⟩

/-- C26 (tag round trip, low tags): in the low-tag configuration with
`MR_TAGBITS` tag bits, for every tag `t` below `2 ^ MR_TAGBITS` and every
machine word `p` whose low `MR_TAGBITS` bits are zero, the tag of
`MR_mkword(MR_mktag(t), p)` is `t`, its body for the tag `MR_mktag(t)` is `p`,
stripping its tag gives `p`, and `MR_field(MR_mktag(t), ., i)` of it is word
`i` of the block at `p`. -/
theorem MR_tag_round_trip (c : Config) (t p : Nat) (i : Int)
    (hlow : c.MR_HIGHTAGS = false)
    (ht : t < 2 ^ c.MR_TAGBITS) (hp : p % 2 ^ c.MR_TAGBITS = 0)
    (hw : p < 2 ^ MR_WORDBITS c) :
    MR_tag c (MR_mkword (MR_mktag c t) p) = t ∧
    MR_body c (MR_mkword (MR_mktag c t) p) (MR_mktag c t) = p ∧
    MR_strip_tag c (MR_mkword (MR_mktag c t) p) = p ∧
    MR_field c (MR_mktag c t) (MR_mkword (MR_mktag c t) p) i = word_addr c p i := by
  have hb := MR_body_mkword_of_low c hlow t p
  rw [MR_mktag_of_low c hlow]
  refine ⟨?_, hb, MR_strip_tag_mkword_of_low c hlow t p ht hp hw, ?_⟩
  · rw [MR_tag_of_low c hlow]
    unfold MR_mkword
    rw [Nat.add_mod, hp, Nat.zero_add, Nat.mod_mod, Nat.mod_eq_of_lt ht]
  · unfold MR_field
    rw [hb]

/-- Witness of C26: the tag 1 on the cell address 112 of the 32-bit
configuration, as in the list `[7]` of the example heap. -/
theorem MR_tag_round_trip_witness :
    MR_tag c32 (MR_mkword (MR_mktag c32 1) 112) = 1 ∧
    MR_body c32 (MR_mkword (MR_mktag c32 1) 112) (MR_mktag c32 1) = 112 ∧
    MR_strip_tag c32 (MR_mkword (MR_mktag c32 1) 112) = 112 ∧
    MR_field c32 (MR_mktag c32 1) (MR_mkword (MR_mktag c32 1) 112) 1 = word_addr c32 112 1 :=
  MR_tag_round_trip c32 1 112 1 rfl (by decide) (by decide) (by decide)

/-- Counterexample to C27 as stated: in a build with a 32-bit `unsigned long`,
in the table reached by `2 ^ 32 - 1` calls of `prof_call_profile(8, 4)` the
count recorded for the pair is `ULONG_MAX`; after one more call the count
recorded for the pair is 0, not one more than before. -/
theorem prof_call_profile_count_wraps_counterexample :
    (fun t => prof_call_profile 32 t 8 4)^[4294967295] addr_pair_table_init = ex_call_table ∧
    recorded_count 32 ex_call_table 8 4 = some 4294967295 ∧
    recorded_count 32 (prof_call_profile 32 ex_call_table 8 4) 8 4 = some 0 ∧
    recorded_count 32 (prof_call_profile 32 ex_call_table 8 4) 8 4
      ≠ some (4294967295 + 1) := by
  refine ⟨?_, by decide, by decide, by decide⟩
  rw [prof_call_profile_iterate 32 8 4 (by decide) 4294967294]
  funext i
  have e : hash_addr_pair 32 8 4 = 3 := by decide
  simp only [e, ex_call_table]
  rfl

/-- C27, amended (call-pair counting): after `prof_call_profile(Callee,
Caller)` the count recorded in the table for the pair is 1 when the pair had
no node, and otherwise the count recorded before the call plus one, reduced
modulo the range of `unsigned long` (one more than before unless the count was
`ULONG_MAX`); the count recorded for every other pair is unchanged; every
chain starts with the nodes it had before the call, in the same order, so
that no node has been removed; and the nodes of other pairs are the same in
every chain. -/
theorem prof_call_profile_counts (ULONG_BITS : Nat)
    (addr_pair_table : Nat → List prof_call_node) (Callee Caller : Nat) :
    recorded_count ULONG_BITS (prof_call_profile ULONG_BITS addr_pair_table Callee Caller)
        Callee Caller
      = some (match recorded_count ULONG_BITS addr_pair_table Callee Caller with
        | none => 1
        | some count => (count + 1) % 2 ^ ULONG_BITS) ∧
    (∀ A B, ¬ (A = Callee ∧ B = Caller) →
      recorded_count ULONG_BITS (prof_call_profile ULONG_BITS addr_pair_table Callee Caller) A B
        = recorded_count ULONG_BITS addr_pair_table A B) ∧
    (∀ i, chain_pairs (addr_pair_table i)
      <+: chain_pairs (prof_call_profile ULONG_BITS addr_pair_table Callee Caller i)) ∧
    (∀ i node, ¬ (node.Callee = Callee ∧ node.Caller = Caller) →
      (node ∈ prof_call_profile ULONG_BITS addr_pair_table Callee Caller i ↔
        node ∈ addr_pair_table i)) := by
  refine ⟨?_, ?_, ?_, ?_⟩
  · simp only [recorded_count, prof_call_profile, if_true,
      find_call_node_profile_chain_self, Option.map_some']
    cases find_call_node Callee Caller
      (addr_pair_table (hash_addr_pair ULONG_BITS Callee Caller)) <;> rfl
  · intro A B hne
    simp only [recorded_count, prof_call_profile]
    split_ifs with hi
    · rw [find_call_node_profile_chain_other ULONG_BITS Callee Caller A B hne, hi]
    · rfl
  · intro i
    simp only [prof_call_profile]
    split_ifs with hi
    · rw [hi]; exact chain_pairs_profile_chain _ _ _ _
    · exact ⟨[], List.append_nil _⟩
  · intro i node hne
    simp only [prof_call_profile]
    split_ifs with hi
    · rw [hi]; exact mem_profile_chain_other _ _ _ _ hne _
    · exact Iff.rfl

/-- Witness of C27, amended: the first call for the pair `(8, 4)` and the call
that wraps its count. -/
theorem prof_call_profile_counts_witness :
    recorded_count 32 (prof_call_profile 32 addr_pair_table_init 8 4) 8 4 = some 1 ∧
    recorded_count 32 (prof_call_profile 32 ex_call_table 8 4) 8 4
      = some ((4294967295 + 1) % 2 ^ 32) :=
  ⟨(prof_call_profile_counts 32 addr_pair_table_init 8 4).1,
    (prof_call_profile_counts 32 ex_call_table 8 4).1⟩

/-- Counterexample to C28 as stated: for the pair cell at 120 of the example
heap, in the window and not forwarded, the heap left by the allocation of the
new cell at 4000 carries no forwarding record for the original; the loop over
the two fields runs from that heap and leaves a heap in which both fields have
been copied into the new cell and the original still carries no record; the
record is written on the heap left by the loop. -/
theorem copy_forwarding_record_before_fields_counterexample :
    in_range 100 200 120 = true ∧ h0.forwarded 120 = false ∧
    MR_du_cell_and_hidden_args c32 (copy_type_info c32 rt0 100 200 2)
      (copy_typeclass_info c32 rt0 100 200 2) false 120 0 ex_functor_pair 0 h0
      = .returns (4000, (0, h0_pair_allocated)) ∧
    h0_pair_allocated.forwarded 120 = false ∧ h0_pair_allocated.read c32 120 0 = 113 ∧
    copy_du_args c32 rt0 (copy c32 rt0 100 200 2) false 1016 120 4000 ex_functor_pair 2
      (0, h0_pair_allocated) = .returns (2, h0_pair_fields) ∧
    h0_pair_fields.read c32 4000 0 = 4009 ∧ h0_pair_fields.read c32 4000 1 = 4009 ∧
    h0_pair_fields.forwarded 120 = false ∧ h0_pair_fields.read c32 120 0 = 113 ∧
    copy c32 rt0 100 200 3 120 1016 h0
      = .returns (4000, leave_forwarding_pointer c32 h0_pair_fields 120 0 4000) ∧
    (leave_forwarding_pointer c32 h0_pair_fields 120 0 4000).read c32 120 0 = 4000 :=
  ⟨by decide, rfl, rfl, rfl, by decide, rfl, by decide, by decide, rfl, by decide, rfl,
    by decide⟩

/-- C28, amended (forwarding-record lifecycle): when `copy` processes an
in-region DU cell that is not yet forwarded (remote or no secondary tag) and
the copies of its hidden arguments and declared fields return, the call writes
the forwarding record into the original once, as its last step: the heap left
by the allocation of the new cell carries no record for the original and has
the word 0 of the original unchanged; for a functor without hidden arguments
the loop over the fields starts from that heap; and the heap that `copy`
returns is the heap left by the loop over the fields with the record written
in word 0 of the original and the original marked, and nothing else
changed. -/
theorem copy_forwarding_record_written_last (c : Config) (rt : Runtime)
    (lower_limit upper_limit fuel data type_info : Nat) (h : Heap)
    (du_type_layout : MR_DuTypeLayout) (have_sectag : Bool)
    (ptag data_value sectag : Nat) (functor_desc : MR_DuFunctorDesc)
    (p : Nat × (Nat × Heap)) (s : Nat × Heap) (h2 : Heap)
    (hlow : c.MR_HIGHTAGS = false)
    (hdu : reaches_du_type (type_ctor_info_of rt h type_info) data = some du_type_layout)
    (hptag : ptag = MR_tag c data)
    (hlocn : (du_type_layout ptag).MR_sectag_locn =
      if have_sectag then .MR_SECTAG_REMOTE else .MR_SECTAG_NONE)
    (hvalue : data_value = MR_body c data ptag)
    (hin : in_range lower_limit upper_limit data_value = true)
    (hfresh : h.forwarded data_value = false)
    (hbelow : word_addr c data_value 0 < h.saved_hp)
    (hsectag : sectag = if have_sectag then h.read c data_value 0 else 0)
    (hfunctor : functor_desc = (du_type_layout ptag).MR_sectag_alternatives sectag)
    (hhidden : MR_du_cell_and_hidden_args c
      (copy_type_info c rt lower_limit upper_limit fuel)
      (copy_typeclass_info c rt lower_limit upper_limit fuel)
      have_sectag data ptag functor_desc sectag h = .returns p)
    (hargs : copy_du_args c rt (copy c rt lower_limit upper_limit fuel) have_sectag type_info
      data_value p.1 functor_desc functor_desc.MR_du_functor_orig_arity p.2 = .returns s)
    (hfinal : h2 = leave_forwarding_pointer c s.2 data_value 0 (MR_mkword ptag p.1)) :
    copy c rt lower_limit upper_limit (fuel + 1) data type_info h
      = .returns (MR_mkword ptag p.1, h2) ∧
    (∀ cell_size,
      (MR_du_new_cell c have_sectag cell_size sectag ptag data h).2.2.forwarded data_value
        = false ∧
      (MR_du_new_cell c have_sectag cell_size sectag ptag data h).2.2.read c data_value 0
        = h.read c data_value 0) ∧
    (functor_desc.MR_du_functor_exist_info = none →
      p = MR_du_new_cell c have_sectag
        ((if !have_sectag then functor_desc.MR_du_functor_orig_arity
          else 1 + functor_desc.MR_du_functor_orig_arity) + MR_SIZE_SLOT_SIZE c)
        sectag ptag data h) ∧
    h2.forwarded data_value = true ∧
    h2.read c data_value 0 = MR_mkword ptag p.1 ∧
    h2.saved_hp = s.2.saved_hp ∧
    (∀ q, q ≠ data_value → h2.forwarded q = s.2.forwarded q) ∧
    (∀ a, a ≠ word_addr c data_value 0 → h2.mem a = s.2.mem a) := by
  subst hptag hvalue
  refine ⟨?_, ?_, ?_, ?_, ?_, ?_, ?_, ?_⟩
  · rw [copy_du_cell_eq c rt lower_limit upper_limit fuel data type_info h du_type_layout
      have_sectag hdu hlocn hin hfresh, ← hsectag, ← hfunctor, hhidden]
    simp only [Outcome.bind]
    rw [hargs, hfinal]
  · intro cell_size
    refine ⟨by rw [MR_du_new_cell_forwarded]; exact hfresh, ?_⟩
    exact MR_du_new_cell_mem_of_lt hlow _ _ _ _ _ _ _ hbelow
  · intro hnone
    unfold MR_du_cell_and_hidden_args at hhidden
    simp only [hnone, Outcome.returns.injEq] at hhidden
    exact hhidden.symm
  · rw [hfinal]; exact leave_forwarding_pointer_forwarded _ _ _ _ _
  · rw [hfinal]; exact leave_forwarding_pointer_read _ _ _ _ _
  · rw [hfinal]; rfl
  · intro q hq
    rw [hfinal]
    simp [leave_forwarding_pointer, hq]
  · intro a ha
    rw [hfinal]
    exact leave_forwarding_pointer_mem_of_ne _ _ _ _ _ _ ha

/-- Witness of C28, amended: the pair cell at 120 of the example heap. -/
theorem copy_forwarding_record_written_last_witness :
    copy c32 rt0 100 200 3 120 1016 h0 = .returns (MR_mkword 0 4000, h0_pair_copied) ∧
    h0_pair_allocated.forwarded 120 = false ∧
    h0_pair_fields.forwarded 120 = false ∧
    h0_pair_copied.forwarded 120 = true ∧
    h0_pair_copied.read c32 120 0 = MR_mkword 0 4000 :=
  have key := copy_forwarding_record_written_last c32 rt0 100 200 2 120 1016 h0
    (fun _ => ex_ptag .MR_SECTAG_NONE ex_functor_pair) false 0 120 0 ex_functor_pair
    (4000, (0, h0_pair_allocated)) (2, h0_pair_fields) h0_pair_copied
    rfl rfl rfl rfl rfl (by decide) rfl (by decide) rfl rfl rfl rfl rfl
  ⟨key.1, rfl, rfl, key.2.2.2.1, key.2.2.2.2.1⟩

/-- Counterexample to C29 as stated: in a build without native GC,
`copy_type_info` of the type descriptor at 100, in the window and not
forwarded, reserves no slot (the new descriptor is at the heap pointer) and
leaves the first body word of the original as it was; the forwarding record,
the address 4000 of the copy, is written in the word at offset -1, and a
second call reads it from there. -/
theorem copy_type_info_record_offset_counterexample :
    c32.MR_NATIVE_GC = false ∧
    in_range 100 200 100 = true ∧ h0.forwarded 100 = false ∧
    copy_type_info c32 rt0 100 200 2 100 h0 = .returns (h0.saved_hp, h0_type_info_copied) ∧
    h0_type_info_copied.read c32 100 0 = h0.read c32 100 0 ∧
    h0_type_info_copied.read c32 100 0 ≠ h0.saved_hp ∧
    h0.read c32 100 (-1) ≠ h0.saved_hp ∧
    h0_type_info_copied.read c32 100 (-1) = h0.saved_hp ∧
    copy_type_info c32 rt0 100 200 2 100 h0_type_info_copied
      = .returns (h0_type_info_copied.read c32 100 (-1), h0_type_info_copied) :=
  ⟨rfl, by decide, rfl, rfl, by decide, by decide, by decide, by decide, rfl⟩

/-- C29, amended (type-descriptor forwarding slot): for a type descriptor in
range, in every build, `copy_type_info` reads the forwarding record of a
forwarded original from the word at offset -1, and, when the original is not
yet forwarded, is not its own type constructor descriptor and the copies of
its arguments return, writes the record in the word at offset -1 of the
original and in no other word; in a build with native GC the allocated block
has one word more than the descriptor and the new descriptor starts one word
after the heap pointer, in every other build the block has the size of the
descriptor and the new descriptor starts at the heap pointer. -/
theorem copy_type_info_forwarding_slot (c : Config) (rt : Runtime)
    (lower_limit upper_limit fuel type_info : Nat) (h : Heap)
    (var : Bool) (type_ctor_info arity fps new_type_info old_args new_args : Nat)
    (h1 hf h2 : Heap)
    (hin : in_range lower_limit upper_limit type_info = true)
    (hfresh : h.forwarded type_info = false)
    (htci : type_ctor_info = rt.MR_TYPEINFO_GET_TYPE_CTOR_INFO h.mem type_info)
    (hne : type_info ≠ type_ctor_info)
    (hvar : var = (rt.type_ctor_info type_ctor_info).MR_type_ctor_has_variable_arity)
    (harity : arity = if var then MR_TYPEINFO_GET_VAR_ARITY_ARITY c h type_info
      else (rt.type_ctor_info type_ctor_info).MR_type_ctor_arity)
    (hfps : fps = if c.MR_NATIVE_GC then 1 else 0)
    (hnew : new_type_info = h.saved_hp + fps * c.sizeof_MR_Word)
    (hblock : h1 = if var then
        (MR_fill_in_var_arity_type_info c
          (MR_offset_incr_saved_hp c h fps (MR_var_arity_type_info_size arity + fps)).2
          new_type_info type_ctor_info arity).1
      else
        (MR_fill_in_fixed_arity_type_info c
          (MR_offset_incr_saved_hp c h fps (MR_fixed_arity_type_info_size arity + fps)).2
          new_type_info type_ctor_info).1)
    (hold : old_args = if var then MR_TYPEINFO_GET_VAR_ARITY_ARG_VECTOR c type_info
      else MR_TYPEINFO_GET_FIXED_ARITY_ARG_VECTOR type_info)
    (hnewargs : new_args = if var then word_addr c new_type_info 1 else new_type_info)
    (hargs : copy_slots c (copy_type_info c rt lower_limit upper_limit fuel) old_args new_args
      1 arity h1 = .returns hf)
    (hfinal : h2 = leave_forwarding_pointer c hf type_info (-1) new_type_info) :
    copy_type_info c rt lower_limit upper_limit (fuel + 1) type_info h
      = .returns (new_type_info, h2) ∧
    (c.MR_NATIVE_GC = true →
      new_type_info = h.saved_hp + c.sizeof_MR_Word ∧
      h1.saved_hp = h.saved_hp + ((if var then 2 else 1) + arity + 1) * c.sizeof_MR_Word) ∧
    (c.MR_NATIVE_GC = false →
      new_type_info = h.saved_hp ∧
      h1.saved_hp = h.saved_hp + ((if var then 2 else 1) + arity) * c.sizeof_MR_Word) ∧
    h2.forwarded type_info = true ∧
    h2.read c type_info (-1) = new_type_info ∧
    (∀ a, a ≠ word_addr c type_info (-1) → h2.mem a = hf.mem a) ∧
    (c.sizeof_MR_Word ≤ type_info → 0 < c.sizeof_MR_Word →
      h2.read c type_info 0 = hf.read c type_info 0) ∧
    (∀ hx : Heap, hx.forwarded type_info = true →
      copy_type_info c rt lower_limit upper_limit (fuel + 1) type_info hx
        = .returns (hx.read c type_info (-1), hx)) := by
  have hr0 : RETURN_IF_OUT_OF_RANGE c lower_limit upper_limit type_info type_info
      TYPEINFO_FORWARDING_PTR_OFFSET h = none := RETURN_IF_OUT_OF_RANGE_of_fresh hin hfresh
  have hsp : h1.saved_hp
      = h.saved_hp + ((if var then 2 else 1) + arity + fps) * c.sizeof_MR_Word := by
    rw [hblock]
    cases var
    · simp only [Bool.false_eq_true, if_false]
      show h.saved_hp + (MR_fixed_arity_type_info_size arity + fps) * c.sizeof_MR_Word = _
      rfl
    · simp only [if_true]
      show h.saved_hp + (MR_var_arity_type_info_size arity + fps) * c.sizeof_MR_Word = _
      rfl
  refine ⟨?_, ?_, ?_, ?_, ?_, ?_, ?_, ?_⟩
  · rw [copy_type_info_eq c rt lower_limit upper_limit fuel type_info h var type_ctor_info
      arity fps hr0 htci hne hvar harity hfps, ← hnew, ← hold, ← hnewargs, ← hblock, hargs,
      hfinal]
    rfl
  · intro hgc
    simp only [hgc, if_true] at hfps
    subst hfps
    exact ⟨by rw [hnew, Nat.one_mul], hsp⟩
  · intro hgc
    simp only [hgc, Bool.false_eq_true, if_false] at hfps
    subst hfps
    exact ⟨by rw [hnew, Nat.zero_mul, Nat.add_zero], hsp⟩
  · rw [hfinal]; exact leave_forwarding_pointer_forwarded _ _ _ _ _
  · rw [hfinal]; exact leave_forwarding_pointer_read _ _ _ _ _
  · intro a ha
    rw [hfinal]
    exact leave_forwarding_pointer_mem_of_ne _ _ _ _ _ _ ha
  · intro hle hws
    rw [hfinal]
    unfold Heap.read
    refine leave_forwarding_pointer_mem_of_ne _ _ _ _ _ _ ?_
    unfold word_addr
    omega
  · intro hx hfw
    unfold copy_type_info copy_type_info_body
    rw [RETURN_IF_OUT_OF_RANGE_of_forwarded hin hfw]
    rfl

/-- Witness of C29, amended: the descriptor at 100 of the example heap, in a
build without native GC. -/
theorem copy_type_info_forwarding_slot_witness :
    c32.MR_NATIVE_GC = false ∧
    copy_type_info c32 rt0 100 200 2 100 h0 = .returns (4000, h0_type_info_copied) ∧
    h0.saved_hp = 4000 ∧
    h0_type_info_copied.read c32 100 (-1) = 4000 ∧
    h0_type_info_copied.read c32 100 0 = h0_type_info_args.read c32 100 0 :=
  have key := copy_type_info_forwarding_slot c32 rt0 100 200 1 100 h0 false 1036 1 0 4000 100
    4000
    (MR_fill_in_fixed_arity_type_info c32
      (MR_offset_incr_saved_hp c32 h0 0 (MR_fixed_arity_type_info_size 1 + 0)).2 4000 1036).1
    h0_type_info_args h0_type_info_copied
    rfl rfl rfl (by decide) rfl rfl rfl rfl rfl rfl rfl rfl rfl
  ⟨rfl, key.1, rfl, key.2.2.2.2.1, key.2.2.2.2.2.2.1 (by decide) (by decide)⟩

/-- C30 (closure forwarding slot): in any window, the null window of a full
copy included, `copy` of a closure in range reads the forwarding record of a
forwarded original from the code-address word (offset
`CLOSURE_FORWARDING_PTR_OFFSET`, which is 1, not 0); and for a closure that is
not yet forwarded, with `args` hidden arguments, whose words lie below the
entry heap pointer, when the copies of the hidden arguments return and no
object forwarded by them keeps its forwarding record inside the closure,
`copy` returns the new closure and a heap in which the layout word and the
count of hidden arguments of the original are as at entry, every word of the
original other than the code-address word is as at entry, and the code-address
word holds the address of the copy. -/
theorem copy_closure_forwarding_slot (c : Config) (rt : Runtime)
    (lower_limit upper_limit fuel data type_info : Nat) (h : Heap)
    (closure_layout args new_data type_info_arg_vector : Nat) (h1 hf h2 : Heap)
    (hlow : c.MR_HIGHTAGS = false) (hwf : base_typeclass_infos_wf rt)
    (hws : 0 < c.sizeof_MR_Word)
    (hrep : (type_ctor_info_of rt h type_info).MR_type_ctor_rep = .MR_TYPECTOR_REP_FUNC ∨
      (type_ctor_info_of rt h type_info).MR_type_ctor_rep = .MR_TYPECTOR_REP_PRED)
    (htag : MR_tag c data = 0)
    (hin : in_range lower_limit upper_limit data = true)
    (hfresh : h.forwarded data = false)
    (hlayout : closure_layout = h.read c data offsetof_MR_closure_layout)
    (hnum : args = h.read c data offsetof_MR_closure_num_hidden_args)
    (hnew : new_data = h.saved_hp)
    (hblock : h1 = MR_closure_new_header c h data new_data)
    (hparams : type_info_arg_vector = rt.MR_materialize_closure_type_params h1.mem data)
    (hargs : copy_closure_hidden_args c rt (copy c rt lower_limit upper_limit fuel) data
      closure_layout type_info_arg_vector new_data args h1 = .returns hf)
    (hfinal : h2 = leave_forwarding_pointer c hf data CLOSURE_FORWARDING_PTR_OFFSET new_data)
    (hnr : no_record_inside c h hf data (offsetof_MR_closure_hidden_args_0 + args))
    (hbelow : word_addr c data ((offsetof_MR_closure_hidden_args_0 + args : Nat) : Int)
      ≤ h.saved_hp) :
    CLOSURE_FORWARDING_PTR_OFFSET = (offsetof_MR_closure_code : Int) ∧
    CLOSURE_FORWARDING_PTR_OFFSET ≠ 0 ∧
    (∀ hx : Heap,
      ((type_ctor_info_of rt hx type_info).MR_type_ctor_rep = .MR_TYPECTOR_REP_FUNC ∨
        (type_ctor_info_of rt hx type_info).MR_type_ctor_rep = .MR_TYPECTOR_REP_PRED) →
      hx.forwarded data = true →
      copy c rt lower_limit upper_limit (fuel + 1) data type_info hx
        = .returns (hx.read c data CLOSURE_FORWARDING_PTR_OFFSET, hx)) ∧
    copy c rt lower_limit upper_limit (fuel + 1) data type_info h = .returns (new_data, h2) ∧
    h2.read c data offsetof_MR_closure_layout = h.read c data offsetof_MR_closure_layout ∧
    h2.read c data offsetof_MR_closure_num_hidden_args
      = h.read c data offsetof_MR_closure_num_hidden_args ∧
    h2.read c data offsetof_MR_closure_code = new_data ∧
    (∀ k : Nat, k < offsetof_MR_closure_hidden_args_0 + args → k ≠ offsetof_MR_closure_code →
      h2.read c data (k : Int) = h.read c data (k : Int)) := by
  have hcp := copy_framed c rt lower_limit upper_limit hlow hwf fuel
  have hbody := MR_body_mktag_zero_of_low c hlow data
  have hr0 : RETURN_IF_OUT_OF_RANGE c lower_limit upper_limit data
      (MR_body c data (MR_mktag c 0)) CLOSURE_FORWARDING_PTR_OFFSET h = none := by
    rw [hbody]; exact RETURN_IF_OUT_OF_RANGE_of_fresh hin hfresh
  have ho : is_forwarding_offset CLOSURE_FORWARDING_PTR_OFFSET := Or.inr (Or.inl rfl)
  have h3 : (offsetof_MR_closure_hidden_args_0 : Nat) = 3 := rfl
  have hcode : word_addr c data (offsetof_MR_closure_code : Int) < h.saved_hp := by
    refine lt_of_lt_of_le ?_ hbelow
    rw [show (offsetof_MR_closure_code : Int) = ((1 : Nat) : Int) from rfl, word_addr_natCast,
      word_addr_natCast, h3]
    have := Nat.mul_lt_mul_of_pos_right (show 1 < 3 + args by omega) hws
    omega
  obtain ⟨hsp, -, -, -, -⟩ := MR_closure_new_header_facts c hws h data new_data hcode
    (by rw [hnew])
  rw [← hblock, ← hnum] at hsp
  have fr1 : Frame c lower_limit upper_limit h.saved_hp h h1 := by
    rw [hblock, hnew]; exact MR_closure_new_header_frame h data
  have hargs2 := hargs
  unfold copy_closure_hidden_args at hargs2
  have frf : Frame c lower_limit upper_limit h.saved_hp h hf :=
    slot_body_loop_frame _ _
      (copy_closure_hidden_arg_framed (copy c rt lower_limit upper_limit fuel) hcp data
        closure_layout type_info_arg_vector)
      h args 0 (fun j _ _ => by rw [hnew]; exact le_word_addr c _ _ (by omega)) h1 hf fr1 hargs2
  have hkeep : ∀ k : Nat, k < offsetof_MR_closure_hidden_args_0 + args →
      k ≠ offsetof_MR_closure_code → h2.read c data (k : Int) = h.read c data (k : Int) := by
    intro k hk hne
    rw [hfinal]
    unfold Heap.read
    rw [leave_forwarding_pointer_mem_of_ne]
    · refine frf.mem_eq_of_no_record (fun q hq => hq) _ ?_
        (fun q off a b d => hnr q off k a b d hk)
      refine lt_of_lt_of_le ?_ hbelow
      rw [word_addr_natCast, word_addr_natCast]
      have := Nat.mul_lt_mul_of_pos_right hk hws
      omega
    · intro e
      exact hne (word_addr_natCast_inj hws _ _ _ e)
  refine ⟨rfl, by decide, ?_, ?_, ?_, ?_, ?_, hkeep⟩
  · intro hx hrepx hfw
    rw [copy_succ]
    refine copy_body_of_return_if_out_of_range c rt _ _ _ _ _ data type_info hx data
      CLOSURE_FORWARDING_PTR_OFFSET _ ?_ (RETURN_IF_OUT_OF_RANGE_of_forwarded hin hfw)
    unfold forwarding_site
    rcases hrepx with e | e <;> simp [e, htag, hbody]
  · rw [copy_succ]
    unfold type_ctor_info_of at hrep
    have e1 : copy_body c rt (copy c rt lower_limit upper_limit fuel)
        (copy_type_info c rt lower_limit upper_limit fuel)
        (copy_typeclass_info c rt lower_limit upper_limit fuel)
        lower_limit upper_limit data type_info h
        = copy_closure c rt (copy c rt lower_limit upper_limit fuel) lower_limit upper_limit
            data h := by
      rcases hrep with e | e <;> simp [copy_body, MR_type_ctor_has_valid_rep, e]
    rw [e1, copy_closure_eq c rt _ _ _ _ _ htag hr0, hbody, ← hnew, ← hblock, ← hlayout,
      ← hnum, ← hparams, hargs, hfinal]
    rfl
  · exact hkeep 0 (by omega) (by decide)
  · exact hkeep 2 (by omega) (by decide)
  · rw [hfinal]; exact leave_forwarding_pointer_read _ _ _ _ _

/-- Witness of C30: the closure at 132 of the second example heap; after the
copy, in the window `[100, 200)` and in the null window of a full copy alike,
its code word, at 136, holds the address 4000 of the copy and its other three
words are as before. -/
theorem copy_closure_forwarding_slot_witness :
    copy c32 rt1 100 200 2 132 2160 k0 = .returns (4000, k0_closure_copied) ∧
    copy c32 rt1 0 0 2 132 2160 k0 = .returns (4000, k0_closure_copied) ∧
    k0_closure_copied.read c32 132 offsetof_MR_closure_layout = 2200 ∧
    k0_closure_copied.read c32 132 offsetof_MR_closure_num_hidden_args = 1 ∧
    k0_closure_copied.read c32 132 offsetof_MR_closure_code = 4000 ∧
    k0_closure_copied.read c32 132 3 = 42 ∧
    copy c32 rt1 100 200 2 132 2160 k0_closure_copied = .returns (4000, k0_closure_copied) ∧
    copy c32 rt1 0 0 2 132 2160 k0_closure_copied = .returns (4000, k0_closure_copied) :=
  have key := copy_closure_forwarding_slot c32 rt1 100 200 1 132 2160 k0 2200 1 4000 0
    (MR_closure_new_header c32 k0 132 4000) k0_closure_args k0_closure_copied
    rfl ex_base_typeclass_infos_wf1 (by decide)
    (Or.inr rfl) rfl rfl rfl rfl rfl rfl rfl rfl rfl rfl
    (fun _ _ _ hq => absurd hq (by simp [k0_closure_args])) (by decide)
  have key0 := copy_closure_forwarding_slot c32 rt1 0 0 1 132 2160 k0 2200 1 4000 0
    (MR_closure_new_header c32 k0 132 4000) k0_closure_args k0_closure_copied
    rfl ex_base_typeclass_infos_wf1 (by decide)
    (Or.inr rfl) rfl rfl rfl rfl rfl rfl rfl rfl rfl rfl
    (fun _ _ _ hq => absurd hq (by simp [k0_closure_args])) (by decide)
  ⟨key.2.2.2.1, key0.2.2.2.1, rfl, rfl, key.2.2.2.2.2.2.1, rfl,
    key.2.2.1 k0_closure_copied (Or.inr rfl) rfl,
    key0.2.2.1 k0_closure_copied (Or.inr rfl) rfl⟩

/-! ## Properties of the copier: cell size, field dispatch, reference cells; tags, lists, call-pair table, register order -/

/-- C31 (DU cell size and in-bounds writes): in the copy of a DU cell in range
that is not yet forwarded, in any window, when the copies of the hidden
arguments and of the declared fields return, the new cell is allocated with
`cell_size` words, where `cell_size` is 1 for a remote secondary tag, plus the
original arity of the functor, plus the size of the size slot, plus the counts
of the plain type descriptors and of the typeclass dictionaries of the
existential info of the functor.  `cur_slot` starts at the slot after the
secondary tag, is `first_slot` after the loops over the hidden arguments and
is `cell_size` minus the size slot after the loop over the declared fields,
each iteration storing in the slot `cur_slot` and incrementing it; every slot
below that count lies in the allocated block, whose first word is the size
slot, the word in front of the cell, in a build with one; the slot of the
secondary tag, the slots of the hidden arguments and the slots of the declared
fields are below that count and lie in consecutive ranges.  When the objects
that the run forwards lie below the destination arena, each slot holds at the
end what its one store has put there: the secondary tag, the result of the
call that the loop over the hidden arguments makes, in the heap it has reached
at the visit of the slot, and the result of the call that the loop over the
declared fields makes, in the heap it has reached at the visit of the
field. -/
theorem copy_du_cell_size_and_slots (c : Config) (rt : Runtime)
    (lower_limit upper_limit fuel data type_info : Nat) (h : Heap)
    (du_type_layout : MR_DuTypeLayout) (have_sectag : Bool)
    (ptag data_value sectag new_data first_slot cell_size : Nat)
    (functor_desc : MR_DuFunctorDesc)
    (p : Nat × (Nat × Heap)) (s : Nat × Heap) (h2 : Heap)
    (hlow : c.MR_HIGHTAGS = false) (hwf : base_typeclass_infos_wf rt)
    (hws : 0 < c.sizeof_MR_Word)
    (hdu : reaches_du_type (type_ctor_info_of rt h type_info) data = some du_type_layout)
    (hptag : ptag = MR_tag c data)
    (hlocn : (du_type_layout ptag).MR_sectag_locn =
      if have_sectag then .MR_SECTAG_REMOTE else .MR_SECTAG_NONE)
    (hvalue : data_value = MR_body c data ptag)
    (hin : in_range lower_limit upper_limit data_value = true)
    (hfresh : h.forwarded data_value = false)
    (hsectag : sectag = if have_sectag then h.read c data_value 0 else 0)
    (hfunctor : functor_desc = (du_type_layout ptag).MR_sectag_alternatives sectag)
    (hnew : new_data = h.saved_hp + MR_SIZE_SLOT_SIZE c * c.sizeof_MR_Word)
    (halign : MR_tag c new_data = 0)
    (hfirst : first_slot = (if have_sectag then 1 else 0) + MR_du_hidden_count functor_desc)
    (hsize : cell_size = (if have_sectag then 1 else 0)
      + functor_desc.MR_du_functor_orig_arity + MR_SIZE_SLOT_SIZE c
      + MR_du_hidden_count functor_desc)
    (hhidden : MR_du_cell_and_hidden_args c
      (copy_type_info c rt lower_limit upper_limit fuel)
      (copy_typeclass_info c rt lower_limit upper_limit fuel)
      have_sectag data ptag functor_desc sectag h = .returns p)
    (hargs : copy_du_args c rt (copy c rt lower_limit upper_limit fuel) have_sectag type_info
      data_value p.1 functor_desc functor_desc.MR_du_functor_orig_arity p.2 = .returns s)
    (hfinal : h2 = leave_forwarding_pointer c s.2 data_value 0 (MR_mkword ptag new_data)) :
    copy c rt lower_limit upper_limit (fuel + 1) data type_info h
      = .returns (MR_mkword ptag new_data, h2) ∧
    (MR_du_new_cell c have_sectag cell_size sectag ptag data h).1 = new_data ∧
    (MR_du_new_cell c have_sectag cell_size sectag ptag data h).2.1
      = (if have_sectag then 1 else 0) ∧
    (MR_du_new_cell c have_sectag cell_size sectag ptag data h).2.2.saved_hp
      = h.saved_hp + cell_size * c.sizeof_MR_Word ∧
    (functor_desc.MR_du_functor_exist_info = none →
      p = MR_du_new_cell c have_sectag cell_size sectag ptag data h) ∧
    (∀ exist_info, functor_desc.MR_du_functor_exist_info = some exist_info →
      ∃ s2 : Nat × Heap,
        copy_du_hidden c (copy_type_info c rt lower_limit upper_limit fuel) data_value new_data
          exist_info.MR_exist_typeinfos_plain
          (MR_du_new_cell c have_sectag cell_size sectag ptag data h).2 = .returns s2 ∧
        copy_du_hidden c (copy_typeclass_info c rt lower_limit upper_limit fuel) data_value
          new_data exist_info.MR_exist_tcis s2 = .returns p.2 ∧
        s2.1 = (if have_sectag then 1 else 0) + exist_info.MR_exist_typeinfos_plain ∧
        p.1 = new_data) ∧
    p.2.1 = first_slot ∧
    s.1 = cell_size - MR_SIZE_SLOT_SIZE c ∧
    first_slot + functor_desc.MR_du_functor_orig_arity = cell_size - MR_SIZE_SLOT_SIZE c ∧
    (∀ k, k < cell_size - MR_SIZE_SLOT_SIZE c →
      h.saved_hp ≤ word_addr c new_data (k : Int) ∧
      word_addr c new_data (k : Int) + c.sizeof_MR_Word
        ≤ h.saved_hp + cell_size * c.sizeof_MR_Word) ∧
    (c.MR_RECORD_TERM_SIZES = true → word_addr c new_data (-1) = h.saved_hp) ∧
    (have_sectag = true → 0 < cell_size - MR_SIZE_SLOT_SIZE c) ∧
    (∀ k, k < MR_du_hidden_count functor_desc →
      (if have_sectag then 1 else 0) + k < first_slot) ∧
    (∀ i, i < functor_desc.MR_du_functor_orig_arity →
      first_slot + i < cell_size - MR_SIZE_SLOT_SIZE c) ∧
    (∀ k, k < cell_size - MR_SIZE_SLOT_SIZE c →
      (have_sectag = true ∧ k = 0) ∨
      ((if have_sectag then 1 else 0) ≤ k ∧ k < first_slot) ∨
      (first_slot ≤ k ∧ k - first_slot < functor_desc.MR_du_functor_orig_arity)) ∧
    (records_below c h.saved_hp h h2 →
      (have_sectag = true → h2.read c new_data 0 = sectag) ∧
      (∀ exist_info, functor_desc.MR_du_functor_exist_info = some exist_info →
        ∃ s2 : Nat × Heap,
          copy_du_hidden c (copy_type_info c rt lower_limit upper_limit fuel) data_value
            new_data exist_info.MR_exist_typeinfos_plain
            (MR_du_new_cell c have_sectag cell_size sectag ptag data h).2 = .returns s2 ∧
          copy_du_hidden c (copy_typeclass_info c rt lower_limit upper_limit fuel) data_value
            new_data exist_info.MR_exist_tcis s2 = .returns p.2 ∧
          (∀ k, k < exist_info.MR_exist_typeinfos_plain →
            ∃ (sk : Heap) (rk : Nat) (hk2 : Heap),
              copy_du_hidden c (copy_type_info c rt lower_limit upper_limit fuel) data_value
                new_data k (MR_du_new_cell c have_sectag cell_size sectag ptag data h).2
                = .returns ((if have_sectag then 1 else 0) + k, sk) ∧
              copy_type_info c rt lower_limit upper_limit fuel
                (sk.read c data_value (((if have_sectag then 1 else 0) + k : Nat) : Int)) sk
                = .returns (rk, hk2) ∧
              h2.read c new_data (((if have_sectag then 1 else 0) + k : Nat) : Int) = rk) ∧
          (∀ k, k < exist_info.MR_exist_tcis →
            ∃ (sk : Heap) (rk : Nat) (hk2 : Heap),
              copy_du_hidden c (copy_typeclass_info c rt lower_limit upper_limit fuel)
                data_value new_data k s2
                = .returns ((if have_sectag then 1 else 0)
                    + exist_info.MR_exist_typeinfos_plain + k, sk) ∧
              copy_typeclass_info c rt lower_limit upper_limit fuel
                (sk.read c data_value
                  (((if have_sectag then 1 else 0) + exist_info.MR_exist_typeinfos_plain + k
                    : Nat) : Int)) sk = .returns (rk, hk2) ∧
              h2.read c new_data
                (((if have_sectag then 1 else 0) + exist_info.MR_exist_typeinfos_plain + k
                  : Nat) : Int) = rk)) ∧
      (∀ i, i < functor_desc.MR_du_functor_orig_arity →
        ∃ (si : Heap) (ri : Nat) (hi : Heap),
          copy_du_args c rt (copy c rt lower_limit upper_limit fuel) have_sectag type_info
            data_value new_data functor_desc i p.2 = .returns (first_slot + i, si) ∧
          copy_du_arg c rt (copy c rt lower_limit upper_limit fuel) have_sectag type_info
            new_data functor_desc i (si.read c data_value ((first_slot + i : Nat) : Int)) si
            = .returns (ri, hi) ∧
          h2.read c new_data ((first_slot + i : Nat) : Int) = ri)) := by
  have hret := copy_du_cell_returns c rt lower_limit upper_limit fuel data type_info h
    du_type_layout have_sectag ptag data_value sectag new_data functor_desc p s h2
    hlow hwf hdu hptag hlocn hvalue hin hfresh hsectag hfunctor hnew hhidden hargs hfinal
  have hcti := copy_type_info_framed c rt lower_limit upper_limit fuel
  have hctci := copy_typeclass_info_framed c rt lower_limit upper_limit hwf fuel
  have hcp := copy_framed c rt lower_limit upper_limit hlow hwf fuel
  obtain ⟨-, e2, -, -⟩ := MR_du_cell_and_hidden_args_facts hlow hws _ _ hcti hctci
    have_sectag data _ _ _ h p hhidden
  have hp1 : p.1 = new_data := hret.2
  have hp2 : p.2.1 = first_slot := by rw [e2, hfirst]
  have hcell := MR_du_cell_and_hidden_args_cell _ _ have_sectag data ptag functor_desc sectag h
    cell_size hsize p hhidden
  have hc1 : (MR_du_new_cell c have_sectag cell_size sectag ptag data h).1 = new_data := by
    rw [MR_du_new_cell_fst, hnew]
  have hc2 := MR_du_new_cell_cur_slot c have_sectag cell_size sectag ptag data h
  have hbody := @copy_du_args_slot_body c rt lower_limit upper_limit hlow
    (copy c rt lower_limit upper_limit fuel)
    hcp have_sectag type_info data_value new_data functor_desc
  have hs1 : s.1 = first_slot + functor_desc.MR_du_functor_orig_arity := by
    have hargs2 := hargs
    unfold copy_du_args at hargs2
    rw [hp1] at hargs2
    rw [(slot_loop_facts _ hbody 0 _ _ _ _ hargs2).1, hp2]
  have hcount : first_slot + functor_desc.MR_du_functor_orig_arity
      = cell_size - MR_SIZE_SLOT_SIZE c := by
    rw [hfirst, hsize]; omega
  have hoff : (if have_sectag then 1 else 0) ≤ first_slot := by
    rw [hfirst]; exact Nat.le_add_right _ _
  refine ⟨hret.1, hc1, hc2, MR_du_new_cell_saved_hp _ _ _ _ _ _ _, hcell.1, ?_, hp2,
    by rw [hs1, hcount], hcount, ?_, ?_, ?_, ?_, ?_, ?_, ?_⟩
  · intro exist_info hex
    obtain ⟨s2, a1, a2, a3⟩ := hcell.2 exist_info hex
    rw [hc1, ← hvalue] at a1 a2
    refine ⟨s2, a1, a2, ?_, by rw [a3, hc1]⟩
    have hb := copy_du_hidden_slot_body hlow _ hcti data_value new_data
    unfold copy_du_hidden at a1
    rw [(slot_loop_facts _ hb 0 _ _ _ _ a1).1, hc2]
  · intro k hk
    rw [word_addr_natCast, hnew]
    refine ⟨by omega, ?_⟩
    have : (MR_SIZE_SLOT_SIZE c + k + 1) * c.sizeof_MR_Word
        ≤ cell_size * c.sizeof_MR_Word := Nat.mul_le_mul_right _ (by omega)
    have e : (MR_SIZE_SLOT_SIZE c + k + 1) * c.sizeof_MR_Word
        = MR_SIZE_SLOT_SIZE c * c.sizeof_MR_Word + k * c.sizeof_MR_Word + c.sizeof_MR_Word := by
      ring
    omega
  · intro hs
    rw [hnew]
    simp only [MR_SIZE_SLOT_SIZE, hs, if_true]
    exact word_addr_succ_neg_one c _
  · intro hs
    rw [← hcount, hfirst]; simp only [hs, if_true]; omega
  · intro k hk
    rw [hfirst]; omega
  · intro i hi
    omega
  · intro k hk
    by_cases h1 : k < (if have_sectag then 1 else 0)
    · left
      cases have_sectag
      · simp at h1
      · simp only [if_true] at h1
        exact ⟨rfl, by omega⟩
    · by_cases h2 : k < first_slot
      · exact Or.inr (Or.inl ⟨by omega, h2⟩)
      · exact Or.inr (Or.inr ⟨by omega, by omega⟩)
  · intro hrec
    have core := copy_du_cell_core c rt lower_limit upper_limit fuel data type_info h
      du_type_layout have_sectag ptag data_value sectag new_data first_slot functor_desc p s h2
      hlow hwf hws hdu hptag hlocn hvalue hin hfresh hsectag hfunctor hnew halign hfirst
      hhidden hargs hfinal hrec
    refine ⟨?_, ?_, ?_⟩
    · intro hs
      rw [core.2.2.2.2.2.2.1 hs, hsectag]; simp only [hs, if_true]
    · intro exist_info hex
      obtain ⟨s2, a1, a2, -, b1, b2⟩ := copy_du_cell_hidden_slots c rt lower_limit upper_limit
        fuel data type_info h have_sectag ptag data_value sectag new_data cell_size
        functor_desc exist_info p s h2 hlow hwf hws hvalue hfresh hex hsize hnew hhidden hargs
        hfinal hrec
      refine ⟨s2, a1, a2, fun k hk => ?_, fun k hk => ?_⟩
      · obtain ⟨sk, rk, hk2, -, hpre, hc, hv⟩ := b1 k hk
        exact ⟨sk, rk, hk2, hpre, hc, hv⟩
      · obtain ⟨sk, rk, hk2, -, hpre, hc, hv⟩ := b2 k hk
        exact ⟨sk, rk, hk2, hpre, hc, hv⟩
    · intro i hi
      obtain ⟨si, ri, hi2, -, hpre, -, harg, hval, -⟩ := core.2.2.2.2.2.2.2 i hi
      exact ⟨si, ri, hi2, by unfold copy_du_args; exact hpre, harg, hval⟩

/-- Witness of C31: the cell at 132 of the third example heap, without
secondary tag, with one hidden dictionary and one declared field, is copied
to a cell of two words at 4000, whose slot 0 holds the copy of the dictionary
and whose slot 1 holds the copy of the field; the run is the same with the
window `[100, 200)` and with the null window, in which every object is in
range. -/
theorem copy_du_cell_size_and_slots_witness :
    copy c32 rt2 100 200 4 132 1064 k1 = .returns (MR_mkword 0 4000, k1_copied) ∧
    copy c32 rt2 0 0 4 132 1064 k1 = .returns (MR_mkword 0 4000, k1_copied) ∧
    (MR_du_new_cell c32 false 2 0 0 132 k1).2.2.saved_hp
      = k1.saved_hp + 2 * c32.sizeof_MR_Word ∧
    (2, k1_fields).1 = 2 - MR_SIZE_SLOT_SIZE c32 ∧
    k1_copied.read c32 4000 0 = 4008 ∧ k1_copied.read c32 4000 1 = 4017 ∧
    ∃ (si : Heap) (ri : Nat) (hi : Heap),
      copy_du_args c32 rt2 (copy c32 rt2 0 0 3) false 1064 132 4000 ex_functor_constrained 0
        (4000, (1, k1_hidden)).2 = .returns (1 + 0, si) ∧
      copy_du_arg c32 rt2 (copy c32 rt2 0 0 3) false 1064 4000 ex_functor_constrained 0
        (si.read c32 132 ((1 + 0 : Nat) : Int)) si = .returns (ri, hi) ∧
      k1_copied.read c32 4000 ((1 + 0 : Nat) : Int) = ri := by
  have key := copy_du_cell_size_and_slots c32 rt2 100 200 3 132 1064 k1
    (fun _ => ex_ptag .MR_SECTAG_NONE ex_functor_constrained) false 0 132 0 4000 1 2
    ex_functor_constrained (4000, (1, k1_hidden)) (2, k1_fields) k1_copied
    rfl ex_base_typeclass_infos_wf2 (by decide)
    rfl rfl rfl rfl rfl rfl rfl rfl rfl rfl rfl rfl rfl rfl rfl
  have key0 := copy_du_cell_size_and_slots c32 rt2 0 0 3 132 1064 k1
    (fun _ => ex_ptag .MR_SECTAG_NONE ex_functor_constrained) false 0 132 0 4000 1 2
    ex_functor_constrained (4000, (1, k1_hidden)) (2, k1_fields) k1_copied
    rfl ex_base_typeclass_infos_wf2 (by decide)
    rfl rfl rfl rfl rfl rfl rfl rfl rfl rfl rfl rfl rfl rfl rfl
  obtain ⟨si, ri, hi, hpre, hcall, hval⟩ :=
    (key0.2.2.2.2.2.2.2.2.2.2.2.2.2.2.2
      (ex_records_below 4000 k1 k1_copied (by decide) ex_constrained_copied_forwarded)).2.2
      0 (by decide)
  exact ⟨key.1, key0.1, key.2.2.2.1, key.2.2.2.2.2.2.2.1, rfl, rfl, si, ri, hi, hpre, hcall,
    hval⟩

/-- C32 (DU field dispatch): in the copy of a DU cell in range that is not yet
forwarded, in any window, when the copies of the hidden arguments and of the
declared fields return, every declared field `i` is copied, in the heap `si`
that the loop over the declared fields has reached after its first `i`
iterations, by `copy_arg` with the argument block of the new cell (the word
after the secondary tag when there is one) as parent data, the functor
descriptor, the argument vector of the type descriptor of the value and the
pseudo type descriptor `i` of the functor when the argument type may contain a
type variable, and by `copy` at that pseudo type descriptor, taken as ground,
otherwise; the functor descriptor is the one the layout of the type
constructor of the type descriptor of the value gives.  When the objects that
the run forwards lie below the destination arena, the result is the final
content of the slot, and in the heap `si` the argument block holds the copies
of the hidden arguments: the results of the calls of `copy_type_info` and of
`copy_typeclass_info` that the loops over the hidden arguments have made, each
in the heap that its loop had reached at the visit of the slot. -/
theorem copy_du_field_dispatch (c : Config) (rt : Runtime)
    (lower_limit upper_limit fuel data type_info : Nat) (h : Heap)
    (du_type_layout : MR_DuTypeLayout) (have_sectag : Bool)
    (ptag data_value sectag new_data first_slot parent_data cell_size : Nat)
    (functor_desc : MR_DuFunctorDesc)
    (p : Nat × (Nat × Heap)) (s : Nat × Heap) (h2 : Heap)
    (hlow : c.MR_HIGHTAGS = false) (hwf : base_typeclass_infos_wf rt)
    (hws : 0 < c.sizeof_MR_Word)
    (hdu : reaches_du_type (type_ctor_info_of rt h type_info) data = some du_type_layout)
    (hptag : ptag = MR_tag c data)
    (hlocn : (du_type_layout ptag).MR_sectag_locn =
      if have_sectag then .MR_SECTAG_REMOTE else .MR_SECTAG_NONE)
    (hvalue : data_value = MR_body c data ptag)
    (hin : in_range lower_limit upper_limit data_value = true)
    (hfresh : h.forwarded data_value = false)
    (hsectag : sectag = if have_sectag then h.read c data_value 0 else 0)
    (hfunctor : functor_desc = (du_type_layout ptag).MR_sectag_alternatives sectag)
    (hnew : new_data = h.saved_hp + MR_SIZE_SLOT_SIZE c * c.sizeof_MR_Word)
    (halign : MR_tag c new_data = 0)
    (hfirst : first_slot = (if have_sectag then 1 else 0) + MR_du_hidden_count functor_desc)
    (hsize : cell_size = (if have_sectag then 1 else 0)
      + functor_desc.MR_du_functor_orig_arity + MR_SIZE_SLOT_SIZE c
      + MR_du_hidden_count functor_desc)
    (hparent : parent_data = if have_sectag then word_addr c new_data 1 else new_data)
    (hhidden : MR_du_cell_and_hidden_args c
      (copy_type_info c rt lower_limit upper_limit fuel)
      (copy_typeclass_info c rt lower_limit upper_limit fuel)
      have_sectag data ptag functor_desc sectag h = .returns p)
    (hargs : copy_du_args c rt (copy c rt lower_limit upper_limit fuel) have_sectag type_info
      data_value p.1 functor_desc functor_desc.MR_du_functor_orig_arity p.2 = .returns s)
    (hfinal : h2 = leave_forwarding_pointer c s.2 data_value 0 (MR_mkword ptag new_data)) :
    copy c rt lower_limit upper_limit (fuel + 1) data type_info h
      = .returns (MR_mkword ptag new_data, h2) ∧
    (∀ i, i < functor_desc.MR_du_functor_orig_arity →
      ∃ (si : Heap) (ri : Nat) (hi : Heap),
        copy_du_args c rt (copy c rt lower_limit upper_limit fuel) have_sectag type_info
          data_value new_data functor_desc i p.2 = .returns (first_slot + i, si) ∧
        (functor_desc.MR_arg_type_may_contain_var i = true →
          copy_arg c rt lower_limit upper_limit fuel parent_data
            (si.read c data_value ((first_slot + i : Nat) : Int)) (some functor_desc)
            (MR_TYPEINFO_GET_FIXED_ARITY_ARG_VECTOR type_info)
            (functor_desc.MR_du_functor_arg_types i) si = .returns (ri, hi)) ∧
        (functor_desc.MR_arg_type_may_contain_var i = false →
          copy c rt lower_limit upper_limit fuel
            (si.read c data_value ((first_slot + i : Nat) : Int))
            (MR_pseudo_type_info_is_ground (functor_desc.MR_du_functor_arg_types i)) si
            = .returns (ri, hi)) ∧
        (records_below c h.saved_hp h h2 →
          h2.read c new_data ((first_slot + i : Nat) : Int) = ri ∧
          (∀ exist_info, functor_desc.MR_du_functor_exist_info = some exist_info →
            ∃ s2 : Nat × Heap,
              copy_du_hidden c (copy_type_info c rt lower_limit upper_limit fuel) data_value
                new_data exist_info.MR_exist_typeinfos_plain
                (MR_du_new_cell c have_sectag cell_size sectag ptag data h).2 = .returns s2 ∧
              copy_du_hidden c (copy_typeclass_info c rt lower_limit upper_limit fuel)
                data_value new_data exist_info.MR_exist_tcis s2 = .returns p.2 ∧
              (∀ k, k < exist_info.MR_exist_typeinfos_plain →
                ∃ (sk : Heap) (rk : Nat) (hk2 : Heap),
                  copy_du_hidden c (copy_type_info c rt lower_limit upper_limit fuel)
                    data_value new_data k
                    (MR_du_new_cell c have_sectag cell_size sectag ptag data h).2
                    = .returns ((if have_sectag then 1 else 0) + k, sk) ∧
                  copy_type_info c rt lower_limit upper_limit fuel
                    (sk.read c data_value (((if have_sectag then 1 else 0) + k : Nat) : Int))
                    sk = .returns (rk, hk2) ∧
                  si.read c parent_data (k : Int) = rk) ∧
              (∀ k, k < exist_info.MR_exist_tcis →
                ∃ (sk : Heap) (rk : Nat) (hk2 : Heap),
                  copy_du_hidden c (copy_typeclass_info c rt lower_limit upper_limit fuel)
                    data_value new_data k s2
                    = .returns ((if have_sectag then 1 else 0)
                        + exist_info.MR_exist_typeinfos_plain + k, sk) ∧
                  copy_typeclass_info c rt lower_limit upper_limit fuel
                    (sk.read c data_value
                      (((if have_sectag then 1 else 0) + exist_info.MR_exist_typeinfos_plain
                        + k : Nat) : Int)) sk = .returns (rk, hk2) ∧
                  si.read c parent_data ((exist_info.MR_exist_typeinfos_plain + k : Nat) : Int)
                    = rk)) ∧
          (no_record_inside c h s.2 data_value
              (first_slot + functor_desc.MR_du_functor_orig_arity) →
            word_addr c data_value
              ((first_slot + functor_desc.MR_du_functor_orig_arity : Nat) : Int)
                ≤ h.saved_hp →
            si.read c data_value ((first_slot + i : Nat) : Int)
              = h.read c data_value ((first_slot + i : Nat) : Int)))) := by
  have hret := copy_du_cell_returns c rt lower_limit upper_limit fuel data type_info h
    du_type_layout have_sectag ptag data_value sectag new_data functor_desc p s h2
    hlow hwf hdu hptag hlocn hvalue hin hfresh hsectag hfunctor hnew hhidden hargs hfinal
  have hcti := copy_type_info_framed c rt lower_limit upper_limit fuel
  have hctci := copy_typeclass_info_framed c rt lower_limit upper_limit hwf fuel
  have hcp := copy_framed c rt lower_limit upper_limit hlow hwf fuel
  obtain ⟨-, e2, e3, -⟩ := MR_du_cell_and_hidden_args_facts hlow hws _ _ hcti hctci
    have_sectag data _ _ _ h p hhidden
  have frp := (MR_du_cell_and_hidden_args_frame hlow _ _ hcti hctci
    have_sectag data _ _ _ h p hhidden).2
  have hp1 : p.1 = new_data := hret.2
  have hp2 : p.2.1 = first_slot := by rw [e2, hfirst]
  have hnew_le : h.saved_hp ≤ new_data := by rw [hnew]; exact Nat.le_add_right _ _
  have hbody := @copy_du_args_slot_body c rt lower_limit upper_limit hlow
    (copy c rt lower_limit upper_limit fuel)
    hcp have_sectag type_info data_value new_data functor_desc
  have hargs2 := hargs
  rw [hp1] at hargs2
  -- a slot below `first_slot` lies inside the cell
  have hslot : ∀ k, k < first_slot → word_addr c new_data (k : Int) < p.2.2.saved_hp := by
    intro k hk
    refine lt_of_lt_of_le ?_ e3
    rw [word_addr_natCast, hnew]
    have : (MR_SIZE_SLOT_SIZE c + k + 1) * c.sizeof_MR_Word ≤
        ((if have_sectag then 1 else 0) + functor_desc.MR_du_functor_orig_arity
          + MR_SIZE_SLOT_SIZE c + MR_du_hidden_count functor_desc) * c.sizeof_MR_Word :=
      Nat.mul_le_mul_right _ (by omega)
    have e : (MR_SIZE_SLOT_SIZE c + k + 1) * c.sizeof_MR_Word
        = MR_SIZE_SLOT_SIZE c * c.sizeof_MR_Word + k * c.sizeof_MR_Word + c.sizeof_MR_Word := by
      ring
    omega
  have hpar : ∀ k : Nat, word_addr c parent_data (k : Int)
      = word_addr c new_data (((if have_sectag then 1 else 0) + k : Nat) : Int) := by
    intro k
    rw [hparent]
    cases have_sectag
    · simp
    · have e1 : word_addr c new_data 1 = word_addr c new_data ((1 : Nat) : Int) := rfl
      simp only [if_true]
      rw [e1, word_addr_natCast, word_addr_natCast, word_addr_natCast]
      ring
  refine ⟨hret.1, fun i hi => ?_⟩
  obtain ⟨si, ri, hi2, hpre, hcall⟩ := copy_du_args_call hlow _ hcp have_sectag type_info
    data_value new_data functor_desc _ p.2 s hargs2 i hi
  rw [hp2] at hpre hcall
  refine ⟨si, ri, hi2, hpre, fun hv => ?_, fun hv => ?_, fun hrec => ?_⟩
  · unfold copy_du_arg at hcall
    simp only [hv, if_true] at hcall
    rw [hparent]
    exact hcall
  · unfold copy_du_arg at hcall
    simp only [hv, Bool.false_eq_true, if_false] at hcall
    exact hcall
  · have core := copy_du_cell_core c rt lower_limit upper_limit fuel data type_info h
      du_type_layout have_sectag ptag data_value sectag new_data first_slot functor_desc p s h2
      hlow hwf hws hdu hptag hlocn hvalue hin hfresh hsectag hfunctor hnew halign hfirst
      hhidden hargs hfinal hrec
    obtain ⟨si2, ri2, hi3, -, hpre2, hsuf, hcall2, hval, hentry⟩ :=
      core.2.2.2.2.2.2.2 i hi
    have hpre1 := hpre
    unfold copy_du_args at hpre1
    rw [hpre1] at hpre2
    simp only [Outcome.returns.injEq, Prod.mk.injEq, true_and] at hpre2
    subst hpre2
    rw [hcall] at hcall2
    simp only [Outcome.returns.injEq, Prod.mk.injEq] at hcall2
    obtain ⟨rfl, rfl⟩ := hcall2
    have hdv_lt : data_value < h.saved_hp := by
      have := hrec _ 0 (by rw [hfinal]; exact leave_forwarding_pointer_forwarded c _ _ _ _)
        hfresh (Or.inl rfl)
      rwa [word_addr_zero] at this
    have hleave : ∀ a, h.saved_hp ≤ a → h2.mem a = s.2.mem a := by
      intro a ha
      rw [hfinal]
      apply leave_forwarding_pointer_mem_of_ne
      rw [word_addr_zero]; omega
    have hl2 : ∀ q, s.2.forwarded q = true → h2.forwarded q = true := by
      intro q hq
      rw [hfinal]
      exact leave_forwarding_pointer_forwarded_mono c _ _ _ _ q hq
    have frcall := copy_du_arg_framed _ hcp _ _ _ _ _ _ _ _ _ hcall
    have fsuf := slot_loop_facts _ hbody h.saved_hp _ _ _ _ hsuf
    have hsi : ∀ q, si.forwarded q = true → s.2.forwarded q = true :=
      fun q hq => fsuf.2.2.1 q (frcall.forwarded_mono q hq)
    have hargs3 := hargs2
    unfold copy_du_args at hargs3
    have fall := slot_loop_facts _ hbody h.saved_hp _ _ _ _ hargs3
    -- the slots below `first_slot` are final once the hidden arguments are copied
    have hkeep : ∀ k, k < first_slot →
        si.read c new_data (k : Int) = h2.read c new_data (k : Int) := by
      intro k hk
      have a1 := slot_loop_keeps_lower hws _ hbody h.saved_hp hnew_le _ _ _ _ hpre1
        (hrec.mono frp.forwarded_mono (fun q hq => hl2 q (hsi q hq))) k
        (by rw [hp2]; exact hk) (hslot k hk)
      have a2 := slot_loop_keeps_lower hws _ hbody h.saved_hp hnew_le _ _ _ _ hargs3
        (hrec.mono frp.forwarded_mono hl2) k (by rw [hp2]; exact hk) (hslot k hk)
      simp only at a1
      rw [a1, ← a2]
      simp only [Heap.read]
      rw [hleave _ (le_trans hnew_le (le_word_addr c _ _ (by omega)))]
    refine ⟨hval, fun exist_info hex => ?_, hentry⟩
    obtain ⟨s2, a1, a2, -, b1, b2⟩ := copy_du_cell_hidden_slots c rt lower_limit upper_limit
      fuel data type_info h have_sectag ptag data_value sectag new_data cell_size
      functor_desc exist_info p s h2 hlow hwf hws hvalue hfresh hex hsize hnew hhidden hargs
      hfinal hrec
    have hcount : MR_du_hidden_count functor_desc
        = exist_info.MR_exist_typeinfos_plain + exist_info.MR_exist_tcis := by
      simp [MR_du_hidden_count, hex]
    refine ⟨s2, a1, a2, fun k hk => ?_, fun k hk => ?_⟩
    · obtain ⟨sk, rk, hk2, -, hprek, hc, hv⟩ := b1 k hk
      refine ⟨sk, rk, hk2, hprek, hc, ?_⟩
      simp only [Heap.read] at hv ⊢
      rw [hpar k, ← hv]
      exact hkeep _ (by omega)
    · obtain ⟨sk, rk, hk2, -, hprek, hc, hv⟩ := b2 k hk
      refine ⟨sk, rk, hk2, hprek, hc, ?_⟩
      simp only [Heap.read] at hv ⊢
      rw [hpar, ← Nat.add_assoc, ← hv]
      exact hkeep _ (by omega)

/-- Witness of C32: the cell at 132 of the third example heap, whose declared
field has a type that contains a type variable, is copied by `copy_arg` with
the new cell at 4000, which holds the copy 4008 of the hidden dictionary, as
parent data; the run is the same with the window `[100, 200)` and with the
null window, in which every object is in range. -/
theorem copy_du_field_dispatch_witness :
    copy c32 rt2 100 200 4 132 1064 k1 = .returns (MR_mkword 0 4000, k1_copied) ∧
    copy c32 rt2 0 0 4 132 1064 k1 = .returns (MR_mkword 0 4000, k1_copied) ∧
    ex_functor_constrained.MR_arg_type_may_contain_var 0 = true ∧
    ∃ (si : Heap) (ri : Nat) (hi : Heap),
      copy_du_args c32 rt2 (copy c32 rt2 0 0 3) false 1064 132 4000 ex_functor_constrained 0
        (4000, (1, k1_hidden)).2 = .returns (1 + 0, si) ∧
      copy_arg c32 rt2 0 0 3 4000 (si.read c32 132 ((1 + 0 : Nat) : Int))
        (some ex_functor_constrained) (MR_TYPEINFO_GET_FIXED_ARITY_ARG_VECTOR 1064) 2 si
        = .returns (ri, hi) ∧
      k1_copied.read c32 4000 ((1 + 0 : Nat) : Int) = ri := by
  have key := copy_du_field_dispatch c32 rt2 100 200 3 132 1064 k1
    (fun _ => ex_ptag .MR_SECTAG_NONE ex_functor_constrained) false 0 132 0 4000 1 4000 2
    ex_functor_constrained (4000, (1, k1_hidden)) (2, k1_fields) k1_copied
    rfl ex_base_typeclass_infos_wf2 (by decide)
    rfl rfl rfl rfl rfl rfl rfl rfl rfl rfl rfl rfl rfl rfl rfl rfl
  have key0 := copy_du_field_dispatch c32 rt2 0 0 3 132 1064 k1
    (fun _ => ex_ptag .MR_SECTAG_NONE ex_functor_constrained) false 0 132 0 4000 1 4000 2
    ex_functor_constrained (4000, (1, k1_hidden)) (2, k1_fields) k1_copied
    rfl ex_base_typeclass_infos_wf2 (by decide)
    rfl rfl rfl rfl rfl rfl rfl rfl rfl rfl rfl rfl rfl rfl rfl rfl
  obtain ⟨si, ri, hi, hpre, hv, -, hrest⟩ := key0.2 0 (by decide)
  exact ⟨key.1, key0.1, rfl, si, ri, hi, hpre, hv rfl,
    (hrest (ex_records_below 4000 k1 k1_copied (by decide)
      ex_constrained_copied_forwarded)).1⟩

/-- C33 (reference cell): for a reference cell in range, in any window, that
is not yet forwarded and lies below the destination arena, when `copy_arg` of
the referent (word 0 of the cell) under the pseudo type descriptor 1, the
first type parameter, resolved against the argument vector of the type
descriptor of the reference, returns, `copy` allocates exactly one word at the
heap pointer, stores in it the result of that `copy_arg`, returns the address
of that word, and leaves a forwarding record at word 0 of the original cell
that points to it. -/
theorem copy_reference_structure (c : Config) (rt : Runtime)
    (lower_limit upper_limit fuel data type_info : Nat) (h : Heap)
    (new_data r : Nat) (h1 hf h2 : Heap)
    (hrep : (type_ctor_info_of rt h type_info).MR_type_ctor_rep = .MR_TYPECTOR_REP_REFERENCE)
    (htag : MR_tag c data = 0)
    (hw : data < 2 ^ MR_WORDBITS c)
    (hin : in_range lower_limit upper_limit data = true)
    (hfresh : h.forwarded data = false)
    (hbelow : data < h.saved_hp)
    (hnew : new_data = h.saved_hp)
    (hblock : h1 = (MR_offset_incr_saved_hp c h 0 1).2)
    (hreferent : copy_arg c rt lower_limit upper_limit fuel 0 (h.read c data 0) none
      (MR_TYPEINFO_GET_FIXED_ARITY_ARG_VECTOR type_info) 1 h1 = .returns (r, hf))
    (hfinal : h2 = leave_forwarding_pointer c (hf.write c new_data 0 r) data 0 new_data) :
    copy c rt lower_limit upper_limit (fuel + 1) data type_info h = .returns (new_data, h2) ∧
    h1.saved_hp = h.saved_hp + 1 * c.sizeof_MR_Word ∧
    h1.mem = h.mem ∧
    h2.read c new_data 0 = r ∧
    h2.forwarded data = true ∧
    h2.read c data 0 = new_data := by
  subst hnew hblock hfinal
  have hbody : MR_body c data (MR_mktag c 0) = data := MR_body_mktag_zero c data htag hw
  have hr0 := @RETURN_IF_OUT_OF_RANGE_of_fresh c lower_limit upper_limit data data 0 h hin hfresh
  unfold copy_arg at hreferent
  refine ⟨?_, rfl, rfl, ?_, ?_, ?_⟩
  · rw [copy_succ]
    unfold type_ctor_info_of at hrep
    have hread : (MR_offset_incr_saved_hp c h 0 1).2.read c data 0 = h.read c data 0 := rfl
    have hnew : (MR_offset_incr_saved_hp c h 0 1).1 = h.saved_hp := by
      simp [MR_offset_incr_saved_hp]
    simp only [copy_body, MR_type_ctor_has_valid_rep, hrep, copy_reference, htag, hbody, hr0,
      hread, hreferent, Outcome.bind, hnew]
    simp
  · simp only [Heap.read, leave_forwarding_pointer, Heap.write, Heap.store, word_addr_zero]
    rw [if_neg (by omega)]
    simp
  · simp [leave_forwarding_pointer]
  · simp [Heap.read, leave_forwarding_pointer, Heap.write, Heap.store]

/-- Witness of C33: the reference cell at 188 of the fifth example heap, whose
referent is the tuple `{5, 6}` at 112, is copied to the word 4000, which holds
the copy of the tuple at 4004; the run is the same with the window
`[100, 200)` and with the null window, in which every object is in range. -/
theorem copy_reference_structure_witness :
    (copy c32 rt4 100 200 3 188 2180 k2 = .returns (4000, k2_ref_copied) ∧
      k2_ref_allocated.saved_hp = k2.saved_hp + 1 * c32.sizeof_MR_Word ∧
      k2_ref_allocated.mem = k2.mem ∧
      k2_ref_copied.read c32 4000 0 = 4004 ∧
      k2_ref_copied.forwarded 188 = true ∧
      k2_ref_copied.read c32 188 0 = 4000) ∧
    copy c32 rt4 0 0 3 188 2180 k2 = .returns (4000, k2_ref_copied) :=
  ⟨copy_reference_structure c32 rt4 100 200 2 188 2180 k2 4000 4004
      k2_ref_allocated k2_referent_copied k2_ref_copied
      rfl rfl (by decide) rfl rfl (by decide) rfl rfl rfl rfl,
    (copy_reference_structure c32 rt4 0 0 2 188 2180 k2 4000 4004
      k2_ref_allocated k2_referent_copied k2_ref_copied
      rfl rfl (by decide) rfl rfl (by decide) rfl rfl rfl rfl).1⟩

/-- C34 (tag decomposition, low tags): in the low-tag configuration with
`MR_TAGBITS` tag bits, for every machine word `w`, the tag of `w` is below
`2 ^ MR_TAGBITS`, the low `MR_TAGBITS` bits of `MR_strip_tag(w)` are zero,
`MR_strip_tag(w) + MR_tag(w)` is `w`, and `MR_body(w, MR_tag(w))` is
`MR_strip_tag(w)`. -/
theorem MR_tag_decomposition (c : Config) (w : Nat)
    (hlow : c.MR_HIGHTAGS = false) (hw : w < 2 ^ MR_WORDBITS c) :
    MR_tag c w < 2 ^ c.MR_TAGBITS ∧
    MR_strip_tag c w % 2 ^ c.MR_TAGBITS = 0 ∧
    MR_strip_tag c w + MR_tag c w = w ∧
    MR_body c w (MR_tag c w) = MR_strip_tag c w := by
  have hpos : 0 < 2 ^ c.MR_TAGBITS := Nat.two_pow_pos _
  have hle : w % 2 ^ c.MR_TAGBITS ≤ w := Nat.mod_le _ _
  rw [MR_tag_of_low c hlow, MR_strip_tag_eq_sub_of_low c hlow w hw]
  refine ⟨Nat.mod_lt _ hpos, ?_, by omega, ?_⟩
  · have := Nat.div_add_mod w (2 ^ c.MR_TAGBITS)
    have e : w - w % 2 ^ c.MR_TAGBITS = 2 ^ c.MR_TAGBITS * (w / 2 ^ c.MR_TAGBITS) := by omega
    rw [e, Nat.mul_mod_right]
  · simp [MR_body, hlow, hle]

/-- Witness of C34: the tagged word 113 of the 32-bit configuration. -/
theorem MR_tag_decomposition_witness :
    MR_tag c32 113 < 2 ^ c32.MR_TAGBITS ∧
    MR_strip_tag c32 113 % 2 ^ c32.MR_TAGBITS = 0 ∧
    MR_strip_tag c32 113 + MR_tag c32 113 = 113 ∧
    MR_body c32 113 (MR_tag c32 113) = MR_strip_tag c32 113 :=
  MR_tag_decomposition c32 113 rfl (by decide)

/-- C35 (tag partition, high tags): in the high-tag configuration with
`MR_TAGBITS` tag bits in a word of `MR_WORDBITS` bits, for every machine word
`w` and every `t`, `MR_tag(w)` and `MR_body(w, t)` have no set bit in common,
their bitwise disjunction is `w`, and `MR_body(w, t)` is `MR_strip_tag(w)`;
and for every tag `t` below `2 ^ MR_TAGBITS`, `MR_unmktag(MR_mktag(t))` is `t`
and `MR_tag(MR_mktag(t))` is `MR_mktag(t)`. -/
theorem MR_tag_partition (c : Config) (w : Nat)
    (hhigh : c.MR_HIGHTAGS = true) (hb : c.MR_TAGBITS ≤ MR_WORDBITS c)
    (hw : w < 2 ^ MR_WORDBITS c) :
    (∀ t, MR_tag c w &&& MR_body c w t = 0 ∧
      MR_tag c w ||| MR_body c w t = w ∧
      MR_body c w t = MR_strip_tag c w) ∧
    (∀ t, t < 2 ^ c.MR_TAGBITS →
      MR_unmktag c (MR_mktag c t) = t ∧ MR_tag c (MR_mktag c t) = MR_mktag c t) := by
  refine ⟨fun t => ⟨?_, ?_, ?_⟩, fun t ht => ⟨?_, ?_⟩⟩
  · simp only [MR_tag, MR_body, hhigh, if_true, MR_all_ones]
    apply Nat.eq_of_testBit_eq
    intro i
    simp only [Nat.testBit_and, Nat.testBit_xor, Nat.testBit_shiftRight,
      Nat.testBit_two_pow_sub_one, Nat.zero_testBit]
    by_cases h1 : c.MR_TAGBITS + i < MR_WORDBITS c
    · have h2 : i < MR_WORDBITS c := by omega
      simp [h1, h2]
    · simp [h1]
  · simp only [MR_tag, MR_body, hhigh, if_true, MR_all_ones]
    apply Nat.eq_of_testBit_eq
    intro i
    simp only [Nat.testBit_or, Nat.testBit_and, Nat.testBit_xor, Nat.testBit_shiftRight,
      Nat.testBit_two_pow_sub_one]
    by_cases hwi : w.testBit i = true
    · have h2 : i < MR_WORDBITS c := testBit_lt_of_word hw hwi
      by_cases h1 : c.MR_TAGBITS + i < MR_WORDBITS c <;> simp [hwi, h1, h2]
    · simp only [Bool.not_eq_true] at hwi
      simp [hwi]
  · simp only [MR_body, MR_strip_tag, hhigh, if_true]
  · obtain ⟨e, -⟩ := MR_mktag_of_high c hhigh hb t ht
    rw [e]
    simp only [MR_unmktag, hhigh, if_true, Nat.shiftRight_eq_div_pow]
    exact Nat.mul_div_cancel _ (Nat.two_pow_pos _)
  · obtain ⟨e, hlt⟩ := MR_mktag_of_high c hhigh hb t ht
    have hm : ∀ i, (MR_mktag c t).testBit i = true → MR_WORDBITS c - c.MR_TAGBITS ≤ i := by
      intro i hi
      rw [e, ← Nat.shiftLeft_eq, Nat.testBit_shiftLeft] at hi
      simp only [Bool.and_eq_true, decide_eq_true_eq] at hi
      exact hi.1
    simp only [MR_tag, hhigh, if_true, MR_all_ones]
    apply Nat.eq_of_testBit_eq
    intro i
    simp only [Nat.testBit_and, Nat.testBit_xor, Nat.testBit_shiftRight,
      Nat.testBit_two_pow_sub_one]
    by_cases hmi : (MR_mktag c t).testBit i = true
    · have h2 : i < MR_WORDBITS c := testBit_lt_of_word hlt hmi
      have h3 := hm i hmi
      have h1 : ¬ c.MR_TAGBITS + i < MR_WORDBITS c := by omega
      simp [hmi, h1, h2]
    · simp only [Bool.not_eq_true] at hmi
      simp [hmi]

/-- Witness of C35: the word `2 ^ 31 + 7` of the 32-bit configuration with
high tags, and the tag 2. -/
theorem MR_tag_partition_witness :
    MR_tag c32_high 2147483655 &&& MR_body c32_high 2147483655 0 = 0 ∧
    MR_tag c32_high 2147483655 ||| MR_body c32_high 2147483655 0 = 2147483655 ∧
    MR_body c32_high 2147483655 0 = MR_strip_tag c32_high 2147483655 ∧
    MR_unmktag c32_high (MR_mktag c32_high 2) = 2 ∧
    MR_tag c32_high (MR_mktag c32_high 2) = MR_mktag c32_high 2 :=
  have key := MR_tag_partition c32_high 2147483655 rfl (by decide) (by decide)
  ⟨(key.1 0).1, (key.1 0).2.1, (key.1 0).2.2, (key.2 2 (by decide)).1,
    (key.2 2 (by decide)).2⟩

/-- C36 (local secondary-tag encoding, low tags): in the low-tag configuration
with `MR_TAGBITS` tag bits in a word of `MR_WORDBITS` bits, for primary tags
`p`, `p2` below `2 ^ MR_TAGBITS` and secondary tags `s`, `s2` below
`2 ^ (MR_WORDBITS - MR_TAGBITS)`: `MR_unmkbody(MR_mkbody(s))` is `s`, the tag
of `MR_tbmkword(p, s)` is `MR_mktag(p)`, and `MR_LTAGS_TEST(MR_tbmkword(p, s),
p2, s2)` holds exactly when `p = p2` and `s = s2`. -/
theorem MR_local_secondary_tag_encoding (c : Config) (p p2 s s2 : Nat)
    (hlow : c.MR_HIGHTAGS = false) (hb : c.MR_TAGBITS ≤ MR_WORDBITS c)
    (hp : p < 2 ^ c.MR_TAGBITS) (hp2 : p2 < 2 ^ c.MR_TAGBITS)
    (hs : s < 2 ^ (MR_WORDBITS c - c.MR_TAGBITS))
    (hs2 : s2 < 2 ^ (MR_WORDBITS c - c.MR_TAGBITS)) :
    MR_unmkbody c (MR_mkbody c s) = s ∧
    MR_tag c (MR_tbmkword c p s) = MR_mktag c p ∧
    (MR_LTAGS_TEST c (MR_tbmkword c p s) p2 s2 = true ↔ p = p2 ∧ s = s2) := by
  obtain ⟨e1, b1⟩ := MR_mkbody_of_low c hlow hb s hs
  obtain ⟨e2, b2⟩ := MR_mkbody_of_low c hlow hb s2 hs2
  have hpos : 0 < 2 ^ c.MR_TAGBITS := Nat.two_pow_pos _
  have w1 : MR_tbmkword c p s = s * 2 ^ c.MR_TAGBITS + p := by
    simp only [MR_tbmkword, MR_mkword, MR_mktag_of_low c hlow, e1]
  have w2 : MR_tbmkword c p2 s2 = s2 * 2 ^ c.MR_TAGBITS + p2 := by
    simp only [MR_tbmkword, MR_mkword, MR_mktag_of_low c hlow, e2]
  refine ⟨?_, ?_, ?_⟩
  · rw [e1]
    simp only [MR_unmkbody, hlow, Bool.false_eq_true, if_false, Nat.shiftRight_eq_div_pow]
    exact Nat.mul_div_cancel _ hpos
  · rw [MR_tag_of_low c hlow, MR_mktag_of_low c hlow, w1, Nat.mul_comm, Nat.mul_add_mod,
      Nat.mod_eq_of_lt hp]
  · unfold MR_LTAGS_TEST
    rw [beq_iff_eq, w1, w2]
    constructor
    · intro e
      have e3 := MR_Integer_of_Word_inj c _ _ (b1 p hp) (b2 p2 hp2) e
      have m1 : (s * 2 ^ c.MR_TAGBITS + p) % 2 ^ c.MR_TAGBITS = p := by
        rw [Nat.mul_comm, Nat.mul_add_mod, Nat.mod_eq_of_lt hp]
      have m2 : (s2 * 2 ^ c.MR_TAGBITS + p2) % 2 ^ c.MR_TAGBITS = p2 := by
        rw [Nat.mul_comm, Nat.mul_add_mod, Nat.mod_eq_of_lt hp2]
      have hpp : p = p2 := by rw [← m1, ← m2, e3]
      subst hpp
      exact ⟨rfl, Nat.eq_of_mul_eq_mul_right hpos (by omega)⟩
    · rintro ⟨rfl, rfl⟩
      rfl

/-- Witness of C36: the primary tag 1 and the secondary tag 5 of the 32-bit
configuration, tested against the same tags and against the secondary tag
6. -/
theorem MR_local_secondary_tag_encoding_witness :
    MR_unmkbody c32 (MR_mkbody c32 5) = 5 ∧
    MR_tbmkword c32 1 5 = 21 ∧
    MR_tag c32 (MR_tbmkword c32 1 5) = MR_mktag c32 1 ∧
    MR_LTAGS_TEST c32 (MR_tbmkword c32 1 5) 1 5 = true ∧
    MR_LTAGS_TEST c32 (MR_tbmkword c32 1 5) 1 6 = false :=
  have key := MR_local_secondary_tag_encoding c32 1 1 5 5 rfl (by decide) (by decide)
    (by decide) (by decide) (by decide)
  have key2 := MR_local_secondary_tag_encoding c32 1 1 5 6 rfl (by decide) (by decide)
    (by decide) (by decide) (by decide)
  ⟨key.1, by decide, key.2.1, key.2.2.mpr ⟨rfl, rfl⟩,
    by
      cases hx : MR_LTAGS_TEST c32 (MR_tbmkword c32 1 5) 1 6
      · rfl
      · exact absurd (key2.2.2.mp hx).2 (by decide)⟩

/-- C37 (list representation by primary tag): in a configuration with at
least one tag bit (and no more tag bits than the word has bits), low or high
tags, `MR_list_is_empty(MR_list_empty())` is true, and for every cell address
`p` that is a machine word whose tag bits are zero,
`MR_list_is_empty(MR_mkword(MR_TAG_CONS, p))` is false and `MR_list_head` and
`MR_list_tail` of that word are the words 0 and 1 of the cell at `p`. -/
theorem MR_list_primary_tag_representation (c : Config) (l : ListConfig) (p : Nat)
    (hbits : 0 < c.MR_TAGBITS) (hb : c.MR_TAGBITS ≤ MR_WORDBITS c)
    (hw : p < 2 ^ MR_WORDBITS c) (hp : MR_tag c p = 0) :
    MR_list_is_empty c l (MR_list_empty c l) = true ∧
    MR_list_is_empty c l (MR_mkword (MR_TAG_CONS c l) p) = false ∧
    MR_list_head c l (MR_mkword (MR_TAG_CONS c l) p) = word_addr c p 0 ∧
    MR_list_tail c l (MR_mkword (MR_TAG_CONS c l) p) = word_addr c p 1 := by
  have hne : c.MR_TAGBITS ≠ 0 := by omega
  have htwo : MR_cons_cells_have_two_words c l = true := by
    simp [MR_cons_cells_have_two_words, hbits]
  have hcons : MR_RAW_TAG_CONS c l = 1 := by
    simp [MR_RAW_TAG_CONS, hne, MR_FIRST_UNRESERVED_RAW_TAG]
  have hone : 1 < 2 ^ c.MR_TAGBITS := Nat.one_lt_two_pow hne
  cases hh : c.MR_HIGHTAGS
  · -- low tags
    have hnil : MR_TAG_NIL c = 0 := by
      simp [MR_TAG_NIL, MR_RAW_TAG_NIL, MR_FIRST_UNRESERVED_RAW_TAG, MR_mktag, hh]
    have hc : MR_TAG_CONS c l = 1 := by
      simp [MR_TAG_CONS, hcons, MR_mktag, hh]
    have hp0 : p % 2 ^ c.MR_TAGBITS = 0 := by rw [← MR_tag_of_low c hh]; exact hp
    have htag : MR_tag c (MR_mkword 1 p) = 1 := by
      rw [MR_tag_of_low c hh]
      unfold MR_mkword
      rw [Nat.add_mod, hp0, Nat.zero_add, Nat.mod_mod, Nat.mod_eq_of_lt hone]
    have hbody : MR_body c (MR_mkword 1 p) 1 = p := MR_body_mkword_of_low c hh 1 p
    refine ⟨?_, ?_, ?_, ?_⟩
    · simp [MR_list_is_empty, MR_list_empty, htwo, hne, hnil, MR_mkword, MR_mkbody, hh,
        MR_tag_of_low c hh]
    · simp [MR_list_is_empty, htwo, hne, hnil, hc, htag]
    · simp only [MR_list_head, htwo, if_true, MR_field, hc, hbody]
    · simp only [MR_list_tail, htwo, if_true, MR_field, hc, hbody]
  · -- high tags
    have hnil : MR_TAG_NIL c = 0 := by
      simp [MR_TAG_NIL, MR_RAW_TAG_NIL, MR_FIRST_UNRESERVED_RAW_TAG, MR_mktag, hh]
    have hpos : 0 < 2 ^ (MR_WORDBITS c - c.MR_TAGBITS) := Nat.two_pow_pos _
    have hc : MR_TAG_CONS c l = 2 ^ (MR_WORDBITS c - c.MR_TAGBITS) := by
      have := (MR_mktag_of_high c hh hb 1 hone).1
      rw [Nat.one_mul] at this
      simp only [MR_TAG_CONS, hcons, this]
    have hplt : p < 2 ^ (MR_WORDBITS c - c.MR_TAGBITS) := by
      have e := MR_tag_of_high c hh hb p hw
      rw [hp] at e
      have hz : p / 2 ^ (MR_WORDBITS c - c.MR_TAGBITS) = 0 := by
        rcases Nat.eq_zero_or_pos (p / 2 ^ (MR_WORDBITS c - c.MR_TAGBITS)) with h0 | h0
        · exact h0
        · have := Nat.mul_pos h0 hpos
          omega
      exact (Nat.div_eq_zero_iff hpos).mp hz
    have hwlt : MR_mkword (2 ^ (MR_WORDBITS c - c.MR_TAGBITS)) p < 2 ^ MR_WORDBITS c := by
      unfold MR_mkword
      have hsplit : 2 ^ MR_WORDBITS c
          = 2 ^ c.MR_TAGBITS * 2 ^ (MR_WORDBITS c - c.MR_TAGBITS) := by
        rw [← Nat.pow_add]; congr 1; omega
      have h2 : 2 ≤ 2 ^ c.MR_TAGBITS := hone
      have := Nat.mul_le_mul_right (2 ^ (MR_WORDBITS c - c.MR_TAGBITS)) h2
      omega
    have htag : MR_tag c (MR_mkword (2 ^ (MR_WORDBITS c - c.MR_TAGBITS)) p)
        = 2 ^ (MR_WORDBITS c - c.MR_TAGBITS) := by
      rw [MR_tag_of_high c hh hb _ hwlt]
      unfold MR_mkword
      rw [Nat.add_div_right _ hpos, Nat.div_eq_of_lt hplt]
      simp
    have hbody : ∀ t, MR_body c (MR_mkword (2 ^ (MR_WORDBITS c - c.MR_TAGBITS)) p) t = p := by
      intro t
      rw [MR_body_of_high c hh hb]
      unfold MR_mkword
      rw [Nat.add_mod_right, Nat.mod_eq_of_lt hplt]
    have hz : MR_tag c 0 = 0 := by simp [MR_tag, hh]
    refine ⟨?_, ?_, ?_, ?_⟩
    · simp [MR_list_is_empty, MR_list_empty, htwo, hne, hnil, MR_mkword, MR_mkbody, hh, hz]
    · simp only [MR_list_is_empty, htwo, if_true, hne, false_and, if_false, hnil, hc, htag,
        beq_eq_false_iff_ne, ne_eq]
      omega
    · simp only [MR_list_head, htwo, if_true, MR_field, hc, hbody]
    · simp only [MR_list_tail, htwo, if_true, MR_field, hc, hbody]

/-- Witness of C37: the cell address 112 of the 32-bit configuration, in a
build without reserved addresses. -/
theorem MR_list_primary_tag_representation_witness :
    MR_list_is_empty c32 ex_list_config (MR_list_empty c32 ex_list_config) = true ∧
    MR_list_is_empty c32 ex_list_config (MR_mkword (MR_TAG_CONS c32 ex_list_config) 112)
      = false ∧
    MR_list_head c32 ex_list_config (MR_mkword (MR_TAG_CONS c32 ex_list_config) 112)
      = word_addr c32 112 0 ∧
    MR_list_tail c32 ex_list_config (MR_mkword (MR_TAG_CONS c32 ex_list_config) 112)
      = word_addr c32 112 1 :=
  MR_list_primary_tag_representation c32 ex_list_config 112 (by decide) (by decide)
    (by decide) (by decide)

/-- Counterexample to C38 as stated: in a build with a 32-bit `unsigned long`,
after the sequence of `2 ^ 32` calls of `prof_call_profile(8, 4)` from the
empty table, the table has one node, whose count is 0, not at least 1, and the
sum of all counts is 0, not the number of calls made. -/
theorem prof_call_sequence_count_wraps_counterexample :
    (List.replicate 4294967296 ((8 : Nat), (4 : Nat))).length = 4294967296 ∧
    prof_call_sequence 32 (List.replicate 4294967296 (8, 4)) = ex_call_table_wrapped ∧
    ex_call_table_wrapped 3 = [{ Callee := 8, Caller := 4, count := 0 }] ∧
    ¬ (∀ i node, node ∈ ex_call_table_wrapped i → 1 ≤ node.count) ∧
    table_count ex_call_table_wrapped = 0 ∧
    table_count ex_call_table_wrapped
      ≠ (List.replicate 4294967296 ((8 : Nat), (4 : Nat))).length := by
  have hsum : table_count ex_call_table_wrapped = 0 := by
    unfold table_count
    apply List.sum_eq_zero
    intro x hx
    obtain ⟨i, -, rfl⟩ := List.mem_map.mp hx
    unfold ex_call_table_wrapped chain_count
    split_ifs <;> rfl
  refine ⟨List.length_replicate _ _, ?_, rfl, ?_, hsum, ?_⟩
  · rw [prof_call_sequence_replicate, prof_call_profile_iterate 32 8 4 (by decide) 4294967295]
    funext i
    have e : hash_addr_pair 32 8 4 = 3 := by decide
    simp only [e, ex_call_table_wrapped]
    rfl
  · intro hall
    have := hall 3 { Callee := 8, Caller := 4, count := 0 } (by simp [ex_call_table_wrapped])
    exact absurd this (by decide)
  · rw [hsum, List.length_replicate]
    decide

/-- C38, amended (call-pair table invariant): in a build whose `unsigned long`
has at least one bit, starting from the empty table, after any sequence of
`prof_call_profile` calls: every pair occurs in at most one node of the table
(no chain has two nodes for one pair, and two chains have no pair in common);
every node is stored in the chain of the bucket `hash_addr_pair(Callee,
Caller)`, whose index is below `CALL_TABLE_SIZE`; the count of every node is
the number of calls made for its pair, which is at least 1, reduced modulo the
range of `unsigned long`; and as long as the number of calls made is within
the range of `unsigned long`, every count is at least 1 and the sum of all
counts is the number of calls made. -/
theorem prof_call_sequence_invariant (ULONG_BITS : Nat) (calls : List (Nat × Nat))
    (hbits : 0 < ULONG_BITS) :
    (∀ i, (chain_pairs (prof_call_sequence ULONG_BITS calls i)).Nodup) ∧
    (∀ i j q, q ∈ chain_pairs (prof_call_sequence ULONG_BITS calls i) →
      q ∈ chain_pairs (prof_call_sequence ULONG_BITS calls j) → i = j) ∧
    (∀ i node, node ∈ prof_call_sequence ULONG_BITS calls i →
      i = hash_addr_pair ULONG_BITS node.Callee node.Caller ∧ i < CALL_TABLE_SIZE) ∧
    (∀ i node, node ∈ prof_call_sequence ULONG_BITS calls i →
      1 ≤ calls.count (node.Callee, node.Caller) ∧
      node.count = calls.count (node.Callee, node.Caller) % 2 ^ ULONG_BITS) ∧
    (calls.length < 2 ^ ULONG_BITS →
      (∀ i node, node ∈ prof_call_sequence ULONG_BITS calls i → 1 ≤ node.count) ∧
      table_count (prof_call_sequence ULONG_BITS calls) = calls.length) := by
  obtain ⟨i1, i2, -, i4⟩ := prof_call_sequence_inv ULONG_BITS hbits calls
  have hpair : ∀ i node, node ∈ prof_call_sequence ULONG_BITS calls i →
      (node.Callee, node.Caller) ∈ chain_pairs (prof_call_sequence ULONG_BITS calls i) :=
    fun i node hn => List.mem_map_of_mem (fun node => (node.Callee, node.Caller)) hn
  have hcalled : ∀ i node, node ∈ prof_call_sequence ULONG_BITS calls i →
      1 ≤ calls.count (node.Callee, node.Caller) := by
    intro i node hn
    exact List.count_pos_iff.mpr (i2 i _ (hpair i node hn)).2
  refine ⟨i1, ?_, ?_, ?_, ?_⟩
  · intro i j q hi hj
    rw [← (i2 i q hi).1, ← (i2 j q hj).1]
  · intro i node hn
    have := (i2 i _ (hpair i node hn)).1
    exact ⟨this.symm, by rw [← this]; exact hash_addr_pair_lt _ _ _⟩
  · intro i node hn
    exact ⟨hcalled i node hn, i4 i node hn⟩
  · intro hlen
    refine ⟨?_, table_count_prof_call_sequence ULONG_BITS hbits calls hlen⟩
    intro i node hn
    rw [i4 i node hn]
    have h1 := hcalled i node hn
    have h2 := List.count_le_length (node.Callee, node.Caller) calls
    rw [Nat.mod_eq_of_lt (by omega)]
    exact h1

/-- Witness of C38, amended: three calls, two of them for the pair `(8, 4)`,
in a build with a 32-bit `unsigned long`. -/
theorem prof_call_sequence_invariant_witness :
    prof_call_sequence 32 [(8, 4), (16, 4), (8, 4)] 3
      = [{ Callee := 8, Caller := 4, count := 2 }] ∧
    prof_call_sequence 32 [(8, 4), (16, 4), (8, 4)] 5
      = [{ Callee := 16, Caller := 4, count := 1 }] ∧
    table_count (prof_call_sequence 32 [(8, 4), (16, 4), (8, 4)]) = 3 :=
  ⟨by decide, by decide,
    ((prof_call_sequence_invariant 32 [(8, 4), (16, 4), (8, 4)] (by decide)).2.2.2.2
      (by decide)).2⟩

/-- C39 (register map consistency): for every `n` from 1 to 32, the entry at
index `n - 1` of `VIRTUAL_REG_MAP_BODY` is the number of the slot to which the
register `r<n>` is mapped. -/
theorem VIRTUAL_REG_MAP_BODY_consistent (n : Nat) (h1 : 1 ≤ n) (h32 : n ≤ 32) :
    VIRTUAL_REG_MAP_BODY.length = 32 ∧
    ∃ k, r_slot n = some k ∧ VIRTUAL_REG_MAP_BODY[n - 1]? = some k := by
  refine ⟨rfl, ?_⟩
  interval_cases n <;> exact ⟨_, rfl, rfl⟩

/-- Witness of C39: the register `r6`, mapped to the slot 10. -/
theorem VIRTUAL_REG_MAP_BODY_consistent_witness :
    r_slot 6 = some 10 ∧ VIRTUAL_REG_MAP_BODY[5]? = some 10 ∧
    ∃ k, r_slot 6 = some k ∧ VIRTUAL_REG_MAP_BODY[6 - 1]? = some k :=
  ⟨rfl, rfl, (VIRTUAL_REG_MAP_BODY_consistent 6 (by decide) (by decide)).2⟩

/-- C40 (register map injectivity): the map from the 40 abstract machine
registers `r1` .. `r32`, `succip`, `hp`, `sp`, `curfr`, `maxfr`, `MR_sol_hp`,
`MR_min_hp_rec`, `MR_min_sol_hp_rec` to slots is injective, and the slots to
which they are mapped are exactly the slots 0 .. 39. -/
theorem AbstractRegister_slot_injective :
    Fintype.card AbstractRegister = 40 ∧
    Function.Injective AbstractRegister.slot ∧
    ∀ k, (∃ reg, AbstractRegister.slot reg = k) ↔ k < 40 := by
  refine ⟨by decide, ?_, ?_⟩
  · intro a b
    cases a <;> cases b <;> decide
  · intro k
    constructor
    · rintro ⟨reg, rfl⟩
      cases reg <;> decide
    · intro hk
      interval_cases k <;> decide

end Mercury
